import Mathlib

/-! FatRec32: a shallow embedding of `fatrec32.c`

The disk image is the byte array that `mmap` returns (`char *addr`).  Every
structure of the program (boot sector, the two FAT copies, directory slots,
file clusters) is a view into that one array, so a write through `fat[c]`
with a wild `c` lands wherever the address arithmetic says.  The embedding
keeps this: an image is a map from byte offsets to bytes, and all typed
accesses are little-endian reads and writes at computed offsets.

C `int` values are `Int`s; every place where C converts to a 32-bit type is
an explicit `toI32` / `toU32`.  Integer division by zero (a trap) and running
out of fuel in a loop whose termination depends on the image are reported
through `Except Err`.
-/

namespace FatRec32

/-! ## Machine integers and the mapped image -/

/-- Conversion to `unsigned int`: reduction modulo `2^32`. -/
def toU32 (x : Int) : Int := x % 4294967296

/-- Conversion to `int` (two's complement wrap-around). -/
def toI32 (x : Int) : Int := (x + 2147483648) % 4294967296 - 2147483648

/-- The image as mapped at `addr`: the byte stored at each offset. The map is total and
carries no length: where it matters that an access leaves the mapped file, the readers are
given the length of the image (`copiedIn`, `readClustersIn`, `computeFileHashLoopIn`). -/
abbrev Mem := Int → Nat

/-- Read of an `unsigned char` at offset `p`. -/
def rd8 (addr : Mem) (p : Int) : Int := ((addr p % 256 : Nat) : Int)

/-- Read of a little-endian `unsigned short` at offset `p`. -/
def rd16 (addr : Mem) (p : Int) : Int := rd8 addr p + 256 * rd8 addr (p + 1)

/-- Read of a little-endian `unsigned int` at offset `p`. -/
def rd32u (addr : Mem) (p : Int) : Int :=
  rd8 addr p + 256 * rd8 addr (p + 1) + 65536 * rd8 addr (p + 2) + 16777216 * rd8 addr (p + 3)

/-- Read of a little-endian `int` at offset `p`. -/
def rd32 (addr : Mem) (p : Int) : Int := toI32 (rd32u addr p)

/-- Store of one byte (the value is truncated to 8 bits). -/
def wr8 (addr : Mem) (p : Int) (v : Int) : Mem :=
  fun q => if q = p then (v % 256).toNat else addr q

/-- Store of a 32-bit value, little-endian. -/
def wr32 (addr : Mem) (p : Int) (v : Int) : Mem :=
  wr8 (wr8 (wr8 (wr8 addr p v) (p + 1) (v / 256)) (p + 2) (v / 65536)) (p + 3) (v / 16777216)

/-- The canonical end-of-chain marker the program writes. -/
def EOC : Int := 0x0FFFFFF8

/-- Access `fat[c]` for an `int *fat` located at byte offset `fat`. -/
def fatGet (addr : Mem) (fat : Int) (c : Int) : Int := rd32 addr (fat + 4 * c)

/-- Assignment `fat[c] = v` for an `int *fat` located at byte offset `fat`. -/
def fatSet (addr : Mem) (fat : Int) (c : Int) (v : Int) : Mem := wr32 addr (fat + 4 * c) v

/-! ## Boot sector fields (`BootEntry`, packed, at offset 0) -/

def BPB_BytsPerSec (addr : Mem) : Int := rd16 addr 11
def BPB_SecPerClus (addr : Mem) : Int := rd8 addr 13
def BPB_RsvdSecCnt (addr : Mem) : Int := rd16 addr 14
def BPB_NumFATs (addr : Mem) : Int := rd8 addr 16
def BPB_FATSz32 (addr : Mem) : Int := rd32u addr 36
def BPB_RootClus (addr : Mem) : Int := rd32u addr 44

/-- Local `int size = BPB_BytsPerSec * BPB_SecPerClus` (cannot overflow). -/
def clusterSize (addr : Mem) : Int := BPB_BytsPerSec addr * BPB_SecPerClus addr

/-- Local `int fatStart = BPB_RsvdSecCnt * BPB_BytsPerSec`. -/
def fatStart (addr : Mem) : Int := toI32 (BPB_RsvdSecCnt addr * BPB_BytsPerSec addr)

/-- Local `int fat2Start = fatStart + (BPB_FATSz32 * BPB_BytsPerSec)`, computed in
`unsigned int` and converted back. -/
def fat2Start (addr : Mem) : Int :=
  toI32 (toU32 (fatStart addr) + toU32 (BPB_FATSz32 addr * BPB_BytsPerSec addr))

/-- Local `int dataSec = (BPB_RsvdSecCnt + BPB_NumFATs * BPB_FATSz32) * BPB_BytsPerSec`,
computed in `unsigned int` and converted back. -/
def dataSec (addr : Mem) : Int :=
  toI32 (toU32 ((BPB_RsvdSecCnt addr + toU32 (BPB_NumFATs addr * BPB_FATSz32 addr))
    * BPB_BytsPerSec addr))

/-- Byte offset of cluster `c`: `dataSec + ((c - 2) * size)` in `int` arithmetic. -/
def clusterOffset (dataSec size c : Int) : Int := toI32 (dataSec + toI32 ((c - 2) * size))

/-! ## Directory slot fields (`DirEntry`, packed, 32 bytes) at offset `p` -/

def DIR_Name (addr : Mem) (p : Int) (i : Nat) : Nat := (rd8 addr (p + i)).toNat
def DIR_Attr (addr : Mem) (p : Int) : Int := rd8 addr (p + 11)
def DIR_FstClusHI (addr : Mem) (p : Int) : Int := rd16 addr (p + 20)
def DIR_FstClusLO (addr : Mem) (p : Int) : Int := rd16 addr (p + 26)
def DIR_FileSize (addr : Mem) (p : Int) : Int := rd32u addr (p + 28)

/-- Address of `rootDir[i]`. -/
def slotAt (rootDir : Int) (i : Int) : Int := rootDir + 32 * i

/-! ## Name codec -/

/-- Content of a NUL-terminated C string stored in a buffer: everything before
the first zero byte. -/
def cstr (buf : List Nat) : List Nat := buf.takeWhile (fun b => b != 0)

/-- Bytes of a string literal. -/
def lit (s : String) : List Nat := s.toList.map Char.toNat

/-- The `for (i = ...; i < 11; i++)` loop of `getName`: `n` iterations from index `i`,
appending to the output built so far. -/
def getNameLoop (name : Nat → Nat) : Nat → Nat → List Nat → List Nat
  | 0, _, newOut => newOut
  | n + 1, i, newOut =>
    if i = 8 ∧ name 8 ≠ 32 then getNameLoop name n (i + 1) (newOut ++ [46, name i])
    else if name i = 32 then getNameLoop name n (i + 1) newOut
    else getNameLoop name n (i + 1) (newOut ++ [name i])

/-- `getName(name, first)`: the bytes stored in `newOut` before the terminator. -/
def getName (name : Nat → Nat) (first : Nat) : List Nat := getNameLoop name 10 1 [first]

/-- The loop of `printName`: `n` iterations from index `i`. -/
def printNameLoop (name : Nat → Nat) : Nat → Nat → List Nat → List Nat
  | 0, _, newOut => newOut
  | n + 1, i, newOut =>
    if i = 8 ∧ name 8 ≠ 32 then
      if name i ≥ 0x20 then printNameLoop name n (i + 1) (newOut ++ [46, name i])
      else printNameLoop name n (i + 1) (newOut ++ [46])
    else if name i = 32 then printNameLoop name n (i + 1) newOut
    else if name i ≥ 0x20 then printNameLoop name n (i + 1) (newOut ++ [name i])
    else printNameLoop name n (i + 1) newOut

/-- `printName(name)`: the bytes stored in `newOut` before the terminator (they are
printed when there is at least one). -/
def printName (name : Nat → Nat) : List Nat := printNameLoop name 11 0 []

/-- Reference for `decode`, following the words of the specification: the first
character, then bytes 1..7 without spaces, then, only if byte 8 is not a space,
a dot and bytes 8..10 without spaces. -/
def decodeSpec (raw : Nat → Nat) (first_char : Nat) : List Nat :=
  [first_char]
    ++ ((List.range' 1 7).map raw).filter (fun b => b != 32)
    ++ (if raw 8 ≠ 32 then [46] ++ ((List.range' 8 3).map raw).filter (fun b => b != 32)
        else [])

/-! ## Results of running a function of the program -/

/-- Ways in which an execution of the model stops without a result. -/
inductive Err where
  /-- usage error: the file name is empty (message on stderr, `exit(1)`) -/
  | emptyName
  /-- usage error: the digest is not 40 hexadecimal characters (`exit(1)`) -/
  | invalidHash
  /-- integer division by zero -/
  | divByZero
  /-- an array allocated by the program is indexed outside its bounds -/
  | outOfBounds
  /-- the iteration bound given to the model was reached before the loop ended -/
  | outOfFuel
  deriving DecidableEq, Repr

/-! ## Digest verification -/

/-- `isxdigit(c)` in the C locale. -/
def isxdigit (c : Nat) : Bool :=
  (48 ≤ c && c ≤ 57) || (97 ≤ c && c ≤ 102) || (65 ≤ c && c ≤ 70)

/-- `isValidHash(hash)`: `strlen(hash) == 40` and forty hexadecimal characters. -/
def isValidHash (hash : List Nat) : Bool :=
  if hash.length ≠ 40 then false else hash.all isxdigit

/-- Value of one hexadecimal character. -/
def hexVal (c : Nat) : Nat :=
  if 48 ≤ c ∧ c ≤ 57 then c - 48
  else if 97 ≤ c ∧ c ≤ 102 then c - 87
  else if 65 ≤ c ∧ c ≤ 70 then c - 55
  else 0

/-- `hexStringToBytes(hex, bytes)` on a string that passed `isValidHash`: each pair
of characters is read with `%2hhx`. -/
def hexStringToBytes (hex : List Nat) : List Nat :=
  (List.range 20).map (fun k => 16 * hexVal (hex.getD (2 * k) 0) + hexVal (hex.getD (2 * k + 1) 0))

/-- `memcpy(buffer + bytesRead, addr + clusterOffset, bytesToRead)` into a buffer that
has been filled up to `bytesRead`: the bytes appended. -/
def copied (addr : Mem) (clusterOffset bytesToRead : Int) : List Nat :=
  (List.range bytesToRead.toNat).map (fun k => (rd8 addr (clusterOffset + (k : Int))).toNat)

/-- The `DIR_FileSize` bytes handed to `SHA1(buffer, file->DIR_FileSize, hash)`: what
was copied into the `malloc`ed buffer, followed by whatever the allocator left in
the rest of it (`heap k` is the initial content of byte `k` of a fresh buffer). -/
def hashed (heap : Nat → Nat) (buffer : List Nat) (fileSize : Int) : List Nat :=
  (List.range fileSize.toNat).map (fun k => if k < buffer.length then buffer.getD k 0 else heap k)

/-- `bytesToRead` as computed in both readers. -/
def bytesToRead (size bytesRead fileSize : Int) : Int :=
  if toU32 (bytesRead + toU32 size) > fileSize then toI32 (fileSize - bytesRead) else size

/-- The `while` loop of `computeFileHash`. Result: the filled part of the buffer. -/
def computeFileHashLoop (addr : Mem) (fat dataSec size fileSize : Int) :
    Nat → Int → Int → List Nat → Except Err (List Nat)
  | 0, _, _, _ => throw Err.outOfFuel
  | n + 1, curCluster, bytesRead, buffer =>
    if curCluster ≠ 0 ∧ curCluster < 0x0FFFFFF8 ∧ bytesRead < fileSize then
      let off := clusterOffset dataSec size curCluster
      let cnt := bytesToRead size bytesRead fileSize
      computeFileHashLoop addr fat dataSec size fileSize n (fatGet addr fat curCluster)
        (toU32 (bytesRead + toU32 cnt)) (buffer ++ copied addr off cnt)
    else pure buffer

/-- `computeFileHash(addr, bootEntry, file, fat)`. -/
def computeFileHash (SHA1 : List Nat → List Nat) (heap : Nat → Nat) (fuel : Nat)
    (addr : Mem) (file fat : Int) : Except Err (List Nat) := do
  let size := clusterSize addr
  let dataSec := dataSec addr
  let buffer ← computeFileHashLoop addr fat dataSec size (DIR_FileSize addr file) fuel
    (DIR_FstClusLO addr file) 0 []
  pure (SHA1 (hashed heap buffer (DIR_FileSize addr file)))

/-! ## Permutation search -/

/-- `getNextFreeCluster`: `n` iterations of the loop from index `i`. -/
def getNextFreeClusterLoop (addr : Mem) (fat maxCluster : Int) : Nat → Int → Int
  | 0, _ => -1
  | n + 1, i =>
    if i < maxCluster then
      if fatGet addr fat i = 0 then i else getNextFreeClusterLoop addr fat maxCluster n (i + 1)
    else -1

/-- `getNextFreeCluster(fat, startCluster, maxCluster)`. -/
def getNextFreeCluster (addr : Mem) (fat startCluster maxCluster : Int) : Int :=
  getNextFreeClusterLoop addr fat maxCluster (maxCluster - startCluster).toNat startCluster

/-- The read loop of `tryClusterPermutation`. -/
def readClusters (addr : Mem) (dataSec size fileSize : Int) :
    List Int → Int → List Nat → List Nat
  | [], _, buffer => buffer
  | c :: cs, bytesRead, buffer =>
    if bytesRead < fileSize then
      let off := clusterOffset dataSec size c
      let cnt := bytesToRead size bytesRead fileSize
      readClusters addr dataSec size fileSize cs (toU32 (bytesRead + toU32 cnt))
        (buffer ++ copied addr off cnt)
    else buffer

/-- The link loop of `tryClusterPermutation`:
`fat[clusters[i]] = clusters[i + 1]; fat2[clusters[i]] = clusters[i + 1]`. -/
def linkClusters (fat fat2 : Int) : List Int → Mem → Mem
  | c :: c' :: cs, addr =>
    linkClusters fat fat2 (c' :: cs) (fatSet (fatSet addr fat c c') fat2 c c')
  | _, addr => addr

/-- `tryClusterPermutation`; `clusters` holds `numClusters` elements. The result is the
image afterwards and the returned flag. -/
def tryClusterPermutation (SHA1 : List Nat → List Nat) (heap : Nat → Nat) (addr : Mem)
    (file fat fat2 : Int) (clusters : List Int) (targetHash : List Nat) :
    Except Err (Mem × Bool) :=
  let size := clusterSize addr
  let dataSec := dataSec addr
  let buffer := readClusters addr dataSec size (DIR_FileSize addr file) clusters 0 []
  if SHA1 (hashed heap buffer (DIR_FileSize addr file)) = targetHash then
    let addr1 := linkClusters fat fat2 clusters addr
    match clusters.getLast? with
    | none => throw Err.outOfBounds
    | some c => pure (fatSet (fatSet addr1 fat c EOC) fat2 c EOC, true)
  else pure (addr, false)

/-- The first loop of `next_permutation`: `while (i > 0 && arr[i - 1] >= arr[i]) i--`. -/
def pivotIndex (arr : List Int) : Nat → Nat
  | 0 => 0
  | i + 1 => if arr.getD i 0 ≥ arr.getD (i + 1) 0 then pivotIndex arr i else i + 1

/-- The second loop of `next_permutation`: `while (arr[j] <= pivot) j--`; `none` when the
index would leave the array. -/
def succIndex (arr : List Int) (pivot : Int) : Nat → Option Nat
  | 0 => if arr.getD 0 0 ≤ pivot then none else some 0
  | j + 1 => if arr.getD (j + 1) 0 ≤ pivot then succIndex arr pivot j else some (j + 1)

/-- Exchange of `arr[i]` and `arr[j]` through `temp`. -/
def swap (arr : List Int) (i j : Nat) : List Int :=
  (arr.set i (arr.getD j 0)).set j (arr.getD i 0)

/-- The third loop of `next_permutation`: `while (i < j) { swap; i++; j--; }`. -/
def reverseFrom (arr : List Int) : Nat → Nat → Nat → List Int
  | 0, _, _ => arr
  | n + 1, i, j => if i < j then reverseFrom (swap arr i j) n (i + 1) (j - 1) else arr

/-- `next_permutation(arr, n)` with `n = arr.length`: the array afterwards and the
returned flag; `none` if the successor search reads outside the array. -/
def next_permutation (arr : List Int) : Option (List Int × Bool) :=
  let n := arr.length
  let i := pivotIndex arr (n - 1)
  if i ≤ 0 then some (arr, false)
  else
    match succIndex arr (arr.getD (i - 1) 0) (n - 1) with
    | none => none
    | some j =>
      let arr1 := swap arr (i - 1) j
      some (reverseFrom arr1 n i (n - 1), true)

/-- The arrangements visited by `do { visit(arr); } while (next_permutation(arr, n));`. -/
def visited : Nat → List Int → Except Err (List (List Int))
  | 0, _ => throw Err.outOfFuel
  | fuel + 1, arr =>
    match next_permutation arr with
    | none => throw Err.outOfBounds
    | some (arr1, true) => do
      let rest ← visited fuel arr1
      pure (arr :: rest)
    | some (_, false) => pure [arr]

/-- The `do ... while (next_permutation(clusters, numClusters))` loop of
`tryAllPermutations`. -/
def tryPermutationsLoop (SHA1 : List Nat → List Nat) (heap : Nat → Nat) (addr : Mem)
    (file fat fat2 : Int) (targetHash : List Nat) : Nat → List Int → Except Err (Mem × Bool)
  | 0, _ => throw Err.outOfFuel
  | fuel + 1, clusters => do
    let r ← tryClusterPermutation SHA1 heap addr file fat fat2 clusters targetHash
    if r.2 then pure (r.1, true)
    else
      match next_permutation clusters with
      | none => throw Err.outOfBounds
      | some (clusters1, true) =>
        tryPermutationsLoop SHA1 heap addr file fat fat2 targetHash fuel clusters1
      | some (_, false) => pure (addr, false)

/-- The loop of `tryAllPermutations` that fills `clusters` with free clusters below 20;
`none` when `getNextFreeCluster` returns -1. -/
def collectFree (addr : Mem) (fat : Int) : Nat → Int → Option (List Int)
  | 0, _ => some []
  | n + 1, curCluster =>
    let c := getNextFreeCluster addr fat curCluster 20
    if c = -1 then none
    else (collectFree addr fat n (c + 1)).map (fun cs => c :: cs)

/-- `tryAllPermutations`. The cluster count is computed in `unsigned int`; a negative
count makes `malloc` fail, and the function returns 0. -/
def tryAllPermutations (SHA1 : List Nat → List Nat) (heap : Nat → Nat) (addr : Mem)
    (file fat fat2 : Int) (targetHash : List Nat) : Except Err (Mem × Bool) :=
  let size := clusterSize addr
  if size = 0 then throw Err.divByZero
  else
    let numClusters := toI32 (toU32 (toU32 (DIR_FileSize addr file - 1) / toU32 size + 1))
    if numClusters > 5 then pure (addr, false)
    else if numClusters < 0 then pure (addr, false)
    else
      match collectFree addr fat numClusters.toNat 2 with
      | none => pure (addr, false)
      | some clusters =>
        tryPermutationsLoop SHA1 heap addr file fat fat2 targetHash 121 clusters

/-! ## The contiguous chain writer -/

/-- The `while (recovered < oldCount)` loop of `recover`; the first argument bounds the
number of iterations (the loop makes at most `oldCount`). -/
def recoverLoop (fat fat2 oldCount : Int) : Nat → Mem → Int → Int → Mem
  | 0, addr, _, _ => addr
  | n + 1, addr, curCluster, recovered =>
    if recovered < oldCount then
      if recovered + 1 = oldCount then
        fatSet (fatSet addr fat curCluster EOC) fat2 curCluster EOC
      else
        recoverLoop fat fat2 oldCount n
          (fatSet (fatSet addr fat curCluster (curCluster + 1)) fat2 curCluster (curCluster + 1))
          (curCluster + 1) (recovered + 1)
    else addr

/-- `recover(recFile, name, addr, bootEntry, hash)`; `name0` is `name[0]`. Every field
is read from the image at the point where the C code reads it. -/
def recover (addr : Mem) (recFile : Int) (name0 : Int) : Except Err Mem :=
  let addr1 := wr8 addr recFile name0
  let size := clusterSize addr1
  let fileSize := toI32 (DIR_FileSize addr1 recFile)
  let fat := fatStart addr1
  let fat2 := fat2Start addr1
  if fileSize ≤ size then
    let addr2 := fatSet addr1 fat (DIR_FstClusLO addr1 recFile) EOC
    pure (fatSet addr2 fat2 (DIR_FstClusLO addr2 recFile) EOC)
  else if size = 0 then throw Err.divByZero
  else
    let oldCount := (fileSize - 1).tdiv size + 1
    let curCluster := DIR_FstClusLO addr1 recFile
    pure (recoverLoop fat fat2 oldCount oldCount.toNat addr1 curCluster 0)

/-! ## Targeted recovery: `recFile` -/

/-- The local variables of `recFile` that the directory scan updates, together with
the image. -/
structure Scan where
  addr : Mem
  found : Int
  foundAmount : Int
  shaFound : Int
  indxFoundAt : Int
  hashMatchCount : Int
  firstMatch : Option Int

/-- Assignment `if (firstMatch == NULL) firstMatch = &rootDir[i]`. -/
def setFirst (firstMatch : Option Int) (p : Int) : Option Int :=
  match firstMatch with
  | none => some p
  | some q => some q

/-- The `for (int i = 0; i < maxFile + 1; i++)` loop of `recFile` over one directory
cluster at offset `rootDir`; the first argument bounds the number of iterations. -/
def recFileFor (SHA1 : List Nat → List Nat) (heap : Nat → Nat) (fuel : Nat) (name : List Nat)
    (hash : Option (List Nat)) (isNonContiguous : Bool) (fat fat2 rootDir maxFile : Int) :
    Nat → Int → Scan → Except Err Scan
  | 0, _, s => pure s
  | n + 1, i, s =>
    if i < maxFile + 1 then
      let p := slotAt rootDir i
      if DIR_Name s.addr p 0 = 0x00 then pure s
      else if DIR_Name s.addr p 0 = 0x10 ∨ DIR_Attr s.addr p = 0x0f ∨ DIR_Attr s.addr p = 0x08 then
        recFileFor SHA1 heap fuel name hash isNonContiguous fat fat2 rootDir maxFile n (i + 1) s
      else if DIR_Name s.addr p 0 = 0xE5 then
        if cstr (getName (DIR_Name s.addr p) (name.headD 0)) = cstr name then
          match hash with
          | some h =>
            if isNonContiguous then do
              let r ← tryAllPermutations SHA1 heap s.addr p fat fat2 (hexStringToBytes (cstr h))
              if r.2 then
                recFileFor SHA1 heap fuel name hash isNonContiguous fat fat2 rootDir maxFile n (i + 1)
                  { s with addr := r.1, shaFound := 1, indxFoundAt := i,
                           hashMatchCount := s.hashMatchCount + 1,
                           firstMatch := setFirst s.firstMatch p }
              else
                recFileFor SHA1 heap fuel name hash isNonContiguous fat fat2 rootDir maxFile n (i + 1)
                  { s with addr := r.1 }
            else do
              let fileHash ← computeFileHash SHA1 heap fuel s.addr p fat
              if fileHash = hexStringToBytes (cstr h) then
                recFileFor SHA1 heap fuel name hash isNonContiguous fat fat2 rootDir maxFile n (i + 1)
                  { s with shaFound := 1, indxFoundAt := i,
                           hashMatchCount := s.hashMatchCount + 1,
                           firstMatch := setFirst s.firstMatch p }
              else
                recFileFor SHA1 heap fuel name hash isNonContiguous fat fat2 rootDir maxFile n (i + 1) s
          | none =>
            recFileFor SHA1 heap fuel name hash isNonContiguous fat fat2 rootDir maxFile n (i + 1)
              { s with found := 1, indxFoundAt := i, foundAmount := s.foundAmount + 1,
                       firstMatch := setFirst s.firstMatch p }
        else
          recFileFor SHA1 heap fuel name hash isNonContiguous fat fat2 rootDir maxFile n (i + 1) s
      else
        recFileFor SHA1 heap fuel name hash isNonContiguous fat fat2 rootDir maxFile n (i + 1) s
    else pure s

/-- The `while (curCluster != 0 && curCluster < 0x0FFFFFF8)` loop of `recFile`, with the
recovery step that ends it. Result: the variables afterwards and the lines printed. -/
def recFileWhile (SHA1 : List Nat → List Nat) (heap : Nat → Nat) (fuel : Nat) (name : List Nat)
    (hash : Option (List Nat)) (isNonContiguous : Bool) (fat fat2 dataSec size : Int) :
    Nat → Int → Scan → Except Err (Scan × List (List Nat))
  | 0, _, _ => throw Err.outOfFuel
  | n + 1, curCluster, s =>
    if curCluster ≠ 0 ∧ curCluster < 0x0FFFFFF8 then do
      let rootDir := clusterOffset dataSec size curCluster
      let maxFile := size / 32
      let s1 ← recFileFor SHA1 heap fuel name hash isNonContiguous fat fat2 rootDir maxFile
        (maxFile + 1).toNat 0 s
      if (s1.found = 1 ∧ s1.foundAmount = 1) ∨ (s1.shaFound = 1 ∧ s1.hashMatchCount = 1) then do
        let addr1 ← recover s1.addr (slotAt rootDir s1.indxFoundAt) (name.headD 0)
        if s1.shaFound ≠ 0 then
          pure ({ s1 with addr := addr1 }, [cstr name ++ lit ": successfully recovered with SHA-1"])
        else
          pure ({ s1 with addr := addr1 }, [cstr name ++ lit ": successfully recovered"])
      else
        recFileWhile SHA1 heap fuel name hash isNonContiguous fat fat2 dataSec size n
          (fatGet s1.addr fat curCluster) s1
    else pure (s, [])

/-- The test `hash != NULL && !isValidHash(hash)`. -/
def badHash (hash : Option (List Nat)) : Bool :=
  match hash with
  | some h => !isValidHash (cstr h)
  | none => false

/-- `recFile(name, disk, hash, isNonContiguous)` on the mapped image `addr`. `name` and
`hash` are the bytes of the argument strings; `fuel` bounds the loops that follow FAT
links. Result: the image afterwards and the lines written to stdout. -/
def recFile (SHA1 : List Nat → List Nat) (heap : Nat → Nat) (fuel : Nat) (name : List Nat)
    (addr : Mem) (hash : Option (List Nat)) (isNonContiguous : Bool) :
    Except Err (Mem × List (List Nat)) :=
  if name.headD 0 = 0 ∨ name.headD 0 = 32 then throw Err.emptyName
  else if badHash hash then throw Err.invalidHash
  else do
    let fat := fatStart addr
    let curCluster := toI32 (BPB_RootClus addr)
    let fat2 := fat2Start addr
    let dataSec := dataSec addr
    let size := clusterSize addr
    let r ← recFileWhile SHA1 heap fuel name hash isNonContiguous fat fat2 dataSec size fuel
      curCluster
      { addr := addr, found := 0, foundAmount := 0, shaFound := 0, indxFoundAt := 0,
        hashMatchCount := 0, firstMatch := none }
    let s := r.1
    let r2 ← (match s.firstMatch with
      | some q =>
        if s.shaFound = 0 ∧ s.found = 0 then do
          let addr1 ← recover s.addr q (name.headD 0)
          pure (addr1, r.2 ++ [cstr name ++ lit ": successfully recovered"])
        else pure (s.addr, r.2)
      | none => pure (s.addr, r.2 ++ [cstr name ++ lit ": file not found"]))
    if s.foundAmount > 1 ∨ s.hashMatchCount > 1 then
      pure (r2.1, r2.2 ++ [cstr name ++ lit ": multiple candidates found"])
    else pure r2

/-! ## Bulk recovery by name: `recoverAllFiles` -/

/-- The `for (int i = 0; i < maxFile; i++)` loop of `recoverAllFiles`: appends the
matching slots to `foundFiles`. -/
def recoverAllFilesFor (addr : Mem) (name : List Nat) (rootDir maxFile : Int) :
    Nat → Int → List Int → List Int
  | 0, _, foundFiles => foundFiles
  | n + 1, i, foundFiles =>
    if i < maxFile then
      let p := slotAt rootDir i
      if DIR_Name addr p 0 = 0x00 then foundFiles
      else if DIR_Name addr p 0 = 0x10 ∨ DIR_Attr addr p = 0x0f ∨ DIR_Attr addr p = 0x08 then
        recoverAllFilesFor addr name rootDir maxFile n (i + 1) foundFiles
      else if DIR_Name addr p 0 = 0xE5 then
        if cstr (getName (DIR_Name addr p) (name.headD 0)) = cstr name then
          recoverAllFilesFor addr name rootDir maxFile n (i + 1) (foundFiles ++ [p])
        else recoverAllFilesFor addr name rootDir maxFile n (i + 1) foundFiles
      else recoverAllFilesFor addr name rootDir maxFile n (i + 1) foundFiles
    else foundFiles

/-- The first pass of `recoverAllFiles`. -/
def recoverAllFilesWhile (addr : Mem) (name : List Nat) (fat dataSec size : Int) :
    Nat → Int → List Int → Except Err (List Int)
  | 0, _, _ => throw Err.outOfFuel
  | n + 1, curCluster, foundFiles =>
    if curCluster ≠ 0 ∧ curCluster < 0x0FFFFFF8 then
      let rootDir := clusterOffset dataSec size curCluster
      let maxFile := size / 32
      recoverAllFilesWhile addr name fat dataSec size n (fatGet addr fat curCluster)
        (recoverAllFilesFor addr name rootDir maxFile maxFile.toNat 0 foundFiles)
    else pure foundFiles

/-- The second pass of `recoverAllFiles`: `recover(foundFiles[i], name, ...)` in order. -/
def recoverEach (name0 : Int) : List Int → Mem → Except Err Mem
  | [], addr => pure addr
  | p :: ps, addr => do
    let addr1 ← recover addr p name0
    recoverEach name0 ps addr1

/-- `recoverAllFiles(name, disk)` on the mapped image. -/
def recoverAllFiles (fuel : Nat) (name : List Nat) (addr : Mem) :
    Except Err (Mem × List (List Nat)) :=
  if name.headD 0 = 0 ∨ name.headD 0 = 32 then throw Err.emptyName
  else do
    let foundFiles ← recoverAllFilesWhile addr name (fatStart addr) (dataSec addr)
      (clusterSize addr) fuel (toI32 (BPB_RootClus addr)) []
    if foundFiles.length = 0 then pure (addr, [cstr name ++ lit ": file not found"])
    else do
      let addr1 ← recoverEach (name.headD 0) foundFiles addr
      pure (addr1, [cstr name ++ lit ": " ++ lit (Nat.repr foundFiles.length)
        ++ lit " file(s) recovered"])

/-! ## Bulk recovery of every tombstone: `recoverAllDeleted` -/

/-- The loops `for (j = ...; j < ...; j++) { if (name[j] == ' ') continue; filename[..] = name[j]; }`
of the inline name builder: `n` iterations from index `j`. -/
def copyNoSpace (name : Nat → Nat) : Nat → Nat → List Nat → List Nat
  | 0, _, filename => filename
  | n + 1, j, filename =>
    if name j = 32 then copyNoSpace name n (j + 1) filename
    else copyNoSpace name n (j + 1) (filename ++ [name j])

/-- The file name built inline by `recoverAllDeleted` (bytes before the terminator). -/
def deletedName (name : Nat → Nat) : List Nat :=
  let filename := copyNoSpace name 7 1 [95]
  if name 8 ≠ 32 then copyNoSpace name 3 8 (filename ++ [46]) else filename

/-- The link loop `for (j = 0; j < clusterCount - 1; j++)` of the inline writer. Result:
the image and the value of `curCluster` afterwards. -/
def linkLoop (fat fat2 clusterCount : Int) : Nat → Int → Int → Mem → Mem × Int
  | 0, _, curCluster, addr => (addr, curCluster)
  | n + 1, j, curCluster, addr =>
    if j < clusterCount - 1 then
      linkLoop fat fat2 clusterCount n (j + 1) (curCluster + 1)
        (fatSet (fatSet addr fat curCluster (curCluster + 1)) fat2 curCluster (curCluster + 1))
    else (addr, curCluster)

/-- The FAT update that `recoverAllDeleted` performs for the slot at `p` (after the name
byte has been set). -/
def writeDeleted (addr : Mem) (fat fat2 size p : Int) : Except Err Mem :=
  let fileSize := toI32 (DIR_FileSize addr p)
  let startCluster := DIR_FstClusLO addr p
  if fileSize > 0 ∧ startCluster ≥ 2 then
    if fileSize ≤ size then
      pure (fatSet (fatSet addr fat startCluster EOC) fat2 startCluster EOC)
    else if size = 0 then throw Err.divByZero
    else
      let clusterCount := (fileSize - 1).tdiv size + 1
      let r := linkLoop fat fat2 clusterCount (clusterCount - 1).toNat 0 startCluster addr
      pure (fatSet (fatSet r.1 fat r.2 EOC) fat2 r.2 EOC)
  else pure addr

/-- State of the scan of `recoverAllDeleted`: image, lines printed, `totalRecovered`. -/
structure Bulk where
  addr : Mem
  out : List (List Nat)
  totalRecovered : Nat

/-- The `for (int i = 0; i < maxFile; i++)` loop of `recoverAllDeleted`. -/
def recoverAllDeletedFor (fat fat2 size rootDir maxFile : Int) :
    Nat → Int → Bulk → Except Err Bulk
  | 0, _, s => pure s
  | n + 1, i, s =>
    if i < maxFile then
      let p := slotAt rootDir i
      if DIR_Name s.addr p 0 = 0x00 then pure s
      else if DIR_Name s.addr p 0 = 0xE5 ∧ DIR_Attr s.addr p ≠ 0x0f ∧ DIR_Attr s.addr p ≠ 0x08
          ∧ DIR_Attr s.addr p ≠ 0x10 then do
        let filename := deletedName (DIR_Name s.addr p)
        let addr1 := wr8 s.addr p 95
        let addr2 ← writeDeleted addr1 fat fat2 size p
        recoverAllDeletedFor fat fat2 size rootDir maxFile n (i + 1)
          { addr := addr2, out := s.out ++ [cstr filename ++ lit ": recovered"],
            totalRecovered := s.totalRecovered + 1 }
      else recoverAllDeletedFor fat fat2 size rootDir maxFile n (i + 1) s
    else pure s

/-- The `while` loop of `recoverAllDeleted`. -/
def recoverAllDeletedWhile (fat fat2 dataSec size : Int) : Nat → Int → Bulk → Except Err Bulk
  | 0, _, _ => throw Err.outOfFuel
  | n + 1, curCluster, s =>
    if curCluster ≠ 0 ∧ curCluster < 0x0FFFFFF8 then do
      let rootDir := clusterOffset dataSec size curCluster
      let maxFile := size / 32
      let s1 ← recoverAllDeletedFor fat fat2 size rootDir maxFile maxFile.toNat 0 s
      recoverAllDeletedWhile fat fat2 dataSec size n (fatGet s1.addr fat curCluster) s1
    else pure s

/-- `recoverAllDeleted(disk)` on the mapped image. -/
def recoverAllDeleted (fuel : Nat) (addr : Mem) : Except Err (Mem × List (List Nat)) := do
  let s ← recoverAllDeletedWhile (fatStart addr) (fat2Start addr) (dataSec addr)
    (clusterSize addr) fuel (toI32 (BPB_RootClus addr)) { addr := addr, out := [], totalRecovered := 0 }
  if s.totalRecovered = 0 then pure (s.addr, s.out ++ [lit "No deleted files were found."])
  else pure (s.addr, s.out ++ [lit "Successfully recovered " ++ lit (Nat.repr s.totalRecovered)
    ++ lit " file(s)"])

/-! ## Notions used to state the properties -/

/-- Size in bytes of one FAT copy. -/
def fatBytes (addr : Mem) : Int := BPB_FATSz32 addr * BPB_BytsPerSec addr

/-- The geometry constraints of the data model: sector size 512..4096, sectors per
cluster a power of two, cluster of at most 32 KiB, a boot sector in the reserved area,
two FAT copies, and a FAT of at most `2^28` entries (cluster numbers have 28 bits). -/
structure Volume (addr : Mem) : Prop where
  bytsPerSec : BPB_BytsPerSec addr = 512 ∨ BPB_BytsPerSec addr = 1024
    ∨ BPB_BytsPerSec addr = 2048 ∨ BPB_BytsPerSec addr = 4096
  secPerClus : BPB_SecPerClus addr = 1 ∨ BPB_SecPerClus addr = 2 ∨ BPB_SecPerClus addr = 4
    ∨ BPB_SecPerClus addr = 8 ∨ BPB_SecPerClus addr = 16 ∨ BPB_SecPerClus addr = 32
    ∨ BPB_SecPerClus addr = 64 ∨ BPB_SecPerClus addr = 128
  clusterBytes : clusterSize addr ≤ 32768
  rsvd : 1 ≤ BPB_RsvdSecCnt addr
  numFATs : BPB_NumFATs addr = 2
  fatSz : 1 ≤ BPB_FATSz32 addr
  fatEntries : fatBytes addr ≤ 4 * 268435456

/-- Byte offset of FAT copy `n`: `fatN_offset = fat0_offset + N × fat_sectors × bytes_per_sector`
with `fat0_offset = reserved_sectors × bytes_per_sector`; `fatOffset addr 2` is where the
data area of a volume with two FAT copies begins. -/
def fatOffset (addr : Mem) (n : Int) : Int :=
  BPB_RsvdSecCnt addr * BPB_BytsPerSec addr + n * fatBytes addr

/-- Cluster index `c` lies inside a FAT copy of `B` bytes. -/
abbrev InFat (B c : Int) : Prop := 0 ≤ c ∧ 4 * (c + 1) ≤ B

/-- Number of FAT entries that `recover` assigns in each copy for a slot whose
`DIR_FileSize` field holds `fileSize`: one when `(int)fileSize <= size`, otherwise
`((int)fileSize - 1) / size + 1`. -/
def recoverCount (fileSize size : Int) : Int :=
  if toI32 fileSize ≤ size then 1 else (toI32 fileSize - 1) / size + 1

/-- Number of clusters a file of `fileSize` bytes occupies: `⌈fileSize / size⌉`. -/
def clustersNeeded (fileSize size : Int) : Int := (fileSize + size - 1) / size

/-- A sequence of assignments `fat[c] = v; fat2[c] = v;` applied in order. -/
def pairedWrites (fat fat2 : Int) : List (Int × Int) → Mem → Mem
  | [], addr => addr
  | w :: ws, addr => pairedWrites fat fat2 ws (fatSet (fatSet addr fat w.1 w.2) fat2 w.1 w.2)

/-- The assignments that link `k` consecutive clusters from `s` and close the chain:
`s ↦ s + 1, …, s + k - 2 ↦ s + k - 1, s + k - 1 ↦ EOC`. -/
def chain (s : Int) : Nat → List (Int × Int)
  | 0 => []
  | 1 => [(s, EOC)]
  | k + 2 => (s, s + 1) :: chain (s + 1) (k + 1)

/-- The assignments that link a given sequence of clusters in order and close the
chain with the end-of-chain marker. -/
def chainOf : List Int → List (Int × Int)
  | [] => []
  | [c] => [(c, EOC)]
  | c :: c' :: cs => (c, c') :: chainOf (c' :: cs)

/-! ## Concrete images -/

/-- Lookup of offset `q` in a run of bytes placed at `base`. -/
def bytesAt (base : Int) (bs : List Nat) (q : Int) : Option Nat :=
  if base ≤ q ∧ q < base + bs.length then bs.get? (q - base).toNat else none

/-- An image given by runs of bytes at stated offsets; every other byte is zero. -/
def mkImage (segs : List (Int × List Nat)) : Mem :=
  fun q => (segs.findSome? (fun s => bytesAt s.1 s.2 q)).getD 0

/-- Little-endian bytes of a 16-bit value. -/
def le16 (v : Nat) : List Nat := [v % 256, v / 256 % 256]

/-- Little-endian bytes of a 32-bit value. -/
def le32 (v : Nat) : List Nat := [v % 256, v / 256 % 256, v / 65536 % 256, v / 16777216 % 256]

/-- The 32 bytes of a directory slot with the given 11-byte name, attribute, low word
of the first cluster and file size (all other fields zero). -/
def dirSlot (name : List Nat) (attr clus size : Nat) : List Nat :=
  name ++ [attr] ++ List.replicate 14 0 ++ le16 clus ++ le32 size

/-- Boot sector fields of the test geometry: 512-byte sectors, one sector per cluster,
one reserved sector, two FATs of one sector each (128 entries), root directory in
cluster 2. The FAT copies are at offsets 512 and 1024, cluster 2 at offset 1536. -/
def bootFields : List (Int × List Nat) :=
  [(11, le16 512), (13, [1]), (14, le16 1), (16, [2]), (36, le32 1), (44, le32 2)]

/-- FAT of the test images: clusters 0..19 are all in use (each entry an end-of-chain
mark) except the listed free ones. -/
def fatWithFree (free : List Nat) : List Nat :=
  ((List.range 20).map (fun c => if c ∈ free then le32 0 else le32 0x0FFFFFF8)).flatten

/-- Scenario 5: a tombstone `?ILE    BIN` in root slot 0 (first cluster 7, size 1024);
the free clusters below 20 are exactly 4 and 7; cluster 7 holds the first half of the
file (512 bytes `A`), cluster 4 the second half (512 bytes `B`). -/
def scenario5 : Mem :=
  fun q =>
    if 4096 ≤ q ∧ q < 4608 then 0x41
    else if 2560 ≤ q ∧ q < 3072 then 0x42
    else mkImage (bootFields ++ [(512, fatWithFree [4, 7]), (1024, fatWithFree [4, 7]),
      (1536, dirSlot (0xE5 :: lit "ILE    BIN") 0x20 7 1024)]) q

/-- A tombstone `?ELLO   TXT` in root slot 3 whose first-cluster field holds 280, a
number beyond the 128 entries of the FAT: the address of `fat[280]` is the address of
the slot itself (`512 + 4 * 280 = 1536 + 3 * 32`). -/
def wildCluster : Mem :=
  mkImage (bootFields ++ [(512, fatWithFree []), (1024, fatWithFree []),
    (1536, dirSlot (lit "FILE0   TXT") 0x20 0 0 ++ dirSlot (lit "FILE1   TXT") 0x20 0 0
      ++ dirSlot (lit "FILE2   TXT") 0x20 0 0 ++ dirSlot (0xE5 :: lit "ELLO   TXT") 0x20 280 11)])

/-- An 11-byte name whose extension field is ` XY`: byte 8 is a space, bytes 9 and 10
are not. -/
def nameSpaceXY : Nat → Nat :=
  fun i => if i = 1 then 65 else if i = 9 then 88 else if i = 10 then 89 else 32

/-- Scenario 1: live files in root slots 0..2 and the tombstone `?ELLO   TXT` in root
slot 3 (offset 1632; first cluster 5, size 11); cluster 5 holds `hello world`. -/
def scenario1 : Mem :=
  mkImage (bootFields ++ [(512, fatWithFree [5]), (1024, fatWithFree [5]),
    (1536, dirSlot (lit "FILE0   TXT") 0x20 3 100 ++ dirSlot (lit "FILE1   TXT") 0x20 4 100
      ++ dirSlot (lit "FILE2   TXT") 0x20 6 100 ++ dirSlot (0xE5 :: lit "ELLO   TXT") 0x20 5 11),
    (3072, lit "hello world")])

/-- Scenario 3: two tombstones that decode to `A.TXT`, in root slots 0 and 1 (first
clusters 5 and 6, size 11 each). -/
def scenario3 : Mem :=
  mkImage (bootFields ++ [(512, fatWithFree [5, 6]), (1024, fatWithFree [5, 6]),
    (1536, dirSlot (0xE5 :: lit "       TXT") 0x20 5 11
      ++ dirSlot (0xE5 :: lit "       TXT") 0x20 6 11)])

/-- Sixteen live entries, a full directory cluster of 512 bytes: `DATA    BIN` (first
cluster 3, 512 bytes) and fifteen empty files. -/
def fullCluster : List Nat :=
  dirSlot (lit "DATA    BIN") 0x20 3 512
    ++ ((List.range 15).map (fun _ => dirSlot (lit "FILE0   TXT") 0x20 0 0)).flatten

/-- A volume whose root directory is the single cluster 2 (`fat[2]` is an end-of-chain
mark), full of live entries, none of them a tombstone. Cluster 3 is not part of the root
directory: it is the data of the live file `DATA.BIN`, and its first 32 bytes read as a
tombstone `?       TXT` with first cluster 9 and size 11. -/
def strayBytes : Mem :=
  mkImage (bootFields ++ [(512, fatWithFree [9]), (1024, fatWithFree [9]),
    (1536, fullCluster), (2048, dirSlot (0xE5 :: lit "       TXT") 0x20 9 11)])

/-- The same volume with one tombstone `?       TXT` in root slot 5 (first cluster 8,
size 11): the only tombstoned root slot. -/
def strayBytesOne : Mem :=
  mkImage (bootFields ++ [(512, fatWithFree [8, 9]), (1024, fatWithFree [8, 9]),
    (1536 + 5 * 32, dirSlot (0xE5 :: lit "       TXT") 0x20 8 11),
    (1536, fullCluster), (2048, dirSlot (0xE5 :: lit "       TXT") 0x20 9 11)])

/-- The first half of the file of scenario 5 (content of cluster 7). -/
def firstHalf : List Nat := List.replicate 512 0x41

/-- The second half of the file of scenario 5 (content of cluster 4). -/
def secondHalf : List Nat := List.replicate 512 0x42

/-- The image of scenario 5 after the permutation `[7, 4]` has been committed. -/
def s5_committed : Mem := pairedWrites 512 1024 (chainOf [7, 4]) scenario5

/-- A stand-in for the digest function, used only to instantiate statements that hold
for every digest function: the first 20 bytes of the input. -/
def first20 (bs : List Nat) : List Nat := bs.take 20

/-- The 40 hexadecimal characters `4141…41`, the digest of twenty bytes `A`. -/
def hex41 : List Nat := ((List.range 20).map (fun _ => lit "41")).flatten

/-- The 11-byte name `HELLO   TXT` as an array of bytes. -/
def nameHello : Nat → Nat := fun i => (lit "HELLO   TXT").getD i 32

/-! ## Further notions and images -/

/-- The free clusters among `lo, lo + 1, …, lo + n - 1` according to the FAT at offset
`fat`, in increasing order: a cluster is free iff its FAT entry is 0. -/
def freeClusters (addr : Mem) (fat : Int) (lo n : Nat) : List Int :=
  ((List.range' lo n).map (fun (c : Nat) => (c : Int))).filter (fun c => fatGet addr fat c = 0)

/-- The start cluster of a directory entry as the data model defines it:
`first_cluster = (high_word << 16) | low_word`, for two 16-bit fields. -/
def firstCluster (addr : Mem) (p : Int) : Int :=
  DIR_FstClusHI addr p * 65536 + DIR_FstClusLO addr p

/-- A FAT given entry by entry (entries 0..19). -/
def fatOf (entry : Nat → Nat) : List Nat :=
  ((List.range 20).map (fun c => le32 (entry c))).flatten

/-- The 32 bytes of a directory slot with both words of the first cluster. -/
def dirSlotHi (name : List Nat) (attr hi lo size : Nat) : List Nat :=
  name ++ [attr] ++ List.replicate 8 0 ++ le16 hi ++ List.replicate 4 0 ++ le16 lo ++ le32 size

/-- The tombstone of an empty file in root slot 0: `?MPTY   TXT`, size 0, first cluster 0.
Entry 0 of the FAT holds the media descriptor `0x0FFFFFF0`, entry 1 `0x0FFFFFFF`, entry 2
(the root directory) an end-of-chain mark. -/
def emptyFile : Mem :=
  mkImage (bootFields ++ [
    (512, le32 0x0FFFFFF0 ++ le32 0x0FFFFFFF ++ le32 0x0FFFFFF8),
    (1024, le32 0x0FFFFFF0 ++ le32 0x0FFFFFFF ++ le32 0x0FFFFFF8),
    (1536, dirSlot (0xE5 :: lit "MPTY   TXT") 0x20 0 0)])

/-- A tombstone `?UGE    BIN` in root slot 0 whose size field holds `0x80000400`
(2 GiB + 1 KiB), first cluster 5. -/
def hugeFile : Mem :=
  mkImage (bootFields ++ [(512, fatWithFree [5, 6]), (1024, fatWithFree [5, 6]),
    (1536, dirSlot (0xE5 :: lit "UGE    BIN") 0x20 5 0x80000400)])

/-- Boot sector fields of a volume with more than 65536 clusters: 512-byte sectors, one
sector per cluster, one reserved sector, two FATs of 513 sectors each (65664 entries).
The FAT copies are at offsets 512 and 263168, cluster 2 at offset 525824. -/
def bootFieldsBig : List (Int × List Nat) :=
  [(11, le16 512), (13, [1]), (14, le16 1), (16, [2]), (36, le32 513), (44, le32 2)]

/-- A volume on which the deleted file `?IG     BIN` (root slot 1, offset 525856) had the
first cluster 65541: high word 1, low word 5, size 11. Cluster 65541 (offset 34081792)
still holds its content `hello world` and is free. Cluster 5 (offset 527360) belongs to
the live file `OTHER.TXT`, whose chain is `5 → 6`. -/
def highWord : Mem :=
  mkImage (bootFieldsBig ++ [
    (512, fatOf (fun c => if c = 5 then 6 else if c = 3 ∨ c = 4 then 0 else 0x0FFFFFF8)),
    (263168, fatOf (fun c => if c = 5 then 6 else if c = 3 ∨ c = 4 then 0 else 0x0FFFFFF8)),
    (525824, dirSlot (lit "OTHER   TXT") 0x20 5 600
      ++ dirSlotHi (0xE5 :: lit "IG     BIN") 0x20 1 5 11),
    (527360, lit "other file!"),
    (34081792, lit "hello world")])

/-- Boot sector fields of a volume with four reserved sectors: 512-byte sectors, one sector
per cluster, two FATs of one sector each. The FAT copies are at offsets 2048 and 2560,
cluster 2 at offset 3072; the reserved sector 3 is at offset 1536. -/
def bootFields4 : List (Int × List Nat) :=
  [(11, le16 512), (13, [1]), (14, le16 4), (16, [2]), (36, le32 1), (44, le32 2)]

/-- A volume whose root directory is the single cluster 2, closed in the FAT by the
end-of-chain value `0xFFFFFFFF`; the directory holds one live file. The reserved sector 3
(offset 1536), which is not part of any directory, begins with 32 stale bytes that read as
a tombstone `?       TXT` (first cluster 9, size 11). Cluster 9 is free. -/
def eocHighBits : Mem :=
  mkImage (bootFields4 ++ [
    (2048, fatOf (fun c => if c = 2 then 0xFFFFFFFF else if c = 9 then 0 else 0x0FFFFFF8)),
    (2560, fatOf (fun c => if c = 2 then 0xFFFFFFFF else if c = 9 then 0 else 0x0FFFFFF8)),
    (3072, dirSlot (lit "FILE0   TXT") 0x20 3 100),
    (1536, dirSlot (0xE5 :: lit "       TXT") 0x20 9 11)])

/-- A volume with four reserved sectors on which the tombstone `?ATA    BIN` (root slot 0,
offset 3072) has first cluster 10 and size 520; entry 10 of the FAT holds the end-of-chain
value `0xFFFFFFFF`; cluster 10 (offset 7168) holds 512 bytes `A`; the reserved sector 3
(offset 1536) begins with the bytes `OLDBYTES`. -/
def eocHighFile : Mem :=
  fun q =>
    if 7168 ≤ q ∧ q < 7680 then 0x41
    else mkImage (bootFields4 ++ [
      (2048, fatOf (fun c => if c = 10 then 0xFFFFFFFF else 0x0FFFFFF8)),
      (2560, fatOf (fun c => if c = 10 then 0xFFFFFFFF else 0x0FFFFFF8)),
      (3072, dirSlot (0xE5 :: lit "ATA    BIN") 0x20 10 520),
      (1536, lit "OLDBYTES")]) q

/-- The volume `strayBytes` with the first 32 bytes of cluster 3 cleared: the two images
differ only inside cluster 3, which is not a cluster of the root directory. -/
def fullRoot : Mem :=
  fun q => if 2048 ≤ q ∧ q < 2080 then 0 else strayBytes q

/-- A volume whose root directory is the single cluster 2, full of live entries, none of
them a tombstone. Cluster 3 is data of the live file `DATA.BIN`; its first 32 bytes read
as a tombstone `?       TXT` with first cluster 9 and size 20. Cluster 9 (offset 5120) is
the only free cluster below 20 and holds twenty bytes `A`. -/
def strayVerified : Mem :=
  mkImage (bootFields ++ [(512, fatWithFree [9]), (1024, fatWithFree [9]),
    (1536, fullCluster), (2048, dirSlot (0xE5 :: lit "       TXT") 0x20 9 20),
    (5120, List.replicate 20 0x41)])

/-- Scenario 6: the root directory holds a live file (slot 0), the tombstone `?NE     TXT`
(slot 1, first cluster 5, size 11), a tombstoned long-name component with `attr = 0x0F`
(slot 2) and the tombstone `?WO     BIN` (slot 3, first cluster 6, size 600, two
clusters). Clusters 5, 6 and 7 are free. -/
def scenario6 : Mem :=
  mkImage (bootFields ++ [(512, fatWithFree [5, 6, 7]), (1024, fatWithFree [5, 6, 7]),
    (1536, dirSlot (lit "FILE0   TXT") 0x20 3 100
      ++ dirSlot (0xE5 :: lit "NE     TXT") 0x20 5 11
      ++ dirSlot (0xE5 :: lit "o.n.g.n.a.") 0x0F 0 0
      ++ dirSlot (0xE5 :: lit "WO     BIN") 0x20 6 600)])

/-- The digest comparison of `tryClusterPermutation` for the cluster sequence `q`. -/
def verifies (SHA1 : List Nat → List Nat) (heap : Nat → Nat) (addr : Mem) (file : Int)
    (targetHash : List Nat) (q : List Int) : Prop :=
  SHA1 (hashed heap (readClusters addr (dataSec addr) (clusterSize addr)
    (DIR_FileSize addr file) q 0 []) (DIR_FileSize addr file)) = targetHash

instance (SHA1 : List Nat → List Nat) (heap : Nat → Nat) (addr : Mem) (file : Int)
    (targetHash : List Nat) (q : List Int) : Decidable (verifies SHA1 heap addr file targetHash q) := by
  unfold verifies
  infer_instance

/-! ## The root directory as the data model describes it -/

/-- Byte offset of cluster `c`: `data_offset + (c − 2) × cluster_bytes`, with
`data_offset` the end of the second FAT copy. -/
def clusterAt (addr : Mem) (c : Int) : Int := fatOffset addr 2 + (c - 2) * clusterSize addr

/-- The cluster chain that starts at `c`, followed through the FAT at offset `fat` until an
entry that is 0 or at least `0x0FFFFFF8` as a signed value; `none` when the chain has not
ended after the given number of clusters. -/
def dirChain (addr : Mem) (fat : Int) : Nat → Int → Option (List Int)
  | 0, _ => none
  | n + 1, c =>
    if c ≠ 0 ∧ c < 0x0FFFFFF8 then (dirChain addr fat n (fatGet addr fat c)).map (fun l => c :: l)
    else some []

/-- The slots `i, i + 1, …` (at most `n` of them) of the directory cluster at offset
`base`, up to the first slot whose `name[0]` is `0x00`. -/
def liveSlots (addr : Mem) (base : Int) : Nat → Int → List Int
  | 0, _ => []
  | n + 1, i =>
    if DIR_Name addr (slotAt base i) 0 = 0x00 then []
    else slotAt base i :: liveSlots addr base n (i + 1)

/-- The slots of a directory whose clusters are `clusters`, in scan order:
`cluster_bytes / 32` slots per cluster, each cluster cut at its first terminator. -/
def rootSlots (addr : Mem) (clusters : List Int) : List Int :=
  clusters.flatMap (fun c => liveSlots addr (clusterAt addr c) (clusterSize addr / 32).toNat 0)

/-- A tombstone that bulk recovery treats as a deleted file: `name[0] == 0xE5` and `attr`
none of 0x0F (long name), 0x08 (volume label), 0x10 (directory). -/
def isDeletedFile (addr : Mem) (p : Int) : Bool :=
  decide (DIR_Name addr p 0 = 0xE5 ∧ DIR_Attr addr p ≠ 0x0f ∧ DIR_Attr addr p ≠ 0x08
    ∧ DIR_Attr addr p ≠ 0x10)

/-- A short name as directory entries hold it: no zero byte in bytes 1..10, and an
extension that does not start with a space unless it is all spaces. -/
def wellFormedName (raw : Nat → Nat) : Bool :=
  (List.range' 1 10).all (fun j => raw j != 0)
    && (raw 8 != 32 || (raw 9 == 32 && raw 10 == 32))

/-- A candidate of targeted recovery for the name `T`: a tombstone that is neither a
long-name component nor a volume label and whose decoded name, with `T[0]` as the first
character, is `T`. -/
def nameMatches (addr : Mem) (T : List Nat) (p : Int) : Bool :=
  decide (DIR_Name addr p 0 = 0xE5 ∧ DIR_Attr addr p ≠ 0x0f ∧ DIR_Attr addr p ≠ 0x08
    ∧ decodeSpec (DIR_Name addr p) (T.headD 0) = cstr T)

/-- The image in which the byte at each of the given offsets has been replaced by `v`. -/
def marked (addr : Mem) (ps : List Int) (v : Int) : Mem :=
  fun q => if q ∈ ps then (v % 256).toNat else addr q

/-- The FAT assignments that `recover` makes for the slot at `p`. -/
def recoverWrites (addr : Mem) (p : Int) : List (Int × Int) :=
  chain (DIR_FstClusLO addr p) (recoverCount (DIR_FileSize addr p) (clusterSize addr)).toNat

/-- The FAT assignments that `recoverAllDeleted` makes for the slot at `p`: none when the
size is not positive or the start cluster is below 2. -/
def deletedWrites (addr : Mem) (p : Int) : List (Int × Int) :=
  if 0 < toI32 (DIR_FileSize addr p) ∧ 2 ≤ DIR_FstClusLO addr p then recoverWrites addr p
  else []

/-- The test that `recFile` and `recoverAllFiles` apply to a slot: not skipped
(`name[0] != 0x10`, `attr` neither 0x0F nor 0x08), a tombstone, and `strcmp` of the string
built by `getName` with the target name gives 0. -/
def strcmpMatches (addr : Mem) (T : List Nat) (p : Int) : Bool :=
  decide (¬ (DIR_Name addr p 0 = 0x10 ∨ DIR_Attr addr p = 0x0f ∨ DIR_Attr addr p = 0x08)
    ∧ DIR_Name addr p 0 = 0xE5 ∧ cstr (getName (DIR_Name addr p) (T.headD 0)) = cstr T)

/-- The tombstoned root slots that match the target name `T`, in discovery order. -/
def matchingSlots (addr : Mem) (clusters : List Int) (T : List Nat) : List Int :=
  (rootSlots addr clusters).filter (nameMatches addr T)

/-- The eligible tombstones of bulk recovery among the root slots, in discovery order. -/
def deletedSlots (addr : Mem) (clusters : List Int) : List Int :=
  (rootSlots addr clusters).filter (isDeletedFile addr)

/-- The assignments of `commit(synthesize_contiguous(start, file_size))` for the slot at
`p`, with the low word of the first cluster as `start`: `⌈file_size / cluster_bytes⌉`
consecutive clusters linked in order and closed by the end-of-chain mark. -/
def contiguousChain (addr : Mem) (p : Int) : List (Int × Int) :=
  chain (DIR_FstClusLO addr p) (clustersNeeded (DIR_FileSize addr p) (clusterSize addr)).toNat

/-- The image after bulk recovery of the slots `ps`: the byte `name[0]` of each slot set to
`v`, then the FAT assignments of the slots made in both copies, slot by slot. -/
def committed (addr : Mem) (writes : Int → List (Int × Int)) (ps : List Int) (v : Int) : Mem :=
  pairedWrites (fatOffset addr 0) (fatOffset addr 1) (ps.flatMap writes) (marked addr ps v)

/-- A volume with a live file in root slot 0 and the tombstone `?       TXT` in root slot 1
(offset 1568) whose first-cluster field holds 256, a number beyond the 128 entries of the
FAT: the address of `fat[256]` is `512 + 4 * 256 = 1536`, the address of root slot 0. -/
def wildBulk : Mem :=
  mkImage (bootFields ++ [(512, fatWithFree []), (1024, fatWithFree []),
    (1536, dirSlot (lit "FILE0   TXT") 0x20 3 100
      ++ dirSlot (0xE5 :: lit "       TXT") 0x20 256 11)])

/-! ## Images and notions for the properties of the readers -/

/-- Boot sector fields of a volume with 4194304 cluster numbers: 512-byte sectors, one
sector per cluster, one reserved sector, two FATs of 32768 sectors each (16 MiB, entries
0..4194303). The FAT copies are at offsets 512 and 16777728, cluster 2 at offset 33554944;
the data area ends past 2 GiB. -/
def largeVolume : Mem :=
  mkImage [(11, le16 512), (13, [1]), (14, le16 1), (16, [2]), (36, le32 32768), (44, le32 2)]

/-- Scenario 4: the tombstone `?ILE    BIN` in root slot 0 (first cluster 10, size 1536,
three clusters); clusters 10, 11 and 12 are free (their FAT entries are 0) and still hold
the content of the file: 512 bytes `A` (offset 5632), 512 bytes `B`, 512 bytes `C`. -/
def scenario4 : Mem :=
  fun q =>
    if 5632 ≤ q ∧ q < 6144 then 0x41
    else if 6144 ≤ q ∧ q < 6656 then 0x42
    else if 6656 ≤ q ∧ q < 7168 then 0x43
    else mkImage (bootFields ++ [(512, fatWithFree [10, 11, 12]), (1024, fatWithFree [10, 11, 12]),
      (1536, dirSlot (0xE5 :: lit "ILE    BIN") 0x20 10 1536)]) q

/-- A stand-in for the digest function that looks at the end of its input: the last 20
bytes. -/
def last20 (bs : List Nat) : List Nat := bs.drop (bs.length - 20)

/-- The 40 characters `0`: the hexadecimal form of twenty zero bytes. -/
def hex00 : List Nat := List.replicate 40 48

/-- A volume whose FAT links the root directory cluster to itself: `fat[2] = 2` in both
copies. The root directory holds one live file. -/
def cyclicRoot : Mem :=
  mkImage (bootFields ++ [
    (512, fatOf (fun c => if c = 2 then 2 else 0x0FFFFFF8)),
    (1024, fatOf (fun c => if c = 2 then 2 else 0x0FFFFFF8)),
    (1536, dirSlot (lit "FILE0   TXT") 0x20 3 100)])

/-- The first `k` bytes of cluster `c`, read at the offset the data model gives the
cluster. -/
def clusterBytes (addr : Mem) (c : Int) (k : Nat) : List Nat :=
  copied addr (clusterAt addr c) (k : Int)

/-- Reference for `read_sequence`, following the words of the specification: for each
listed cluster in order, its first `min(cluster_bytes, remaining)` bytes, where `remaining`
is what is still missing of the `n` bytes asked for. -/
def readSequenceSpec (addr : Mem) : List Int → Nat → List Nat
  | [], _ => []
  | c :: cs, remaining =>
    clusterBytes addr c (min (clusterSize addr).toNat remaining)
      ++ readSequenceSpec addr cs (remaining - min (clusterSize addr).toNat remaining)

/-- The clusters `s, fat(s), fat(fat(s)), …` (at most `k` of them) up to the first value
that is 0 or at least `0x0FFFFFF8`, with `fat(c)` the unsigned 32-bit entry of cluster `c`
in the FAT at offset `fat`. -/
def followFat (addr : Mem) (fat : Int) : Nat → Int → List Int
  | 0, _ => []
  | k + 1, c =>
    if c = 0 ∨ 0x0FFFFFF8 ≤ c then []
    else c :: followFat addr fat k (rd32u addr (fat + 4 * c))

/-- Boot sector fields of a volume whose FAT has the largest size, `2^28` entries:
512-byte sectors, one sector per cluster, one reserved sector, two FATs of 2097152 sectors
(1 GiB) each. The FAT copies are at offsets 512 and 1073742336, cluster 2 at offset
2147484160, past 2 GiB. -/
def bootFieldsMax : List (Int × List Nat) :=
  [(11, le16 512), (13, [1]), (14, le16 1), (16, [2]), (36, le32 2097152), (44, le32 2)]

/-- A volume with FATs of the largest size on which root slot 0 (offset 2147484160) is the
tombstone `?ELLO   TXT` with first cluster 3 and size 11; cluster 3 (offset 2147484672) is
free and holds `hello world`. -/
def maxFat : Mem :=
  mkImage (bootFieldsMax ++ [
    (512, fatOf (fun c => if c = 3 then 0 else 0x0FFFFFF8)),
    (1073742336, fatOf (fun c => if c = 3 then 0 else 0x0FFFFFF8)),
    (2147484160, dirSlot (0xE5 :: lit "ELLO   TXT") 0x20 3 11),
    (2147484672, lit "hello world")])

/-- A volume with 4194304 cluster numbers on which the tombstone `?ILE    BIN` (root
slot 0, offset 33554944) has first cluster 5 and size 1024 and the FAT still holds its
chain `5 → 4194303 → end`; cluster 5 (offset 33556480) holds 512 bytes `A`, cluster
4194303 (offset 2181037056, past 2 GiB) holds 512 bytes `B`. -/
def farCluster : Mem :=
  fun q =>
    if 33556480 ≤ q ∧ q < 33556992 then 0x41
    else if 2181037056 ≤ q ∧ q < 2181037568 then 0x42
    else if 16777724 ≤ q ∧ q < 16777728 then (le32 0x0FFFFFF8).getD (q - 16777724).toNat 0
    else mkImage ([(11, le16 512), (13, [1]), (14, le16 1), (16, [2]), (36, le32 32768),
        (44, le32 2)] ++ [
      (512, fatOf (fun c => if c = 5 then 4194303 else 0x0FFFFFF8)),
      (16777728, fatOf (fun c => if c = 5 then 4194303 else 0x0FFFFFF8)),
      (33554944, dirSlot (0xE5 :: lit "ILE    BIN") 0x20 5 1024)]) q

/-! ## Information and listing: `printDriveInfo`, `listRootDir` -/

/-- The characters that `printf("%d", x)` writes for an `int`. -/
def fmtInt (x : Int) : List Nat :=
  if x < 0 then 45 :: lit (Nat.repr x.natAbs) else lit (Nat.repr x.toNat)

/-- `printDriveInfo(disk)` on the mapped image: the four lines printed. -/
def printDriveInfo (addr : Mem) : List (List Nat) :=
  [lit "Number of FATs = " ++ fmtInt (BPB_NumFATs addr),
   lit "Number of bytes per sector = " ++ fmtInt (BPB_BytsPerSec addr),
   lit "Number of sectors per cluster = " ++ fmtInt (BPB_SecPerClus addr),
   lit "Number of reserved sectors = " ++ fmtInt (BPB_RsvdSecCnt addr)]

/-- State of the listing: the lines printed and `totalFiles`. -/
structure Listing where
  out : List (List Nat)
  totalFiles : Int

/-- The `for (int i = 0; i < maxFile; i++)` loop of `listRootDir`: one line per entry,
the name written by `printName` followed by the text of the `printf` that ends the line. -/
def listRootDirFor (addr : Mem) (rootDir maxFile : Int) : Nat → Int → Listing → Listing
  | 0, _, s => s
  | n + 1, i, s =>
    if i < maxFile then
      let p := slotAt rootDir i
      if DIR_Name addr p 0 = 0x00 then s
      else if DIR_Name addr p 0 = 0xE5 ∨ DIR_Attr addr p = 0x0f ∨ DIR_Attr addr p = 0x08 then
        listRootDirFor addr rootDir maxFile n (i + 1) s
      else
        let name := cstr (printName (DIR_Name addr p))
        let line :=
          if DIR_Attr addr p = 0x10 then
            name ++ lit "/ (starting cluster = " ++ fmtInt (DIR_FstClusLO addr p) ++ lit ")"
          else if DIR_FileSize addr p = 0 then
            name ++ lit " (size = " ++ fmtInt (toI32 (DIR_FileSize addr p)) ++ lit ")"
          else
            name ++ lit " (size = " ++ fmtInt (toI32 (DIR_FileSize addr p))
              ++ lit ", starting cluster = " ++ fmtInt (DIR_FstClusLO addr p) ++ lit ")"
        listRootDirFor addr rootDir maxFile n (i + 1)
          { out := s.out ++ [line], totalFiles := s.totalFiles + 1 }
    else s

/-- The `while` loop of `listRootDir`. -/
def listRootDirWhile (addr : Mem) (fat dataSec size : Int) :
    Nat → Int → Listing → Except Err Listing
  | 0, _, _ => throw Err.outOfFuel
  | n + 1, curCluster, s =>
    if curCluster ≠ 0 ∧ curCluster < 0x0FFFFFF8 then
      let rootDir := clusterOffset dataSec size curCluster
      let maxFile := size / 32
      listRootDirWhile addr fat dataSec size n (fatGet addr fat curCluster)
        (listRootDirFor addr rootDir maxFile maxFile.toNat 0 s)
    else pure s

/-- `listRootDir(disk)` on the mapped image: the lines printed. -/
def listRootDir (fuel : Nat) (addr : Mem) : Except Err (List (List Nat)) := do
  let s ← listRootDirWhile addr (fatStart addr) (dataSec addr) (clusterSize addr) fuel
    (toI32 (BPB_RootClus addr)) { out := [], totalFiles := 0 }
  pure (s.out ++ [lit "Total number of entries = " ++ fmtInt s.totalFiles])

/-! ## Images with a malformed boot sector -/

/-- An image whose boot sector gives 3 sectors per cluster, not a power of two: 512-byte
sectors, one reserved sector, two FATs of one sector each, clusters of 1536 bytes from
offset 1536. Root slot 0 is the tombstone `?ELLO   TXT` (first cluster 5, size 11). -/
def threeSectors : Mem :=
  mkImage ([(11, le16 512), (13, [3]), (14, le16 1), (16, [2]), (36, le32 1), (44, le32 2)]
    ++ [(512, fatWithFree [5]), (1024, fatWithFree [5]),
      (1536, dirSlot (0xE5 :: lit "ELLO   TXT") 0x20 5 11)])

/-- An image whose boot sector gives 0 sectors per cluster, so a cluster size of zero. The
32 bytes at offset 1536, where the data area begins, are the tombstone `?ELLO   TXT` (first
cluster 5, size 11). -/
def zeroCluster : Mem :=
  mkImage ([(11, le16 512), (13, [0]), (14, le16 1), (16, [2]), (36, le32 1), (44, le32 2)]
    ++ [(512, fatWithFree [5]), (1024, fatWithFree [5]),
      (1536, dirSlot (0xE5 :: lit "ELLO   TXT") 0x20 5 11)])

/-! ## Images with the tombstone of a directory -/

/-- A volume whose root slot 0 is the tombstone of a directory, `?UBDIR` with `attr = 0x10`,
and whose root slot 1 (offset 1568) is the tombstone `?       TXT` with a first-cluster
field of 256, a number beyond the 128 entries of the FAT: the address of `fat[256]` is
`512 + 4 * 256 = 1536`, the address of root slot 0. -/
def wildDir : Mem :=
  mkImage (bootFields ++ [(512, fatWithFree []), (1024, fatWithFree []),
    (1536, dirSlot (0xE5 :: lit "UBDIR     ") 0x10 7 0
      ++ dirSlot (0xE5 :: lit "       TXT") 0x20 256 11)])

/-- A volume whose root directory holds a live file (slot 0), the tombstone of a directory
`?UBDIR` with `attr = 0x10`, first cluster 5 and size 0 (slot 1, offset 1568), and the
tombstone of a file `?NE     TXT`, first cluster 6 and size 11 (slot 2). Clusters 5 and 6
are free. -/
def deletedDir : Mem :=
  mkImage (bootFields ++ [(512, fatWithFree [5, 6]), (1024, fatWithFree [5, 6]),
    (1536, dirSlot (lit "FILE0   TXT") 0x20 3 100
      ++ dirSlot (0xE5 :: lit "UBDIR     ") 0x10 5 0
      ++ dirSlot (0xE5 :: lit "NE     TXT") 0x20 6 11)])

/-! ## `next_permutation` with every array access checked -/

/-- The read `arr[i]` of an `int` array of `arr.length` elements: an error when the index
is not in `[0, n - 1]`. -/
def arrGet (arr : List Int) (i : Int) : Except Err Int :=
  if 0 ≤ i ∧ i < arr.length then pure (arr.getD i.toNat 0) else throw Err.outOfBounds

/-- The assignment `arr[i] = v`: an error when the index is not in `[0, n - 1]`. -/
def arrSet (arr : List Int) (i : Int) (v : Int) : Except Err (List Int) :=
  if 0 ≤ i ∧ i < arr.length then pure (arr.set i.toNat v) else throw Err.outOfBounds

/-- The first loop of `next_permutation`, `while (i > 0 && arr[i - 1] >= arr[i]) i--`,
with `int` indices and checked accesses; the first argument bounds the iterations. -/
def pivotLoop (arr : List Int) : Nat → Int → Except Err Int
  | 0, _ => throw Err.outOfFuel
  | k + 1, i =>
    if i > 0 then do
      let a ← arrGet arr (i - 1)
      let b ← arrGet arr i
      if a ≥ b then pivotLoop arr k (i - 1) else pure i
    else pure i

/-- The second loop of `next_permutation`, `while (arr[j] <= arr[i - 1]) j--`, with
`int` indices and checked accesses. -/
def succLoop (arr : List Int) (i : Int) : Nat → Int → Except Err Int
  | 0, _ => throw Err.outOfFuel
  | k + 1, j => do
    let a ← arrGet arr j
    let b ← arrGet arr (i - 1)
    if a ≤ b then succLoop arr i k (j - 1) else pure j

/-- The exchange `temp = arr[i]; arr[i] = arr[j]; arr[j] = temp;` with checked
accesses. -/
def swapChecked (arr : List Int) (i j : Int) : Except Err (List Int) := do
  let temp ← arrGet arr i
  let aj ← arrGet arr j
  let arr1 ← arrSet arr i aj
  arrSet arr1 j temp

/-- The third loop of `next_permutation`, `while (i < j) { swap; i++; j--; }`, with
`int` indices and checked accesses. -/
def reverseLoop : Nat → List Int → Int → Int → Except Err (List Int)
  | 0, _, _, _ => throw Err.outOfFuel
  | k + 1, arr, i, j =>
    if i < j then do
      let arr1 ← swapChecked arr i j
      reverseLoop k arr1 (i + 1) (j - 1)
    else pure arr

/-- `next_permutation(arr, n)` with `n = arr.length`, `int` indices and every array
access checked: the array afterwards and the returned flag, or `outOfBounds` at the first
access outside `[0, n - 1]`. Each loop is given `n + 1` iterations. -/
def next_permutationChecked (arr : List Int) : Except Err (List Int × Bool) := do
  let n : Int := arr.length
  let i ← pivotLoop arr (arr.length + 1) (n - 1)
  if i ≤ 0 then pure (arr, false)
  else do
    let j ← succLoop arr i (arr.length + 1) (n - 1)
    let arr1 ← swapChecked arr (i - 1) j
    let arr2 ← reverseLoop (arr.length + 1) arr1 i (n - 1)
    pure (arr2, true)

/-- Two deleted copies of one file: the tombstone `?WIN    TXT` in root slot 0 has first
cluster 9 and size 20; the free clusters below 20 are 5 and 9, and both hold the same
twenty bytes `A`. -/
def twinClusters : Mem :=
  mkImage (bootFields ++ [(512, fatWithFree [5, 9]), (1024, fatWithFree [5, 9]),
    (1536, dirSlot (0xE5 :: lit "WIN    TXT") 0x20 9 20),
    (3072, List.replicate 20 0x41), (5120, List.replicate 20 0x41)])

/-- A deleted file next to a live one: the tombstone `?WO     BIN` in root slot 0 has first
cluster 5 and size 600 (two clusters; the file occupied clusters 5 and 8, both free now),
and the live file `LIVE    TXT` in root slot 1 occupies the chain 6 → 7. -/
def liveNeighbour : Mem :=
  mkImage (bootFields ++ [
    (512, fatOf (fun c => if c = 5 ∨ c = 8 then 0 else if c = 6 then 7 else 0x0FFFFFF8)),
    (1024, fatOf (fun c => if c = 5 ∨ c = 8 then 0 else if c = 6 then 7 else 0x0FFFFFF8)),
    (1536, dirSlot (0xE5 :: lit "WO     BIN") 0x20 5 600
      ++ dirSlot (lit "LIVE    TXT") 0x20 6 1000)])

/-- A tombstone `?ELLO   TXT` in root slot 0 (size 11) whose first-cluster field holds 262,
a number beyond the 128 entries of the FAT: the address of `fat[262]` is the address of
bytes 24..27 of the slot itself (`512 + 4 * 262 = 1536 + 24`), which end with the
first-cluster field. -/
def aliasedStart : Mem :=
  mkImage (bootFields ++ [(512, fatWithFree []), (1024, fatWithFree []),
    (1536, dirSlot (0xE5 :: lit "ELLO   TXT") 0x20 262 11)])

/-! ## The readers on an image of a given length -/

/-- `memcpy(buffer + bytesRead, addr + clusterOffset, bytesToRead)` when the image has `len`
bytes (the file is mapped with `mmap(NULL, sb.st_size, …)` at `addr`): the bytes appended,
or `outOfBounds` when the source range is not inside the mapping, where the program
faults. A negative `bytesToRead` is a count beyond any mapping once converted to
`size_t`. -/
def copiedIn (len : Int) (addr : Mem) (clusterOffset bytesToRead : Int) :
    Except Err (List Nat) :=
  if 0 ≤ clusterOffset ∧ 0 ≤ bytesToRead ∧ clusterOffset + bytesToRead ≤ len then
    pure (copied addr clusterOffset bytesToRead)
  else throw Err.outOfBounds

/-- The read loop of `tryClusterPermutation` on an image of `len` bytes. -/
def readClustersIn (len : Int) (addr : Mem) (dataSec size fileSize : Int) :
    List Int → Int → List Nat → Except Err (List Nat)
  | [], _, buffer => pure buffer
  | c :: cs, bytesRead, buffer =>
    if bytesRead < fileSize then do
      let off := clusterOffset dataSec size c
      let cnt := bytesToRead size bytesRead fileSize
      let bytes ← copiedIn len addr off cnt
      readClustersIn len addr dataSec size fileSize cs (toU32 (bytesRead + toU32 cnt))
        (buffer ++ bytes)
    else pure buffer

/-- The `while` loop of `computeFileHash` on an image of `len` bytes; the read of
`fat[curCluster]` is checked against the mapping as well. -/
def computeFileHashLoopIn (len : Int) (addr : Mem) (fat dataSec size fileSize : Int) :
    Nat → Int → Int → List Nat → Except Err (List Nat)
  | 0, _, _, _ => throw Err.outOfFuel
  | n + 1, curCluster, bytesRead, buffer =>
    if curCluster ≠ 0 ∧ curCluster < 0x0FFFFFF8 ∧ bytesRead < fileSize then do
      let off := clusterOffset dataSec size curCluster
      let cnt := bytesToRead size bytesRead fileSize
      let bytes ← copiedIn len addr off cnt
      if 0 ≤ fat + 4 * curCluster ∧ fat + 4 * curCluster + 4 ≤ len then
        computeFileHashLoopIn len addr fat dataSec size fileSize n (fatGet addr fat curCluster)
          (toU32 (bytesRead + toU32 cnt)) (buffer ++ bytes)
      else throw Err.outOfBounds
    else pure buffer

/-! # Properties -/

set_option maxRecDepth 100000

/-! ### Name codec -/

theorem getNameLoop_add (name : Nat → Nat) (a b i : Nat) (out : List Nat) :
    getNameLoop name (a + b) i out = getNameLoop name b (i + a) (getNameLoop name a i out) := by
  induction a generalizing i out with
  | zero => simp [getNameLoop]
  | succ a ih =>
    rw [Nat.add_right_comm]
    simp only [getNameLoop]
    split_ifs <;> rw [ih] <;> congr 1 <;> omega

theorem getNameLoop_plain (name : Nat → Nat) (n i : Nat) (out : List Nat)
    (h : 8 < i ∨ i + n ≤ 8) :
    getNameLoop name n i out = out ++ ((List.range' i n).map name).filter (fun b => b != 32) := by
  induction n generalizing i out with
  | zero => simp [getNameLoop]
  | succ n ih =>
    have h8 : ¬ (i = 8 ∧ name 8 ≠ 32) := by omega
    simp only [getNameLoop, if_neg h8, List.range'_succ, List.map_cons]
    by_cases hs : name i = 32
    · rw [if_pos hs, ih _ _ (by omega)]
      simp [List.filter_cons, hs]
    · rw [if_neg hs, ih _ _ (by omega)]
      simp [List.filter_cons, hs]

/-- C10 (evaluation at a failing input): for the name whose bytes 8..10 are ` XY`,
`getName` emits `X` and `Y` after the base name although byte 8 is a space, whereas
the reference string of the specification stops after the base name. -/
theorem getName_ext_without_dot :
    getName nameSpaceXY 72 = [72, 65, 88, 89] ∧ decodeSpec nameSpaceXY 72 = [72, 65] := by
  decide

theorem printNameLoop_eq (name : Nat → Nat) (h : ∀ i, i < 11 → 32 ≤ name i) (n i : Nat)
    (hn : i + n ≤ 11) (out : List Nat) :
    printNameLoop name n i out = getNameLoop name n i out := by
  induction n generalizing i out with
  | zero => simp [getNameLoop, printNameLoop]
  | succ n ih =>
    have hi := h i (by omega)
    simp only [getNameLoop, printNameLoop, ge_iff_le, hi, if_true]
    split_ifs <;> exact ih _ (by omega) _

/-- C9 (amended): for every 11-byte record whose bytes are all at least 0x20 and whose
first byte is not a space, `getName(r, r[0])` and `printName(r)` build the same
string. -/
theorem name_roundtrip (r : Nat → Nat) (h : ∀ i, i < 11 → 32 ≤ r i) (h0 : r 0 ≠ 32) :
    getName r (r 0) = printName r := by
  unfold getName printName
  rw [show (11 : Nat) = 10 + 1 from rfl]
  have h00 := h 0 (by omega)
  have e : printNameLoop r (10 + 1) 0 [] = printNameLoop r 10 1 [r 0] := by
    rw [printNameLoop, if_neg (by omega), if_neg h0, if_pos h00]
    rfl
  rw [e, printNameLoop_eq r h 10 1 (by omega)]

/-- C9 (counterexample): on the record of eleven spaces, whose first byte 0x20 satisfies
`r[0] >= 0x20`, `getName(r, r[0])` builds the one-character string of a space and
`printName(r)` builds the empty string. -/
theorem name_roundtrip_fails :
    getName (fun _ => 32) ((fun _ => 32) 0) = [32] ∧ printName (fun _ => 32) = [] := by
  decide


/-! ### Bytes -/

theorem wr8_same (m : Mem) (p v : Int) : wr8 m p v p = (v % 256).toNat := by
  simp [wr8]

theorem wr8_other (m : Mem) (p v q : Int) (h : q ≠ p) : wr8 m p v q = m q := by
  simp [wr8, h]

theorem rd8_nonneg (m : Mem) (q : Int) : 0 ≤ rd8 m q := by
  unfold rd8; omega

theorem rd8_lt (m : Mem) (q : Int) : rd8 m q < 256 := by
  unfold rd8; omega

theorem rd8_wr8_same (m : Mem) (p v : Int) : rd8 (wr8 m p v) p = v % 256 := by
  unfold rd8
  rw [wr8_same]
  omega

theorem rd8_congr {m m1 : Mem} {q : Int} (h : m1 q = m q) : rd8 m1 q = rd8 m q := by
  unfold rd8; rw [h]

theorem rd16_congr {m m1 : Mem} {q : Int} (h0 : m1 q = m q) (h1 : m1 (q + 1) = m (q + 1)) :
    rd16 m1 q = rd16 m q := by
  unfold rd16; rw [rd8_congr h0, rd8_congr h1]

theorem rd32u_congr {m m1 : Mem} {q : Int} (h0 : m1 q = m q) (h1 : m1 (q + 1) = m (q + 1))
    (h2 : m1 (q + 2) = m (q + 2)) (h3 : m1 (q + 3) = m (q + 3)) :
    rd32u m1 q = rd32u m q := by
  unfold rd32u; rw [rd8_congr h0, rd8_congr h1, rd8_congr h2, rd8_congr h3]

theorem wr32_other (m : Mem) (p v q : Int) (h : q < p ∨ p + 4 ≤ q) : wr32 m p v q = m q := by
  unfold wr32
  rw [wr8_other _ _ _ _ (by omega), wr8_other _ _ _ _ (by omega), wr8_other _ _ _ _ (by omega),
    wr8_other _ _ _ _ (by omega)]

theorem rd32u_wr32_same (m : Mem) (p v : Int) : rd32u (wr32 m p v) p = v % 4294967296 := by
  have e0 : rd8 (wr32 m p v) p = v % 256 := by
    unfold wr32
    rw [rd8_congr (wr8_other _ _ _ _ (by omega)), rd8_congr (wr8_other _ _ _ _ (by omega)),
      rd8_congr (wr8_other _ _ _ _ (by omega)), rd8_wr8_same]
  have e1 : rd8 (wr32 m p v) (p + 1) = v / 256 % 256 := by
    unfold wr32
    rw [rd8_congr (wr8_other _ _ _ _ (by omega)), rd8_congr (wr8_other _ _ _ _ (by omega)),
      rd8_wr8_same]
  have e2 : rd8 (wr32 m p v) (p + 2) = v / 65536 % 256 := by
    unfold wr32
    rw [rd8_congr (wr8_other _ _ _ _ (by omega)), rd8_wr8_same]
  have e3 : rd8 (wr32 m p v) (p + 3) = v / 16777216 % 256 := by
    unfold wr32
    rw [rd8_wr8_same]
  unfold rd32u
  rw [e0, e1, e2, e3]
  omega

theorem toI32_toU32 (v : Int) : toI32 (v % 4294967296) = toI32 v := by
  unfold toI32; omega

theorem toI32_id (v : Int) (h0 : -2147483648 ≤ v) (h1 : v < 2147483648) : toI32 v = v := by
  unfold toI32; omega

theorem fatGet_fatSet_same (m : Mem) (f c v : Int) : fatGet (fatSet m f c v) f c = toI32 v := by
  unfold fatGet fatSet rd32
  rw [rd32u_wr32_same, toI32_toU32]

theorem fatSet_other (m : Mem) (f c v q : Int) (h : q < f + 4 * c ∨ f + 4 * c + 4 ≤ q) :
    fatSet m f c v q = m q := by
  unfold fatSet; exact wr32_other _ _ _ _ h

theorem fatGet_congr {m m1 : Mem} {f c : Int}
    (h : ∀ q, f + 4 * c ≤ q → q < f + 4 * c + 4 → m1 q = m q) :
    fatGet m1 f c = fatGet m f c := by
  unfold fatGet rd32
  rw [rd32u_congr (h _ (by omega) (by omega)) (h _ (by omega) (by omega))
    (h _ (by omega) (by omega)) (h _ (by omega) (by omega))]

/-! ### Paired writes into the two FAT copies -/

theorem pairedWrites_frame (fat fat2 : Int) (ws : List (Int × Int)) (m : Mem) (q : Int)
    (h : ∀ w ∈ ws, (q < fat + 4 * w.1 ∨ fat + 4 * w.1 + 4 ≤ q)
      ∧ (q < fat2 + 4 * w.1 ∨ fat2 + 4 * w.1 + 4 ≤ q)) :
    pairedWrites fat fat2 ws m q = m q := by
  induction ws generalizing m with
  | nil => rfl
  | cons w ws ih =>
    have hw := h w (List.mem_cons_self _ _)
    rw [pairedWrites, ih _ (fun w1 h1 => h w1 (List.mem_cons_of_mem _ h1)),
      fatSet_other _ _ _ _ _ hw.2, fatSet_other _ _ _ _ _ hw.1]

theorem pairedWrites_get_other (fat B : Int) (ws : List (Int × Int)) (m : Mem) (c : Int)
    (hin : ∀ w ∈ ws, InFat B w.1) (hc : InFat B c) (hne : c ∉ ws.map Prod.fst) :
    fatGet (pairedWrites fat (fat + B) ws m) fat c = fatGet m fat c
    ∧ fatGet (pairedWrites fat (fat + B) ws m) (fat + B) c = fatGet m (fat + B) c := by
  have hd : ∀ w ∈ ws, w.1 ≠ c := by
    intro w hw e
    exact hne (List.mem_map.2 ⟨w, hw, e⟩)
  unfold InFat at hc
  constructor
  · apply fatGet_congr
    intro q h1 h2
    apply pairedWrites_frame
    intro w hw
    have := hin w hw
    have := hd w hw
    unfold InFat at *
    omega
  · apply fatGet_congr
    intro q h1 h2
    apply pairedWrites_frame
    intro w hw
    have := hin w hw
    have := hd w hw
    unfold InFat at *
    omega

theorem pair_get (fat B : Int) (m : Mem) (c v : Int) (hc : InFat B c) :
    fatGet (fatSet (fatSet m fat c v) (fat + B) c v) fat c = toI32 v
    ∧ fatGet (fatSet (fatSet m fat c v) (fat + B) c v) (fat + B) c = toI32 v := by
  unfold InFat at hc
  constructor
  · rw [← fatGet_fatSet_same m fat c v]
    apply fatGet_congr
    intro q h1 h2
    apply fatSet_other
    omega
  · exact fatGet_fatSet_same _ _ _ _

theorem pair_get_other (fat B : Int) (m : Mem) (c v c1 : Int) (hc : InFat B c)
    (hc1 : InFat B c1) (hne : c1 ≠ c) :
    fatGet (fatSet (fatSet m fat c v) (fat + B) c v) fat c1 = fatGet m fat c1
    ∧ fatGet (fatSet (fatSet m fat c v) (fat + B) c v) (fat + B) c1 = fatGet m (fat + B) c1 := by
  have := pairedWrites_get_other fat B [(c, v)] m c1
    (by intro w hw; simp at hw; subst hw; exact hc) hc1 (by simpa using hne)
  simpa [pairedWrites] using this

theorem pairedWrites_val (fat B : Int) (ws : List (Int × Int)) (m : Mem)
    (hin : ∀ w ∈ ws, InFat B w.1) (hnd : (ws.map Prod.fst).Nodup) :
    ∀ w ∈ ws, fatGet (pairedWrites fat (fat + B) ws m) fat w.1 = toI32 w.2
      ∧ fatGet (pairedWrites fat (fat + B) ws m) (fat + B) w.1 = toI32 w.2 := by
  induction ws generalizing m with
  | nil => intro w hw; cases hw
  | cons w0 ws ih =>
    intro w hw
    rw [List.map_cons, List.nodup_cons] at hnd
    have hin' : ∀ w ∈ ws, InFat B w.1 := fun w1 h1 => hin w1 (List.mem_cons_of_mem _ h1)
    rw [pairedWrites]
    rcases List.mem_cons.1 hw with rfl | hw
    · have h1 := pairedWrites_get_other fat B ws
        (fatSet (fatSet m fat w.1 w.2) (fat + B) w.1 w.2) w.1 hin'
        (hin w (List.mem_cons_self _ _)) hnd.1
      have h2 := pair_get fat B m w.1 w.2 (hin w (List.mem_cons_self _ _))
      rw [h1.1, h1.2]
      exact h2
    · exact ih _ hin' hnd.2 w hw

theorem pairedWrites_mirror (fat B : Int) (ws : List (Int × Int)) (m : Mem)
    (hin : ∀ w ∈ ws, InFat B w.1) (c : Int) (hc : InFat B c)
    (h : c ∈ ws.map Prod.fst ∨ fatGet m fat c = fatGet m (fat + B) c) :
    fatGet (pairedWrites fat (fat + B) ws m) fat c
      = fatGet (pairedWrites fat (fat + B) ws m) (fat + B) c := by
  induction ws generalizing m with
  | nil => simpa [pairedWrites] using h
  | cons w0 ws ih =>
    have hin' : ∀ w ∈ ws, InFat B w.1 := fun w1 h1 => hin w1 (List.mem_cons_of_mem _ h1)
    have h0 := hin w0 (List.mem_cons_self _ _)
    rw [pairedWrites]
    apply ih _ hin'
    by_cases hmem : c ∈ ws.map Prod.fst
    · exact Or.inl hmem
    · right
      by_cases e : c = w0.1
      · subst e
        have := pair_get fat B m w0.1 w0.2 h0
        rw [this.1, this.2]
      · have := pair_get_other fat B m w0.1 w0.2 c h0 hc e
        rw [this.1, this.2]
        rcases h with h | h
        · rw [List.map_cons, List.mem_cons] at h
          rcases h with h | h
          · exact absurd h e
          · exact absurd h hmem
        · exact h

/-! ### The contiguous chain -/

theorem chain_fst (s : Int) (k : Nat) :
    (chain s k).map Prod.fst = (List.range k).map (fun (i : Nat) => s + (i : Int)) := by
  induction k using Nat.strong_induction_on generalizing s with
  | _ k ih =>
    match k with
    | 0 => rfl
    | 1 => simp [chain, List.range_succ]
    | k + 2 =>
      rw [chain, List.map_cons, ih (k + 1) (by omega), List.range_succ_eq_map (k + 1)]
      simp only [List.map_cons, List.map_map, Nat.cast_zero, add_zero]
      congr 1
      apply List.map_congr_left
      intro i _
      simp only [Function.comp, Nat.cast_succ]
      omega

theorem chain_mem_fst (s : Int) (k : Nat) (c : Int) :
    c ∈ (chain s k).map Prod.fst ↔ s ≤ c ∧ c < s + k := by
  rw [chain_fst, List.mem_map]
  constructor
  · rintro ⟨i, hi, rfl⟩
    rw [List.mem_range] at hi
    omega
  · rintro ⟨h1, h2⟩
    refine ⟨(c - s).toNat, ?_, ?_⟩
    · rw [List.mem_range]; omega
    · omega

theorem chain_nodup (s : Int) (k : Nat) : ((chain s k).map Prod.fst).Nodup := by
  rw [chain_fst]
  apply List.Nodup.map _ (List.nodup_range k)
  intro a b h
  simp only at h
  omega

theorem chain_mem_link (s : Int) (k i : Nat) (h : i + 1 < k) :
    (s + (i : Int), s + (i : Int) + 1) ∈ chain s k := by
  induction i generalizing s k with
  | zero =>
    obtain ⟨k, rfl⟩ : ∃ j, k = j + 2 := ⟨k - 2, by omega⟩
    simp [chain]
  | succ i ih =>
    obtain ⟨k, rfl⟩ : ∃ j, k = j + 2 := ⟨k - 2, by omega⟩
    rw [chain]
    apply List.mem_cons_of_mem
    have := ih (s + 1) (k + 1) (by omega)
    have e : s + ((i + 1 : Nat) : Int) = s + 1 + (i : Int) := by push_cast; ring
    rw [e]
    exact this

theorem chain_mem_last (s : Int) (k : Nat) (h : 1 ≤ k) :
    (s + (k : Int) - 1, EOC) ∈ chain s k := by
  induction k using Nat.strong_induction_on generalizing s with
  | _ k ih =>
    match k with
    | 0 => omega
    | 1 => simp [chain]
    | k + 2 =>
      rw [chain]
      apply List.mem_cons_of_mem
      have := ih (k + 1) (by omega) (s + 1) (by omega)
      have e : s + ((k + 2 : Nat) : Int) - 1 = s + 1 + ((k + 1 : Nat) : Int) - 1 := by
        push_cast; ring
      rw [e]
      exact this

theorem recoverLoop_eq (fat fat2 oldCount : Int) (n : Nat) (m : Mem) (cur rec : Int)
    (h1 : rec < oldCount) (h2 : oldCount - rec ≤ n) :
    recoverLoop fat fat2 oldCount n m cur rec
      = pairedWrites fat fat2 (chain cur (oldCount - rec).toNat) m := by
  induction n generalizing m cur rec with
  | zero => omega
  | succ n ih =>
    rw [recoverLoop, if_pos h1]
    by_cases e : rec + 1 = oldCount
    · rw [if_pos e]
      have : (oldCount - rec).toNat = 1 := by omega
      rw [this]
      rfl
    · rw [if_neg e, ih _ _ _ (by omega) (by omega)]
      obtain ⟨j, hj⟩ : ∃ j : Nat, (oldCount - rec).toNat = j + 2 :=
        ⟨(oldCount - rec).toNat - 2, by omega⟩
      have : (oldCount - (rec + 1)).toNat = j + 1 := by omega
      rw [hj, this]
      rfl

/-! ### Geometry of a well-formed volume -/

theorem rd16_bounds (m : Mem) (q : Int) : 0 ≤ rd16 m q ∧ rd16 m q < 65536 := by
  have := rd8_nonneg m q; have := rd8_lt m q
  have := rd8_nonneg m (q + 1); have := rd8_lt m (q + 1)
  unfold rd16; omega

theorem rd32u_bounds (m : Mem) (q : Int) : 0 ≤ rd32u m q ∧ rd32u m q < 4294967296 := by
  have := rd8_nonneg m q; have := rd8_lt m q
  have := rd8_nonneg m (q + 1); have := rd8_lt m (q + 1)
  have := rd8_nonneg m (q + 2); have := rd8_lt m (q + 2)
  have := rd8_nonneg m (q + 3); have := rd8_lt m (q + 3)
  unfold rd32u; omega

theorem Volume.size_pos {addr : Mem} (hv : Volume addr) : 512 ≤ clusterSize addr := by
  have h1 := hv.bytsPerSec
  have h2 := hv.secPerClus
  unfold clusterSize
  rcases h1 with h1 | h1 | h1 | h1 <;> rcases h2 with h2 | h2 | h2 | h2 | h2 | h2 | h2 | h2 <;>
    rw [h1, h2] <;> norm_num

theorem Volume.fatStart_eq {addr : Mem} (hv : Volume addr) :
    fatStart addr = fatOffset addr 0 ∧ 512 ≤ fatOffset addr 0 ∧ fatOffset addr 0 < 268435456 := by
  have h1 := hv.bytsPerSec
  have h2 := hv.rsvd
  have h3 := rd16_bounds addr 14
  unfold fatStart fatOffset
  unfold BPB_RsvdSecCnt at *
  rcases h1 with h1 | h1 | h1 | h1 <;> rw [h1] <;> unfold toI32 <;> omega

theorem Volume.fatBytes_pos {addr : Mem} (hv : Volume addr) : 512 ≤ fatBytes addr := by
  have h1 := hv.bytsPerSec
  have h2 := hv.fatSz
  unfold fatBytes
  rcases h1 with h1 | h1 | h1 | h1 <;> rw [h1] <;> omega

theorem Volume.fat2Start_eq {addr : Mem} (hv : Volume addr) :
    fat2Start addr = fatOffset addr 0 + fatBytes addr := by
  have h1 := hv.fatStart_eq
  have h2 := hv.fatBytes_pos
  have h3 := hv.fatEntries
  unfold fat2Start
  rw [h1.1]
  change toI32 (toU32 (fatOffset addr 0) + toU32 (fatBytes addr)) = _
  unfold toI32 toU32
  omega

theorem fatOffset_one (addr : Mem) : fatOffset addr 1 = fatOffset addr 0 + fatBytes addr := by
  unfold fatOffset; ring

theorem fatOffset_two (addr : Mem) : fatOffset addr 2 = fatOffset addr 0 + 2 * fatBytes addr := by
  unfold fatOffset; ring

/-- Two images that agree on the BIOS parameter block have the same geometry. -/
theorem geometry_congr (m m1 : Mem) (h : ∀ q, 11 ≤ q → q < 48 → m1 q = m q) :
    clusterSize m1 = clusterSize m ∧ fatStart m1 = fatStart m ∧ fat2Start m1 = fat2Start m
      ∧ dataSec m1 = dataSec m ∧ fatBytes m1 = fatBytes m := by
  have e1 : BPB_BytsPerSec m1 = BPB_BytsPerSec m :=
    rd16_congr (h _ (by omega) (by omega)) (h _ (by omega) (by omega))
  have e2 : BPB_SecPerClus m1 = BPB_SecPerClus m := rd8_congr (h _ (by omega) (by omega))
  have e3 : BPB_RsvdSecCnt m1 = BPB_RsvdSecCnt m :=
    rd16_congr (h _ (by omega) (by omega)) (h _ (by omega) (by omega))
  have e4 : BPB_NumFATs m1 = BPB_NumFATs m := rd8_congr (h _ (by omega) (by omega))
  have e5 : BPB_FATSz32 m1 = BPB_FATSz32 m :=
    rd32u_congr (h _ (by omega) (by omega)) (h _ (by omega) (by omega))
      (h _ (by omega) (by omega)) (h _ (by omega) (by omega))
  unfold clusterSize fatStart fat2Start dataSec fatBytes fatStart
  rw [e1, e2, e3, e4, e5]
  exact ⟨rfl, rfl, rfl, rfl, rfl⟩

/-! ### What `recover` does on a well-formed volume -/

theorem recoverCount_pos (fileSize size : Int) (hs : 0 ≤ size) : 1 ≤ recoverCount fileSize size := by
  unfold recoverCount
  split_ifs with h
  · exact le_refl _
  · have : 0 ≤ (toI32 fileSize - 1) / size := Int.ediv_nonneg (by omega) hs
    omega

theorem slot_fields_wr8 (addr : Mem) (p v : Int) :
    DIR_FileSize (wr8 addr p v) p = DIR_FileSize addr p
    ∧ DIR_FstClusLO (wr8 addr p v) p = DIR_FstClusLO addr p := by
  constructor
  · exact rd32u_congr (wr8_other _ _ _ _ (by omega)) (wr8_other _ _ _ _ (by omega))
      (wr8_other _ _ _ _ (by omega)) (wr8_other _ _ _ _ (by omega))
  · exact rd16_congr (wr8_other _ _ _ _ (by omega)) (wr8_other _ _ _ _ (by omega))

theorem tdiv_count (x sz : Int) (hsz : 512 ≤ sz) (hle : ¬ x ≤ sz) :
    (x - 1).tdiv sz + 1 = (x - 1) / sz + 1 ∧ 0 < (x - 1) / sz + 1
      ∧ (x - 1) / sz + 1 - 0 ≤ (((x - 1) / sz + 1).toNat : Int) := by
  have h0 : 0 ≤ (x - 1) / sz := Int.ediv_nonneg (by omega) (by omega)
  rw [Int.tdiv_eq_ediv (by omega) (by omega)]
  omega

theorem slot_after_fatSet (m : Mem) (f c v p : Int) (h : f + 4 * c + 4 ≤ p) :
    DIR_FstClusLO (fatSet m f c v) p = DIR_FstClusLO m p := by
  unfold DIR_FstClusLO
  exact rd16_congr (fatSet_other _ _ _ _ _ (by omega)) (fatSet_other _ _ _ _ _ (by omega))

theorem recover_eq (addr : Mem) (p name0 : Int) (hv : Volume addr)
    (hp : fatOffset addr 2 ≤ p)
    (hin : 4 * (DIR_FstClusLO addr p + recoverCount (DIR_FileSize addr p) (clusterSize addr))
      ≤ fatBytes addr) :
    recover addr p name0 = Except.ok (pairedWrites (fatOffset addr 0)
      (fatOffset addr 0 + fatBytes addr)
      (chain (DIR_FstClusLO addr p) (recoverCount (DIR_FileSize addr p) (clusterSize addr)).toNat)
      (wr8 addr p name0)) := by
  have hf := hv.fatStart_eq
  have hB := hv.fatBytes_pos
  have hsz := hv.size_pos
  have h2 := fatOffset_two addr
  have hp48 : 48 ≤ p := by omega
  have hg := geometry_congr addr (wr8 addr p name0)
    (fun q _ _ => wr8_other _ _ _ _ (by omega))
  have hsl := slot_fields_wr8 addr p name0
  simp only [recover]
  rw [hg.1, hg.2.1, hg.2.2.1, hsl.1, hsl.2, hf.1, hv.fat2Start_eq]
  clear hg hsl
  by_cases hle : toI32 (DIR_FileSize addr p) ≤ clusterSize addr
  · have hc : recoverCount (DIR_FileSize addr p) (clusterSize addr) = 1 := by
      unfold recoverCount; rw [if_pos hle]
    rw [if_pos hle, hc]
    rw [hc] at hin
    rw [slot_after_fatSet _ _ _ _ _ (by omega), (slot_fields_wr8 addr p name0).2]
    rfl
  · have hc : recoverCount (DIR_FileSize addr p) (clusterSize addr)
        = (toI32 (DIR_FileSize addr p) - 1) / clusterSize addr + 1 := by
      unfold recoverCount; rw [if_neg hle]
    have ht := tdiv_count _ _ hsz hle
    have hne : ¬ clusterSize addr = 0 := by omega
    rw [if_neg hle, if_neg hne, ht.1, recoverLoop_eq _ _ _ _ _ _ _ ht.2.1 ht.2.2, sub_zero, hc]
    rfl

theorem recoverCount_eq_clustersNeeded (fs sz : Int) (h1 : 1 ≤ fs) (h2 : fs < 2147483648)
    (hsz : 0 < sz) : recoverCount fs sz = clustersNeeded fs sz := by
  unfold recoverCount clustersNeeded
  rw [toI32_id fs (by omega) h2]
  split_ifs with h
  · exact (((Int.ediv_emod_unique (a := fs + sz - 1) (r := fs - 1) (q := 1) hsz).2
      ⟨by ring, by omega, by omega⟩).1).symm
  · have := Int.add_mul_ediv_right (fs - 1) 1 (c := sz) (by omega)
    rw [one_mul] at this
    rw [← this]
    congr 1
    ring

theorem fatGet_wr8_below (m : Mem) (p v f c : Int) (h : f + 4 * c + 4 ≤ p) :
    fatGet (wr8 m p v) f c = fatGet m f c :=
  fatGet_congr (fun q _ _ => wr8_other _ _ _ _ (by omega))

theorem chain_inFat (B s : Int) (k : Nat) (hs : 0 ≤ s) (hin : 4 * (s + k) ≤ B) :
    ∀ w ∈ chain s k, InFat B w.1 := by
  intro w hw
  have := (chain_mem_fst s k w.1).1 (List.mem_map.2 ⟨w, hw, rfl⟩)
  unfold InFat
  omega

theorem chain_commit (fat B s : Int) (k : Nat) (m : Mem) (hs : 0 ≤ s) (hk : 1 ≤ k)
    (hin : 4 * (s + k) ≤ B) (hB : B ≤ 4 * 268435456) (f : Int) (hf : f = fat ∨ f = fat + B) :
    (∀ i : Int, 0 ≤ i → i < (k : Int) - 1 →
        fatGet (pairedWrites fat (fat + B) (chain s k) m) f (s + i) = s + i + 1)
    ∧ fatGet (pairedWrites fat (fat + B) (chain s k) m) f (s + k - 1) = 0x0FFFFFF8
    ∧ (∀ c : Int, InFat B c → (c < s ∨ s + k ≤ c) →
        fatGet (pairedWrites fat (fat + B) (chain s k) m) f c = fatGet m f c) := by
  have hval := pairedWrites_val fat B (chain s k) m (chain_inFat B s k hs hin) (chain_nodup s k)
  refine ⟨?_, ?_, ?_⟩
  · intro i hi0 hi1
    have hm := chain_mem_link s k i.toNat (by omega)
    have e : ((i.toNat : Nat) : Int) = i := Int.toNat_of_nonneg hi0
    rw [e] at hm
    have := hval _ hm
    have hv : toI32 (s + i + 1) = s + i + 1 := toI32_id _ (by omega) (by omega)
    simp only at this
    rw [hv] at this
    rcases hf with rfl | rfl
    · exact this.1
    · exact this.2
  · have := hval _ (chain_mem_last s k hk)
    have hv : toI32 EOC = 0x0FFFFFF8 := by decide
    simp only at this
    rw [hv] at this
    rcases hf with rfl | rfl
    · exact this.1
    · exact this.2
  · intro c hc hout
    have hne : c ∉ (chain s k).map Prod.fst := by
      rw [chain_mem_fst]; omega
    have := pairedWrites_get_other fat B (chain s k) m c (chain_inFat B s k hs hin) hc hne
    rcases hf with rfl | rfl
    · exact this.1
    · exact this.2

/-- The chain that `recover` writes, with `s` the cluster number that `recover` uses, the
low word `DIR_FstClusLO` of the slot: on a volume with two FAT copies, for a directory
slot in the data area with `1 <= file_size < 2^31` whose `k = ⌈file_size / cluster_bytes⌉`
clusters from `s` lie inside the FAT, `recover` returns and afterwards each FAT copy
`n ∈ {0, 1}` has `fat(n, s + i) = s + i + 1` for `i < k - 1`,
`fat(n, s + k - 1) = 0x0FFFFFF8`, and every other entry of the copy is unchanged. For a
slot whose high word `DIR_FstClusHI` is zero, `s` is the start cluster of the file. -/
theorem recover_commits_contiguous_chain (addr : Mem) (p name0 : Int) (hv : Volume addr)
    (hp : fatOffset addr 2 ≤ p)
    (h1 : 1 ≤ DIR_FileSize addr p) (h2 : DIR_FileSize addr p < 2147483648)
    (hin : InFat (fatBytes addr)
      (DIR_FstClusLO addr p + clustersNeeded (DIR_FileSize addr p) (clusterSize addr) - 1)) :
    ∃ m1, recover addr p name0 = Except.ok m1 ∧ ∀ n : Int, (n = 0 ∨ n = 1) →
      (∀ i : Int, 0 ≤ i → i < clustersNeeded (DIR_FileSize addr p) (clusterSize addr) - 1 →
        fatGet m1 (fatOffset addr n) (DIR_FstClusLO addr p + i) = DIR_FstClusLO addr p + i + 1)
      ∧ fatGet m1 (fatOffset addr n)
          (DIR_FstClusLO addr p + clustersNeeded (DIR_FileSize addr p) (clusterSize addr) - 1)
          = 0x0FFFFFF8
      ∧ (∀ c : Int, InFat (fatBytes addr) c →
          (c < DIR_FstClusLO addr p
            ∨ DIR_FstClusLO addr p + clustersNeeded (DIR_FileSize addr p) (clusterSize addr) ≤ c) →
          fatGet m1 (fatOffset addr n) c = fatGet addr (fatOffset addr n) c) := by
  have hsz := hv.size_pos
  have hk := recoverCount_eq_clustersNeeded _ _ h1 h2 (show 0 < clusterSize addr by omega)
  have hk1 := recoverCount_pos (DIR_FileSize addr p) (clusterSize addr) (by omega)
  have hlo : 0 ≤ DIR_FstClusLO addr p := (rd16_bounds addr (p + 26)).1
  have hB := hv.fatEntries
  have h2' := fatOffset_two addr
  have h1' := fatOffset_one addr
  have hreq := recover_eq addr p name0 hv hp
  rw [← hk] at hin ⊢
  generalize recoverCount (DIR_FileSize addr p) (clusterSize addr) = k at hin hk1 hreq ⊢
  generalize DIR_FstClusLO addr p = s at hin hlo hreq ⊢
  clear hk h1 h2 hsz
  unfold InFat at hin
  refine ⟨_, hreq (by omega), ?_⟩
  intro n hn
  have hkk : ((k.toNat : Nat) : Int) = k := Int.toNat_of_nonneg (by omega)
  have hc := chain_commit (fatOffset addr 0) (fatBytes addr) s k.toNat (wr8 addr p name0) hlo
    (by omega) (by omega) hB (fatOffset addr n) (by rcases hn with rfl | rfl <;> simp [h1'])
  rw [hkk] at hc
  refine ⟨hc.1, hc.2.1, ?_⟩
  intro c hcin hout
  rw [hc.2.2 c hcin hout]
  apply fatGet_wr8_below
  unfold InFat at hcin
  rcases hn with rfl | rfl <;> omega

/-! ### The other two chain writers as paired writes -/

theorem chainOf_fst (clusters : List Int) : (chainOf clusters).map Prod.fst = clusters := by
  induction clusters with
  | nil => rfl
  | cons c cs ih =>
    cases cs with
    | nil => rfl
    | cons c1 cs => rw [chainOf, List.map_cons, ih]

theorem linkClusters_eq (fat fat2 : Int) (clusters : List Int) (m : Mem) (c : Int)
    (h : clusters.getLast? = some c) :
    fatSet (fatSet (linkClusters fat fat2 clusters m) fat c EOC) fat2 c EOC
      = pairedWrites fat fat2 (chainOf clusters) m := by
  induction clusters generalizing m with
  | nil => simp at h
  | cons c0 cs ih =>
    cases cs with
    | nil =>
      simp only [List.getLast?_singleton, Option.some.injEq] at h
      subst h
      rfl
    | cons c1 cs =>
      rw [List.getLast?_cons_cons] at h
      rw [linkClusters, chainOf, pairedWrites, ih _ h]

theorem linkLoop_eq (fat fat2 cc : Int) (n : Nat) (j cur : Int) (m : Mem)
    (h1 : j ≤ cc - 1) (h2 : cc - 1 - j ≤ n) :
    fatSet (fatSet (linkLoop fat fat2 cc n j cur m).1 fat (linkLoop fat fat2 cc n j cur m).2 EOC)
        fat2 (linkLoop fat fat2 cc n j cur m).2 EOC
      = pairedWrites fat fat2 (chain cur (cc - j).toNat) m := by
  induction n generalizing j cur m with
  | zero =>
    have : (cc - j).toNat = 1 := by omega
    rw [this]
    rfl
  | succ n ih =>
    rw [linkLoop]
    by_cases e : j < cc - 1
    · rw [if_pos e, ih _ _ _ (by omega) (by omega)]
      obtain ⟨i, hi⟩ : ∃ i : Nat, (cc - j).toNat = i + 2 := ⟨(cc - j).toNat - 2, by omega⟩
      have : (cc - (j + 1)).toNat = i + 1 := by omega
      rw [hi, this]
      rfl
    · rw [if_neg e]
      have : (cc - j).toNat = 1 := by omega
      rw [this]
      rfl

theorem writeDeleted_eq (addr : Mem) (p : Int) (hv : Volume addr)
    (h : 0 < toI32 (DIR_FileSize addr p) ∧ 2 ≤ DIR_FstClusLO addr p) :
    writeDeleted addr (fatStart addr) (fat2Start addr) (clusterSize addr) p
      = Except.ok (pairedWrites (fatOffset addr 0) (fatOffset addr 0 + fatBytes addr)
          (chain (DIR_FstClusLO addr p)
            (recoverCount (DIR_FileSize addr p) (clusterSize addr)).toNat) addr) := by
  have hsz := hv.size_pos
  simp only [writeDeleted]
  rw [hv.fatStart_eq.1, hv.fat2Start_eq, if_pos (by exact ⟨h.1, h.2⟩)]
  by_cases hle : toI32 (DIR_FileSize addr p) ≤ clusterSize addr
  · have hc : recoverCount (DIR_FileSize addr p) (clusterSize addr) = 1 := by
      unfold recoverCount; rw [if_pos hle]
    rw [if_pos hle, hc]
    rfl
  · have hc : recoverCount (DIR_FileSize addr p) (clusterSize addr)
        = (toI32 (DIR_FileSize addr p) - 1) / clusterSize addr + 1 := by
      unfold recoverCount; rw [if_neg hle]
    have ht := tdiv_count _ _ hsz hle
    have hne : ¬ clusterSize addr = 0 := by omega
    rw [if_neg hle, if_neg hne, ht.1, ← hc]
    have hk1 := recoverCount_pos (DIR_FileSize addr p) (clusterSize addr) (by omega)
    have := linkLoop_eq (fatOffset addr 0) (fatOffset addr 0 + fatBytes addr)
      (recoverCount (DIR_FileSize addr p) (clusterSize addr))
      (recoverCount (DIR_FileSize addr p) (clusterSize addr) - 1).toNat 0
      (DIR_FstClusLO addr p) addr (by omega) (by omega)
    rw [sub_zero] at this
    rw [← this]
    rfl

theorem writeDeleted_skip (addr : Mem) (fat fat2 size p : Int)
    (h : ¬ (0 < toI32 (DIR_FileSize addr p) ∧ 2 ≤ DIR_FstClusLO addr p)) :
    writeDeleted addr fat fat2 size p = Except.ok addr := by
  simp only [writeDeleted]
  rw [if_neg (by simpa using h)]
  rfl

theorem tryClusterPermutation_ok (SHA1 : List Nat → List Nat) (heap : Nat → Nat) (addr : Mem)
    (file fat fat2 : Int) (clusters : List Int) (targetHash : List Nat) (m1 : Mem)
    (h : tryClusterPermutation SHA1 heap addr file fat fat2 clusters targetHash
      = Except.ok (m1, true)) :
    m1 = pairedWrites fat fat2 (chainOf clusters) addr := by
  simp only [tryClusterPermutation] at h
  split_ifs at h with hh
  · cases hl : clusters.getLast? with
    | none => rw [hl] at h; cases h
    | some c =>
      rw [hl] at h
      simp only [pure, Except.pure, Except.ok.injEq, Prod.mk.injEq, and_true] at h
      rw [← h, linkClusters_eq _ _ _ _ _ hl]
  · simp [pure, Except.pure] at h

/-! ### Both-FATs equality -/

theorem mirror_after (fat B : Int) (ws : List (Int × Int)) (m : Mem)
    (hin : ∀ w ∈ ws, InFat B w.1) :
    (∀ c ∈ ws.map Prod.fst, fatGet (pairedWrites fat (fat + B) ws m) fat c
        = fatGet (pairedWrites fat (fat + B) ws m) (fat + B) c)
    ∧ ((∀ c, InFat B c → fatGet m fat c = fatGet m (fat + B) c) →
        ∀ c, InFat B c → fatGet (pairedWrites fat (fat + B) ws m) fat c
          = fatGet (pairedWrites fat (fat + B) ws m) (fat + B) c) := by
  constructor
  · intro c hc
    obtain ⟨w, hw, rfl⟩ := List.mem_map.1 hc
    exact pairedWrites_mirror fat B ws m hin w.1 (hin w hw) (Or.inl hc)
  · intro h c hc
    exact pairedWrites_mirror fat B ws m hin c hc (Or.inr (h c hc))

/-- C6 (P3, both-FATs equality): on a volume with two FAT copies, when the cluster
indices written lie inside one FAT, each of the three chain writers (`recover`,
`tryClusterPermutation` when it returns 1, the inline writer of `recoverAllDeleted`)
leaves `fat(0, c) = fat(1, c)` for every cluster `c` it wrote, and if the two copies
agreed on every entry before the operation they agree on every entry after it. -/
theorem recovery_keeps_fat_copies_equal (SHA1 : List Nat → List Nat) (heap : Nat → Nat)
    (addr : Mem) (p name0 file : Int) (clusters : List Int) (targetHash : List Nat)
    (hv : Volume addr) (hp : fatOffset addr 2 ≤ p)
    (hin : InFat (fatBytes addr)
      (DIR_FstClusLO addr p + recoverCount (DIR_FileSize addr p) (clusterSize addr) - 1))
    (hcl : ∀ c ∈ clusters, InFat (fatBytes addr) c) :
    (∃ m1, recover addr p name0 = Except.ok m1
      ∧ (∀ c, DIR_FstClusLO addr p ≤ c →
          c < DIR_FstClusLO addr p + recoverCount (DIR_FileSize addr p) (clusterSize addr) →
          fatGet m1 (fatOffset addr 0) c = fatGet m1 (fatOffset addr 1) c)
      ∧ ((∀ c, InFat (fatBytes addr) c →
            fatGet addr (fatOffset addr 0) c = fatGet addr (fatOffset addr 1) c) →
          ∀ c, InFat (fatBytes addr) c →
            fatGet m1 (fatOffset addr 0) c = fatGet m1 (fatOffset addr 1) c))
    ∧ (∀ m1, tryClusterPermutation SHA1 heap addr file (fatStart addr) (fat2Start addr)
          clusters targetHash = Except.ok (m1, true) →
        (∀ c ∈ clusters, fatGet m1 (fatOffset addr 0) c = fatGet m1 (fatOffset addr 1) c)
        ∧ ((∀ c, InFat (fatBytes addr) c →
              fatGet addr (fatOffset addr 0) c = fatGet addr (fatOffset addr 1) c) →
            ∀ c, InFat (fatBytes addr) c →
              fatGet m1 (fatOffset addr 0) c = fatGet m1 (fatOffset addr 1) c))
    ∧ (∃ m1, writeDeleted addr (fatStart addr) (fat2Start addr) (clusterSize addr) p
          = Except.ok m1
      ∧ (0 < toI32 (DIR_FileSize addr p) ∧ 2 ≤ DIR_FstClusLO addr p →
          ∀ c, DIR_FstClusLO addr p ≤ c →
          c < DIR_FstClusLO addr p + recoverCount (DIR_FileSize addr p) (clusterSize addr) →
          fatGet m1 (fatOffset addr 0) c = fatGet m1 (fatOffset addr 1) c)
      ∧ ((∀ c, InFat (fatBytes addr) c →
            fatGet addr (fatOffset addr 0) c = fatGet addr (fatOffset addr 1) c) →
          ∀ c, InFat (fatBytes addr) c →
            fatGet m1 (fatOffset addr 0) c = fatGet m1 (fatOffset addr 1) c)) := by
  have hsz := hv.size_pos
  have hk1 := recoverCount_pos (DIR_FileSize addr p) (clusterSize addr) (by omega)
  have hlo : 0 ≤ DIR_FstClusLO addr p := (rd16_bounds addr (p + 26)).1
  have h2' := fatOffset_two addr
  have h1' := fatOffset_one addr
  have hB := hv.fatBytes_pos
  have hreq := recover_eq addr p name0 hv hp
  have hweq := writeDeleted_eq addr p hv
  have hwskip := writeDeleted_skip addr (fatStart addr) (fat2Start addr) (clusterSize addr) p
  have hf1 := hv.fatStart_eq.1
  have hf2 := hv.fat2Start_eq
  rw [h1']
  generalize recoverCount (DIR_FileSize addr p) (clusterSize addr) = k at hin hk1 hreq hweq ⊢
  generalize DIR_FstClusLO addr p = s at hin hlo hreq hweq hwskip ⊢
  clear hsz
  unfold InFat at hin
  have hkk : ((k.toNat : Nat) : Int) = k := Int.toNat_of_nonneg (by omega)
  have hch := chain_inFat (fatBytes addr) s k.toNat hlo (by omega)
  have hmem : ∀ c, s ≤ c → c < s + k → c ∈ (chain s k.toNat).map Prod.fst := by
    intro c h1 h2
    rw [chain_mem_fst]
    omega
  refine ⟨⟨_, hreq (by omega), ?_, ?_⟩, ?_, ?_⟩
  · intro c h1 h2
    exact (mirror_after _ _ _ (wr8 addr p name0) hch).1 c (hmem c h1 h2)
  · intro h c hc
    refine (mirror_after _ _ _ (wr8 addr p name0) hch).2 ?_ c hc
    intro c1 hc1
    unfold InFat at hc1
    rw [fatGet_wr8_below _ _ _ _ _ (by omega), fatGet_wr8_below _ _ _ _ _ (by omega)]
    exact h c1 hc1
  · intro m1 hm1
    have e := tryClusterPermutation_ok _ _ _ _ _ _ _ _ _ hm1
    rw [hf1, hf2] at e
    have hcl' : ∀ w ∈ chainOf clusters, InFat (fatBytes addr) w.1 := by
      intro w hw
      apply hcl
      rw [← chainOf_fst clusters]
      exact List.mem_map.2 ⟨w, hw, rfl⟩
    have hm := mirror_after (fatOffset addr 0) (fatBytes addr) (chainOf clusters) addr hcl'
    rw [chainOf_fst, ← e] at hm
    exact hm
  · by_cases hw : 0 < toI32 (DIR_FileSize addr p) ∧ 2 ≤ s
    · refine ⟨_, hweq hw, ?_, ?_⟩
      · intro _ c h1 h2
        exact (mirror_after _ _ _ addr hch).1 c (hmem c h1 h2)
      · exact (mirror_after _ _ _ addr hch).2
    · refine ⟨_, hwskip hw, ?_, ?_⟩
      · intro h; exact absurd h hw
      · exact fun h => h

/-- C7 (amended, P4): on a volume with two FAT copies, for a directory slot in the data
area whose chain as written by `recover` lies inside the FAT, after `recover` the
byte `name[0]` of the slot is `T[0]` and the other 31 bytes of the slot are unchanged. -/
theorem recover_restores_first_byte_only (addr : Mem) (p name0 : Int) (hv : Volume addr)
    (hp : fatOffset addr 2 ≤ p)
    (hin : InFat (fatBytes addr)
      (DIR_FstClusLO addr p + recoverCount (DIR_FileSize addr p) (clusterSize addr) - 1)) :
    ∃ m1, recover addr p name0 = Except.ok m1 ∧ rd8 m1 p = name0 % 256
      ∧ ∀ j : Int, 1 ≤ j → j < 32 → rd8 m1 (p + j) = rd8 addr (p + j) := by
  have hsz := hv.size_pos
  have hk1 := recoverCount_pos (DIR_FileSize addr p) (clusterSize addr) (by omega)
  have hlo : 0 ≤ DIR_FstClusLO addr p := (rd16_bounds addr (p + 26)).1
  have h2' := fatOffset_two addr
  have hB := hv.fatBytes_pos
  have hreq := recover_eq addr p name0 hv hp
  generalize recoverCount (DIR_FileSize addr p) (clusterSize addr) = k at hin hk1 hreq ⊢
  generalize DIR_FstClusLO addr p = s at hin hlo hreq ⊢
  clear hsz
  unfold InFat at hin
  have hch := chain_inFat (fatBytes addr) s k.toNat hlo (by omega)
  have hfr : ∀ q, p ≤ q → pairedWrites (fatOffset addr 0) (fatOffset addr 0 + fatBytes addr)
      (chain s k.toNat) (wr8 addr p name0) q = wr8 addr p name0 q := by
    intro q hq
    apply pairedWrites_frame
    intro w hw
    have := hch w hw
    unfold InFat at this
    omega
  refine ⟨_, hreq (by omega), ?_, ?_⟩
  · rw [rd8_congr (hfr p (le_refl _)), rd8_wr8_same]
  · intro j h1 h2
    rw [rd8_congr (hfr (p + j) (by omega)), rd8_congr (wr8_other _ _ _ _ (by omega))]


/-! ### Lexicographic order on arrangements -/

theorem cons_lt_cons_iff (a b : Int) (l l1 : List Int) :
    a :: l < b :: l1 ↔ a < b ∨ (a = b ∧ l < l1) := by
  constructor
  · intro h
    cases h with
    | cons h => exact Or.inr ⟨rfl, h⟩
    | rel h => exact Or.inl h
  · rintro (h | ⟨rfl, h⟩)
    · exact List.Lex.rel h
    · exact List.Lex.cons h

theorem cons_le_cons_same (a : Int) {l l1 : List Int} (h : l ≤ l1) : a :: l ≤ a :: l1 := by
  rcases lt_or_eq_of_le h with h | h
  · exact le_of_lt ((cons_lt_cons_iff a a l l1).2 (Or.inr ⟨rfl, h⟩))
  · rw [h]

theorem append_lt_append_left (pre : List Int) {l l1 : List Int} (h : l < l1) :
    pre ++ l < pre ++ l1 :=
  List.Lex.append_left _ h pre

/-- An arrangement in non-decreasing order is the least among its rearrangements. -/
theorem sorted_le_of_perm {l : List Int} (hs : l.Sorted (· ≤ ·)) :
    ∀ {t : List Int}, t.Perm l → l ≤ t := by
  induction l with
  | nil => intro t ht; rw [List.Perm.eq_nil ht]
  | cons a l ih =>
    intro t ht
    cases t with
    | nil => exact absurd (List.Perm.symm ht).eq_nil (by simp)
    | cons b t =>
      have hb : b ∈ a :: l := ht.subset (List.mem_cons_self _ _)
      have hab : a ≤ b := by
        rcases List.mem_cons.1 hb with rfl | hb
        · exact le_refl _
        · exact List.rel_of_sorted_cons hs b hb
      rcases lt_or_eq_of_le hab with h | rfl
      · exact le_of_lt ((cons_lt_cons_iff _ _ _ _).2 (Or.inl h))
      · exact cons_le_cons_same a (ih (List.Sorted.of_cons hs) (List.Perm.cons_inv ht))

/-- An arrangement in non-increasing order is the greatest among its rearrangements. -/
theorem perm_le_of_sorted_ge {l : List Int} (hs : l.Sorted (· ≥ ·)) :
    ∀ {t : List Int}, t.Perm l → t ≤ l := by
  induction l with
  | nil => intro t ht; rw [List.Perm.eq_nil ht]
  | cons a l ih =>
    intro t ht
    cases t with
    | nil => exact absurd (List.Perm.symm ht).eq_nil (by simp)
    | cons b t =>
      have hb : b ∈ a :: l := ht.subset (List.mem_cons_self _ _)
      have hab : b ≤ a := by
        rcases List.mem_cons.1 hb with rfl | hb
        · exact le_refl _
        · exact List.rel_of_sorted_cons hs b hb
      rcases lt_or_eq_of_le hab with h | rfl
      · exact le_of_lt ((cons_lt_cons_iff _ _ _ _).2 (Or.inl h))
      · exact cons_le_cons_same b (ih (List.Sorted.of_cons hs) (List.Perm.cons_inv ht))

/-- The arrangement produced from `x :: s1 ++ y :: s2` (tail non-increasing, `y` the last
element greater than `x`) is its successor: the core of `next_permutation`. -/
theorem succ_core (x y : Int) (s1 s2 : List Int) (hsuf : (s1 ++ y :: s2).Sorted (· ≥ ·))
    (hxy : x < y) (hs2 : ∀ z ∈ s2, z ≤ x) (q : List Int)
    (hq : q.Perm (x :: (s1 ++ y :: s2))) (hlt : x :: (s1 ++ y :: s2) < q) :
    y :: (s1 ++ x :: s2).reverse ≤ q := by
  cases q with
  | nil => exact absurd hq.symm.eq_nil (by simp)
  | cons h t =>
    rcases (cons_lt_cons_iff _ _ _ _).1 hlt with hxh | ⟨rfl, hst⟩
    · have hh : h ∈ x :: (s1 ++ y :: s2) := hq.subset (List.mem_cons_self _ _)
      have hh2 : h ∈ s1 ∨ h = y := by
        rcases List.mem_cons.1 hh with rfl | hh
        · exact absurd hxh (lt_irrefl _)
        · rcases List.mem_append.1 hh with h1 | h1
          · exact Or.inl h1
          · rcases List.mem_cons.1 h1 with h1 | h1
            · exact Or.inr h1
            · exact absurd (hs2 h h1) (not_le.2 hxh)
      have hyh : y ≤ h := by
        rcases hh2 with h1 | rfl
        · have := (List.pairwise_append.1 hsuf).2.2 h h1 y (List.mem_cons_self _ _)
          exact this
        · exact le_refl _
      rcases lt_or_eq_of_le hyh with h1 | rfl
      · exact le_of_lt ((cons_lt_cons_iff _ _ _ _).2 (Or.inl h1))
      · apply cons_le_cons_same
        have hdesc : (s1 ++ x :: s2).Sorted (· ≥ ·) := by
          have hp := List.pairwise_append.1 hsuf
          refine List.pairwise_append.2 ⟨hp.1, ?_, ?_⟩
          · exact List.pairwise_cons.2 ⟨fun z hz => hs2 z hz, (List.pairwise_cons.1 hp.2.1).2⟩
          · intro a ha b hb
            rcases List.mem_cons.1 hb with rfl | hb
            · have := hp.2.2 a ha y (List.mem_cons_self _ _)
              exact le_of_lt (lt_of_lt_of_le hxy this)
            · exact hp.2.2 a ha b (List.mem_cons_of_mem _ hb)
        have hasc : (s1 ++ x :: s2).reverse.Sorted (· ≤ ·) := by
          rw [List.Sorted, List.pairwise_reverse]
          exact hdesc
        apply sorted_le_of_perm hasc
        have h1 : (y :: t).Perm (y :: (s1 ++ x :: s2)) := by
          refine hq.trans ?_
          refine (List.Perm.cons x List.perm_middle).trans ?_
          refine (List.Perm.swap y x _).trans ?_
          exact List.Perm.cons y List.perm_middle.symm
        exact (List.Perm.cons_inv h1).trans (List.reverse_perm _).symm
    · have := perm_le_of_sorted_ge hsuf (List.Perm.cons_inv hq)
      exact absurd hst (not_lt.2 this)

theorem succ_min (pre : List Int) (x y : Int) (s1 s2 : List Int)
    (hsuf : (s1 ++ y :: s2).Sorted (· ≥ ·))
    (hxy : x < y) (hs2 : ∀ z ∈ s2, z ≤ x) (q : List Int)
    (hq : q.Perm (pre ++ x :: (s1 ++ y :: s2))) (hlt : pre ++ x :: (s1 ++ y :: s2) < q) :
    pre ++ y :: (s1 ++ x :: s2).reverse ≤ q := by
  induction pre generalizing q with
  | nil => exact succ_core x y s1 s2 hsuf hxy hs2 q hq hlt
  | cons a pre ih =>
    cases q with
    | nil => exact absurd hq.symm.eq_nil (by simp)
    | cons h t =>
      rcases (cons_lt_cons_iff _ _ _ _).1 hlt with hah | ⟨rfl, hst⟩
      · exact le_of_lt ((cons_lt_cons_iff _ _ _ _).2 (Or.inl hah))
      · exact cons_le_cons_same a (ih t (List.Perm.cons_inv hq) hst)

theorem succ_perm (pre : List Int) (x y : Int) (s1 s2 : List Int) :
    (pre ++ y :: (s1 ++ x :: s2).reverse).Perm (pre ++ x :: (s1 ++ y :: s2)) := by
  apply List.Perm.append_left
  refine (List.Perm.cons y (List.reverse_perm _)).trans ?_
  refine (List.Perm.cons y List.perm_middle).trans ?_
  refine (List.Perm.swap x y _).trans ?_
  exact List.Perm.cons x List.perm_middle.symm

theorem succ_lt (pre : List Int) (x y : Int) (s1 s2 : List Int) (hxy : x < y) :
    pre ++ x :: (s1 ++ y :: s2) < pre ++ y :: (s1 ++ x :: s2).reverse :=
  append_lt_append_left pre ((cons_lt_cons_iff _ _ _ _).2 (Or.inl hxy))

/-! ### The loops of `next_permutation` on a decomposed array -/

theorem getD_mid (pre : List Int) (x : Int) (post : List Int) (k : Nat) (hk : k = pre.length) :
    (pre ++ x :: post).getD k 0 = x := by
  subst hk
  rw [List.getD_append_right _ _ _ _ (le_refl _), Nat.sub_self, List.getD_cons_zero]

theorem set_mid (pre : List Int) (x y : Int) (post : List Int) (k : Nat) (hk : k = pre.length) :
    (pre ++ x :: post).set k y = pre ++ y :: post := by
  subst hk
  rw [List.set_append_right _ _ (le_refl _), Nat.sub_self, List.set_cons_zero]

theorem swap_decomp (pre : List Int) (a : Int) (mid : List Int) (b : Int) (post : List Int)
    (i j : Nat) (hi : i = pre.length) (hj : j = pre.length + 1 + mid.length) :
    swap (pre ++ a :: (mid ++ b :: post)) i j = pre ++ b :: (mid ++ a :: post) := by
  have hj' : j = (pre ++ a :: mid).length := by simp [hj]; omega
  have hj2 : j = (pre ++ b :: mid).length := by simp [hj]; omega
  have g1 : (pre ++ a :: (mid ++ b :: post)).getD i 0 = a := getD_mid pre a _ i hi
  have g2 : (pre ++ a :: (mid ++ b :: post)).getD j 0 = b := by
    have := getD_mid (pre ++ a :: mid) b post j hj'
    simpa using this
  unfold swap
  rw [g1, g2, set_mid pre a b _ i hi]
  have := set_mid (pre ++ b :: mid) b a post j hj2
  simpa using this

theorem reverseFrom_decomp (n : Nat) : ∀ (t pre post : List Int) (fuel i j : Nat),
    t.length = n → i = pre.length → j + 1 = pre.length + t.length → t.length ≤ 2 * fuel + 1 →
    reverseFrom (pre ++ (t ++ post)) fuel i j = pre ++ (t.reverse ++ post) := by
  induction n using Nat.strong_induction_on with
  | _ n ih =>
    intro t pre post fuel i j hn hi hj hf
    rcases List.eq_nil_or_concat t with rfl | ⟨t1, b, rfl⟩
    · cases fuel with
      | zero => rfl
      | succ f =>
        rw [reverseFrom, if_neg (by simp at hj; omega)]
        rfl
    · rw [List.concat_eq_append] at *
      cases t1 with
      | nil =>
        cases fuel with
        | zero => rfl
        | succ f =>
          rw [reverseFrom, if_neg (by simp at hj; omega)]
          rfl
      | cons a mid =>
        cases fuel with
        | zero => simp at hf
        | succ f =>
          have hlt : i < j := by simp at hj; omega
          rw [reverseFrom, if_pos hlt]
          have e : pre ++ ((a :: mid ++ [b]) ++ post) = pre ++ a :: (mid ++ b :: post) := by simp
          rw [e, swap_decomp pre a mid b post i j hi (by simp at hj; omega)]
          have e2 : pre ++ b :: (mid ++ a :: post) = (pre ++ [b]) ++ (mid ++ (a :: post)) := by
            simp
          rw [e2, ih mid.length (by simp at hn; omega) mid (pre ++ [b]) (a :: post) f (i + 1) (j - 1)
            rfl (by simp [hi]) (by simp at hj ⊢; omega) (by simp at hf; omega)]
          simp

theorem getD_in_suffix (front suf : List Int) (k : Nat) :
    (front ++ suf).getD (front.length + k) 0 = suf.getD k 0 := by
  rw [List.getD_append_right _ _ _ _ (by omega), Nat.add_sub_cancel_left]

theorem sorted_ge_getD {suf : List Int} (hs : suf.Sorted (· ≥ ·)) (k : Nat)
    (hk : k + 1 < suf.length) : suf.getD k 0 ≥ suf.getD (k + 1) 0 := by
  rw [List.getD_eq_getElem _ _ (by omega), List.getD_eq_getElem _ _ hk]
  exact List.pairwise_iff_getElem.1 hs k (k + 1) (by omega) hk (by omega)

/-- Scanning down through a non-increasing tail ends where the tail begins. -/
theorem pivotIndex_suffix (front suf : List Int) (hs : suf.Sorted (· ≥ ·)) (k : Nat)
    (hk : k < suf.length) :
    pivotIndex (front ++ suf) (front.length + k) = pivotIndex (front ++ suf) front.length := by
  induction k with
  | zero => rfl
  | succ k ih =>
    rw [← Nat.add_assoc, pivotIndex, getD_in_suffix, Nat.add_assoc, getD_in_suffix,
      if_pos (sorted_ge_getD hs k hk)]
    exact ih (by omega)

theorem pivotIndex_sorted (arr : List Int) (hs : arr.Sorted (· ≥ ·)) :
    pivotIndex arr (arr.length - 1) = 0 := by
  cases arr with
  | nil => rfl
  | cons a l =>
    have := pivotIndex_suffix [] (a :: l) hs l.length (by simp)
    simpa [pivotIndex] using this

theorem pivotIndex_decomp (pre : List Int) (x y : Int) (suf : List Int)
    (hs : (y :: suf).Sorted (· ≥ ·)) (hxy : x < y) :
    pivotIndex (pre ++ x :: y :: suf) ((pre ++ x :: y :: suf).length - 1) = pre.length + 1 := by
  have e : pre ++ x :: y :: suf = (pre ++ [x]) ++ (y :: suf) := by simp
  have hl : (pre ++ x :: y :: suf).length - 1 = (pre ++ [x]).length + suf.length := by
    simp; omega
  rw [hl, e, pivotIndex_suffix _ _ hs _ (by simp)]
  have hl2 : (pre ++ [x]).length = pre.length + 1 := by simp
  rw [hl2, pivotIndex]
  have g1 : (pre ++ [x] ++ y :: suf).getD pre.length 0 = x := by
    have := getD_mid pre x (y :: suf) pre.length rfl
    simpa using this
  have g2 : (pre ++ [x] ++ y :: suf).getD (pre.length + 1) 0 = y := by
    have := getD_mid (pre ++ [x]) y suf (pre.length + 1) (by simp)
    simpa using this
  rw [g1, g2, if_neg (not_le.2 hxy)]

theorem succIndex_decomp (front : List Int) (y : Int) (s2 : List Int) (pivot : Int)
    (hy : pivot < y) (hs2 : ∀ z ∈ s2, z ≤ pivot) (k : Nat) (hk : k ≤ s2.length) :
    succIndex (front ++ y :: s2) pivot (front.length + k) = some front.length := by
  induction k with
  | zero =>
    have g := getD_mid front y s2 front.length rfl
    cases hf : front.length with
    | zero =>
      rw [hf] at g
      rw [Nat.add_zero, succIndex, g, if_neg (not_le.2 hy)]
    | succ j =>
      rw [hf] at g
      rw [Nat.add_zero, succIndex, g, if_neg (not_le.2 hy)]
  | succ k ih =>
    have g : (front ++ y :: s2).getD (front.length + k + 1) 0 ≤ pivot := by
      have e : front ++ y :: s2 = (front ++ [y]) ++ s2 := by simp
      have hl : front.length + k + 1 = (front ++ [y]).length + k := by simp; omega
      rw [e, hl, getD_in_suffix, List.getD_eq_getElem _ _ (by omega)]
      exact hs2 _ (List.getElem_mem _)
    rw [← Nat.add_assoc, succIndex, if_pos g]
    exact ih (by omega)

/-! ### Decomposing an array that is not in non-increasing order -/

theorem exists_pivot (arr : List Int) (h : ¬ arr.Sorted (· ≥ ·)) :
    ∃ pre x y suf, arr = pre ++ x :: y :: suf ∧ (y :: suf).Sorted (· ≥ ·) ∧ x < y := by
  induction arr with
  | nil => exact absurd List.sorted_nil h
  | cons a rest ih =>
    by_cases hr : rest.Sorted (· ≥ ·)
    · cases rest with
      | nil => exact absurd (List.sorted_singleton a) h
      | cons b rest =>
        by_cases hab : a ≥ b
        · exfalso
          apply h
          refine List.pairwise_cons.2 ⟨?_, hr⟩
          intro c hc
          rcases List.mem_cons.1 hc with rfl | hc
          · exact hab
          · exact le_trans (List.rel_of_sorted_cons hr c hc) hab
        · exact ⟨[], a, b, rest, rfl, hr, not_le.1 hab⟩
    · obtain ⟨pre, x, y, suf, e, hs, hxy⟩ := ih hr
      exact ⟨a :: pre, x, y, suf, by rw [e]; rfl, hs, hxy⟩

theorem exists_last_gt (suf : List Int) (x : Int) (h : ∃ z ∈ suf, x < z) :
    ∃ s1 y s2, suf = s1 ++ y :: s2 ∧ x < y ∧ ∀ z ∈ s2, z ≤ x := by
  induction suf using List.reverseRecOn with
  | nil => obtain ⟨z, hz, _⟩ := h; cases hz
  | append_singleton init z ih =>
    by_cases hz : x < z
    · exact ⟨init, z, [], rfl, hz, by simp⟩
    · obtain ⟨w, hw, hxw⟩ := h
      have hw' : w ∈ init := by
        rcases List.mem_append.1 hw with hw | hw
        · exact hw
        · simp at hw; subst hw; exact absurd hxw hz
      obtain ⟨s1, y, s2, e, hy, hs2⟩ := ih ⟨w, hw', hxw⟩
      refine ⟨s1, y, s2 ++ [z], by rw [e]; simp, hy, ?_⟩
      intro c hc
      rcases List.mem_append.1 hc with hc | hc
      · exact hs2 c hc
      · simp at hc; subst hc; exact not_lt.1 hz

/-- Shape of an array that is not in non-increasing order: a pivot `x` followed by a
non-increasing tail in which `y` is the last element greater than `x`. -/
theorem exists_decomp (arr : List Int) (h : ¬ arr.Sorted (· ≥ ·)) :
    ∃ pre x s1 y s2, arr = pre ++ x :: (s1 ++ y :: s2) ∧ (s1 ++ y :: s2).Sorted (· ≥ ·)
      ∧ x < y ∧ (∀ z ∈ s2, z ≤ x) ∧ s1 ++ y :: s2 ≠ [] ∧ (∀ h0 ∈ (s1 ++ y :: s2).head?, x < h0) := by
  obtain ⟨pre, x, y0, suf, e, hs, hxy⟩ := exists_pivot arr h
  obtain ⟨s1, y, s2, e2, hy, hs2⟩ := exists_last_gt (y0 :: suf) x ⟨y0, List.mem_cons_self _ _, hxy⟩
  refine ⟨pre, x, s1, y, s2, by rw [e, e2], by rw [← e2]; exact hs, hy, hs2, by simp, ?_⟩
  rw [← e2]
  intro h0 hh
  simp at hh
  subst hh
  exact hxy

/-- What `next_permutation` returns on an array that is not in non-increasing order. -/
theorem next_permutation_decomp (pre : List Int) (x : Int) (s1 : List Int) (y : Int)
    (s2 : List Int) (hs : (s1 ++ y :: s2).Sorted (· ≥ ·)) (hxy : x < y)
    (hs2 : ∀ z ∈ s2, z ≤ x) :
    next_permutation (pre ++ x :: (s1 ++ y :: s2))
      = some (pre ++ y :: (s1 ++ x :: s2).reverse, true) := by
  have hhead : ∃ y0 suf, s1 ++ y :: s2 = y0 :: suf ∧ x < y0 := by
    cases s1 with
    | nil => exact ⟨y, s2, rfl, hxy⟩
    | cons a s1 =>
      refine ⟨a, s1 ++ y :: s2, rfl, ?_⟩
      have := List.rel_of_sorted_cons hs y (by simp)
      exact lt_of_lt_of_le hxy this
  obtain ⟨y0, suf, e0, hxy0⟩ := hhead
  have hp : pivotIndex (pre ++ x :: (s1 ++ y :: s2)) ((pre ++ x :: (s1 ++ y :: s2)).length - 1)
      = pre.length + 1 := by
    rw [e0]
    exact pivotIndex_decomp pre x y0 suf (by rw [← e0]; exact hs) hxy0
  have hx : (pre ++ x :: (s1 ++ y :: s2)).getD (pre.length + 1 - 1) 0 = x :=
    getD_mid pre x _ _ (by omega)
  have hsucc : succIndex (pre ++ x :: (s1 ++ y :: s2)) x ((pre ++ x :: (s1 ++ y :: s2)).length - 1)
      = some (pre.length + 1 + s1.length) := by
    have e : pre ++ x :: (s1 ++ y :: s2) = (pre ++ x :: s1) ++ y :: s2 := by simp
    have hl : ((pre ++ x :: s1) ++ y :: s2).length - 1 = (pre ++ x :: s1).length + s2.length := by
      simp; omega
    have := succIndex_decomp (pre ++ x :: s1) y s2 x hxy hs2 s2.length (le_refl _)
    rw [e, hl, this]
    simp
    omega
  unfold next_permutation
  simp only [hp, hx, hsucc]
  rw [if_neg (by omega)]
  simp only [Nat.add_sub_cancel]
  rw [swap_decomp pre x s1 y s2 _ _ rfl rfl]
  have e : pre ++ y :: (s1 ++ x :: s2) = (pre ++ [y]) ++ ((s1 ++ x :: s2) ++ []) := by simp
  rw [e, reverseFrom_decomp _ (s1 ++ x :: s2) (pre ++ [y]) [] _ (pre.length + 1) _ rfl (by simp)
    (by simp; omega) (by simp; omega)]
  simp

theorem next_permutation_sorted (arr : List Int) (hs : arr.Sorted (· ≥ ·)) :
    next_permutation arr = some (arr, false) := by
  unfold next_permutation
  simp only [pivotIndex_sorted arr hs]
  rfl

/-! ### `next_permutation` computes the lexicographic successor -/

theorem next_permutation_spec (arr : List Int) :
    (arr.Sorted (· ≥ ·) ∧ next_permutation arr = some (arr, false))
    ∨ (¬ arr.Sorted (· ≥ ·) ∧ ∃ arr1, next_permutation arr = some (arr1, true) ∧ arr1.Perm arr
        ∧ arr < arr1 ∧ ∀ q : List Int, q.Perm arr → arr < q → arr1 ≤ q) := by
  by_cases h : arr.Sorted (· ≥ ·)
  · exact Or.inl ⟨h, next_permutation_sorted arr h⟩
  · right
    obtain ⟨pre, x, s1, y, s2, e, hs, hxy, hs2, _, _⟩ := exists_decomp arr h
    refine ⟨h, pre ++ y :: (s1 ++ x :: s2).reverse, ?_, ?_, ?_, ?_⟩
    · rw [e]; exact next_permutation_decomp pre x s1 y s2 hs hxy hs2
    · rw [e]; exact succ_perm pre x y s1 s2
    · rw [e]; exact succ_lt pre x y s1 s2 hxy
    · intro q hq hlt
      rw [e] at hq hlt
      exact succ_min pre x y s1 s2 hs hxy hs2 q hq hlt

/-! ### The `do ... while (next_permutation(...))` loop visits every arrangement once -/

theorem visited_enum (arr0 : List Int) : ∀ (n : Nat) (cur : List Int), cur.Perm arr0 →
    (arr0.permutations.toFinset.filter (fun q => cur < q)).card = n →
    ∃ seq : List (List Int), (∀ fuel, n + 1 ≤ fuel → visited fuel cur = Except.ok seq)
      ∧ seq.Sorted (· < ·) ∧ (∀ q, q ∈ seq ↔ q.Perm arr0 ∧ cur ≤ q)
      ∧ (∃ last, seq.getLast? = some last ∧ last.Sorted (· ≥ ·))
      ∧ (∀ q ∈ seq, ¬ q.Sorted (· ≥ ·) → ∃ q1, next_permutation q = some (q1, true)) := by
  intro n
  induction n using Nat.strong_induction_on with
  | _ n ih =>
    intro cur hcur hcard
    rcases next_permutation_spec cur with ⟨hs, hnp⟩ | ⟨hns, arr1, hnp, hperm, hlt, hmin⟩
    · refine ⟨[cur], ?_, List.sorted_singleton _, ?_, ⟨cur, rfl, hs⟩, ?_⟩
      · intro fuel hf
        obtain ⟨f, rfl⟩ : ∃ f, fuel = f + 1 := ⟨fuel - 1, by omega⟩
        rw [visited, hnp]
        rfl
      · intro q
        rw [List.mem_singleton]
        constructor
        · rintro rfl
          exact ⟨hcur, le_refl _⟩
        · rintro ⟨hq, hle⟩
          exact le_antisymm (perm_le_of_sorted_ge hs (hq.trans hcur.symm)) hle
      · intro q hq hq2
        rw [List.mem_singleton] at hq
        subst hq
        exact absurd hs hq2
    · have hsub : arr0.permutations.toFinset.filter (fun q => arr1 < q)
          ⊂ arr0.permutations.toFinset.filter (fun q => cur < q) := by
        rw [Finset.ssubset_iff_of_subset]
        · refine ⟨arr1, ?_, ?_⟩
          · rw [Finset.mem_filter, List.mem_toFinset, List.mem_permutations]
            exact ⟨hperm.trans hcur, hlt⟩
          · rw [Finset.mem_filter]
            exact fun h => lt_irrefl _ h.2
        · intro q hq
          rw [Finset.mem_filter] at hq ⊢
          exact ⟨hq.1, lt_trans hlt hq.2⟩
      have hlt2 := Finset.card_lt_card hsub
      rw [hcard] at hlt2
      obtain ⟨seq1, hfuel, hsorted, hmem, ⟨last, hlast, hlasts⟩, hnext⟩ :=
        ih _ hlt2 arr1 (hperm.trans hcur) rfl
      refine ⟨cur :: seq1, ?_, ?_, ?_, ⟨last, ?_, hlasts⟩, ?_⟩
      · intro fuel hf
        obtain ⟨f, rfl⟩ : ∃ f, fuel = f + 1 := ⟨fuel - 1, by omega⟩
        rw [visited, hnp]
        simp only []
        rw [hfuel f (by omega)]
        rfl
      · refine List.pairwise_cons.2 ⟨?_, hsorted⟩
        intro q hq
        exact lt_of_lt_of_le hlt ((hmem q).1 hq).2
      · intro q
        rw [List.mem_cons, hmem]
        constructor
        · rintro (rfl | ⟨h1, h2⟩)
          · exact ⟨hcur, le_refl _⟩
          · exact ⟨h1, le_of_lt (lt_of_lt_of_le hlt h2)⟩
        · rintro ⟨h1, h2⟩
          rcases lt_or_eq_of_le h2 with h | h
          · exact Or.inr ⟨h1, hmin q (h1.trans hcur.symm) h⟩
          · exact Or.inl h.symm
      · cases seq1 with
        | nil => simp at hlast
        | cons a l => rw [List.getLast?_cons_cons]; exact hlast
      · intro q hq hq2
        rcases List.mem_cons.1 hq with rfl | hq
        · exact ⟨arr1, hnp⟩
        · exact hnext q hq hq2

/-- C8 (P5, permutation coverage): starting from an array in non-decreasing order, the
loop `do { visit } while (next_permutation(arr, n))` terminates (every large enough
iteration bound gives the same result), the arrangements it visits are pairwise distinct
and are exactly the rearrangements of the array, the last one visited is the
non-increasing arrangement, on which `next_permutation` returns 0 and leaves the array
as it is, and on every other one it returns 1. -/
theorem next_permutation_enumerates (arr : List Int) (hs : arr.Sorted (· ≤ ·)) :
    ∃ (N : Nat) (seq : List (List Int)),
      (∀ fuel, N ≤ fuel → visited fuel arr = Except.ok seq)
      ∧ seq.Nodup ∧ (∀ q, q ∈ seq ↔ q.Perm arr)
      ∧ seq.getLast? = some arr.reverse ∧ arr.reverse.Sorted (· ≥ ·)
      ∧ next_permutation arr.reverse = some (arr.reverse, false)
      ∧ (∀ q ∈ seq, q ≠ arr.reverse → ∃ q1, next_permutation q = some (q1, true)) := by
  obtain ⟨seq, hfuel, hsorted, hmem, ⟨last, hlast, hlasts⟩, hnext⟩ :=
    visited_enum arr _ arr (List.Perm.refl _) rfl
  have hrev : arr.reverse.Sorted (· ≥ ·) := by
    rw [List.Sorted, List.pairwise_reverse]
    exact hs
  have huniq : ∀ q : List Int, q.Perm arr → q.Sorted (· ≥ ·) → q = arr.reverse := by
    intro q hq hqs
    exact List.eq_of_perm_of_sorted (hq.trans (List.reverse_perm arr).symm) hqs hrev
  have hlastmem : last ∈ seq := List.mem_of_mem_getLast? hlast
  refine ⟨_, seq, hfuel, ?_, ?_, ?_, hrev, next_permutation_sorted _ hrev, ?_⟩
  · exact hsorted.imp (fun h => ne_of_lt h)
  · intro q
    rw [hmem]
    constructor
    · exact fun h => h.1
    · exact fun h => ⟨h, sorted_le_of_perm hs h⟩
  · rw [hlast, huniq last ((hmem last).1 hlastmem).1 hlasts]
  · intro q hq hne
    apply hnext q hq
    intro hqs
    exact hne (huniq q ((hmem q).1 hq).1 hqs)


/-! ### Scenario 5: permutation search followed by the contiguous writer -/

theorem hashed_full (heap : Nat → Nat) (buffer : List Nat) (n : Int)
    (h : (buffer.length : Int) = n) : hashed heap buffer n = buffer := by
  subst h
  unfold hashed
  apply List.ext_getElem
  · simp
  · intro k h1 h2
    simp only [List.length_map, List.length_range, Int.toNat_ofNat] at h1
    simp [h1, List.getD_eq_getElem _ _ h2]

theorem s5_read47 : readClusters scenario5 (dataSec scenario5) (clusterSize scenario5)
    (DIR_FileSize scenario5 1536) [4, 7] 0 [] = secondHalf ++ firstHalf := by
  decide!

theorem s5_read74 : readClusters scenario5 (dataSec scenario5) (clusterSize scenario5)
    (DIR_FileSize scenario5 1536) [7, 4] 0 [] = firstHalf ++ secondHalf := by
  decide!

theorem s5_size : DIR_FileSize scenario5 1536 = 1024 := by decide

theorem s5_try47 (SHA1 : List Nat → List Nat) (heap : Nat → Nat) (t : List Nat)
    (h : SHA1 (secondHalf ++ firstHalf) ≠ t) :
    tryClusterPermutation SHA1 heap scenario5 1536 512 1024 [4, 7] t
      = Except.ok (scenario5, false) := by
  unfold tryClusterPermutation
  simp only []
  rw [s5_read47, s5_size, hashed_full heap _ 1024 (by decide!), if_neg h]
  rfl

theorem s5_try74 (SHA1 : List Nat → List Nat) (heap : Nat → Nat) (t : List Nat)
    (h : SHA1 (firstHalf ++ secondHalf) = t) :
    tryClusterPermutation SHA1 heap scenario5 1536 512 1024 [7, 4] t
      = Except.ok (pairedWrites 512 1024 (chainOf [7, 4]) scenario5, true) := by
  unfold tryClusterPermutation
  simp only []
  rw [s5_read74, s5_size, hashed_full heap _ 1024 (by decide!), if_pos h]
  rfl

theorem s5_all (SHA1 : List Nat → List Nat) (heap : Nat → Nat) (t : List Nat)
    (h1 : SHA1 (firstHalf ++ secondHalf) = t) (h2 : SHA1 (secondHalf ++ firstHalf) ≠ t) :
    tryAllPermutations SHA1 heap scenario5 1536 512 1024 t
      = Except.ok (pairedWrites 512 1024 (chainOf [7, 4]) scenario5, true) := by
  unfold tryAllPermutations
  simp only []
  rw [if_neg (by decide), show toI32 (toU32 (toU32 (DIR_FileSize scenario5 1536 - 1)
    / toU32 (clusterSize scenario5) + 1)) = 2 from by decide, if_neg (by decide),
    if_neg (by decide), show collectFree scenario5 512 (2 : Int).toNat 2 = some [4, 7] from by decide]
  simp only []
  rw [tryPermutationsLoop, s5_try47 SHA1 heap t h2]
  simp only [bind, Except.bind]
  rw [show next_permutation [4, 7] = some ([7, 4], true) from by decide]
  simp only []
  rw [tryPermutationsLoop, s5_try74 SHA1 heap t h1]
  rfl

theorem s5_recover : ∃ m2, recover s5_committed 1536 70 = Except.ok m2
    ∧ fatGet m2 512 7 = 8 ∧ fatGet m2 1024 7 = 8 ∧ fatGet m2 512 8 = 0x0FFFFFF8
    ∧ fatGet m2 512 4 = 0x0FFFFFF8 ∧ rd8 m2 1536 = 70 := by
  refine ⟨recoverLoop 512 1024 2 2 (wr8 s5_committed 1536 70) 7 0, ?_, by decide!, by decide!,
    by decide!, by decide!, by decide!⟩
  unfold recover
  simp only []
  rw [if_neg (by decide!), if_neg (by decide!),
    show fatStart (wr8 s5_committed 1536 70) = 512 from by decide!,
    show fat2Start (wr8 s5_committed 1536 70) = 1024 from by decide!,
    show (toI32 (DIR_FileSize (wr8 s5_committed 1536 70) 1536) - 1).tdiv
      (clusterSize (wr8 s5_committed 1536 70)) + 1 = 2 from by decide!,
    show DIR_FstClusLO (wr8 s5_committed 1536 70) 1536 = 7 from by decide!]
  rfl

theorem s5_for (SHA1 : List Nat → List Nat) (heap : Nat → Nat) (hash : List Nat)
    (h1 : SHA1 (firstHalf ++ secondHalf) = hexStringToBytes (cstr hash))
    (h2 : SHA1 (secondHalf ++ firstHalf) ≠ hexStringToBytes (cstr hash)) :
    recFileFor SHA1 heap 10 (lit "FILE.BIN") (some hash) true 512 1024 1536 16 17 0
      { addr := scenario5, found := 0, foundAmount := 0, shaFound := 0, indxFoundAt := 0,
        hashMatchCount := 0, firstMatch := none }
    = Except.ok (Scan.mk s5_committed 0 0 1 0 1 (some 1536)) := by
  rw [show (17 : Nat) = 15 + 1 + 1 from rfl, recFileFor]
  simp only []
  rw [if_pos (by decide), if_neg (by decide), if_neg (by decide), if_pos (by decide),
    if_pos (by decide)]
  simp only [if_true]
  rw [show slotAt 1536 0 = 1536 from rfl, s5_all SHA1 heap _ h1 h2]
  simp only [bind, Except.bind, if_true]
  rw [recFileFor]
  simp only []
  rw [if_pos (by decide), if_pos (by decide!)]
  rfl

theorem ok_bind {α β : Type} (v : α) (f : α → Except Err β) : (Except.ok v >>= f) = f v := rfl

theorem cstr_valid (hash : List Nat) (hv : isValidHash (cstr hash) = true) :
    badHash (some hash) = false := by
  simp [badHash, hv]

/-- C1 (evaluation at a failing input): in scenario 5 with the tombstone's first cluster
7, whenever the digest of (cluster 7 ‖ cluster 4) is the target and that of
(cluster 4 ‖ cluster 7) is not, `recFile` in permutation mode reports success and ends
with `fat(0,7) = fat(1,7) = 8` and `fat(0,8) = 0x0FFFFFF8`, not with `fat(·,7) = 4`: the
chain `7 → 4` committed by the search is overwritten by the contiguous writer. -/
theorem recFile_overwrites_permuted_chain (SHA1 : List Nat → List Nat) (heap : Nat → Nat)
    (hash : List Nat) (hv : isValidHash (cstr hash) = true)
    (h1 : SHA1 (firstHalf ++ secondHalf) = hexStringToBytes (cstr hash))
    (h2 : SHA1 (secondHalf ++ firstHalf) ≠ hexStringToBytes (cstr hash)) :
    ∃ m, recFile SHA1 heap 10 (lit "FILE.BIN") scenario5 (some hash) true
        = Except.ok (m, [lit "FILE.BIN: successfully recovered with SHA-1"])
      ∧ fatGet m 512 7 = 8 ∧ fatGet m 1024 7 = 8 ∧ fatGet m 512 8 = 0x0FFFFFF8
      ∧ fatGet m 512 4 = 0x0FFFFFF8 ∧ rd8 m 1536 = 70 := by
  obtain ⟨m2, hrec, hprops⟩ := s5_recover
  refine ⟨m2, ?_, hprops⟩
  unfold recFile
  rw [if_neg (by decide), cstr_valid hash hv]
  simp only [Bool.false_eq_true, if_false]
  rw [show fatStart scenario5 = 512 from by decide, show fat2Start scenario5 = 1024 from by decide,
    show dataSec scenario5 = 1536 from by decide, show clusterSize scenario5 = 512 from by decide,
    show toI32 (BPB_RootClus scenario5) = 2 from by decide]
  rw [recFileWhile]
  simp only []
  rw [if_pos (by decide), show clusterOffset 1536 512 2 = 1536 from by decide,
    show ((512 : Int) / 32 + 1).toNat = 17 from by decide, show (512 : Int) / 32 = 16 from by decide,
    s5_for SHA1 heap hash h1 h2, ok_bind]
  simp only []
  rw [if_pos (by decide), show slotAt 1536 0 = 1536 from rfl,
    show ((lit "FILE.BIN").headD 0 : Int) = 70 from by decide, hrec]
  rfl


/-! ### Evaluations of `recFile` and `recover` on concrete images -/

/-- C2 (evaluation at a failing input): with two tombstones that decode to `A.TXT` in one
directory cluster and no digest, `recFile` recovers nothing (the image is returned as it
was) and prints only `A.TXT: multiple candidates found`. -/
theorem recFile_two_candidates_recovers_none (SHA1 : List Nat → List Nat) (heap : Nat → Nat) :
    recFile SHA1 heap 10 (lit "A.TXT") scenario3 none false
      = Except.ok (scenario3, [lit "A.TXT: multiple candidates found"]) :=
  rfl

/-- C3 (evaluation at a failing input): the root directory has exactly one tombstone that
decodes to `A.TXT` (slot 5 of its only cluster), and the 32 bytes that follow the
cluster decode to `A.TXT` too; `recFile` recovers nothing and prints only
`A.TXT: multiple candidates found`. -/
theorem recFile_single_candidate_not_recovered (SHA1 : List Nat → List Nat) (heap : Nat → Nat) :
    recFile SHA1 heap 10 (lit "A.TXT") strayBytesOne none false
      = Except.ok (strayBytesOne, [lit "A.TXT: multiple candidates found"]) :=
  rfl

/-- C4 (evaluation at a failing input): no slot of the root directory is a tombstone, but
the 32 bytes that follow its only cluster decode to `A.TXT`; `recFile` prints
`A.TXT: successfully recovered`, overwrites the first byte of cluster 3 (file data) with
`A` and writes an end-of-chain mark into entry 9 of both FAT copies. -/
theorem recFile_recovers_outside_root (SHA1 : List Nat → List Nat) (heap : Nat → Nat) :
    recFile SHA1 heap 10 (lit "A.TXT") strayBytes none false
      = Except.ok (fatSet (fatSet (wr8 strayBytes 2048 65) 512 9 EOC) 1024 9 EOC,
          [lit "A.TXT: successfully recovered"])
    ∧ rd8 (fatSet (fatSet (wr8 strayBytes 2048 65) 512 9 EOC) 1024 9 EOC) 2048 = 65
    ∧ rd8 strayBytes 2048 = 0xE5
    ∧ fatGet (fatSet (fatSet (wr8 strayBytes 2048 65) 512 9 EOC) 1024 9 EOC) 512 9 = 0x0FFFFFF8
    ∧ fatGet strayBytes 512 9 = 0
    ∧ fatGet strayBytes 512 2 = 0x0FFFFFF8 :=
  ⟨rfl, by decide!, by decide!, by decide!, by decide!, by decide!⟩

/-- Scenario 1: the tombstone in root slot 3 is restored (`name[0] = 'H'`), entry 5 of both
FAT copies becomes the end-of-chain mark, and one line is printed. -/
theorem scenario1_recovered (SHA1 : List Nat → List Nat) (heap : Nat → Nat) :
    recFile SHA1 heap 10 (lit "HELLO.TXT") scenario1 none false
      = Except.ok (fatSet (fatSet (wr8 scenario1 1632 72) 512 5 EOC) 1024 5 EOC,
          [lit "HELLO.TXT: successfully recovered"])
    ∧ rd8 (fatSet (fatSet (wr8 scenario1 1632 72) 512 5 EOC) 1024 5 EOC) 1632 = 72
    ∧ fatGet (fatSet (fatSet (wr8 scenario1 1632 72) 512 5 EOC) 1024 5 EOC) 512 5 = 0x0FFFFFF8
    ∧ fatGet (fatSet (fatSet (wr8 scenario1 1632 72) 512 5 EOC) 1024 5 EOC) 1024 5 = 0x0FFFFFF8 :=
  ⟨rfl, by decide!, by decide!, by decide!⟩

/-- Scenario 2: no tombstone decodes to `X.TXT`; the image is returned as it was. -/
theorem scenario2_not_found (SHA1 : List Nat → List Nat) (heap : Nat → Nat) :
    recFile SHA1 heap 10 (lit "X.TXT") scenario1 none false
      = Except.ok (scenario1, [lit "X.TXT: file not found"]) :=
  rfl

/-- C7 (counterexample): the slot at offset 1632 holds first cluster 280, and
`fat[280]` is at offset `512 + 4 * 280 = 1632`; after `recover` with `T[0] = 'H'` (72)
the slot's `name[0]` is 0xF8, not 72, and `name[1]` is 0xFF, not its former value 69. -/
theorem recover_overwrites_own_slot :
    recover wildCluster 1632 72
      = Except.ok (fatSet (fatSet (wr8 wildCluster 1632 72) 512 280 EOC) 1024 280 EOC)
    ∧ rd8 (fatSet (fatSet (wr8 wildCluster 1632 72) 512 280 EOC) 1024 280 EOC) 1632 = 0xF8
    ∧ rd8 (fatSet (fatSet (wr8 wildCluster 1632 72) 512 280 EOC) 1024 280 EOC) 1632 ≠ 72
    ∧ rd8 (fatSet (fatSet (wr8 wildCluster 1632 72) 512 280 EOC) 1024 280 EOC) 1633 = 0xFF
    ∧ rd8 wildCluster 1633 = 69 :=
  ⟨rfl, by decide!, by decide!, by decide!, by decide!⟩


/-! ### Instances of the general statements on the concrete images -/

theorem scenario5_volume : Volume scenario5 :=
  ⟨by decide, by decide, by decide, by decide, by decide, by decide, by decide⟩

theorem scenario1_volume : Volume scenario1 :=
  ⟨by decide, by decide, by decide, by decide, by decide, by decide, by decide⟩

/-- Instance of C1 for the stand-in digest `first20` and the digest string `4141…41`. -/
theorem recFile_overwrites_permuted_chain_witness :
    isValidHash (cstr hex41) = true
    ∧ first20 (firstHalf ++ secondHalf) = hexStringToBytes (cstr hex41)
    ∧ first20 (secondHalf ++ firstHalf) ≠ hexStringToBytes (cstr hex41)
    ∧ ∃ m, recFile first20 (fun _ => 0) 10 (lit "FILE.BIN") scenario5 (some hex41) true
        = Except.ok (m, [lit "FILE.BIN: successfully recovered with SHA-1"])
      ∧ fatGet m 512 7 = 8 ∧ fatGet m 1024 7 = 8 ∧ fatGet m 512 8 = 0x0FFFFFF8
      ∧ fatGet m 512 4 = 0x0FFFFFF8 ∧ rd8 m 1536 = 70 :=
  ⟨by decide!, by decide!, by decide!,
    recFile_overwrites_permuted_chain first20 (fun _ => 0) hex41 (by decide!) (by decide!)
      (by decide!)⟩

/-- Instance on scenario 5: the slot at 1536 has first cluster 7 and size 1024, so
`k = 2`; afterwards `fat(0,7) = 8`, `fat(1,8)` is the end-of-chain mark and entry 4 of
copy 0 is unchanged. -/
theorem recover_commits_contiguous_chain_witness :
    Volume scenario5 ∧ fatOffset scenario5 2 ≤ 1536
    ∧ 1 ≤ DIR_FileSize scenario5 1536 ∧ DIR_FileSize scenario5 1536 < 2147483648
    ∧ InFat (fatBytes scenario5) (DIR_FstClusLO scenario5 1536
        + clustersNeeded (DIR_FileSize scenario5 1536) (clusterSize scenario5) - 1)
    ∧ ∃ m1, recover scenario5 1536 70 = Except.ok m1
      ∧ fatGet m1 (fatOffset scenario5 0) (DIR_FstClusLO scenario5 1536 + 0)
          = DIR_FstClusLO scenario5 1536 + 0 + 1
      ∧ fatGet m1 (fatOffset scenario5 1) (DIR_FstClusLO scenario5 1536
          + clustersNeeded (DIR_FileSize scenario5 1536) (clusterSize scenario5) - 1) = 0x0FFFFFF8
      ∧ fatGet m1 (fatOffset scenario5 0) 4 = fatGet scenario5 (fatOffset scenario5 0) 4 := by
  refine ⟨scenario5_volume, by decide, by decide, by decide, by decide, ?_⟩
  obtain ⟨m1, h1, h2⟩ := recover_commits_contiguous_chain scenario5 1536 70 scenario5_volume
    (by decide) (by decide) (by decide) (by decide)
  exact ⟨m1, h1, (h2 0 (Or.inl rfl)).1 0 (by decide) (by decide), (h2 1 (Or.inr rfl)).2.1,
    (h2 0 (Or.inl rfl)).2.2 4 (by decide) (by decide)⟩

/-- Instance of C6 on scenario 5 with the cluster sequence `[7, 4]`. -/
theorem recovery_keeps_fat_copies_equal_witness :
    Volume scenario5 ∧ fatOffset scenario5 2 ≤ 1536
    ∧ InFat (fatBytes scenario5) (DIR_FstClusLO scenario5 1536
        + recoverCount (DIR_FileSize scenario5 1536) (clusterSize scenario5) - 1)
    ∧ (∀ c ∈ [(7 : Int), 4], InFat (fatBytes scenario5) c)
    ∧ (∃ m1, recover scenario5 1536 70 = Except.ok m1
        ∧ fatGet m1 (fatOffset scenario5 0) 7 = fatGet m1 (fatOffset scenario5 1) 7)
    ∧ (∀ m1, tryClusterPermutation first20 (fun _ => 0) scenario5 1536 (fatStart scenario5)
          (fat2Start scenario5) [7, 4] (hexStringToBytes hex41) = Except.ok (m1, true) →
        fatGet m1 (fatOffset scenario5 0) 4 = fatGet m1 (fatOffset scenario5 1) 4)
    ∧ (∃ m1, writeDeleted scenario5 (fatStart scenario5) (fat2Start scenario5)
          (clusterSize scenario5) 1536 = Except.ok m1
        ∧ fatGet m1 (fatOffset scenario5 0) 8 = fatGet m1 (fatOffset scenario5 1) 8) := by
  refine ⟨scenario5_volume, by decide, by decide, by decide, ?_⟩
  obtain ⟨⟨m1, h1, h2, _⟩, h3, ⟨m3, h4, h5, _⟩⟩ :=
    recovery_keeps_fat_copies_equal first20 (fun _ => 0) scenario5 1536 70 1536 [7, 4]
      (hexStringToBytes hex41) scenario5_volume (by decide) (by decide) (by decide)
  exact ⟨⟨m1, h1, h2 7 (by decide) (by decide)⟩,
    fun m hm => (h3 m hm).1 4 (by decide),
    ⟨m3, h4, h5 (by decide) 8 (by decide) (by decide)⟩⟩

/-- Instance of the amended C7 on scenario 1: the slot at 1632 (first cluster 5, size 11). -/
theorem recover_restores_first_byte_only_witness :
    Volume scenario1 ∧ fatOffset scenario1 2 ≤ 1632
    ∧ InFat (fatBytes scenario1) (DIR_FstClusLO scenario1 1632
        + recoverCount (DIR_FileSize scenario1 1632) (clusterSize scenario1) - 1)
    ∧ ∃ m1, recover scenario1 1632 72 = Except.ok m1 ∧ rd8 m1 1632 = 72 % 256
      ∧ ∀ j : Int, 1 ≤ j → j < 32 → rd8 m1 (1632 + j) = rd8 scenario1 (1632 + j) :=
  ⟨scenario1_volume, by decide, by decide,
    recover_restores_first_byte_only scenario1 1632 72 scenario1_volume (by decide) (by decide)⟩

/-- Instance of C8 on the array `[1, 2, 3]`. -/
theorem next_permutation_enumerates_witness :
    List.Sorted (· ≤ ·) [(1 : Int), 2, 3]
    ∧ ∃ (N : Nat) (seq : List (List Int)),
      (∀ fuel, N ≤ fuel → visited fuel [1, 2, 3] = Except.ok seq)
      ∧ seq.Nodup ∧ (∀ q, q ∈ seq ↔ q.Perm [1, 2, 3])
      ∧ seq.getLast? = some [(1 : Int), 2, 3].reverse ∧ [(1 : Int), 2, 3].reverse.Sorted (· ≥ ·)
      ∧ next_permutation [(1 : Int), 2, 3].reverse = some ([(1 : Int), 2, 3].reverse, false)
      ∧ (∀ q ∈ seq, q ≠ [(1 : Int), 2, 3].reverse → ∃ q1, next_permutation q = some (q1, true)) :=
  ⟨by decide, next_permutation_enumerates [1, 2, 3] (by decide)⟩

/-- Instance of the amended C9 on the name `HELLO   TXT`. -/
theorem name_roundtrip_witness :
    (∀ i, i < 11 → 32 ≤ nameHello i) ∧ nameHello 0 ≠ 32
    ∧ getName nameHello (nameHello 0) = printName nameHello :=
  ⟨by decide, by decide, name_roundtrip nameHello (by decide) (by decide)⟩

/-! ### The name buffers -/

theorem getNameLoop_length (name : Nat → Nat) (n i : Nat) (out : List Nat) :
    (getNameLoop name n i out).length
      ≤ out.length + n + (if i ≤ 8 ∧ 8 < i + n then 1 else 0) := by
  induction n generalizing i out with
  | zero => simp [getNameLoop]
  | succ n ih =>
    simp only [getNameLoop]
    split_ifs <;> refine le_trans (ih _ _) ?_ <;>
      rw [show (n + 1 = 1 + n) from Nat.add_comm n 1] <;>
      simp only [List.length_append, List.length_cons, List.length_nil, ← Nat.add_assoc] <;>
      split_ifs <;> omega

theorem printNameLoop_length (name : Nat → Nat) (n i : Nat) (out : List Nat) :
    (printNameLoop name n i out).length
      ≤ out.length + n + (if i ≤ 8 ∧ 8 < i + n then 1 else 0) := by
  induction n generalizing i out with
  | zero => simp [printNameLoop]
  | succ n ih =>
    simp only [printNameLoop]
    split_ifs <;> refine le_trans (ih _ _) ?_ <;>
      rw [show (n + 1 = 1 + n) from Nat.add_comm n 1] <;>
      simp only [List.length_append, List.length_cons, List.length_nil, ← Nat.add_assoc] <;>
      split_ifs <;> omega

theorem copyNoSpace_length (name : Nat → Nat) (n j : Nat) (filename : List Nat) :
    (copyNoSpace name n j filename).length ≤ filename.length + n := by
  induction n generalizing j filename with
  | zero => simp [copyNoSpace]
  | succ n ih =>
    simp only [copyNoSpace]
    split_ifs
    · have := ih (j + 1) filename
      omega
    · have := ih (j + 1) (filename ++ [name j])
      simp only [List.length_append, List.length_cons, List.length_nil] at this
      omega

/-- C11: for every 11-byte raw name and every first character, the strings that `getName`,
`printName` and the inline name builder of `recoverAllDeleted` store in their 13-byte
buffers have at most 12 characters; the characters are stored at consecutive indices from
0 and the terminator right after them, so every index written is at most 12. -/
theorem name_builders_fit_buffer (raw : Nat → Nat) (first : Nat) :
    (getName raw first).length ≤ 12 ∧ (printName raw).length ≤ 12
      ∧ (deletedName raw).length ≤ 12 := by
  refine ⟨?_, ?_, ?_⟩
  · have := getNameLoop_length raw 10 1 [first]
    simpa [getName] using this
  · have := printNameLoop_length raw 11 0 []
    simpa [printName] using this
  · simp only [deletedName]
    have h1 := copyNoSpace_length raw 7 1 [95]
    have h2 := copyNoSpace_length raw 3 8 (copyNoSpace raw 7 1 [95] ++ [46])
    simp only [List.length_append, List.length_cons, List.length_nil] at h1 h2
    split_ifs <;> omega

/-! ### The candidate clusters of the permutation search -/

theorem getNextFreeClusterLoop_spec (addr : Mem) (fat m : Int) (n : Nat) (s : Int)
    (hn : m - s ≤ n) :
    (s ≤ getNextFreeClusterLoop addr fat m n s ∧ getNextFreeClusterLoop addr fat m n s < m
      ∧ fatGet addr fat (getNextFreeClusterLoop addr fat m n s) = 0
      ∧ ∀ j, s ≤ j → j < getNextFreeClusterLoop addr fat m n s → fatGet addr fat j ≠ 0)
    ∨ (getNextFreeClusterLoop addr fat m n s = -1
      ∧ ∀ j, s ≤ j → j < m → fatGet addr fat j ≠ 0) := by
  induction n generalizing s with
  | zero =>
    right
    refine ⟨rfl, ?_⟩
    intro j h1 h2
    simp at hn
    omega
  | succ n ih =>
    rw [getNextFreeClusterLoop]
    by_cases hlt : s < m
    · rw [if_pos hlt]
      by_cases hz : fatGet addr fat s = 0
      · rw [if_pos hz]
        left
        exact ⟨le_refl _, hlt, hz, fun j h1 h2 => by omega⟩
      · rw [if_neg hz]
        rcases ih (s + 1) (by push_cast at hn; omega) with ⟨h1, h2, h3, h4⟩ | ⟨h1, h2⟩
        · left
          refine ⟨by omega, h2, h3, ?_⟩
          intro j hj1 hj2
          by_cases e : j = s
          · subst e; exact hz
          · exact h4 j (by omega) hj2
        · right
          refine ⟨h1, ?_⟩
          intro j hj1 hj2
          by_cases e : j = s
          · subst e; exact hz
          · exact h2 j (by omega) hj2
    · rw [if_neg hlt]
      right
      exact ⟨rfl, fun j h1 h2 => by omega⟩

theorem freeClusters_succ (addr : Mem) (fat : Int) (lo n : Nat) :
    freeClusters addr fat lo (n + 1)
      = if fatGet addr fat (lo : Int) = 0 then (lo : Int) :: freeClusters addr fat (lo + 1) n
        else freeClusters addr fat (lo + 1) n := by
  unfold freeClusters
  rw [List.range'_succ, List.map_cons, List.filter_cons]
  by_cases h : fatGet addr fat (lo : Int) = 0
  · rw [if_pos h, if_pos (by simpa using h)]
  · rw [if_neg h, if_neg (by simpa using h)]

theorem getNextFreeCluster_head (addr : Mem) (fat : Int) (n lo : Nat) :
    (getNextFreeClusterLoop addr fat ((lo + n : Nat) : Int) n lo = -1
      ∧ freeClusters addr fat lo n = [])
    ∨ ∃ c : Nat, lo ≤ c ∧ c < lo + n
      ∧ getNextFreeClusterLoop addr fat ((lo + n : Nat) : Int) n lo = (c : Int)
      ∧ freeClusters addr fat lo n = (c : Int) :: freeClusters addr fat (c + 1) (lo + n - (c + 1)) := by
  induction n generalizing lo with
  | zero =>
    left
    exact ⟨rfl, rfl⟩
  | succ n ih =>
    have ih1 := ih (lo + 1)
    have e : ((lo + 1 + n : Nat) : Int) = ((lo + (n + 1) : Nat) : Int) := by push_cast; ring
    have e2 : ((lo : Int) + 1) = ((lo + 1 : Nat) : Int) := by push_cast; ring
    rw [e] at ih1
    rw [getNextFreeClusterLoop, if_pos (by push_cast; omega), freeClusters_succ]
    by_cases hz : fatGet addr fat (lo : Int) = 0
    · rw [if_pos hz, if_pos hz]
      right
      refine ⟨lo, le_refl _, by omega, rfl, ?_⟩
      rw [show lo + (n + 1) - (lo + 1) = n from by omega]
    · rw [if_neg hz, if_neg hz, e2]
      rcases ih1 with ⟨h1, h2⟩ | ⟨c, h1, h2, h3, h4⟩
      · left
        exact ⟨h1, h2⟩
      · right
        refine ⟨c, by omega, by omega, h3, ?_⟩
        rw [h4, show lo + 1 + n - (c + 1) = lo + (n + 1) - (c + 1) from by omega]

theorem collectFree_eq (addr : Mem) (fat : Int) (k lo : Nat) (hlo : lo ≤ 20) :
    collectFree addr fat k (lo : Int)
      = if k ≤ (freeClusters addr fat lo (20 - lo)).length
        then some ((freeClusters addr fat lo (20 - lo)).take k) else none := by
  induction k generalizing lo with
  | zero => simp [collectFree]
  | succ k ih =>
    rw [collectFree]
    simp only [getNextFreeCluster]
    have hn : ((20 : Int) - (lo : Int)).toNat = 20 - lo := by omega
    have h20 : ((lo + (20 - lo) : Nat) : Int) = 20 := by omega
    rw [hn]
    have hh := getNextFreeCluster_head addr fat (20 - lo) lo
    rw [h20] at hh
    rcases hh with ⟨h1, h2⟩ | ⟨c, h1, h2, h3, h4⟩
    · rw [h1, h2]
      simp
    · rw [h3, h4, if_neg (by omega)]
      have e2 : ((c : Int) + 1) = ((c + 1 : Nat) : Int) := by push_cast; ring
      have e3 : lo + (20 - lo) - (c + 1) = 20 - (c + 1) := by omega
      rw [e2, ih (c + 1) (by omega), e3]
      simp only [List.length_cons, Nat.add_le_add_iff_right, List.take_succ_cons]
      split_ifs <;> rfl

theorem freeClusters_mem (addr : Mem) (fat : Int) (lo n : Nat) (c : Int) :
    c ∈ freeClusters addr fat lo n ↔ (lo : Int) ≤ c ∧ c < lo + n ∧ fatGet addr fat c = 0 := by
  simp only [freeClusters, List.mem_filter, List.mem_map, List.mem_range'_1, decide_eq_true_eq]
  constructor
  · rintro ⟨⟨x, hx, rfl⟩, hz⟩
    exact ⟨by omega, by omega, hz⟩
  · rintro ⟨h1, h2, h3⟩
    exact ⟨⟨c.toNat, by omega, by omega⟩, h3⟩

theorem freeClusters_sorted (addr : Mem) (fat : Int) (lo n : Nat) :
    (freeClusters addr fat lo n).Sorted (· < ·) := by
  unfold freeClusters
  apply List.Pairwise.filter
  rw [List.pairwise_map]
  have := List.pairwise_lt_range' lo n
  exact this.imp (fun h => by omega)

theorem numClusters_eq (fs sz : Int) (h1 : 1 ≤ fs) (h2 : fs < 4294967296) (hsz : 512 ≤ sz)
    (hsz2 : sz ≤ 32768) :
    toI32 (toU32 (toU32 (fs - 1) / toU32 sz + 1)) = clustersNeeded fs sz
      ∧ 1 ≤ clustersNeeded fs sz := by
  have e1 : toU32 (fs - 1) = fs - 1 := by unfold toU32; omega
  have e2 : toU32 sz = sz := by unfold toU32; omega
  have e3 : clustersNeeded fs sz = (fs - 1) / sz + 1 := by
    unfold clustersNeeded
    have := Int.add_mul_ediv_right (fs - 1) 1 (c := sz) (by omega)
    rw [one_mul] at this
    rw [← this]
    congr 1
    ring
  have h0 : 0 ≤ (fs - 1) / sz := Int.ediv_nonneg (by omega) (by omega)
  have h3 : (fs - 1) / sz < 8388608 := Int.ediv_lt_of_lt_mul (by omega) (by omega)
  rw [e1, e2, e3]
  unfold toI32 toU32
  omega

/-- C16: on a volume, for a slot whose file needs `k = ⌈file_size / cluster_bytes⌉` clusters
with `1 ≤ k ≤ 5`: the free clusters `c` with `2 ≤ c < 20` (FAT entry 0) form a strictly
increasing list; the candidate array that `tryAllPermutations` fills is its first `k`
elements, and the search starts from that array; when the list has fewer than `k`
elements the function returns 0 and the image as it was, whatever the digest function.
`getNextFreeCluster(fat, s, m)` returns the least `i` with `s ≤ i < m` and `fat[i] == 0`,
or -1 when there is none. -/
theorem tryAllPermutations_candidates (SHA1 : List Nat → List Nat) (heap : Nat → Nat)
    (addr : Mem) (file fat fat2 : Int) (targetHash : List Nat) (s m : Int)
    (hv : Volume addr) (h1 : 1 ≤ DIR_FileSize addr file)
    (h5 : clustersNeeded (DIR_FileSize addr file) (clusterSize addr) ≤ 5) :
    (freeClusters addr fat 2 18).Sorted (· < ·)
    ∧ (∀ c, c ∈ freeClusters addr fat 2 18 ↔ 2 ≤ c ∧ c < 20 ∧ fatGet addr fat c = 0)
    ∧ collectFree addr fat (clustersNeeded (DIR_FileSize addr file) (clusterSize addr)).toNat 2
        = (if (clustersNeeded (DIR_FileSize addr file) (clusterSize addr)).toNat
              ≤ (freeClusters addr fat 2 18).length
          then some ((freeClusters addr fat 2 18).take
            (clustersNeeded (DIR_FileSize addr file) (clusterSize addr)).toNat)
          else none)
    ∧ tryAllPermutations SHA1 heap addr file fat fat2 targetHash
        = (if (clustersNeeded (DIR_FileSize addr file) (clusterSize addr)).toNat
              ≤ (freeClusters addr fat 2 18).length
          then tryPermutationsLoop SHA1 heap addr file fat fat2 targetHash 121
            ((freeClusters addr fat 2 18).take
              (clustersNeeded (DIR_FileSize addr file) (clusterSize addr)).toNat)
          else Except.ok (addr, false))
    ∧ ((s ≤ getNextFreeCluster addr fat s m ∧ getNextFreeCluster addr fat s m < m
          ∧ fatGet addr fat (getNextFreeCluster addr fat s m) = 0
          ∧ ∀ j, s ≤ j → j < getNextFreeCluster addr fat s m → fatGet addr fat j ≠ 0)
        ∨ (getNextFreeCluster addr fat s m = -1
          ∧ ∀ j, s ≤ j → j < m → fatGet addr fat j ≠ 0)) := by
  have hsz := hv.size_pos
  have hsz2 := hv.clusterBytes
  have hfs := (rd32u_bounds addr (file + 28)).2
  have hk := numClusters_eq (DIR_FileSize addr file) (clusterSize addr) h1 hfs hsz hsz2
  have hc := collectFree_eq addr fat
    (clustersNeeded (DIR_FileSize addr file) (clusterSize addr)).toNat 2 (by omega)
  rw [show ((2 : Nat) : Int) = 2 from rfl, show 20 - 2 = 18 from rfl] at hc
  refine ⟨freeClusters_sorted addr fat 2 18, ?_, hc, ?_,
    getNextFreeClusterLoop_spec addr fat m (m - s).toNat s (by omega)⟩
  · intro c
    rw [freeClusters_mem]
    constructor
    · rintro ⟨a, b, c⟩; exact ⟨by omega, by omega, c⟩
    · rintro ⟨a, b, c⟩; exact ⟨by omega, by omega, c⟩
  · unfold tryAllPermutations
    simp only []
    rw [if_neg (by omega), hk.1, if_neg (by omega), if_neg (by omega), hc]
    split_ifs <;> rfl

/-! ### Evaluations: file size, start cluster, end-of-chain values, slot range -/

/-- Instance of C16 on scenario 5: the slot at 1536 needs two clusters, the free clusters
below 20 are 4 and 7, and the candidate array is `[4, 7]`. -/
theorem tryAllPermutations_candidates_witness :
    Volume scenario5 ∧ 1 ≤ DIR_FileSize scenario5 1536
    ∧ clustersNeeded (DIR_FileSize scenario5 1536) (clusterSize scenario5) ≤ 5
    ∧ collectFree scenario5 512
        (clustersNeeded (DIR_FileSize scenario5 1536) (clusterSize scenario5)).toNat 2
        = (if (clustersNeeded (DIR_FileSize scenario5 1536) (clusterSize scenario5)).toNat
              ≤ (freeClusters scenario5 512 2 18).length
          then some ((freeClusters scenario5 512 2 18).take
            (clustersNeeded (DIR_FileSize scenario5 1536) (clusterSize scenario5)).toNat)
          else none)
    ∧ freeClusters scenario5 512 2 18 = [4, 7] :=
  ⟨scenario5_volume, by decide, by decide,
    (tryAllPermutations_candidates first20 (fun _ => 0) scenario5 1536 512 1024 [] 2 20
      scenario5_volume (by decide) (by decide)).2.2.1, by decide⟩

/-- C12 (evaluation at a failing input): for the tombstone of an empty file (size 0, first
cluster 0) `recover` assigns the end-of-chain mark to entry 0 of both FAT copies, which
held `0x0FFFFFF0`, and `recFile` reports the recovery; for a size field of `0x80000400`
and first cluster 5 it writes the single entry 5 as end of chain and leaves entry 6 free. -/
theorem recover_writes_entry_for_empty_file (SHA1 : List Nat → List Nat) (heap : Nat → Nat) :
    DIR_FileSize emptyFile 1536 = 0 ∧ DIR_FstClusLO emptyFile 1536 = 0
    ∧ recover emptyFile 1536 69
        = Except.ok (fatSet (fatSet (wr8 emptyFile 1536 69) 512 0 EOC) 1024 0 EOC)
    ∧ recFile SHA1 heap 10 (lit "EMPTY.TXT") emptyFile none false
        = Except.ok (fatSet (fatSet (wr8 emptyFile 1536 69) 512 0 EOC) 1024 0 EOC,
            [lit "EMPTY.TXT: successfully recovered"])
    ∧ fatGet emptyFile 512 0 = 0x0FFFFFF0 ∧ fatGet emptyFile 1024 0 = 0x0FFFFFF0
    ∧ fatGet (fatSet (fatSet (wr8 emptyFile 1536 69) 512 0 EOC) 1024 0 EOC) 512 0 = 0x0FFFFFF8
    ∧ fatGet (fatSet (fatSet (wr8 emptyFile 1536 69) 512 0 EOC) 1024 0 EOC) 1024 0 = 0x0FFFFFF8
    ∧ DIR_FileSize hugeFile 1536 = 0x80000400
    ∧ recover hugeFile 1536 72
        = Except.ok (fatSet (fatSet (wr8 hugeFile 1536 72) 512 5 EOC) 1024 5 EOC)
    ∧ fatGet (fatSet (fatSet (wr8 hugeFile 1536 72) 512 5 EOC) 1024 5 EOC) 512 5 = 0x0FFFFFF8
    ∧ fatGet (fatSet (fatSet (wr8 hugeFile 1536 72) 512 5 EOC) 1024 5 EOC) 512 6 = 0 :=
  ⟨by decide, by decide, rfl, rfl, by decide!, by decide!, by decide!, by decide!, by decide,
    rfl, by decide!, by decide!⟩

/-- C18 (evaluation at a failing input): the deleted file's slot holds high word 1 and low
word 5, so `first_cluster = 65541`; `recover` and the inline writer of `recoverAllDeleted`
write entry 5 of both FAT copies (cutting the chain `5 → 6` of a live file) and leave
entry 65541 free, and `computeFileHash` digests the first 11 bytes of cluster 5,
`other file!`, not the content `hello world` of cluster 65541. -/
theorem start_cluster_ignores_high_word (SHA1 : List Nat → List Nat) (heap : Nat → Nat) :
    firstCluster highWord 525856 = 65541
    ∧ recover highWord 525856 66
        = Except.ok (fatSet (fatSet (wr8 highWord 525856 66) 512 5 EOC) 263168 5 EOC)
    ∧ writeDeleted (wr8 highWord 525856 95) 512 263168 512 525856
        = Except.ok (fatSet (fatSet (wr8 highWord 525856 95) 512 5 EOC) 263168 5 EOC)
    ∧ fatGet highWord 512 5 = 6
    ∧ fatGet (fatSet (fatSet (wr8 highWord 525856 66) 512 5 EOC) 263168 5 EOC) 512 5 = 0x0FFFFFF8
    ∧ fatGet (fatSet (fatSet (wr8 highWord 525856 66) 512 5 EOC) 263168 5 EOC) 512 65541 = 0
    ∧ computeFileHash SHA1 heap 10 highWord 525856 512
        = Except.ok (SHA1 (lit "other file!"))
    ∧ copied highWord (clusterOffset (dataSec highWord) (clusterSize highWord) 65541) 11
        = lit "hello world" :=
  ⟨by decide, rfl, rfl, by decide!, by decide!, by decide!, rfl, by decide!⟩

theorem ok_of_toOption {α : Type} (r : Except Err α) (x : α) (h : r.toOption = some x) :
    r = Except.ok x := by
  cases r with
  | error e => simp [Except.toOption] at h
  | ok v => simp only [Except.toOption, Option.some.injEq] at h; rw [h]

theorem eocHighFile_read :
    computeFileHashLoop eocHighFile 2048 (dataSec eocHighFile) (clusterSize eocHighFile)
      (DIR_FileSize eocHighFile 3072) 10 (DIR_FstClusLO eocHighFile 3072) 0 []
      = Except.ok (List.replicate 512 0x41 ++ lit "OLDBYTES") :=
  ok_of_toOption _ _ (by decide!)

theorem eocHighFile_hash (SHA1 : List Nat → List Nat) (heap : Nat → Nat) :
 computeFileHash SHA1 heap 10 eocHighFile 3072 2048
        = Except.ok (SHA1 (List.replicate 512 0x41 ++ lit "OLDBYTES")) := by
  unfold computeFileHash
  simp only []
  rw [eocHighFile_read, ok_bind, hashed_full heap _ _ (by decide!)]
  rfl

/-- C19 (evaluation at a failing input): the root directory chain is closed by the FAT
entry `0xFFFFFFFF`, read as the `int` -1. Each scan goes on to "cluster -1", whose offset
`3072 + (-3) * 512 = 1536` is the reserved sector 3, and takes the stale bytes there for a
directory slot: `recFile` and `recoverAllFiles` restore it as `A.TXT`, `recoverAllDeleted`
as `_.TXT`, each overwriting byte 1536 and entry 9 of both FAT copies. `computeFileHash`
on a file whose chain ends with `0xFFFFFFFF` after cluster 10 appends to the 512 bytes of
cluster 10 the first 8 bytes of the reserved sector 3. -/
theorem high_eoc_values_are_followed (SHA1 : List Nat → List Nat) (heap : Nat → Nat) :
    rd32u eocHighBits (2048 + 4 * 2) = 0xFFFFFFFF ∧ fatGet eocHighBits 2048 2 = -1
    ∧ clusterOffset (dataSec eocHighBits) (clusterSize eocHighBits) (-1) = 1536
    ∧ recFile SHA1 heap 10 (lit "A.TXT") eocHighBits none false
        = Except.ok (fatSet (fatSet (wr8 eocHighBits 1536 65) 2048 9 EOC) 2560 9 EOC,
            [lit "A.TXT: successfully recovered"])
    ∧ recoverAllFiles 10 (lit "A.TXT") eocHighBits
        = Except.ok (fatSet (fatSet (wr8 eocHighBits 1536 65) 2048 9 EOC) 2560 9 EOC,
            [lit "A.TXT: 1 file(s) recovered"])
    ∧ recoverAllDeleted 10 eocHighBits
        = Except.ok (fatSet (fatSet (wr8 eocHighBits 1536 95) 2048 9 EOC) 2560 9 EOC,
            [lit "_.TXT: recovered", lit "Successfully recovered 1 file(s)"])
    ∧ rd8 eocHighBits 1536 = 0xE5
    ∧ rd8 (fatSet (fatSet (wr8 eocHighBits 1536 65) 2048 9 EOC) 2560 9 EOC) 1536 = 65
    ∧ fatGet eocHighBits 2048 9 = 0
    ∧ fatGet (fatSet (fatSet (wr8 eocHighBits 1536 65) 2048 9 EOC) 2560 9 EOC) 2048 9 = 0x0FFFFFF8
    ∧ rd32u eocHighFile (2048 + 4 * 10) = 0xFFFFFFFF
    ∧ computeFileHash SHA1 heap 10 eocHighFile 3072 2048
        = Except.ok (SHA1 (List.replicate 512 0x41 ++ lit "OLDBYTES")) :=
  ⟨by decide, by decide, by decide, rfl, rfl, rfl, by decide, by decide!, by decide, by decide!,
    by decide, eocHighFile_hash SHA1 heap⟩

/-- C20 (evaluation at a failing input): the images `strayBytes` and `fullRoot` agree on
every byte outside the first 32 bytes of cluster 3, and the root directory is the single
cluster 2 (its FAT entry is an end-of-chain mark, its 16 slots are live entries). `recFile`
answers `file not found` on one and `successfully recovered` on the other: its scan reads
the slot with index 16, the 32 bytes after the end of the directory cluster.
`recoverAllFiles` and `recoverAllDeleted`, whose loops stop at index 15, find nothing on
either image. -/
theorem recFile_scans_slot_past_cluster_end (SHA1 : List Nat → List Nat) (heap : Nat → Nat) :
    (∀ q : Int, ¬ (2048 ≤ q ∧ q < 2080) → fullRoot q = strayBytes q)
    ∧ toI32 (BPB_RootClus strayBytes) = 2 ∧ fatGet strayBytes 512 2 = 0x0FFFFFF8
    ∧ clusterOffset (dataSec strayBytes) (clusterSize strayBytes) 2 = 1536
    ∧ clusterSize strayBytes / 32 = 16
    ∧ slotAt 1536 16 = 2048
    ∧ recFile SHA1 heap 10 (lit "A.TXT") fullRoot none false
        = Except.ok (fullRoot, [lit "A.TXT: file not found"])
    ∧ recFile SHA1 heap 10 (lit "A.TXT") strayBytes none false
        = Except.ok (fatSet (fatSet (wr8 strayBytes 2048 65) 512 9 EOC) 1024 9 EOC,
            [lit "A.TXT: successfully recovered"])
    ∧ recoverAllFiles 10 (lit "A.TXT") strayBytes
        = Except.ok (strayBytes, [lit "A.TXT: file not found"])
    ∧ recoverAllDeleted 10 strayBytes
        = Except.ok (strayBytes, [lit "No deleted files were found."]) :=
  ⟨fun q h => if_neg h, by decide, by decide, by decide, by decide, by decide, rfl, rfl, rfl, rfl⟩

theorem strayVerified_skip (SHA1 : List Nat → List Nat) (heap : Nat → Nat) (hash : List Nat)
    (s : Scan) (hs : s.addr = strayVerified) :
    recFileFor SHA1 heap 10 (lit "A.TXT") (some hash) true 512 1024 1536 16 17 0 s
      = recFileFor SHA1 heap 10 (lit "A.TXT") (some hash) true 512 1024 1536 16 1 16 s := by
  have step : ∀ (n : Nat) (i : Int), 0 ≤ i → i < 16 →
      recFileFor SHA1 heap 10 (lit "A.TXT") (some hash) true 512 1024 1536 16 (n + 1) i s
        = recFileFor SHA1 heap 10 (lit "A.TXT") (some hash) true 512 1024 1536 16 n (i + 1) s := by
    intro n i h0 h1
    rw [recFileFor]
    simp only []
    obtain ⟨k, rfl⟩ : ∃ k : Nat, i = k := ⟨i.toNat, by omega⟩
    have hk : k < 16 := by omega
    rw [hs]
    interval_cases k <;>
      rw [if_pos (by decide), if_neg (by decide), if_neg (by decide), if_neg (by decide)]
  have skip : ∀ (k n : Nat) (i : Int), 0 ≤ i → i + k ≤ 16 →
      recFileFor SHA1 heap 10 (lit "A.TXT") (some hash) true 512 1024 1536 16 (n + k) i s
        = recFileFor SHA1 heap 10 (lit "A.TXT") (some hash) true 512 1024 1536 16 n (i + k) s := by
    intro k
    induction k with
    | zero => intro n i _ _; simp
    | succ k ih =>
      intro n i h0 h1
      rw [← Nat.add_assoc, step _ i h0 (by push_cast at h1; omega),
        ih n (i + 1) (by omega) (by push_cast at h1; omega)]
      congr 1
      push_cast
      ring
  exact skip 16 1 0 (by decide) (by decide)

theorem strayVerified_try (SHA1 : List Nat → List Nat) (heap : Nat → Nat) (t : List Nat)
    (h : SHA1 (List.replicate 20 0x41) = t) :
    tryAllPermutations SHA1 heap strayVerified 2048 512 1024 t
      = Except.ok (fatSet (fatSet strayVerified 512 9 EOC) 1024 9 EOC, true) := by
  unfold tryAllPermutations
  simp only []
  rw [if_neg (by decide), show toI32 (toU32 (toU32 (DIR_FileSize strayVerified 2048 - 1)
    / toU32 (clusterSize strayVerified) + 1)) = 1 from by decide, if_neg (by decide),
    if_neg (by decide), show collectFree strayVerified 512 (1 : Int).toNat 2 = some [9] from by decide]
  simp only []
  rw [tryPermutationsLoop]
  unfold tryClusterPermutation
  simp only []
  rw [show readClusters strayVerified (dataSec strayVerified) (clusterSize strayVerified)
      (DIR_FileSize strayVerified 2048) [9] 0 [] = List.replicate 20 0x41 from by decide!,
    show DIR_FileSize strayVerified 2048 = 20 from by decide,
    hashed_full heap _ 20 (by decide), if_pos h]
  rfl

theorem strayVerified_for (SHA1 : List Nat → List Nat) (heap : Nat → Nat) (hash : List Nat)
    (h : SHA1 (List.replicate 20 0x41) = hexStringToBytes (cstr hash)) :
    recFileFor SHA1 heap 10 (lit "A.TXT") (some hash) true 512 1024 1536 16 17 0
      { addr := strayVerified, found := 0, foundAmount := 0, shaFound := 0, indxFoundAt := 0,
        hashMatchCount := 0, firstMatch := none }
    = Except.ok (Scan.mk (fatSet (fatSet strayVerified 512 9 EOC) 1024 9 EOC) 0 0 1 16 1
        (some 2048)) := by
  rw [strayVerified_skip SHA1 heap hash _ rfl, recFileFor]
  simp only []
  rw [if_pos (by decide), if_neg (by decide), if_neg (by decide), if_pos (by decide),
    if_pos (by decide)]
  simp only [if_true]
  rw [show slotAt 1536 16 = 2048 from rfl, strayVerified_try SHA1 heap _ h]
  simp only [bind, Except.bind, if_true]
  rfl

/-- C17 (evaluation at a failing input): no slot of the root directory is a tombstone, so
the permutation search fails for every name-matching tombstone of the root directory; the
32 bytes after the end of the directory cluster decode to `A.TXT` with size 20, and the
only free cluster below 20 holds twenty bytes whose digest is the target. `recFile` in
permutation mode reports `A.TXT: successfully recovered with SHA-1`, overwrites the first
byte of cluster 3 (file data) and writes entry 9 of both FAT copies. -/
theorem recFile_permutation_recovers_outside_root (SHA1 : List Nat → List Nat)
    (heap : Nat → Nat) (hash : List Nat) (hv : isValidHash (cstr hash) = true)
    (h : SHA1 (List.replicate 20 0x41) = hexStringToBytes (cstr hash)) :
    recFile SHA1 heap 10 (lit "A.TXT") strayVerified (some hash) true
      = Except.ok (fatSet (fatSet (wr8 (fatSet (fatSet strayVerified 512 9 EOC) 1024 9 EOC)
            2048 65) 512 9 EOC) 1024 9 EOC,
          [lit "A.TXT: successfully recovered with SHA-1"])
    ∧ fatGet strayVerified 512 2 = 0x0FFFFFF8 ∧ slotAt 1536 16 = 2048
    ∧ rd8 strayVerified 2048 = 0xE5
    ∧ rd8 (fatSet (fatSet (wr8 (fatSet (fatSet strayVerified 512 9 EOC) 1024 9 EOC)
            2048 65) 512 9 EOC) 1024 9 EOC) 2048 = 65
    ∧ fatGet strayVerified 512 9 = 0
    ∧ fatGet (fatSet (fatSet (wr8 (fatSet (fatSet strayVerified 512 9 EOC) 1024 9 EOC)
            2048 65) 512 9 EOC) 1024 9 EOC) 512 9 = 0x0FFFFFF8 := by
  refine ⟨?_, by decide, rfl, by decide, by decide!, by decide, by decide!⟩
  unfold recFile
  rw [if_neg (by decide), cstr_valid hash hv]
  simp only [Bool.false_eq_true, if_false]
  rw [show fatStart strayVerified = 512 from by decide,
    show fat2Start strayVerified = 1024 from by decide,
    show dataSec strayVerified = 1536 from by decide,
    show clusterSize strayVerified = 512 from by decide,
    show toI32 (BPB_RootClus strayVerified) = 2 from by decide]
  rw [recFileWhile]
  simp only []
  rw [if_pos (by decide), show clusterOffset 1536 512 2 = 1536 from by decide,
    show ((512 : Int) / 32 + 1).toNat = 17 from by decide, show (512 : Int) / 32 = 16 from by decide,
    strayVerified_for SHA1 heap hash h, ok_bind]
  simp only []
  rw [if_pos (by decide)]
  rfl

/-- Instance of C17 for the stand-in digest `first20` and the digest string `4141…41`. -/
theorem recFile_permutation_recovers_outside_root_witness :
    isValidHash (cstr hex41) = true
    ∧ first20 (List.replicate 20 0x41) = hexStringToBytes (cstr hex41)
    ∧ recFile first20 (fun _ => 0) 10 (lit "A.TXT") strayVerified (some hex41) true
      = Except.ok (fatSet (fatSet (wr8 (fatSet (fatSet strayVerified 512 9 EOC) 1024 9 EOC)
            2048 65) 512 9 EOC) 1024 9 EOC,
          [lit "A.TXT: successfully recovered with SHA-1"]) :=
  ⟨by decide!, by decide!,
    (recFile_permutation_recovers_outside_root first20 (fun _ => 0) hex41 (by decide!)
      (by decide!)).1⟩

/-! ### Bulk recovery: tombstones without clusters -/

theorem deletedName_head (name : Nat → Nat) : (deletedName name).head? = some 95 := by
  have h : ∀ (n j : Nat) (f : List Nat), f.head? = some 95 →
      (copyNoSpace name n j f).head? = some 95 := by
    intro n
    induction n with
    | zero => intro j f hf; exact hf
    | succ n ih =>
      intro j f hf
      rw [copyNoSpace]
      split_ifs
      · exact ih _ _ hf
      · apply ih
        cases f with
        | nil => simp at hf
        | cons a l => simpa using hf
  simp only [deletedName]
  split_ifs
  · apply h
    have := h 7 1 [95] rfl
    cases hc : copyNoSpace name 7 1 [95] with
    | nil => rw [hc] at this; simp at this
    | cons a l => rw [hc] at this; simpa using this
  · exact h 7 1 [95] rfl

/-- C13: in the scan of `recoverAllDeleted`, a slot in the data area of a volume that is an
eligible tombstone (`name[0] == 0xE5`, `attr` none of 0x0F, 0x08, 0x10) with
`file_size == 0` or `first_cluster < 2` is handled as follows: the scan continues with
the image in which only the byte `name[0]` of the slot has changed, to `'_'`, so every
entry of both FAT copies is as before; one line `<name>: recovered` whose name starts with
`'_'` is appended to the output; and `totalRecovered`, the number reported in the summary,
is one more. -/
theorem recoverAllDeleted_empty_file_no_fat_write (fat fat2 size rootDir maxFile : Int)
    (n : Nat) (i : Int) (s : Bulk) (hv : Volume s.addr)
    (hp : fatOffset s.addr 2 ≤ slotAt rootDir i) (hi : i < maxFile)
    (he : DIR_Name s.addr (slotAt rootDir i) 0 = 0xE5)
    (ha : DIR_Attr s.addr (slotAt rootDir i) ≠ 0x0f ∧ DIR_Attr s.addr (slotAt rootDir i) ≠ 0x08
      ∧ DIR_Attr s.addr (slotAt rootDir i) ≠ 0x10)
    (hz : DIR_FileSize s.addr (slotAt rootDir i) = 0
      ∨ firstCluster s.addr (slotAt rootDir i) < 2) :
    recoverAllDeletedFor fat fat2 size rootDir maxFile (n + 1) i s
      = recoverAllDeletedFor fat fat2 size rootDir maxFile n (i + 1)
          { addr := wr8 s.addr (slotAt rootDir i) 95,
            out := s.out ++ [cstr (deletedName (DIR_Name s.addr (slotAt rootDir i)))
              ++ lit ": recovered"],
            totalRecovered := s.totalRecovered + 1 }
    ∧ rd8 (wr8 s.addr (slotAt rootDir i) 95) (slotAt rootDir i) = 95
    ∧ (∀ q, q ≠ slotAt rootDir i → wr8 s.addr (slotAt rootDir i) 95 q = s.addr q)
    ∧ (∀ k : Int, (k = 0 ∨ k = 1) → ∀ c, InFat (fatBytes s.addr) c →
        fatGet (wr8 s.addr (slotAt rootDir i) 95) (fatOffset s.addr k) c
          = fatGet s.addr (fatOffset s.addr k) c)
    ∧ (deletedName (DIR_Name s.addr (slotAt rootDir i))).head? = some 95 := by
  generalize hpdef : slotAt rootDir i = p at *
  refine ⟨?_, ?_, ?_, ?_, deletedName_head _⟩
  · have hsk : ¬ (0 < toI32 (DIR_FileSize (wr8 s.addr p 95) p)
        ∧ 2 ≤ DIR_FstClusLO (wr8 s.addr p 95) p) := by
      rw [(slot_fields_wr8 s.addr p 95).1, (slot_fields_wr8 s.addr p 95).2]
      rcases hz with hz | hz
      · rw [hz]
        intro h
        exact absurd h.1 (by decide)
      · have := (rd16_bounds s.addr (p + 20)).1
        unfold firstCluster DIR_FstClusHI at hz
        intro h
        omega
    rw [recoverAllDeletedFor]
    simp only []
    rw [if_pos hi, hpdef, if_neg (by rw [he]; decide), if_pos ⟨he, ha⟩,
      writeDeleted_skip _ _ _ _ _ hsk]
    rfl
  · rw [rd8_wr8_same]; rfl
  · intro q hq
    exact wr8_other _ _ _ _ hq
  · intro k hk c hc
    apply fatGet_wr8_below
    have h2 := fatOffset_two s.addr
    have hB := hv.fatBytes_pos
    unfold InFat at hc
    unfold fatOffset at *
    rcases hk with rfl | rfl <;> omega

theorem emptyFile_volume : Volume emptyFile :=
  ⟨by decide, by decide, by decide, by decide, by decide, by decide, by decide⟩

/-- Instance of C13 on the tombstone of an empty file in root slot 0 of `emptyFile`. -/
theorem recoverAllDeleted_empty_file_no_fat_write_witness :
    Volume emptyFile ∧ fatOffset emptyFile 2 ≤ slotAt 1536 0 ∧ (0 : Int) < 16
    ∧ DIR_Name emptyFile (slotAt 1536 0) 0 = 0xE5
    ∧ (DIR_Attr emptyFile (slotAt 1536 0) ≠ 0x0f ∧ DIR_Attr emptyFile (slotAt 1536 0) ≠ 0x08
      ∧ DIR_Attr emptyFile (slotAt 1536 0) ≠ 0x10)
    ∧ DIR_FileSize emptyFile (slotAt 1536 0) = 0
    ∧ recoverAllDeletedFor 512 1024 512 1536 16 (15 + 1) 0
        { addr := emptyFile, out := [], totalRecovered := 0 }
      = recoverAllDeletedFor 512 1024 512 1536 16 15 (0 + 1)
          { addr := wr8 emptyFile (slotAt 1536 0) 95,
            out := [] ++ [cstr (deletedName (DIR_Name emptyFile (slotAt 1536 0)))
              ++ lit ": recovered"],
            totalRecovered := 0 + 1 }
    ∧ fatGet (wr8 emptyFile (slotAt 1536 0) 95) (fatOffset emptyFile 0) 0
        = fatGet emptyFile (fatOffset emptyFile 0) 0
    ∧ recoverAllDeleted 10 emptyFile
        = Except.ok (wr8 emptyFile 1536 95,
            [lit "_MPTY.TXT: recovered", lit "Successfully recovered 1 file(s)"]) :=
  ⟨emptyFile_volume, by decide, by decide, by decide, by decide, by decide,
    (recoverAllDeleted_empty_file_no_fat_write 512 1024 512 1536 16 15 0
      { addr := emptyFile, out := [], totalRecovered := 0 } emptyFile_volume (by decide)
      (by decide) (by decide) (by decide) (Or.inl (by decide))).1,
    (recoverAllDeleted_empty_file_no_fat_write 512 1024 512 1536 16 15 0
      { addr := emptyFile, out := [], totalRecovered := 0 } emptyFile_volume (by decide)
      (by decide) (by decide) (by decide) (Or.inl (by decide))).2.2.2.1 0 (Or.inl rfl) 0
      (by decide),
    rfl⟩

/-! ### A failing permutation search writes nothing -/

theorem tryClusterPermutation_reject (SHA1 : List Nat → List Nat) (heap : Nat → Nat)
    (addr : Mem) (file fat fat2 : Int) (t : List Nat) (q : List Int)
    (h : ¬ verifies SHA1 heap addr file t q) :
    tryClusterPermutation SHA1 heap addr file fat fat2 q t = Except.ok (addr, false) := by
  unfold verifies at h
  unfold tryClusterPermutation
  simp only []
  rw [if_neg h]
  rfl

theorem tryPermutationsLoop_reject (SHA1 : List Nat → List Nat) (heap : Nat → Nat)
    (addr : Mem) (file fat fat2 : Int) (t : List Nat) :
    ∀ (fuel : Nat) (cur : List Int) (seq : List (List Int)), visited fuel cur = Except.ok seq →
      (∀ q ∈ seq, ¬ verifies SHA1 heap addr file t q) →
      tryPermutationsLoop SHA1 heap addr file fat fat2 t fuel cur = Except.ok (addr, false) := by
  intro fuel
  induction fuel with
  | zero =>
    intro cur seq hv _
    simp [visited, throw, throwThe, MonadExceptOf.throw] at hv
  | succ fuel ih =>
    intro cur seq hv hall
    rw [visited] at hv
    rw [tryPermutationsLoop]
    cases hn : next_permutation cur with
    | none =>
      rw [hn] at hv
      simp [throw, throwThe, MonadExceptOf.throw] at hv
    | some r =>
      obtain ⟨arr1, b⟩ := r
      rw [hn] at hv
      cases b with
      | true =>
        simp only [] at hv
        cases hr : visited fuel arr1 with
        | error e =>
          rw [hr] at hv
          simp [bind, Except.bind] at hv
        | ok rest =>
          rw [hr] at hv
          simp only [bind, Except.bind, pure, Except.pure, Except.ok.injEq] at hv
          subst hv
          rw [tryClusterPermutation_reject SHA1 heap addr file fat fat2 t cur
            (hall cur (List.mem_cons_self _ _))]
          simp only [bind, Except.bind]
          exact ih arr1 rest hr (fun q hq => hall q (List.mem_cons_of_mem _ hq))
      | false =>
        simp only [pure, Except.pure, Except.ok.injEq] at hv
        subst hv
        rw [tryClusterPermutation_reject SHA1 heap addr file fat fat2 t cur
          (hall cur (List.mem_singleton_self _))]
        rfl

theorem numClusters_zero (sz : Int) (hsz : 512 ≤ sz) (hsz2 : sz ≤ 32768) :
    5 < toI32 (toU32 (toU32 ((0 : Int) - 1) / toU32 sz + 1)) := by
  have e1 : toU32 ((0 : Int) - 1) = 4294967295 := by decide
  have e2 : toU32 sz = sz := by unfold toU32; omega
  have h3 : (4294967295 : Int) / sz < 8388608 := Int.ediv_lt_of_lt_mul (by omega) (by omega)
  have h4 : (131071 : Int) ≤ 4294967295 / sz := Int.le_ediv_of_mul_le (by omega) (by omega)
  rw [e1, e2]
  unfold toI32 toU32
  omega

theorem visited_within (arr : List Int) (hlen : arr.length ≤ 5) :
    ∃ seq : List (List Int), visited 121 arr = Except.ok seq ∧ ∀ q ∈ seq, q.Perm arr := by
  obtain ⟨seq, hfuel, _, hmem, _, _⟩ := visited_enum arr _ arr (List.Perm.refl _) rfl
  refine ⟨seq, hfuel 121 ?_, fun q hq => ((hmem q).1 hq).1⟩
  have h1 : (arr.permutations.toFinset.filter (fun q => arr < q)).card
      ≤ arr.permutations.toFinset.card := Finset.card_filter_le _ _
  have h2 : arr.permutations.toFinset.card ≤ arr.permutations.length :=
    List.toFinset_card_le _
  have h3 : arr.permutations.length = arr.length.factorial := List.length_permutations arr
  have h4 : arr.length.factorial ≤ Nat.factorial 5 := Nat.factorial_le hlen
  have h5 : Nat.factorial 5 = 120 := by decide
  omega

/-- The search of `tryAllPermutations` fails without a write: on a volume, when the file
is empty, or needs more than five clusters, or fewer free clusters than needed exist among
clusters 2..19, or no arrangement of the candidate clusters passes the digest comparison,
the function returns 0 and the image as it was. -/
theorem tryAllPermutations_fails_unchanged (SHA1 : List Nat → List Nat) (heap : Nat → Nat)
    (addr : Mem) (file fat fat2 : Int) (t : List Nat) (hv : Volume addr)
    (h : DIR_FileSize addr file = 0
      ∨ 5 < clustersNeeded (DIR_FileSize addr file) (clusterSize addr)
      ∨ (freeClusters addr fat 2 18).length
          < (clustersNeeded (DIR_FileSize addr file) (clusterSize addr)).toNat
      ∨ ∀ q : List Int, q.Perm ((freeClusters addr fat 2 18).take
            (clustersNeeded (DIR_FileSize addr file) (clusterSize addr)).toNat) →
          ¬ verifies SHA1 heap addr file t q) :
    tryAllPermutations SHA1 heap addr file fat fat2 t = Except.ok (addr, false) := by
  have hsz := hv.size_pos
  have hsz2 := hv.clusterBytes
  have hfs := rd32u_bounds addr (file + 28)
  by_cases h0 : DIR_FileSize addr file = 0
  · unfold tryAllPermutations
    simp only []
    rw [if_neg (by omega), h0, if_pos (numClusters_zero _ hsz hsz2)]
    rfl
  · have h1 : 1 ≤ DIR_FileSize addr file := by
      unfold DIR_FileSize at h0 ⊢
      omega
    have hk := numClusters_eq (DIR_FileSize addr file) (clusterSize addr) h1 hfs.2 hsz hsz2
    by_cases h5 : 5 < clustersNeeded (DIR_FileSize addr file) (clusterSize addr)
    · unfold tryAllPermutations
      simp only []
      rw [if_neg (by omega), hk.1, if_pos h5]
      rfl
    · have hc := collectFree_eq addr fat
        (clustersNeeded (DIR_FileSize addr file) (clusterSize addr)).toNat 2 (by omega)
      rw [show ((2 : Nat) : Int) = 2 from rfl, show 20 - 2 = 18 from rfl] at hc
      unfold tryAllPermutations
      simp only []
      rw [if_neg (by omega), hk.1, if_neg h5, if_neg (by omega), hc]
      by_cases hlen : (clustersNeeded (DIR_FileSize addr file) (clusterSize addr)).toNat
          ≤ (freeClusters addr fat 2 18).length
      · rw [if_pos hlen]
        simp only []
        rcases h with h | h | h | h
        · exact absurd h h0
        · exact absurd h h5
        · omega
        · obtain ⟨seq, hseq, hperm⟩ := visited_within ((freeClusters addr fat 2 18).take
            (clustersNeeded (DIR_FileSize addr file) (clusterSize addr)).toNat)
            (by rw [List.length_take]; omega)
          exact tryPermutationsLoop_reject SHA1 heap addr file fat fat2 t 121 _ seq hseq
            (fun q hq => h q (hperm q hq))
      · rw [if_neg hlen]
        rfl

/-! ### Frame lemmas for images built by marking bytes and paired writes -/

theorem wr8_congr (m m1 : Mem) (p v q : Int) (h : m q = m1 q) : wr8 m p v q = wr8 m1 p v q := by
  unfold wr8
  split_ifs
  · rfl
  · exact h

theorem wr32_congr (m m1 : Mem) (p v q : Int) (h : m q = m1 q) :
    wr32 m p v q = wr32 m1 p v q := by
  unfold wr32
  exact wr8_congr _ _ _ _ _ (wr8_congr _ _ _ _ _ (wr8_congr _ _ _ _ _ (wr8_congr _ _ _ _ _ h)))

theorem pairedWrites_congr (fat fat2 : Int) (ws : List (Int × Int)) (m m1 : Mem) (q : Int)
    (h : m q = m1 q) : pairedWrites fat fat2 ws m q = pairedWrites fat fat2 ws m1 q := by
  induction ws generalizing m m1 with
  | nil => exact h
  | cons w ws ih =>
    rw [pairedWrites, pairedWrites]
    apply ih
    unfold fatSet
    exact wr32_congr _ _ _ _ _ (wr32_congr _ _ _ _ _ h)

theorem pairedWrites_append (fat fat2 : Int) (a b : List (Int × Int)) (m : Mem) :
    pairedWrites fat fat2 (a ++ b) m = pairedWrites fat fat2 b (pairedWrites fat fat2 a m) := by
  induction a generalizing m with
  | nil => rfl
  | cons w a ih => rw [List.cons_append, pairedWrites, pairedWrites, ih]

theorem marked_append (addr : Mem) (ps : List Int) (p v : Int) :
    marked addr (ps ++ [p]) v = wr8 (marked addr ps v) p v := by
  funext q
  unfold marked wr8
  by_cases h1 : q = p
  · simp [h1]
  · simp [h1]

/-- What can be read from an image obtained from `addr` by marking bytes of the data area
and by paired writes inside the FAT: the bytes before the FAT, the bytes of the data area,
and the FAT entries that were not written. -/
theorem image_read (addr : Mem) (ws : List (Int × Int)) (ps : List Int) (v : Int)
    (hv : Volume addr) (hws : ∀ w ∈ ws, InFat (fatBytes addr) w.1)
    (hps : ∀ p ∈ ps, fatOffset addr 2 ≤ p) :
    (∀ q, q < fatOffset addr 0 →
      pairedWrites (fatOffset addr 0) (fatOffset addr 0 + fatBytes addr) ws (marked addr ps v) q
        = addr q)
    ∧ (∀ q, fatOffset addr 2 ≤ q →
      pairedWrites (fatOffset addr 0) (fatOffset addr 0 + fatBytes addr) ws (marked addr ps v) q
        = marked addr ps v q)
    ∧ (∀ c, InFat (fatBytes addr) c → c ∉ ws.map Prod.fst →
      fatGet (pairedWrites (fatOffset addr 0) (fatOffset addr 0 + fatBytes addr) ws
        (marked addr ps v)) (fatOffset addr 0) c = fatGet addr (fatOffset addr 0) c) := by
  have h2 := fatOffset_two addr
  have hB := hv.fatBytes_pos
  have hun : ∀ q, q < fatOffset addr 2 → marked addr ps v q = addr q := by
    intro q hq
    unfold marked
    rw [if_neg]
    intro hmem
    have := hps q hmem
    omega
  refine ⟨?_, ?_, ?_⟩
  · intro q hq
    rw [pairedWrites_frame, hun q (by omega)]
    intro w hw
    have := hws w hw
    unfold InFat at this
    omega
  · intro q hq
    apply pairedWrites_frame
    intro w hw
    have := hws w hw
    unfold InFat at this
    omega
  · intro c hc hne
    rw [(pairedWrites_get_other _ _ ws _ c hws hc hne).1]
    apply fatGet_congr
    intro q h3 h4
    apply hun
    unfold InFat at hc
    omega

theorem volume_congr (m m1 : Mem) (h : ∀ q, 11 ≤ q → q < 48 → m1 q = m q) (hv : Volume m) :
    Volume m1 ∧ (∀ n, fatOffset m1 n = fatOffset m n) ∧ clusterSize m1 = clusterSize m
      ∧ fatBytes m1 = fatBytes m := by
  have e1 : BPB_BytsPerSec m1 = BPB_BytsPerSec m :=
    rd16_congr (h _ (by omega) (by omega)) (h _ (by omega) (by omega))
  have e2 : BPB_SecPerClus m1 = BPB_SecPerClus m := rd8_congr (h _ (by omega) (by omega))
  have e3 : BPB_RsvdSecCnt m1 = BPB_RsvdSecCnt m :=
    rd16_congr (h _ (by omega) (by omega)) (h _ (by omega) (by omega))
  have e4 : BPB_NumFATs m1 = BPB_NumFATs m := rd8_congr (h _ (by omega) (by omega))
  have e5 : BPB_FATSz32 m1 = BPB_FATSz32 m :=
    rd32u_congr (h _ (by omega) (by omega)) (h _ (by omega) (by omega))
      (h _ (by omega) (by omega)) (h _ (by omega) (by omega))
  have e6 : clusterSize m1 = clusterSize m := by unfold clusterSize; rw [e1, e2]
  have e7 : fatBytes m1 = fatBytes m := by unfold fatBytes; rw [e1, e5]
  refine ⟨⟨?_, ?_, ?_, ?_, ?_, ?_, ?_⟩, ?_, e6, e7⟩
  · rw [e1]; exact hv.bytsPerSec
  · rw [e2]; exact hv.secPerClus
  · rw [e6]; exact hv.clusterBytes
  · rw [e3]; exact hv.rsvd
  · rw [e4]; exact hv.numFATs
  · rw [e5]; exact hv.fatSz
  · rw [e7]; exact hv.fatEntries
  · intro n
    unfold fatOffset
    rw [e1, e3, e7]

theorem slot_congr (m m1 : Mem) (p : Int) (h : ∀ j, 0 ≤ j → j < 32 → m1 (p + j) = m (p + j)) :
    (∀ k : Nat, k < 11 → DIR_Name m1 p k = DIR_Name m p k)
    ∧ DIR_Attr m1 p = DIR_Attr m p ∧ DIR_FstClusLO m1 p = DIR_FstClusLO m p
    ∧ DIR_FileSize m1 p = DIR_FileSize m p := by
  refine ⟨?_, ?_, ?_, ?_⟩
  · intro k hk
    unfold DIR_Name
    rw [rd8_congr (h k (by omega) (by omega))]
  · exact rd8_congr (h 11 (by omega) (by omega))
  · unfold DIR_FstClusLO
    have a := h 26 (by omega) (by omega)
    have b := h 27 (by omega) (by omega)
    rw [show p + 27 = p + 26 + 1 from by ring] at b
    exact rd16_congr a b
  · unfold DIR_FileSize
    have a := h 28 (by omega) (by omega)
    have b := h 29 (by omega) (by omega)
    have c := h 30 (by omega) (by omega)
    have d := h 31 (by omega) (by omega)
    rw [show p + 29 = p + 28 + 1 from by ring] at b
    rw [show p + 30 = p + 28 + 2 from by ring] at c
    rw [show p + 31 = p + 28 + 3 from by ring] at d
    exact rd32u_congr a b c d

theorem Volume.size_dvd {addr : Mem} (hv : Volume addr) : ∃ t : Int, clusterSize addr = 32 * t := by
  have h1 := hv.bytsPerSec
  unfold clusterSize
  rcases h1 with h1 | h1 | h1 | h1 <;> rw [h1]
  · exact ⟨16 * BPB_SecPerClus addr, by ring⟩
  · exact ⟨32 * BPB_SecPerClus addr, by ring⟩
  · exact ⟨64 * BPB_SecPerClus addr, by ring⟩
  · exact ⟨128 * BPB_SecPerClus addr, by ring⟩

theorem clusterAt_aligned (addr : Mem) (hv : Volume addr) (c : Int) :
    (clusterAt addr c - fatOffset addr 2) % 32 = 0 := by
  obtain ⟨t, ht⟩ := hv.size_dvd
  unfold clusterAt
  rw [ht, show fatOffset addr 2 + (c - 2) * (32 * t) - fatOffset addr 2 = 32 * ((c - 2) * t) from by ring]
  exact Int.mul_emod_right _ _

theorem clusterAt_mono (addr : Mem) (hv : Volume addr) (c c1 : Int) (h : c < c1) :
    clusterAt addr c + clusterSize addr ≤ clusterAt addr c1 := by
  have hsz := hv.size_pos
  unfold clusterAt
  have : (c + 1 - 2) * clusterSize addr ≤ (c1 - 2) * clusterSize addr :=
    mul_le_mul_of_nonneg_right (by omega) (by omega)
  have e : (c + 1 - 2) * clusterSize addr = (c - 2) * clusterSize addr + clusterSize addr := by ring
  omega

theorem clusterOffset_eq (addr : Mem) (hv : Volume addr) (c : Int) (hc : 2 ≤ c)
    (hlim : clusterAt addr c + clusterSize addr ≤ 2147483648) :
    dataSec addr = fatOffset addr 2
    ∧ clusterOffset (dataSec addr) (clusterSize addr) c = clusterAt addr c
    ∧ fatOffset addr 2 ≤ clusterAt addr c := by
  have hsz := hv.size_pos
  have h2 := fatOffset_two addr
  have hf := hv.fatStart_eq
  have hB := hv.fatBytes_pos
  have hmono : 0 ≤ (c - 2) * clusterSize addr := mul_nonneg (by omega) (by omega)
  have hd : dataSec addr = fatOffset addr 2 := by
    unfold dataSec
    rw [hv.numFATs]
    have e : (BPB_RsvdSecCnt addr + toU32 (2 * BPB_FATSz32 addr)) * BPB_BytsPerSec addr
        = fatOffset addr 0 + 2 * fatBytes addr := by
      have hfz : toU32 (2 * BPB_FATSz32 addr) = 2 * BPB_FATSz32 addr := by
        have hb := hv.bytsPerSec
        have hfe := hv.fatEntries
        have hfs := hv.fatSz
        unfold fatBytes at hfe
        unfold toU32
        rcases hb with hb | hb | hb | hb <;> rw [hb] at hfe <;> omega
      rw [hfz]
      unfold fatOffset fatBytes
      ring
    rw [e, ← h2]
    unfold clusterAt at hlim
    unfold toI32 toU32
    omega
  refine ⟨hd, ?_, ?_⟩
  · unfold clusterOffset
    rw [hd]
    unfold clusterAt at hlim ⊢
    unfold toI32
    omega
  · unfold clusterAt
    omega

/-! ### The scan of `recoverAllFiles` -/

theorem recoverAllFilesFor_eq (addr : Mem) (T : List Nat) (base maxFile : Int) (n : Nat)
    (i : Int) (acc : List Int) (h : i + n ≤ maxFile) :
    recoverAllFilesFor addr T base maxFile n i acc
      = acc ++ (liveSlots addr base n i).filter (strcmpMatches addr T) := by
  induction n generalizing i acc with
  | zero => simp [recoverAllFilesFor, liveSlots]
  | succ n ih =>
    rw [recoverAllFilesFor, liveSlots]
    simp only []
    rw [if_pos (by push_cast at h; omega)]
    by_cases h0 : DIR_Name addr (slotAt base i) 0 = 0x00
    · rw [if_pos h0, if_pos h0]
      simp
    · rw [if_neg h0, if_neg h0, List.filter_cons]
      by_cases hskip : DIR_Name addr (slotAt base i) 0 = 0x10 ∨ DIR_Attr addr (slotAt base i) = 0x0f
          ∨ DIR_Attr addr (slotAt base i) = 0x08
      · rw [if_pos hskip, ih _ _ (by push_cast at h; omega), if_neg (by simp [strcmpMatches, hskip])]
      · rw [if_neg hskip]
        by_cases he : DIR_Name addr (slotAt base i) 0 = 0xE5
        · rw [if_pos he]
          by_cases hm : cstr (getName (DIR_Name addr (slotAt base i)) (T.headD 0)) = cstr T
          · rw [if_pos hm, ih _ _ (by push_cast at h; omega),
              if_pos (by simp only [strcmpMatches, decide_eq_true_eq]; exact ⟨hskip, he, hm⟩)]
            simp
          · rw [if_neg hm, ih _ _ (by push_cast at h; omega),
              if_neg (by simp only [strcmpMatches, decide_eq_true_eq]; exact fun h => hm h.2.2)]
        · rw [if_neg he, ih _ _ (by push_cast at h; omega),
            if_neg (by simp only [strcmpMatches, decide_eq_true_eq]; exact fun h => he h.2.1)]

theorem recoverAllFilesWhile_eq (addr : Mem) (T : List Nat) (fat : Int) (n : Nat) (c : Int)
    (acc : List Int) (cl : List Int) (hch : dirChain addr fat n c = some cl)
    (hoff : ∀ c ∈ cl, clusterOffset (dataSec addr) (clusterSize addr) c = clusterAt addr c)
    (hsz : 0 ≤ clusterSize addr) :
    recoverAllFilesWhile addr T fat (dataSec addr) (clusterSize addr) n c acc
      = Except.ok (acc ++ (rootSlots addr cl).filter (strcmpMatches addr T)) := by
  induction n generalizing c acc cl with
  | zero => simp [dirChain] at hch
  | succ n ih =>
    rw [dirChain] at hch
    rw [recoverAllFilesWhile]
    by_cases hc : c ≠ 0 ∧ c < 0x0FFFFFF8
    · rw [if_pos hc] at hch
      rw [if_pos hc]
      simp only []
      cases hr : dirChain addr fat n (fatGet addr fat c) with
      | none => rw [hr] at hch; simp at hch
      | some l =>
        rw [hr] at hch
        simp only [Option.map_some', Option.some.injEq] at hch
        subst hch
        rw [ih _ _ l hr (fun c1 h1 => hoff c1 (List.mem_cons_of_mem _ h1)),
          hoff c (List.mem_cons_self _ _),
          recoverAllFilesFor_eq _ _ _ _ _ _ _ (by
            have : 0 ≤ clusterSize addr / 32 := Int.ediv_nonneg hsz (by decide)
            omega)]
        simp [rootSlots, List.append_assoc]
    · rw [if_neg hc] at hch
      rw [if_neg hc]
      simp only [Option.some.injEq] at hch
      subst hch
      simp [rootSlots, pure, Except.pure]

theorem pairedWrites_wr8_comm (fat fat2 : Int) (ws : List (Int × Int)) (m : Mem) (p v : Int)
    (h : ∀ w ∈ ws, (p < fat + 4 * w.1 ∨ fat + 4 * w.1 + 4 ≤ p)
      ∧ (p < fat2 + 4 * w.1 ∨ fat2 + 4 * w.1 + 4 ≤ p)) :
    pairedWrites fat fat2 ws (wr8 m p v) = wr8 (pairedWrites fat fat2 ws m) p v := by
  funext q
  by_cases hq : q = p
  · subst hq
    rw [pairedWrites_frame _ _ _ _ _ h, wr8_same, wr8_same]
  · rw [wr8_other _ _ _ _ hq]
    exact pairedWrites_congr _ _ _ _ _ _ (wr8_other _ _ _ _ hq)

theorem size_fields_congr (m m1 : Mem) (p : Int)
    (h : ∀ j, 26 ≤ j → j < 32 → m1 (p + j) = m (p + j)) :
    DIR_FstClusLO m1 p = DIR_FstClusLO m p ∧ DIR_FileSize m1 p = DIR_FileSize m p := by
  refine ⟨?_, ?_⟩
  · unfold DIR_FstClusLO
    have a := h 26 (by omega) (by omega)
    have b := h 27 (by omega) (by omega)
    rw [show p + 27 = p + 26 + 1 from by ring] at b
    exact rd16_congr a b
  · unfold DIR_FileSize
    have a := h 28 (by omega) (by omega)
    have b := h 29 (by omega) (by omega)
    have c := h 30 (by omega) (by omega)
    have d := h 31 (by omega) (by omega)
    rw [show p + 29 = p + 28 + 1 from by ring] at b
    rw [show p + 30 = p + 28 + 2 from by ring] at c
    rw [show p + 31 = p + 28 + 3 from by ring] at d
    exact rd32u_congr a b c d

theorem recoverWrites_inFat (addr : Mem) (p : Int) (hv : Volume addr)
    (hin : 4 * (DIR_FstClusLO addr p + recoverCount (DIR_FileSize addr p) (clusterSize addr))
      ≤ fatBytes addr) :
    ∀ w ∈ recoverWrites addr p, InFat (fatBytes addr) w.1 := by
  have hsz := hv.size_pos
  have hk1 := recoverCount_pos (DIR_FileSize addr p) (clusterSize addr) (by omega)
  have hlo : 0 ≤ DIR_FstClusLO addr p := (rd16_bounds addr (p + 26)).1
  unfold recoverWrites
  apply chain_inFat _ _ _ hlo
  omega

theorem flatMap_inFat (addr : Mem) (B : Int) (f : Mem → Int → List (Int × Int)) (ps : List Int)
    (h : ∀ p ∈ ps, ∀ w ∈ f addr p, InFat B w.1) :
    ∀ w ∈ ps.flatMap (f addr), InFat B w.1 := by
  intro w hw
  rw [List.mem_flatMap] at hw
  obtain ⟨p, hp, hw⟩ := hw
  exact h p hp w hw

theorem recoverEach_eq (addr : Mem) (T0 : Int) (hv : Volume addr) (rest : List Int) :
    ∀ done : List Int,
    (∀ p ∈ done ++ rest, fatOffset addr 2 ≤ p ∧ (p - fatOffset addr 2) % 32 = 0
      ∧ 4 * (DIR_FstClusLO addr p + recoverCount (DIR_FileSize addr p) (clusterSize addr))
          ≤ fatBytes addr) →
    recoverEach T0 rest (pairedWrites (fatOffset addr 0) (fatOffset addr 0 + fatBytes addr)
        (done.flatMap (recoverWrites addr)) (marked addr done T0))
      = Except.ok (pairedWrites (fatOffset addr 0) (fatOffset addr 0 + fatBytes addr)
          ((done ++ rest).flatMap (recoverWrites addr)) (marked addr (done ++ rest) T0)) := by
  induction rest with
  | nil => intro done _; simp [recoverEach, pure, Except.pure]
  | cons p rest ih =>
    intro done hall
    have hf := hv.fatStart_eq
    have hB := hv.fatBytes_pos
    have h2 := fatOffset_two addr
    have hp := hall p (by simp)
    have hdone : ∀ p1 ∈ done, fatOffset addr 2 ≤ p1 := fun p1 h1 => (hall p1 (by simp [h1])).1
    have hws : ∀ w ∈ done.flatMap (recoverWrites addr), InFat (fatBytes addr) w.1 :=
      flatMap_inFat addr _ recoverWrites done
        (fun p1 h1 => recoverWrites_inFat addr p1 hv (hall p1 (by simp [h1])).2.2)
    obtain ⟨hr1, hr2, _⟩ := image_read addr _ done T0 hv hws hdone
    generalize hm : pairedWrites (fatOffset addr 0) (fatOffset addr 0 + fatBytes addr)
      (done.flatMap (recoverWrites addr)) (marked addr done T0) = m at hr1 hr2
    obtain ⟨hvm, hfo, hcs, hfb⟩ := volume_congr addr m (fun q _ _ => hr1 q (by omega)) hv
    have hfields := size_fields_congr addr m p (by
      intro j hj1 hj2
      rw [hr2 _ (by omega)]
      unfold marked
      rw [if_neg]
      intro hmem
      have := (hall _ (List.mem_append_left _ hmem)).2.1
      omega)
    have hrec := recover_eq m p T0 hvm (by rw [hfo]; exact hp.1)
      (by rw [hfields.1, hfields.2, hcs, hfb]; exact hp.2.2)
    rw [hfo, hfb, hfields.1, hfields.2, hcs] at hrec
    rw [recoverEach, hrec]
    simp only [bind, Except.bind]
    have key : pairedWrites (fatOffset addr 0) (fatOffset addr 0 + fatBytes addr)
        (chain (DIR_FstClusLO addr p)
          (recoverCount (DIR_FileSize addr p) (clusterSize addr)).toNat) (wr8 m p T0)
        = pairedWrites (fatOffset addr 0) (fatOffset addr 0 + fatBytes addr)
          ((done ++ [p]).flatMap (recoverWrites addr)) (marked addr (done ++ [p]) T0) := by
      rw [List.flatMap_append, List.flatMap_singleton, pairedWrites_append, marked_append,
        pairedWrites_wr8_comm _ _ (done.flatMap (recoverWrites addr)) (marked addr done T0) p T0
          (by
            intro w hw
            have := hws w hw
            unfold InFat at this
            omega), hm]
      rfl
    rw [key, ih (done ++ [p]) (by simpa using hall)]
    simp

/-! ### Names: `getName` against the reference decoder -/

theorem wellFormedName_iff (raw : Nat → Nat) :
    wellFormedName raw = true ↔ (∀ j, 1 ≤ j → j < 11 → raw j ≠ 0)
      ∧ (raw 8 = 32 → raw 9 = 32 ∧ raw 10 = 32) := by
  unfold wellFormedName
  simp only [Bool.and_eq_true, List.all_eq_true, List.mem_range'_1, bne_iff_ne, ne_eq,
    Bool.or_eq_true, beq_iff_eq, and_imp]
  constructor
  · rintro ⟨h1, h2⟩
    refine ⟨fun j a b => h1 j a (by omega), ?_⟩
    intro h8
    rcases h2 with h2 | h2
    · exact absurd h8 h2
    · exact h2
  · rintro ⟨h1, h2⟩
    refine ⟨fun j a b => h1 j a (by omega), ?_⟩
    by_cases h8 : raw 8 = 32
    · exact Or.inr (h2 h8)
    · exact Or.inl h8

theorem getName_eq_decodeSpec (raw : Nat → Nat) (first : Nat)
    (h : raw 8 = 32 → raw 9 = 32 ∧ raw 10 = 32) : getName raw first = decodeSpec raw first := by
  unfold getName decodeSpec
  rw [show (10 : Nat) = 7 + 3 from rfl, getNameLoop_add, getNameLoop_plain raw 7 1 _ (by omega)]
  generalize [first] ++ List.filter (fun b => b != 32) (List.map raw (List.range' 1 7)) = out
  by_cases h8 : raw 8 = 32
  · obtain ⟨h9, h10⟩ := h h8
    rw [if_neg (by simpa using h8)]
    simp [getNameLoop, h8, h9, h10]
  · rw [if_pos h8, getNameLoop, if_pos ⟨rfl, h8⟩, getNameLoop_plain raw 2 9 _ (by omega)]
    simp [List.range', List.filter_cons, h8]

theorem cstr_eq_self (l : List Nat) (h : ∀ b ∈ l, b ≠ 0) : cstr l = l := by
  unfold cstr
  rw [List.takeWhile_eq_self_iff]
  intro b hb
  simpa using h b hb

theorem decodeSpec_nonzero (raw : Nat → Nat) (first : Nat) (hf : first ≠ 0)
    (h : ∀ j, 1 ≤ j → j < 11 → raw j ≠ 0) : ∀ b ∈ decodeSpec raw first, b ≠ 0 := by
  intro b hb
  unfold decodeSpec at hb
  simp only [List.mem_append, List.mem_singleton, List.mem_filter, List.mem_map,
    List.mem_range'_1] at hb
  rcases hb with (rfl | ⟨⟨j, hj, rfl⟩, _⟩) | hb
  · exact hf
  · exact h j (by omega) (by omega)
  · split_ifs at hb
    · simp only [List.mem_append, List.mem_singleton, List.mem_filter, List.mem_map,
        List.mem_range'_1] at hb
      rcases hb with rfl | ⟨⟨j, hj, rfl⟩, _⟩
      · decide
      · exact h j (by omega) (by omega)
    · simp at hb

theorem strcmpMatches_eq (addr : Mem) (T : List Nat) (p : Int) (hT : T.headD 0 ≠ 0)
    (hwf : DIR_Name addr p 0 = 0xE5 → DIR_Attr addr p ≠ 0x0f → DIR_Attr addr p ≠ 0x08 →
      wellFormedName (DIR_Name addr p) = true) :
    strcmpMatches addr T p = nameMatches addr T p := by
  unfold strcmpMatches nameMatches
  by_cases he : DIR_Name addr p 0 = 0xE5
  · by_cases ha : DIR_Attr addr p = 0x0f ∨ DIR_Attr addr p = 0x08
    · apply decide_eq_decide.2
      constructor
      · rintro ⟨a, _, _⟩
        exact absurd (Or.inr ha) a
      · rintro ⟨_, a, b, _⟩
        rcases ha with ha | ha
        · exact absurd ha a
        · exact absurd ha b
    · obtain ⟨h1, h2⟩ := (wellFormedName_iff _).1
        (hwf he (fun h => ha (Or.inl h)) (fun h => ha (Or.inr h)))
      rw [getName_eq_decodeSpec _ _ h2, cstr_eq_self _ (decodeSpec_nonzero _ _ hT h1)]
      apply decide_eq_decide.2
      rw [he]
      constructor
      · rintro ⟨a, _, c⟩
        exact ⟨rfl, fun h => a (Or.inr (Or.inl h)), fun h => a (Or.inr (Or.inr h)), c⟩
      · rintro ⟨_, a, b, c⟩
        refine ⟨?_, rfl, c⟩
        rintro (h | h | h)
        · exact absurd h (by decide)
        · exact a h
        · exact b h
  · apply decide_eq_decide.2
    constructor
    · rintro ⟨_, a, _⟩; exact absurd a he
    · rintro ⟨a, _⟩; exact absurd a he

theorem liveSlots_mem (addr : Mem) (base : Int) (n : Nat) (i p : Int)
    (h : p ∈ liveSlots addr base n i) :
    ∃ j, i ≤ j ∧ j < i + n ∧ p = slotAt base j := by
  induction n generalizing i with
  | zero => simp [liveSlots] at h
  | succ n ih =>
    rw [liveSlots] at h
    split_ifs at h
    · simp at h
    · rcases List.mem_cons.1 h with rfl | h
      · exact ⟨i, le_refl _, by omega, rfl⟩
      · obtain ⟨j, h1, h2, h3⟩ := ih _ h
        exact ⟨j, by omega, by push_cast; omega, h3⟩

theorem rootSlots_mem (addr : Mem) (hv : Volume addr) (cl : List Int) (p : Int)
    (h : p ∈ rootSlots addr cl) :
    ∃ c ∈ cl, clusterAt addr c ≤ p ∧ p < clusterAt addr c + clusterSize addr
      ∧ (p - fatOffset addr 2) % 32 = 0 := by
  unfold rootSlots at h
  rw [List.mem_flatMap] at h
  obtain ⟨c, hc, hp⟩ := h
  obtain ⟨j, h1, h2, rfl⟩ := liveSlots_mem _ _ _ _ _ hp
  have hal := clusterAt_aligned addr hv c
  have hsz := hv.size_pos
  refine ⟨c, hc, ?_, ?_, ?_⟩
  · unfold slotAt; omega
  · unfold slotAt
    have : ((clusterSize addr / 32).toNat : Int) = clusterSize addr / 32 :=
      Int.toNat_of_nonneg (Int.ediv_nonneg (by omega) (by decide))
    omega
  · unfold slotAt; omega

theorem marked_nil (addr : Mem) (v : Int) : marked addr [] v = addr := by
  funext q
  simp [marked]

theorem recoverAllFiles_eq (fuel : Nat) (T : List Nat) (addr : Mem)
    (cl : List Int) (hv : Volume addr) (hT : T.headD 0 ≠ 0 ∧ T.headD 0 ≠ 32)
    (hch : dirChain addr (fatOffset addr 0) fuel (toI32 (BPB_RootClus addr)) = some cl)
    (hcl : ∀ c ∈ cl, 2 ≤ c ∧ clusterAt addr c + clusterSize addr ≤ 2147483648)
    (hwf : ∀ p ∈ rootSlots addr cl, DIR_Name addr p 0 = 0xE5 → DIR_Attr addr p ≠ 0x0f →
      DIR_Attr addr p ≠ 0x08 → wellFormedName (DIR_Name addr p) = true)
    (hsize : ∀ p ∈ matchingSlots addr cl T,
      1 ≤ DIR_FileSize addr p ∧ DIR_FileSize addr p < 2147483648
      ∧ InFat (fatBytes addr) (DIR_FstClusLO addr p
          + clustersNeeded (DIR_FileSize addr p) (clusterSize addr) - 1)) :
    ∃ m, recoverAllFiles fuel T addr
        = Except.ok (m, [if (matchingSlots addr cl T).length = 0
            then cstr T ++ lit ": file not found"
            else cstr T ++ lit ": " ++ lit (Nat.repr (matchingSlots addr cl T).length)
              ++ lit " file(s) recovered"])
      ∧ m = committed addr (contiguousChain addr) (matchingSlots addr cl T) (T.headD 0)
      ∧ (∀ p ∈ matchingSlots addr cl T, rd8 m p = ((T.headD 0 : Nat) : Int) % 256)
      ∧ (∀ q, fatOffset addr 2 ≤ q → q ∉ matchingSlots addr cl T → m q = addr q)
      ∧ ((matchingSlots addr cl T).length = 0 → m = addr) := by
  have hsz := hv.size_pos
  have hB := hv.fatBytes_pos
  have h1' := fatOffset_one addr
  -- the first pass collects the matching slots
  have hfound : recoverAllFilesWhile addr T (fatStart addr) (dataSec addr) (clusterSize addr) fuel
      (toI32 (BPB_RootClus addr)) [] = Except.ok (matchingSlots addr cl T) := by
    rw [hv.fatStart_eq.1, recoverAllFilesWhile_eq addr T _ fuel _ [] cl hch
      (fun c hc => (clusterOffset_eq addr hv c (hcl c hc).1 (hcl c hc).2).2.1) (by omega),
      List.nil_append]
    unfold matchingSlots
    rw [List.filter_congr (fun p hp => strcmpMatches_eq addr T p hT.1 (hwf p hp))]
  -- facts about the matching slots
  have hall : ∀ p ∈ matchingSlots addr cl T, fatOffset addr 2 ≤ p
      ∧ (p - fatOffset addr 2) % 32 = 0
      ∧ 4 * (DIR_FstClusLO addr p + recoverCount (DIR_FileSize addr p) (clusterSize addr))
          ≤ fatBytes addr := by
    intro p hp
    obtain ⟨h1, h2, h3⟩ := hsize p hp
    unfold matchingSlots at hp
    obtain ⟨c, hc, hlo, _, hal⟩ := rootSlots_mem addr hv cl p (List.mem_filter.1 hp).1
    have := (clusterOffset_eq addr hv c (hcl c hc).1 (hcl c hc).2).2.2
    rw [recoverCount_eq_clustersNeeded _ _ h1 h2 (by omega)]
    unfold InFat at h3
    exact ⟨by omega, hal, by omega⟩
  have hw : (matchingSlots addr cl T).flatMap (recoverWrites addr)
      = (matchingSlots addr cl T).flatMap (contiguousChain addr) := by
    have hpt : ∀ p ∈ matchingSlots addr cl T, recoverWrites addr p = contiguousChain addr p := by
      intro p hp
      obtain ⟨h1, h2, _⟩ := hsize p hp
      unfold recoverWrites contiguousChain
      rw [recoverCount_eq_clustersNeeded _ _ h1 h2 (by omega)]
    rw [List.flatMap_def, List.flatMap_def, List.map_congr_left hpt]
  have heach := recoverEach_eq addr (T.headD 0) hv (matchingSlots addr cl T) []
    (by simpa using hall)
  rw [List.flatMap_nil, pairedWrites, marked_nil, List.nil_append, hw] at heach
  have hws : ∀ w ∈ (matchingSlots addr cl T).flatMap (contiguousChain addr),
      InFat (fatBytes addr) w.1 := by
    rw [← hw]
    exact flatMap_inFat addr _ recoverWrites _
      (fun p hp => recoverWrites_inFat addr p hv (hall p hp).2.2)
  obtain ⟨_, hr2, _⟩ := image_read addr _ (matchingSlots addr cl T) (T.headD 0) hv hws
    (fun p hp => (hall p hp).1)
  unfold recoverAllFiles
  rw [if_neg (by rintro (h | h); exact hT.1 h; exact hT.2 h), hfound, ok_bind]
  by_cases h0 : (matchingSlots addr cl T).length = 0
  · have hnil : matchingSlots addr cl T = [] := List.length_eq_zero.1 h0
    refine ⟨addr, ?_, ?_, ?_, ?_, fun _ => rfl⟩
    · rw [if_pos h0, if_pos h0]; rfl
    · unfold committed
      rw [hnil, List.flatMap_nil, pairedWrites, marked_nil]
    · intro p hp; rw [hnil] at hp; cases hp
    · intro q _ _; rfl
  · refine ⟨pairedWrites (fatOffset addr 0) (fatOffset addr 0 + fatBytes addr)
        ((matchingSlots addr cl T).flatMap (contiguousChain addr))
        (marked addr (matchingSlots addr cl T) (T.headD 0)), ?_, ?_, ?_, ?_,
      fun h => absurd h h0⟩
    · rw [if_neg h0, if_neg h0, heach, ok_bind]
      rfl
    · unfold committed
      rw [h1']
    · intro p hp
      rw [rd8_congr (hr2 p (hall p hp).1)]
      unfold rd8 marked
      rw [if_pos hp]
      omega
    · intro q hq hnot
      rw [hr2 q hq]
      unfold marked
      rw [if_neg hnot]

/-- C15 (amended): on a volume whose root directory chain ends and lies in the first
2 GiB, with well-formed names in its tombstones that are neither long-name components nor
volume labels, for a target name `T` that is not empty and does not start with a space:
if every matching tombstone has `1 ≤ file_size < 2^31` and its
`⌈file_size / cluster_bytes⌉` clusters from the start cluster lie inside the FAT, then
`recoverAllFiles` returns; the image afterwards
is the original with `name[0]` of every matching slot set to `T[0]` and the contiguous
chains of the matching slots committed to both FAT copies in discovery order; no other
byte of the data area has changed; and the single line printed is `T: file not found`
when no slot matches (then the image is unchanged) and `T: <count> file(s) recovered`
with the number of matching slots otherwise. -/
theorem recoverAllFiles_recovers_every_match (fuel : Nat) (T : List Nat) (addr : Mem)
    (cl : List Int) (hv : Volume addr) (hT : T.headD 0 ≠ 0 ∧ T.headD 0 ≠ 32)
    (hch : dirChain addr (fatOffset addr 0) fuel (toI32 (BPB_RootClus addr)) = some cl)
    (hcl : ∀ c ∈ cl, 2 ≤ c ∧ clusterAt addr c + clusterSize addr ≤ 2147483648)
    (hwf : ∀ p ∈ rootSlots addr cl, DIR_Name addr p 0 = 0xE5 → DIR_Attr addr p ≠ 0x0f →
      DIR_Attr addr p ≠ 0x08 → wellFormedName (DIR_Name addr p) = true)
    (hsize : ∀ p ∈ matchingSlots addr cl T,
      1 ≤ DIR_FileSize addr p ∧ DIR_FileSize addr p < 2147483648
      ∧ InFat (fatBytes addr) (DIR_FstClusLO addr p
          + clustersNeeded (DIR_FileSize addr p) (clusterSize addr) - 1)) :
    ∃ m, recoverAllFiles fuel T addr
        = Except.ok (m, [if (matchingSlots addr cl T).length = 0
            then cstr T ++ lit ": file not found"
            else cstr T ++ lit ": " ++ lit (Nat.repr (matchingSlots addr cl T).length)
              ++ lit " file(s) recovered"])
      ∧ m = committed addr (contiguousChain addr) (matchingSlots addr cl T) (T.headD 0)
      ∧ (∀ p ∈ matchingSlots addr cl T, rd8 m p = ((T.headD 0 : Nat) : Int) % 256)
      ∧ (∀ q, fatOffset addr 2 ≤ q → q ∉ matchingSlots addr cl T → m q = addr q)
      ∧ ((matchingSlots addr cl T).length = 0 → m = addr) :=
  recoverAllFiles_eq fuel T addr cl hv hT hch hcl hwf hsize

/-! ### The directory chain -/

theorem dirChain_mono (addr : Mem) (fat : Int) (n : Nat) :
    ∀ (c : Int) (l : List Int), dirChain addr fat n c = some l →
      ∀ k, n ≤ k → dirChain addr fat k c = some l := by
  induction n with
  | zero => intro c l h; simp [dirChain] at h
  | succ n ih =>
    intro c l h k hk
    obtain ⟨k, rfl⟩ : ∃ j, k = j + 1 := ⟨k - 1, by omega⟩
    rw [dirChain] at h ⊢
    split_ifs at h ⊢ with hc
    · cases hr : dirChain addr fat n (fatGet addr fat c) with
      | none => rw [hr] at h; simp at h
      | some l1 =>
        rw [hr] at h
        rw [ih _ _ hr k (by omega)]
        exact h
    · exact h

theorem dirChain_from_member (addr : Mem) (fat : Int) (n : Nat) :
    ∀ (c : Int) (l : List Int), dirChain addr fat n c = some l → ∀ x ∈ l,
      ∃ l1, dirChain addr fat n x = some l1 ∧ l1.length ≤ l.length := by
  induction n with
  | zero => intro c l h; simp [dirChain] at h
  | succ n ih =>
    intro c l h x hx
    have h0 := h
    rw [dirChain] at h
    split_ifs at h with hc
    · cases hr : dirChain addr fat n (fatGet addr fat c) with
      | none => rw [hr] at h; simp at h
      | some l1 =>
        rw [hr] at h
        simp only [Option.map_some', Option.some.injEq] at h
        subst h
        rcases List.mem_cons.1 hx with rfl | hx
        · exact ⟨_, h0, le_refl _⟩
        · obtain ⟨l2, h2, h3⟩ := ih _ _ hr x hx
          exact ⟨l2, dirChain_mono _ _ _ _ _ h2 _ (by omega), by simp; omega⟩
    · simp only [Option.some.injEq] at h
      subst h
      cases hx

theorem dirChain_nodup (addr : Mem) (fat : Int) (n : Nat) :
    ∀ (c : Int) (l : List Int), dirChain addr fat n c = some l → l.Nodup := by
  induction n with
  | zero => intro c l h; simp [dirChain] at h
  | succ n ih =>
    intro c l h
    have h0 := h
    rw [dirChain] at h
    split_ifs at h with hc
    · cases hr : dirChain addr fat n (fatGet addr fat c) with
      | none => rw [hr] at h; simp at h
      | some l1 =>
        rw [hr] at h
        simp only [Option.map_some', Option.some.injEq] at h
        subst h
        refine List.nodup_cons.2 ⟨?_, ih _ _ hr⟩
        intro hmem
        obtain ⟨l2, h2, h3⟩ := dirChain_from_member _ _ _ _ _ hr c hmem
        have h4 := dirChain_mono _ _ _ _ _ h2 (n + 1) (by omega)
        rw [h0] at h4
        simp only [Option.some.injEq] at h4
        rw [← h4] at h3
        simp at h3
    · simp only [Option.some.injEq] at h
      subst h
      exact List.nodup_nil

/-! ### The scan of `recoverAllDeleted` -/

theorem copyNoSpace_congr (f g : Nat → Nat) (n j : Nat) (out : List Nat)
    (h : ∀ k, j ≤ k → k < j + n → f k = g k) :
    copyNoSpace f n j out = copyNoSpace g n j out := by
  induction n generalizing j out with
  | zero => rfl
  | succ n ih =>
    rw [copyNoSpace, copyNoSpace, h j (le_refl _) (by omega)]
    split_ifs
    · exact ih _ _ (fun k h1 h2 => h k (by omega) (by omega))
    · exact ih _ _ (fun k h1 h2 => h k (by omega) (by omega))

theorem deletedName_congr (f g : Nat → Nat) (h : ∀ k, k < 11 → f k = g k) :
    deletedName f = deletedName g := by
  simp only [deletedName]
  rw [h 8 (by omega), copyNoSpace_congr f g 7 1 _ (fun k _ h2 => h k (by omega))]
  split_ifs
  · exact copyNoSpace_congr f g 3 8 _ (fun k _ h2 => h k (by omega))
  · rfl

theorem committed_snoc (addr : Mem) (hv : Volume addr) (writes : Int → List (Int × Int))
    (done : List Int) (p v : Int) (hp : fatOffset addr 2 ≤ p)
    (hws : ∀ w ∈ done.flatMap writes, InFat (fatBytes addr) w.1) :
    pairedWrites (fatOffset addr 0) (fatOffset addr 0 + fatBytes addr) (writes p)
        (wr8 (committed addr writes done v) p v)
      = committed addr writes (done ++ [p]) v := by
  have h2 := fatOffset_two addr
  have hB := hv.fatBytes_pos
  unfold committed
  rw [fatOffset_one, List.flatMap_append, List.flatMap_singleton, pairedWrites_append,
    marked_append,
    pairedWrites_wr8_comm _ _ (done.flatMap writes) (marked addr done v) p v
      (by
        intro w hw
        have := hws w hw
        unfold InFat at this
        omega)]

theorem committed_nil (addr : Mem) (writes : Int → List (Int × Int)) (v : Int) :
    committed addr writes [] v = addr := by
  unfold committed
  rw [List.flatMap_nil, pairedWrites, marked_nil]

theorem writeDeleted_at (addr m : Mem) (hv : Volume addr) (p : Int)
    (hp : fatOffset addr 2 ≤ p) (hboot : ∀ q, q < fatOffset addr 0 → m q = addr q)
    (hlo : DIR_FstClusLO m p = DIR_FstClusLO addr p)
    (hfs : DIR_FileSize m p = DIR_FileSize addr p) :
    writeDeleted (wr8 m p 95) (fatOffset addr 0) (fatOffset addr 0 + fatBytes addr)
        (clusterSize addr) p
      = Except.ok (pairedWrites (fatOffset addr 0) (fatOffset addr 0 + fatBytes addr)
          (deletedWrites addr p) (wr8 m p 95)) := by
  have hf := hv.fatStart_eq
  have hB := hv.fatBytes_pos
  have h2 := fatOffset_two addr
  obtain ⟨hv1, hfo, hcs, hfb⟩ := volume_congr addr (wr8 m p 95)
    (fun q _ _ => by rw [wr8_other _ _ _ _ (by omega), hboot q (by omega)]) hv
  have hsl := slot_fields_wr8 m p 95
  by_cases hc : 0 < toI32 (DIR_FileSize addr p) ∧ 2 ≤ DIR_FstClusLO addr p
  · have := writeDeleted_eq (wr8 m p 95) p hv1 (by rw [hsl.1, hsl.2, hfs, hlo]; exact hc)
    rw [hv1.fatStart_eq.1, hv1.fat2Start_eq, hfo, hfb, hcs, hsl.1, hsl.2, hfs, hlo] at this
    rw [this]
    unfold deletedWrites recoverWrites
    rw [if_pos hc]
  · rw [writeDeleted_skip _ _ _ _ _ (by rw [hsl.1, hsl.2, hfs, hlo]; exact hc)]
    unfold deletedWrites
    rw [if_neg hc]
    rfl

theorem recoverAllDeletedFor_eq (addr : Mem) (hv : Volume addr) (base : Int)
    (hbase : fatOffset addr 2 ≤ base) (hal : (base - fatOffset addr 2) % 32 = 0) (n : Nat) :
    ∀ (i : Int) (done : List Int) (out : List (List Nat)) (tot : Nat),
      0 ≤ i → i + n ≤ clusterSize addr / 32 →
      (∀ p ∈ done, fatOffset addr 2 ≤ p ∧ (p - fatOffset addr 2) % 32 = 0) →
      (∀ j, i ≤ j → j < i + n → slotAt base j ∉ done) →
      (∀ p ∈ done ++ (liveSlots addr base n i).filter (isDeletedFile addr),
        ∀ w ∈ deletedWrites addr p, InFat (fatBytes addr) w.1) →
      recoverAllDeletedFor (fatOffset addr 0) (fatOffset addr 0 + fatBytes addr) (clusterSize addr)
          base (clusterSize addr / 32) n i
          ⟨committed addr (deletedWrites addr) done 95, out, tot⟩
        = Except.ok ⟨committed addr (deletedWrites addr)
              (done ++ (liveSlots addr base n i).filter (isDeletedFile addr)) 95,
            out ++ ((liveSlots addr base n i).filter (isDeletedFile addr)).map
              (fun p => cstr (deletedName (DIR_Name addr p)) ++ lit ": recovered"),
            tot + ((liveSlots addr base n i).filter (isDeletedFile addr)).length⟩ := by
  induction n with
  | zero =>
    intro i done out tot _ _ _ _ _
    simp [recoverAllDeletedFor, liveSlots, pure, Except.pure]
  | succ n ih =>
    intro i done out tot hi0 hi hdone hnot hws
    have hf := hv.fatStart_eq
    have hB := hv.fatBytes_pos
    have h2 := fatOffset_two addr
    have h1' := fatOffset_one addr
    have hwd : ∀ w ∈ done.flatMap (deletedWrites addr), InFat (fatBytes addr) w.1 :=
      flatMap_inFat addr _ deletedWrites done (fun p hp => hws p (List.mem_append_left _ hp))
    have hrd := image_read addr _ done 95 hv hwd (fun p hp => (hdone p hp).1)
    rw [← h1'] at hrd
    change (∀ q, q < fatOffset addr 0 → committed addr (deletedWrites addr) done 95 q = addr q)
      ∧ (∀ q, fatOffset addr 2 ≤ q →
          committed addr (deletedWrites addr) done 95 q = marked addr done 95 q)
      ∧ _ at hrd
    obtain ⟨hr1, hr2, _⟩ := hrd
    have hsnoc := committed_snoc addr hv (deletedWrites addr) done (slotAt base i) 95
      (by unfold slotAt; omega) hwd
    generalize hm : committed addr (deletedWrites addr) done 95 = m at hr1 hr2 hsnoc
    have hpd : fatOffset addr 2 ≤ slotAt base i := by unfold slotAt; omega
    have hpal : (slotAt base i - fatOffset addr 2) % 32 = 0 := by unfold slotAt; omega
    have hbytes : ∀ j, 0 ≤ j → j < 32 → m (slotAt base i + j) = addr (slotAt base i + j) := by
      intro j hj1 hj2
      rw [hr2 _ (by omega)]
      unfold marked
      rw [if_neg]
      intro hmem
      by_cases hj : j = 0
      · subst hj
        rw [add_zero] at hmem
        exact hnot i (le_refl _) (by omega) hmem
      · have := (hdone _ hmem).2
        omega
    obtain ⟨hname, hattr, hlo, hfs⟩ := slot_congr addr m (slotAt base i) hbytes
    have hnext := ih (i + 1)
    rw [recoverAllDeletedFor, liveSlots]
    simp only []
    rw [if_pos (by push_cast at hi; omega), hname 0 (by omega), hattr]
    by_cases h0 : DIR_Name addr (slotAt base i) 0 = 0x00
    · rw [if_pos h0, if_pos h0]
      simp [pure, Except.pure, hm]
    · rw [if_neg h0, if_neg h0, List.filter_cons]
      have hrest : ∀ j, i + 1 ≤ j → j < i + 1 + n → slotAt base j ∉ done := by
        intro j hj1 hj2
        exact hnot j (by omega) (by push_cast; omega)
      by_cases he : DIR_Name addr (slotAt base i) 0 = 0xE5 ∧ DIR_Attr addr (slotAt base i) ≠ 0x0f
          ∧ DIR_Attr addr (slotAt base i) ≠ 0x08 ∧ DIR_Attr addr (slotAt base i) ≠ 0x10
      · have hel : isDeletedFile addr (slotAt base i) = true := by
          simp only [isDeletedFile, decide_eq_true_eq]; exact he
        rw [if_pos he, if_pos hel]
        rw [liveSlots, if_neg h0, List.filter_cons, if_pos hel] at hws
        rw [deletedName_congr _ _ hname,
          writeDeleted_at addr m hv (slotAt base i) hpd hr1 hlo hfs, ok_bind, hsnoc,
          hnext (done ++ [slotAt base i]) _ _ (by omega) (by push_cast at hi; omega)
            (by
              intro p hp
              rcases List.mem_append.1 hp with hp | hp
              · exact hdone p hp
              · rw [List.mem_singleton] at hp
                subst hp
                exact ⟨hpd, hpal⟩)
            (by
              intro j hj1 hj2 hmem
              rcases List.mem_append.1 hmem with hmem | hmem
              · exact hrest j hj1 hj2 hmem
              · rw [List.mem_singleton] at hmem
                unfold slotAt at hmem
                omega)
            (by simpa [List.append_assoc] using hws)]
        simp only [List.append_assoc, List.singleton_append, List.map_cons, List.length_cons]
        rw [Nat.add_assoc, Nat.add_comm 1]
      · have hel : ¬ (isDeletedFile addr (slotAt base i) = true) := by
          simp only [isDeletedFile, decide_eq_true_eq]; exact he
        rw [if_neg he, if_neg hel]
        rw [liveSlots, if_neg h0, List.filter_cons, if_neg hel] at hws
        rw [← hm]
        exact hnext done out tot (by omega) (by push_cast at hi; omega) hdone hrest hws

theorem liveSlots_range (addr : Mem) (hv : Volume addr) (c p : Int)
    (h : p ∈ liveSlots addr (clusterAt addr c) (clusterSize addr / 32).toNat 0) :
    clusterAt addr c ≤ p ∧ p < clusterAt addr c + clusterSize addr
      ∧ (p - fatOffset addr 2) % 32 = 0 := by
  have : p ∈ rootSlots addr [c] := by
    unfold rootSlots
    rw [List.flatMap_singleton]
    exact h
  obtain ⟨c1, hc1, h1, h2, h3⟩ := rootSlots_mem addr hv [c] p this
  rw [List.mem_singleton] at hc1
  subst hc1
  exact ⟨h1, h2, h3⟩

theorem rootSlots_cons (addr : Mem) (c : Int) (cl : List Int) :
    rootSlots addr (c :: cl)
      = liveSlots addr (clusterAt addr c) (clusterSize addr / 32).toNat 0 ++ rootSlots addr cl := by
  unfold rootSlots
  rw [List.flatMap_cons]

theorem recoverAllDeletedWhile_eq (addr : Mem) (hv : Volume addr) (cl : List Int)
    (hclfat : ∀ c ∈ cl, InFat (fatBytes addr) c) (n : Nat) :
    ∀ (c : Int) (rem done : List Int) (out : List (List Nat)) (tot : Nat),
      dirChain addr (fatOffset addr 0) n c = some rem →
      (∀ c ∈ rem, c ∈ cl ∧ 2 ≤ c ∧ clusterAt addr c + clusterSize addr ≤ 2147483648) →
      rem.Nodup →
      (∀ p ∈ done, fatOffset addr 2 ≤ p ∧ (p - fatOffset addr 2) % 32 = 0
        ∧ ∀ c ∈ rem, p < clusterAt addr c ∨ clusterAt addr c + clusterSize addr ≤ p) →
      (∀ p ∈ done ++ (rootSlots addr rem).filter (isDeletedFile addr),
        ∀ w ∈ deletedWrites addr p, InFat (fatBytes addr) w.1 ∧ w.1 ∉ cl) →
      recoverAllDeletedWhile (fatOffset addr 0) (fatOffset addr 0 + fatBytes addr) (dataSec addr)
          (clusterSize addr) n c ⟨committed addr (deletedWrites addr) done 95, out, tot⟩
        = Except.ok ⟨committed addr (deletedWrites addr)
              (done ++ (rootSlots addr rem).filter (isDeletedFile addr)) 95,
            out ++ ((rootSlots addr rem).filter (isDeletedFile addr)).map
              (fun p => cstr (deletedName (DIR_Name addr p)) ++ lit ": recovered"),
            tot + ((rootSlots addr rem).filter (isDeletedFile addr)).length⟩ := by
  induction n with
  | zero => intro c rem done out tot h; simp [dirChain] at h
  | succ n ih =>
    intro c rem done out tot hch hrem hnd hdone hws
    have hsz := hv.size_pos
    have h1' := fatOffset_one addr
    rw [dirChain] at hch
    rw [recoverAllDeletedWhile]
    by_cases hc : c ≠ 0 ∧ c < 0x0FFFFFF8
    · rw [if_pos hc] at hch
      rw [if_pos hc]
      cases hr : dirChain addr (fatOffset addr 0) n (fatGet addr (fatOffset addr 0) c) with
      | none => rw [hr] at hch; simp at hch
      | some rem1 =>
        rw [hr] at hch
        simp only [Option.map_some', Option.some.injEq] at hch
        subst hch
        obtain ⟨hccl, hc2, hclim⟩ := hrem c (List.mem_cons_self _ _)
        obtain ⟨_, hoff, hbase⟩ := clusterOffset_eq addr hv c hc2 hclim
        have hmax : ((clusterSize addr / 32).toNat : Int) = clusterSize addr / 32 :=
          Int.toNat_of_nonneg (Int.ediv_nonneg (by omega) (by decide))
        rw [rootSlots_cons, List.filter_append] at hws ⊢
        generalize he1 : (liveSlots addr (clusterAt addr c) (clusterSize addr / 32).toNat 0).filter
          (isDeletedFile addr) = e1 at hws ⊢
        have he1mem : ∀ p ∈ e1, clusterAt addr c ≤ p ∧ p < clusterAt addr c + clusterSize addr
            ∧ (p - fatOffset addr 2) % 32 = 0 := by
          intro p hp
          rw [← he1] at hp
          exact liveSlots_range addr hv c p (List.mem_filter.1 hp).1
        have hfor := recoverAllDeletedFor_eq addr hv (clusterAt addr c) hbase
          (clusterAt_aligned addr hv c) (clusterSize addr / 32).toNat 0 done out tot (le_refl _)
          (by omega) (fun p hp => ⟨(hdone p hp).1, (hdone p hp).2.1⟩)
          (by
            intro j hj1 hj2 hmem
            have := (hdone _ hmem).2.2 c (List.mem_cons_self _ _)
            unfold slotAt at this
            omega)
          (by
            rw [he1]
            intro p hp w hw
            exact (hws p (by
              rcases List.mem_append.1 hp with hp | hp
              · exact List.mem_append_left _ hp
              · exact List.mem_append_right _ (List.mem_append_left _ hp)) w hw).1)
        rw [he1] at hfor
        simp only []
        rw [hoff, hfor, ok_bind]
        simp only []
        have hwall : ∀ w ∈ (done ++ e1).flatMap (deletedWrites addr),
            InFat (fatBytes addr) w.1 ∧ w.1 ∉ cl := by
          intro w hw
          rw [List.mem_flatMap] at hw
          obtain ⟨p, hp, hw⟩ := hw
          exact hws p (by
            rcases List.mem_append.1 hp with hp | hp
            · exact List.mem_append_left _ hp
            · exact List.mem_append_right _ (List.mem_append_left _ hp)) w hw
        have hnext : fatGet (committed addr (deletedWrites addr) (done ++ e1) 95)
            (fatOffset addr 0) c = fatGet addr (fatOffset addr 0) c := by
          unfold committed
          rw [h1']
          refine (image_read addr _ (done ++ e1) 95 hv (fun w hw => (hwall w hw).1) ?_).2.2 c
            (hclfat c hccl) ?_
          · intro p hp
            rcases List.mem_append.1 hp with hp | hp
            · exact (hdone p hp).1
            · have := (he1mem p hp).1
              omega
          · intro hmem
            obtain ⟨w, hw, rfl⟩ := List.mem_map.1 hmem
            exact (hwall w hw).2 hccl
        rw [hnext, ih _ rem1 (done ++ e1) _ _ hr
          (fun c1 h1 => hrem c1 (List.mem_cons_of_mem _ h1)) (List.nodup_cons.1 hnd).2
          (by
            intro p hp
            rcases List.mem_append.1 hp with hp | hp
            · exact ⟨(hdone p hp).1, (hdone p hp).2.1,
                fun c1 h1 => (hdone p hp).2.2 c1 (List.mem_cons_of_mem _ h1)⟩
            · obtain ⟨h1, h2, h3⟩ := he1mem p hp
              refine ⟨by omega, h3, ?_⟩
              intro c1 hc1
              have hne : c1 ≠ c := fun e => (List.nodup_cons.1 hnd).1 (e ▸ hc1)
              rcases lt_or_gt_of_ne hne with hlt | hgt
              · have := clusterAt_mono addr hv c1 c hlt
                omega
              · have := clusterAt_mono addr hv c c1 hgt
                omega)
          (by simpa [List.append_assoc] using hws)]
        simp only [List.append_assoc, List.map_append, List.length_append, Nat.add_assoc]
    · rw [if_neg hc] at hch
      rw [if_neg hc]
      simp only [Option.some.injEq] at hch
      subst hch
      simp [rootSlots, pure, Except.pure]

theorem cstr_deletedName_head (name : Nat → Nat) :
    (cstr (deletedName name)).head? = some 95 := by
  have h := deletedName_head name
  cases hd : deletedName name with
  | nil => rw [hd] at h; simp at h
  | cons a l =>
    rw [hd] at h
    simp only [List.head?_cons, Option.some.injEq] at h
    subst h
    simp [cstr, List.takeWhile_cons]

theorem recoverAllDeleted_eq (fuel : Nat) (addr : Mem) (cl : List Int)
    (hv : Volume addr)
    (hch : dirChain addr (fatOffset addr 0) fuel (toI32 (BPB_RootClus addr)) = some cl)
    (hcl : ∀ c ∈ cl, 2 ≤ c ∧ InFat (fatBytes addr) c
      ∧ clusterAt addr c + clusterSize addr ≤ 2147483648)
    (hin : ∀ p ∈ deletedSlots addr cl, ∀ w ∈ deletedWrites addr p,
      InFat (fatBytes addr) w.1 ∧ w.1 ∉ cl) :
    ∃ m, recoverAllDeleted fuel addr
        = Except.ok (m, (deletedSlots addr cl).map
            (fun p => cstr (deletedName (DIR_Name addr p)) ++ lit ": recovered")
          ++ [if (deletedSlots addr cl).length = 0 then lit "No deleted files were found."
              else lit "Successfully recovered " ++ lit (Nat.repr (deletedSlots addr cl).length)
                ++ lit " file(s)"])
      ∧ m = committed addr (deletedWrites addr) (deletedSlots addr cl) 95
      ∧ (∀ p ∈ deletedSlots addr cl, rd8 m p = 95
          ∧ (cstr (deletedName (DIR_Name addr p))).head? = some 95)
      ∧ (∀ q, fatOffset addr 2 ≤ q → q ∉ deletedSlots addr cl → m q = addr q) := by
  have h1' := fatOffset_one addr
  have hw := recoverAllDeletedWhile_eq addr hv cl (fun c hc => (hcl c hc).2.1) fuel
    (toI32 (BPB_RootClus addr)) cl [] [] 0 hch
    (fun c hc => ⟨hc, (hcl c hc).1, (hcl c hc).2.2⟩) (dirChain_nodup _ _ _ _ _ hch)
    (by intro p hp; cases hp) (by simpa [deletedSlots] using hin)
  rw [committed_nil, List.nil_append, List.nil_append, Nat.zero_add] at hw
  change recoverAllDeletedWhile _ _ _ _ _ _ _
    = Except.ok ⟨committed addr (deletedWrites addr) (deletedSlots addr cl) 95,
        (deletedSlots addr cl).map
          (fun p => cstr (deletedName (DIR_Name addr p)) ++ lit ": recovered"),
        (deletedSlots addr cl).length⟩ at hw
  have hpos : ∀ p ∈ deletedSlots addr cl, fatOffset addr 2 ≤ p := by
    intro p hp
    unfold deletedSlots at hp
    obtain ⟨c, hc, hlo, _, _⟩ := rootSlots_mem addr hv cl p (List.mem_filter.1 hp).1
    have := (clusterOffset_eq addr hv c (hcl c hc).1 (hcl c hc).2.2).2.2
    omega
  have hws : ∀ w ∈ (deletedSlots addr cl).flatMap (deletedWrites addr),
      InFat (fatBytes addr) w.1 :=
    flatMap_inFat addr _ deletedWrites _ (fun p hp w hw => (hin p hp w hw).1)
  obtain ⟨_, hr2, _⟩ := image_read addr _ (deletedSlots addr cl) 95 hv hws hpos
  rw [← h1'] at hr2
  change ∀ q, fatOffset addr 2 ≤ q →
    committed addr (deletedWrites addr) (deletedSlots addr cl) 95 q
      = marked addr (deletedSlots addr cl) 95 q at hr2
  refine ⟨committed addr (deletedWrites addr) (deletedSlots addr cl) 95, ?_, rfl, ?_, ?_⟩
  · unfold recoverAllDeleted
    rw [hv.fatStart_eq.1, hv.fat2Start_eq, hw, ok_bind]
    simp only []
    split_ifs <;> rfl
  · intro p hp
    refine ⟨?_, cstr_deletedName_head _⟩
    rw [rd8_congr (hr2 p (hpos p hp))]
    unfold rd8 marked
    rw [if_pos hp]
    rfl
  · intro q hq hnot
    rw [hr2 q hq]
    unfold marked
    rw [if_neg hnot]

/-- C14 (amended): on a volume whose root directory chain ends, consists of clusters of the
volume and lies in the first 2 GiB, if for every eligible tombstone of the root directory
(`name[0] == 0xE5`, `attr` none of 0x0F, 0x08, 0x10) the FAT entries written for it lie
inside the FAT and are not entries of root directory clusters, then `recoverAllDeleted`
returns; in the image afterwards every eligible tombstone has `name[0] = '_'` and every
other byte of the data area (so every other slot, and bytes 1..31 of the recovered slots)
is as before; the output is one line `<name>: recovered` per eligible tombstone, in scan
order, each name starting with `'_'`, followed by `No deleted files were found.` when there
is none and `Successfully recovered <count> file(s)` with their number otherwise. -/
theorem recoverAllDeleted_marks_deleted_files (fuel : Nat) (addr : Mem) (cl : List Int)
    (hv : Volume addr)
    (hch : dirChain addr (fatOffset addr 0) fuel (toI32 (BPB_RootClus addr)) = some cl)
    (hcl : ∀ c ∈ cl, 2 ≤ c ∧ InFat (fatBytes addr) c
      ∧ clusterAt addr c + clusterSize addr ≤ 2147483648)
    (hin : ∀ p ∈ deletedSlots addr cl, ∀ w ∈ deletedWrites addr p,
      InFat (fatBytes addr) w.1 ∧ w.1 ∉ cl) :
    ∃ m, recoverAllDeleted fuel addr
        = Except.ok (m, (deletedSlots addr cl).map
            (fun p => cstr (deletedName (DIR_Name addr p)) ++ lit ": recovered")
          ++ [if (deletedSlots addr cl).length = 0 then lit "No deleted files were found."
              else lit "Successfully recovered " ++ lit (Nat.repr (deletedSlots addr cl).length)
                ++ lit " file(s)"])
      ∧ m = committed addr (deletedWrites addr) (deletedSlots addr cl) 95
      ∧ (∀ p ∈ deletedSlots addr cl, rd8 m p = 95
          ∧ (cstr (deletedName (DIR_Name addr p))).head? = some 95)
      ∧ (∀ q, fatOffset addr 2 ≤ q → q ∉ deletedSlots addr cl → m q = addr q) :=
  recoverAllDeleted_eq fuel addr cl hv hch hcl hin

/-! ### Bulk recovery on concrete images -/

theorem scenario6_volume : Volume scenario6 :=
  ⟨by decide, by decide, by decide, by decide, by decide, by decide, by decide⟩

theorem scenario3_volume : Volume scenario3 :=
  ⟨by decide, by decide, by decide, by decide, by decide, by decide, by decide⟩

/-- C14 (counterexample): the tombstone in root slot 1 holds first cluster 256, and
`fat[256]` is at offset 1536, the first bytes of root slot 0, a live entry `FILE0.TXT`;
after `recoverAllDeleted` the byte `name[0]` of slot 0 is 0xF8, not `F` (70). -/
theorem recoverAllDeleted_overwrites_live_slot :
    recoverAllDeleted 10 wildBulk
      = Except.ok (fatSet (fatSet (wr8 wildBulk 1568 95) 512 256 EOC) 1024 256 EOC,
          [lit "_.TXT: recovered", lit "Successfully recovered 1 file(s)"])
    ∧ isDeletedFile wildBulk 1536 = false ∧ rd8 wildBulk 1536 = 70
    ∧ rd8 (fatSet (fatSet (wr8 wildBulk 1568 95) 512 256 EOC) 1024 256 EOC) 1536 = 0xF8 :=
  ⟨rfl, by decide, by decide, by decide!⟩

/-- C15 (counterexample): on the same image `recoverAllFiles` with the target `A.TXT`
recovers the tombstone of root slot 1 and thereby overwrites `name[0]` of root slot 0, a
live entry that does not match, with 0xF8. -/
theorem recoverAllFiles_overwrites_other_slot :
    recoverAllFiles 10 (lit "A.TXT") wildBulk
      = Except.ok (fatSet (fatSet (wr8 wildBulk 1568 65) 512 256 EOC) 1024 256 EOC,
          [lit "A.TXT: 1 file(s) recovered"])
    ∧ nameMatches wildBulk (lit "A.TXT") 1536 = false ∧ rd8 wildBulk 1536 = 70
    ∧ rd8 (fatSet (fatSet (wr8 wildBulk 1568 65) 512 256 EOC) 1024 256 EOC) 1536 = 0xF8 :=
  ⟨rfl, by decide, by decide, by decide!⟩

/-- Instance of the amended C14 on scenario 6: three tombstones, one of them a long-name
component; two lines and the summary `Successfully recovered 2 file(s)`. -/
theorem recoverAllDeleted_marks_deleted_files_witness :
    Volume scenario6
    ∧ dirChain scenario6 (fatOffset scenario6 0) 10 (toI32 (BPB_RootClus scenario6)) = some [2]
    ∧ (∀ c ∈ [(2 : Int)], 2 ≤ c ∧ InFat (fatBytes scenario6) c
        ∧ clusterAt scenario6 c + clusterSize scenario6 ≤ 2147483648)
    ∧ (∀ p ∈ deletedSlots scenario6 [2], ∀ w ∈ deletedWrites scenario6 p,
        InFat (fatBytes scenario6) w.1 ∧ w.1 ∉ [(2 : Int)])
    ∧ deletedSlots scenario6 [2] = [1568, 1632]
    ∧ ∃ m, recoverAllDeleted 10 scenario6
        = Except.ok (m, [lit "_NE.TXT: recovered", lit "_WO.BIN: recovered",
            lit "Successfully recovered 2 file(s)"])
      ∧ rd8 m 1568 = 95 ∧ rd8 m 1632 = 95 ∧ m 1600 = scenario6 1600 := by
  refine ⟨scenario6_volume, by decide, by decide, by decide, by decide, ?_⟩
  obtain ⟨m, h1, _, h3, h4⟩ := recoverAllDeleted_marks_deleted_files 10 scenario6 [2]
    scenario6_volume (by decide) (by decide) (by decide)
  refine ⟨m, ?_, (h3 1568 (by decide)).1, (h3 1632 (by decide)).1,
    h4 1600 (by decide) (by decide)⟩
  rw [h1]
  have e : (deletedSlots scenario6 [2]).map
        (fun p => cstr (deletedName (DIR_Name scenario6 p)) ++ lit ": recovered")
      ++ [if (deletedSlots scenario6 [2]).length = 0 then lit "No deleted files were found."
          else lit "Successfully recovered " ++ lit (Nat.repr (deletedSlots scenario6 [2]).length)
            ++ lit " file(s)"]
      = [lit "_NE.TXT: recovered", lit "_WO.BIN: recovered",
          lit "Successfully recovered 2 file(s)"] := by decide
  rw [e]

/-- Instance of the amended C15 on scenario 3: both tombstones decode to `A.TXT`. -/
theorem recoverAllFiles_recovers_every_match_witness :
    Volume scenario3
    ∧ ((lit "A.TXT").headD 0 ≠ 0 ∧ (lit "A.TXT").headD 0 ≠ 32)
    ∧ dirChain scenario3 (fatOffset scenario3 0) 10 (toI32 (BPB_RootClus scenario3)) = some [2]
    ∧ (∀ c ∈ [(2 : Int)], 2 ≤ c ∧ clusterAt scenario3 c + clusterSize scenario3 ≤ 2147483648)
    ∧ (∀ p ∈ rootSlots scenario3 [2], DIR_Name scenario3 p 0 = 0xE5 →
        DIR_Attr scenario3 p ≠ 0x0f → DIR_Attr scenario3 p ≠ 0x08 →
        wellFormedName (DIR_Name scenario3 p) = true)
    ∧ (∀ p ∈ matchingSlots scenario3 [2] (lit "A.TXT"),
        1 ≤ DIR_FileSize scenario3 p ∧ DIR_FileSize scenario3 p < 2147483648
        ∧ InFat (fatBytes scenario3) (DIR_FstClusLO scenario3 p
            + clustersNeeded (DIR_FileSize scenario3 p) (clusterSize scenario3) - 1))
    ∧ matchingSlots scenario3 [2] (lit "A.TXT") = [1536, 1568]
    ∧ ∃ m, recoverAllFiles 10 (lit "A.TXT") scenario3
        = Except.ok (m, [lit "A.TXT: 2 file(s) recovered"])
      ∧ rd8 m 1536 = 65 ∧ rd8 m 1568 = 65 := by
  refine ⟨scenario3_volume, by decide, by decide, by decide, by decide, by decide, by decide, ?_⟩
  obtain ⟨m, h1, _, h3, _⟩ := recoverAllFiles_recovers_every_match 10 (lit "A.TXT") scenario3 [2]
    scenario3_volume (by decide) (by decide) (by decide) (by decide) (by decide)
  refine ⟨m, ?_, h3 1536 (by decide), h3 1568 (by decide)⟩
  rw [h1]
  have e : [if (matchingSlots scenario3 [2] (lit "A.TXT")).length = 0
        then cstr (lit "A.TXT") ++ lit ": file not found"
        else cstr (lit "A.TXT") ++ lit ": "
          ++ lit (Nat.repr (matchingSlots scenario3 [2] (lit "A.TXT")).length)
          ++ lit " file(s) recovered"]
      = [lit "A.TXT: 2 file(s) recovered"] := by decide
  rw [e]

/-! ### Usage errors and the successor arrangement -/

/-- C23: `isValidHash(h)` returns 1 exactly when the string `h` (the bytes before its
terminator) has 40 characters, each of them one of `0-9`, `a-f`, `A-F`; and `recFile` ends
with a usage error, returning no image, whenever `name[0]` is the terminator (an empty
name) and whenever a digest is supplied that `isValidHash` rejects: the error is raised
before any field of the image is read. -/
theorem isValidHash_iff_and_usage_errors (SHA1 : List Nat → List Nat) (heap : Nat → Nat)
    (fuel : Nat) (name : List Nat) (addr : Mem) (hash : Option (List Nat))
    (isNonContiguous : Bool) (buf : List Nat) :
    (isValidHash (cstr buf) = true ↔ (cstr buf).length = 40
      ∧ ∀ c ∈ cstr buf, (48 ≤ c ∧ c ≤ 57) ∨ (97 ≤ c ∧ c ≤ 102) ∨ (65 ≤ c ∧ c ≤ 70))
    ∧ (name.headD 0 = 0 →
        recFile SHA1 heap fuel name addr hash isNonContiguous = Except.error Err.emptyName)
    ∧ (isValidHash (cstr buf) = false →
        recFile SHA1 heap fuel name addr (some buf) isNonContiguous = Except.error Err.emptyName
        ∨ recFile SHA1 heap fuel name addr (some buf) isNonContiguous
            = Except.error Err.invalidHash) := by
  refine ⟨?_, ?_, ?_⟩
  · unfold isValidHash
    by_cases h : (cstr buf).length = 40
    · rw [if_neg (by simpa using h)]
      simp only [h, true_and, List.all_eq_true, isxdigit, Bool.or_eq_true, Bool.and_eq_true,
        decide_eq_true_eq]
      constructor
      · intro hh c hc
        rcases hh c hc with (h1 | h1) | h1
        · exact Or.inl h1
        · exact Or.inr (Or.inl h1)
        · exact Or.inr (Or.inr h1)
      · intro hh c hc
        rcases hh c hc with h1 | h1 | h1
        · exact Or.inl (Or.inl h1)
        · exact Or.inl (Or.inr h1)
        · exact Or.inr h1
    · rw [if_pos (by simpa using h)]
      simp [h]
  · intro h
    unfold recFile
    rw [if_pos (Or.inl h)]
    rfl
  · intro h
    unfold recFile
    by_cases hn : name.headD 0 = 0 ∨ name.headD 0 = 32
    · rw [if_pos hn]
      exact Or.inl rfl
    · rw [if_neg hn, if_pos (by simp [badHash, h])]
      exact Or.inr rfl

/-- Instance of C23: the empty name, and the 39-character digest `4141…4` with the name
`HELLO.TXT`, on the image of scenario 1. -/
theorem isValidHash_iff_and_usage_errors_witness :
    isValidHash (cstr (hex41.take 39)) = false
    ∧ recFile first20 (fun _ => 0) 10 [] scenario1 none false = Except.error Err.emptyName
    ∧ recFile first20 (fun _ => 0) 10 (lit "HELLO.TXT") scenario1 (some (hex41.take 39)) false
        = Except.error Err.invalidHash := by
  have h := isValidHash_iff_and_usage_errors first20 (fun _ => 0) 10 [] scenario1 none false
    (hex41.take 39)
  have h2 := isValidHash_iff_and_usage_errors first20 (fun _ => 0) 10 (lit "HELLO.TXT") scenario1
    none false (hex41.take 39)
  refine ⟨by decide, h.2.1 (by decide), ?_⟩
  rcases h2.2.2 (by decide) with h3 | h3
  · exact absurd h3 (by
      unfold recFile
      rw [if_neg (by decide), if_pos (by decide)]
      intro hh
      cases hh)
  · exact h3

/-- C27: for every array, `next_permutation` returns; it returns 0 exactly when the array
is in non-increasing order (every array of length at most 1 is), and then the array is
unchanged; otherwise it returns 1 and the array has become a rearrangement of the same
elements that is lexicographically greater than the input and not greater than any other
such rearrangement. -/
theorem next_permutation_successor (arr : List Int) :
    ∃ (arr1 : List Int) (r : Bool), next_permutation arr = some (arr1, r)
      ∧ (r = false ↔ arr.Sorted (· ≥ ·))
      ∧ (r = false → arr1 = arr)
      ∧ (r = true → arr1.Perm arr ∧ arr < arr1
          ∧ ∀ q : List Int, q.Perm arr → arr < q → arr1 ≤ q)
      ∧ (arr.length ≤ 1 → r = false) := by
  rcases next_permutation_spec arr with ⟨hs, hnp⟩ | ⟨hns, arr1, hnp, hperm, hlt, hmin⟩
  · exact ⟨arr, false, hnp, (by simp [hs]), (fun _ => rfl), (fun h => Bool.noConfusion h),
      (fun _ => rfl)⟩
  · refine ⟨arr1, true, hnp, (by simp [hns]), (fun h => Bool.noConfusion h),
      (fun _ => ⟨hperm, hlt, hmin⟩), ?_⟩
    intro hl
    exfalso
    apply hns
    match arr, hl with
    | [], _ => exact List.sorted_nil
    | [a], _ => exact List.sorted_singleton a

/-! ### Offsets in 32-bit arithmetic -/

/-- C26 (counterexample): on a volume with 512-byte clusters and two FATs of 32768 sectors,
cluster 4194303 (the last entry of the FAT) lies at offset 2181037056, past 2 GiB; the
offset computed in `int` arithmetic is -2113930240. -/
theorem cluster_offset_wraps_past_2GiB :
    BPB_BytsPerSec largeVolume = 512 ∧ clusterSize largeVolume = 512
    ∧ BPB_RsvdSecCnt largeVolume = 1 ∧ BPB_NumFATs largeVolume = 2
    ∧ BPB_FATSz32 largeVolume = 32768
    ∧ InFat (fatBytes largeVolume) 4194303
    ∧ (BPB_RsvdSecCnt largeVolume + BPB_NumFATs largeVolume * BPB_FATSz32 largeVolume)
          * BPB_BytsPerSec largeVolume + (4194303 - 2) * clusterSize largeVolume = 2181037056
    ∧ clusterOffset (dataSec largeVolume) (clusterSize largeVolume) 4194303 = -2113930240 := by
  decide

/-- C26 (amended): for a sector size of 512, 1024, 2048 or 4096 bytes and a cluster
`N ≥ 2`, if the exact offset of the second FAT copy and the exact offset of cluster `N` are
below `2^31`, then the values the code computes in 32-bit arithmetic are the exact ones:
`fatStart = reserved_sectors × bytes_per_sector`,
`fat2Start = fatStart + fat_sectors × bytes_per_sector`,
`dataSec = (reserved_sectors + fat_count × fat_sectors) × bytes_per_sector` and the cluster
offset `dataSec + (N − 2) × cluster_bytes`. -/
theorem offsets_exact_below_2GiB (addr : Mem) (N : Int)
    (hb : BPB_BytsPerSec addr = 512 ∨ BPB_BytsPerSec addr = 1024
      ∨ BPB_BytsPerSec addr = 2048 ∨ BPB_BytsPerSec addr = 4096)
    (hN : 2 ≤ N)
    (hfat : BPB_RsvdSecCnt addr * BPB_BytsPerSec addr
      + BPB_FATSz32 addr * BPB_BytsPerSec addr < 2147483648)
    (hlim : (BPB_RsvdSecCnt addr + BPB_NumFATs addr * BPB_FATSz32 addr) * BPB_BytsPerSec addr
      + (N - 2) * clusterSize addr < 2147483648) :
    fatStart addr = BPB_RsvdSecCnt addr * BPB_BytsPerSec addr
    ∧ fat2Start addr = BPB_RsvdSecCnt addr * BPB_BytsPerSec addr
        + BPB_FATSz32 addr * BPB_BytsPerSec addr
    ∧ dataSec addr
        = (BPB_RsvdSecCnt addr + BPB_NumFATs addr * BPB_FATSz32 addr) * BPB_BytsPerSec addr
    ∧ clusterOffset (dataSec addr) (clusterSize addr) N
        = (BPB_RsvdSecCnt addr + BPB_NumFATs addr * BPB_FATSz32 addr) * BPB_BytsPerSec addr
          + (N - 2) * clusterSize addr := by
  have hr := rd16_bounds addr 14
  have hf := rd32u_bounds addr 36
  have hn : 0 ≤ BPB_NumFATs addr := rd8_nonneg addr 16
  have hsz : 0 ≤ clusterSize addr := by
    unfold clusterSize
    exact mul_nonneg (rd16_bounds addr 11).1 (rd8_nonneg addr 13)
  have hP : 0 ≤ BPB_NumFATs addr * BPB_FATSz32 addr := mul_nonneg hn hf.1
  have hQ : 0 ≤ (N - 2) * clusterSize addr := mul_nonneg (by omega) hsz
  have hr0 : 0 ≤ BPB_RsvdSecCnt addr := hr.1
  have hf0 : 0 ≤ BPB_FATSz32 addr := hf.1
  have e1 : (BPB_RsvdSecCnt addr + BPB_NumFATs addr * BPB_FATSz32 addr) * BPB_BytsPerSec addr
      = BPB_RsvdSecCnt addr * BPB_BytsPerSec addr
        + BPB_NumFATs addr * BPB_FATSz32 addr * BPB_BytsPerSec addr := by ring
  have hs1 : fatStart addr = BPB_RsvdSecCnt addr * BPB_BytsPerSec addr := by
    unfold fatStart toI32
    rcases hb with hb | hb | hb | hb <;> rw [hb] at hfat ⊢ <;> omega
  have hd : dataSec addr
      = (BPB_RsvdSecCnt addr + BPB_NumFATs addr * BPB_FATSz32 addr) * BPB_BytsPerSec addr := by
    unfold dataSec
    generalize BPB_NumFATs addr * BPB_FATSz32 addr = P at hP hlim e1 ⊢
    generalize (N - 2) * clusterSize addr = Q at hQ hlim
    have hPu : toU32 P = P := by
      unfold toU32
      rcases hb with hb | hb | hb | hb <;> rw [hb] at hlim <;> omega
    rw [hPu]
    unfold toI32 toU32
    rcases hb with hb | hb | hb | hb <;> rw [hb] at hlim ⊢ <;> omega
  refine ⟨hs1, ?_, hd, ?_⟩
  · unfold fat2Start
    rw [hs1]
    unfold toI32 toU32
    rcases hb with hb | hb | hb | hb <;> rw [hb] at hfat ⊢ <;> omega
  · unfold clusterOffset
    rw [hd]
    generalize (BPB_RsvdSecCnt addr + BPB_NumFATs addr * BPB_FATSz32 addr) * BPB_BytsPerSec addr
      = D at hlim e1 ⊢
    have hD : 0 ≤ D := by
      rw [e1]
      exact add_nonneg (mul_nonneg hr0 (by rcases hb with hb | hb | hb | hb <;> rw [hb] <;> decide))
        (mul_nonneg hP (by rcases hb with hb | hb | hb | hb <;> rw [hb] <;> decide))
    generalize (N - 2) * clusterSize addr = Q at hQ hlim ⊢
    unfold toI32
    omega

/-- Instance of the amended C26 on the image of scenario 1, cluster 5 (offset 3072). -/
theorem offsets_exact_below_2GiB_witness :
    fatStart scenario1 = 512 ∧ fat2Start scenario1 = 1024 ∧ dataSec scenario1 = 1536
    ∧ clusterOffset (dataSec scenario1) (clusterSize scenario1) 5 = 3072 := by
  have h := offsets_exact_below_2GiB scenario1 5 (by decide) (by decide) (by decide) (by decide)
  have e1 : BPB_RsvdSecCnt scenario1 * BPB_BytsPerSec scenario1 = 512 := by decide
  have e2 : BPB_RsvdSecCnt scenario1 * BPB_BytsPerSec scenario1
      + BPB_FATSz32 scenario1 * BPB_BytsPerSec scenario1 = 1024 := by decide
  have e3 : (BPB_RsvdSecCnt scenario1 + BPB_NumFATs scenario1 * BPB_FATSz32 scenario1)
      * BPB_BytsPerSec scenario1 = 1536 := by decide
  have e4 : (BPB_RsvdSecCnt scenario1 + BPB_NumFATs scenario1 * BPB_FATSz32 scenario1)
      * BPB_BytsPerSec scenario1 + (5 - 2) * clusterSize scenario1 = 3072 := by decide
  rw [e4, e3, e2, e1] at h
  exact h

/-! ### The bytes handed to the digest function -/

theorem hashed_short (heap : Nat → Nat) (buffer : List Nat) (n : Nat)
    (h : buffer.length ≤ n) :
    hashed heap buffer (n : Int)
      = buffer ++ (List.range' buffer.length (n - buffer.length)).map heap := by
  unfold hashed
  apply List.ext_getElem
  · simp
    omega
  · intro k h1 h2
    simp only [List.length_map, List.length_range, Int.toNat_ofNat] at h1
    by_cases hk : k < buffer.length
    · simp [hk, List.getD_eq_getElem _ _ hk, List.getElem_append_left]
    · simp only [List.getElem_map, List.getElem_range, if_neg hk]
      rw [List.getElem_append_right (by omega)]
      simp only [List.getElem_map, List.getElem_range']
      congr 1
      omega

theorem scenario4_read :
    computeFileHashLoop scenario4 512 (dataSec scenario4) (clusterSize scenario4)
      (DIR_FileSize scenario4 1536) 10 (DIR_FstClusLO scenario4 1536) 0 []
      = Except.ok (List.replicate 512 0x41) :=
  ok_of_toOption _ _ (by decide!)

theorem scenario4_hash (SHA1 : List Nat → List Nat) (heap : Nat → Nat) :
    computeFileHash SHA1 heap 10 scenario4 1536 512
      = Except.ok (SHA1 (List.replicate 512 0x41 ++ (List.range' 512 1024).map heap)) := by
  unfold computeFileHash
  simp only []
  rw [scenario4_read, ok_bind]
  have e : DIR_FileSize scenario4 1536 = ((1536 : Nat) : Int) := by decide
  rw [e, hashed_short heap _ 1536 (by simp)]
  simp only [List.length_replicate]
  rfl

/-- C25 (evaluation at a failing input): scenario 4. The FAT entry of cluster 10 is 0, so
`computeFileHash` copies the 512 bytes of cluster 10 and stops, but the string it passes to
the digest function has the 1536 bytes of the file size: the 512 bytes read followed by
bytes 512..1535 of the buffer as `malloc` returned it. With a digest function that looks at
the end of its input, the same image and the same target digest give
`successfully recovered with SHA-1` for one content of the fresh buffer and
`file not found` for another. -/
theorem computeFileHash_digests_unread_bytes (SHA1 : List Nat → List Nat) (heap : Nat → Nat) :
    DIR_FileSize scenario4 1536 = 1536 ∧ DIR_FstClusLO scenario4 1536 = 10
    ∧ fatGet scenario4 512 10 = 0
    ∧ computeFileHashLoop scenario4 512 (dataSec scenario4) (clusterSize scenario4)
        (DIR_FileSize scenario4 1536) 10 (DIR_FstClusLO scenario4 1536) 0 []
        = Except.ok (List.replicate 512 0x41)
    ∧ computeFileHash SHA1 heap 10 scenario4 1536 512
        = Except.ok (SHA1 (List.replicate 512 0x41 ++ (List.range' 512 1024).map heap))
    ∧ (List.replicate 512 0x41 ++ (List.range' 512 1024).map heap).length = 1536
    ∧ (recFile last20 (fun _ => 0) 10 (lit "FILE.BIN") scenario4 (some hex00) false).toOption.map
        Prod.snd = some [lit "FILE.BIN: successfully recovered with SHA-1"]
    ∧ (recFile last20 (fun _ => 1) 10 (lit "FILE.BIN") scenario4 (some hex00) false).toOption.map
        Prod.snd = some [lit "FILE.BIN: file not found"] :=
  ⟨by decide, by decide, by decide, scenario4_read, scenario4_hash SHA1 heap, by simp,
    by decide!, by decide!⟩

/-! ### Termination of the root directory scan -/

theorem cyclicRoot_deleted (n : Nat) :
    recoverAllDeletedWhile 512 1024 1536 512 n 2 ⟨cyclicRoot, [], 0⟩
      = Except.error Err.outOfFuel := by
  induction n with
  | zero => rfl
  | succ n ih =>
    rw [recoverAllDeletedWhile, if_pos (by decide)]
    simp only []
    rw [show recoverAllDeletedFor 512 1024 512 (clusterOffset 1536 512 2) (512 / 32)
        (512 / 32 : Int).toNat 0 ⟨cyclicRoot, [], 0⟩ = Except.ok ⟨cyclicRoot, [], 0⟩ from rfl,
      ok_bind]
    simp only []
    rw [show fatGet cyclicRoot 512 2 = 2 from by decide]
    exact ih

theorem cyclicRoot_files (n : Nat) :
    recoverAllFilesWhile cyclicRoot (lit "A.TXT") 512 1536 512 n 2 []
      = Except.error Err.outOfFuel := by
  induction n with
  | zero => rfl
  | succ n ih =>
    rw [recoverAllFilesWhile, if_pos (by decide)]
    simp only []
    rw [show recoverAllFilesFor cyclicRoot (lit "A.TXT") (clusterOffset 1536 512 2) (512 / 32)
        (512 / 32 : Int).toNat 0 [] = [] from rfl,
      show fatGet cyclicRoot 512 2 = 2 from by decide]
    exact ih

theorem cyclicRoot_recFile (SHA1 : List Nat → List Nat) (heap : Nat → Nat) (fuel n : Nat) :
    recFileWhile SHA1 heap fuel (lit "A.TXT") none false 512 1024 1536 512 n 2
        (Scan.mk cyclicRoot 0 0 0 0 0 none)
      = Except.error Err.outOfFuel := by
  induction n with
  | zero => rfl
  | succ n ih =>
    rw [recFileWhile, if_pos (by decide)]
    simp only []
    rw [show recFileFor SHA1 heap fuel (lit "A.TXT") none false 512 1024 (clusterOffset 1536 512 2)
        (512 / 32) (512 / 32 + 1 : Int).toNat 0 (Scan.mk cyclicRoot 0 0 0 0 0 none)
        = Except.ok (Scan.mk cyclicRoot 0 0 0 0 0 none) from rfl, ok_bind]
    simp only []
    rw [if_neg (by decide), show fatGet cyclicRoot 512 2 = 2 from by decide]
    exact ih

theorem cyclicRoot_list (n : Nat) : ∀ s : Listing,
    listRootDirWhile cyclicRoot 512 1536 512 n 2 s = Except.error Err.outOfFuel := by
  induction n with
  | zero => intro s; rfl
  | succ n ih =>
    intro s
    rw [listRootDirWhile, if_pos (by decide)]
    simp only []
    rw [show fatGet cyclicRoot 512 2 = 2 from by decide]
    exact ih _

theorem cyclicRoot_chain (n : Nat) : dirChain cyclicRoot 512 n 2 = none := by
  induction n with
  | zero => rfl
  | succ n ih =>
    rw [dirChain, if_pos (by decide), show fatGet cyclicRoot 512 2 = 2 from by decide, ih]
    rfl

/-- C21 (counterexample): on a volume whose FAT links the root directory cluster to itself
(`fat[2] = 2`) the chain walk from the root cluster never reaches an end mark, and the
scans of `listRootDir`, `recFile`, `recoverAllFiles` and `recoverAllDeleted` exhaust every
iteration bound. -/
theorem root_scan_never_ends_on_cyclic_chain :
    (Volume cyclicRoot ∧ toI32 (BPB_RootClus cyclicRoot) = 2
      ∧ fatGet cyclicRoot (fatOffset cyclicRoot 0) 2 = 2)
    ∧ (∀ n, dirChain cyclicRoot (fatStart cyclicRoot) n (toI32 (BPB_RootClus cyclicRoot))
        = none)
    ∧ (∀ fuel, listRootDir fuel cyclicRoot = Except.error Err.outOfFuel)
    ∧ (∀ fuel, recFile first20 (fun _ => 0) fuel (lit "A.TXT") cyclicRoot none false
        = Except.error Err.outOfFuel)
    ∧ (∀ fuel, recoverAllFiles fuel (lit "A.TXT") cyclicRoot = Except.error Err.outOfFuel)
    ∧ (∀ fuel, recoverAllDeleted fuel cyclicRoot = Except.error Err.outOfFuel) := by
  have e1 : fatStart cyclicRoot = 512 := by decide
  have e2 : fat2Start cyclicRoot = 1024 := by decide
  have e3 : dataSec cyclicRoot = 1536 := by decide
  have e4 : clusterSize cyclicRoot = 512 := by decide
  have e5 : toI32 (BPB_RootClus cyclicRoot) = 2 := by decide
  refine ⟨⟨⟨by decide, by decide, by decide, by decide, by decide, by decide, by decide⟩,
    e5, by decide⟩, ?_, ?_, ?_, ?_, ?_⟩
  · intro n
    rw [e5, e1]
    exact cyclicRoot_chain n
  · intro fuel
    unfold listRootDir
    rw [e1, e3, e4, e5, cyclicRoot_list fuel]
    rfl
  · intro fuel
    unfold recFile
    rw [if_neg (by decide), if_neg (by decide), e1, e2, e3, e4, e5]
    simp only []
    rw [cyclicRoot_recFile first20 (fun _ => 0) fuel fuel]
    rfl
  · intro fuel
    unfold recoverAllFiles
    rw [if_neg (by decide), e1, e3, e4, e5, cyclicRoot_files fuel]
    rfl
  · intro fuel
    unfold recoverAllDeleted
    rw [e1, e2, e3, e4, e5, cyclicRoot_deleted fuel]
    rfl

theorem recover_returns (addr : Mem) (p v : Int) (hv : Volume addr) (hp : 48 ≤ p) :
    ∃ m, recover addr p v = Except.ok m := by
  have hg := geometry_congr addr (wr8 addr p v) (fun q h1 h2 => wr8_other _ _ _ _ (by omega))
  have hsz := hv.size_pos
  unfold recover
  simp only []
  rw [hg.1]
  split_ifs with h1 h2
  · exact ⟨_, rfl⟩
  · omega
  · exact ⟨_, rfl⟩

theorem recFileFor_name_only (SHA1 : List Nat → List Nat) (heap : Nat → Nat) (fuel : Nat)
    (name : List Nat) (nc : Bool) (fat fat2 rootDir maxFile : Int) (n : Nat) :
    ∀ (i : Int) (s : Scan), 0 ≤ i →
      ∃ s1, recFileFor SHA1 heap fuel name none nc fat fat2 rootDir maxFile n i s = Except.ok s1
        ∧ s1.addr = s.addr
        ∧ (0 ≤ s.indxFoundAt ∧ s.indxFoundAt ≤ maxFile →
            0 ≤ s1.indxFoundAt ∧ s1.indxFoundAt ≤ maxFile)
        ∧ ((s.firstMatch ≠ none → s.found = 1) → (s1.firstMatch ≠ none → s1.found = 1)) := by
  induction n with
  | zero => intro i s _; exact ⟨s, rfl, rfl, id, id⟩
  | succ n ih =>
    intro i s hi
    rw [recFileFor]
    simp only []
    split_ifs with h1 h2 h3 h4 h5
    · exact ⟨s, rfl, rfl, id, id⟩
    · exact ih (i + 1) s (by omega)
    · obtain ⟨s1, e, ha, hb, hc⟩ := ih (i + 1)
        { s with found := 1, indxFoundAt := i, foundAmount := s.foundAmount + 1,
                 firstMatch := setFirst s.firstMatch (slotAt rootDir i) } (by omega)
      exact ⟨s1, e, ha, fun _ => hb ⟨hi, show i ≤ maxFile by omega⟩, fun _ => hc (fun _ => rfl)⟩
    · exact ih (i + 1) s (by omega)
    · exact ih (i + 1) s (by omega)
    · exact ⟨s, rfl, rfl, id, id⟩

theorem recFileWhile_name_only (SHA1 : List Nat → List Nat) (heap : Nat → Nat) (fuel : Nat)
    (name : List Nat) (nc : Bool) (addr : Mem) (hv : Volume addr) (fat2 : Int) (n : Nat) :
    ∀ (c : Int) (cl : List Int) (s : Scan),
      dirChain addr (fatOffset addr 0) n c = some cl →
      (∀ c ∈ cl, 2 ≤ c ∧ clusterAt addr c + clusterSize addr ≤ 2147483648) →
      s.addr = addr → (0 ≤ s.indxFoundAt ∧ s.indxFoundAt ≤ clusterSize addr / 32) →
      (s.firstMatch ≠ none → s.found = 1) →
      ∃ r, recFileWhile SHA1 heap fuel name none nc (fatOffset addr 0) fat2 (dataSec addr)
            (clusterSize addr) n c s = Except.ok r
        ∧ (r.1.firstMatch ≠ none → r.1.found = 1) := by
  induction n with
  | zero => intro c cl s h; simp [dirChain] at h
  | succ n ih =>
    intro c cl s hch hcl haddr hidx hfm
    rw [dirChain] at hch
    rw [recFileWhile]
    by_cases hc : c ≠ 0 ∧ c < 0x0FFFFFF8
    · rw [if_pos hc] at hch
      rw [if_pos hc]
      cases hr : dirChain addr (fatOffset addr 0) n (fatGet addr (fatOffset addr 0) c) with
      | none => rw [hr] at hch; simp at hch
      | some l =>
        rw [hr] at hch
        simp only [Option.map_some', Option.some.injEq] at hch
        subst hch
        obtain ⟨s1, e1, ha, hb, hcc⟩ := recFileFor_name_only SHA1 heap fuel name nc
          (fatOffset addr 0) fat2 (clusterOffset (dataSec addr) (clusterSize addr) c)
          (clusterSize addr / 32) (clusterSize addr / 32 + 1).toNat 0 s (le_refl _)
        simp only []
        rw [e1, ok_bind]
        have hco := clusterOffset_eq addr hv c (hcl c (List.mem_cons_self _ _)).1
          (hcl c (List.mem_cons_self _ _)).2
        by_cases hcond : (s1.found = 1 ∧ s1.foundAmount = 1)
            ∨ (s1.shaFound = 1 ∧ s1.hashMatchCount = 1)
        · rw [if_pos hcond]
          have hp : 48 ≤ slotAt (clusterOffset (dataSec addr) (clusterSize addr) c)
              s1.indxFoundAt := by
            have h0 := hv.fatStart_eq
            have := (hb hidx).1
            rw [hco.2.1]
            unfold slotAt
            have h2 := fatOffset_two addr
            have hB := hv.fatBytes_pos
            omega
          obtain ⟨m, hm⟩ := recover_returns addr _ (name.headD 0) hv hp
          rw [ha, haddr, hm, ok_bind]
          split_ifs
          · exact ⟨_, rfl, hcc hfm⟩
          · exact ⟨_, rfl, hcc hfm⟩
        · rw [if_neg hcond, ha, haddr]
          exact ih _ l s1 hr (fun c1 h1 => hcl c1 (List.mem_cons_of_mem _ h1)) (ha.trans haddr)
            (hb hidx) (hcc hfm)
    · rw [if_neg hc]
      exact ⟨(s, []), rfl, hfm⟩

theorem dirChain_length (addr : Mem) (fat : Int) (n : Nat) :
    ∀ (c : Int) (l : List Int), dirChain addr fat n c = some l → l.length < n := by
  induction n with
  | zero => intro c l h; simp [dirChain] at h
  | succ n ih =>
    intro c l h
    rw [dirChain] at h
    split_ifs at h with hc
    · cases hr : dirChain addr fat n (fatGet addr fat c) with
      | none => rw [hr] at h; simp at h
      | some l1 =>
        rw [hr] at h
        simp only [Option.map_some', Option.some.injEq] at h
        subst h
        have := ih _ _ hr
        simp only [List.length_cons]
        omega
    · simp only [Option.some.injEq] at h
      subst h
      simp

theorem recover_not_outOfFuel (addr : Mem) (p v : Int) :
    recover addr p v ≠ Except.error Err.outOfFuel := by
  unfold recover
  simp only []
  split_ifs <;> intro h <;> cases h

theorem listRootDirWhile_ends (addr : Mem) (fat D size : Int) (n : Nat) :
    ∀ (c : Int) (cl : List Int) (s : Listing), dirChain addr fat n c = some cl →
      ∃ s1, listRootDirWhile addr fat D size n c s = Except.ok s1 := by
  induction n with
  | zero => intro c cl s h; simp [dirChain] at h
  | succ n ih =>
    intro c cl s h
    rw [dirChain] at h
    rw [listRootDirWhile]
    split_ifs at h ⊢ with hc
    · cases hr : dirChain addr fat n (fatGet addr fat c) with
      | none => rw [hr] at h; simp at h
      | some l => exact ih _ l _ hr
    · exact ⟨s, rfl⟩

theorem recoverAllFilesWhile_ends (addr : Mem) (name : List Nat) (fat D size : Int) (n : Nat) :
    ∀ (c : Int) (cl : List Int) (acc : List Int), dirChain addr fat n c = some cl →
      ∃ found, recoverAllFilesWhile addr name fat D size n c acc = Except.ok found := by
  induction n with
  | zero => intro c cl s h; simp [dirChain] at h
  | succ n ih =>
    intro c cl s h
    rw [dirChain] at h
    rw [recoverAllFilesWhile]
    split_ifs at h ⊢ with hc
    · cases hr : dirChain addr fat n (fatGet addr fat c) with
      | none => rw [hr] at h; simp at h
      | some l => exact ih _ l _ hr
    · exact ⟨s, rfl⟩

theorem recFileWhile_ends (SHA1 : List Nat → List Nat) (heap : Nat → Nat) (fuel : Nat)
    (name : List Nat) (nc : Bool) (addr : Mem) (fat fat2 D size : Int) (n : Nat) :
    ∀ (c : Int) (cl : List Int) (s : Scan), dirChain addr fat n c = some cl → s.addr = addr →
      recFileWhile SHA1 heap fuel name none nc fat fat2 D size n c s
        ≠ Except.error Err.outOfFuel := by
  induction n with
  | zero => intro c cl s h; simp [dirChain] at h
  | succ n ih =>
    intro c cl s hch haddr
    rw [dirChain] at hch
    rw [recFileWhile]
    by_cases hc : c ≠ 0 ∧ c < 0x0FFFFFF8
    · rw [if_pos hc] at hch
      rw [if_pos hc]
      cases hr : dirChain addr fat n (fatGet addr fat c) with
      | none => rw [hr] at hch; simp at hch
      | some l =>
        obtain ⟨s1, e1, ha, _, _⟩ := recFileFor_name_only SHA1 heap fuel name nc fat fat2
          (clusterOffset D size c) (size / 32) (size / 32 + 1).toNat 0 s (le_refl _)
        simp only []
        rw [e1, ok_bind]
        by_cases hcond : (s1.found = 1 ∧ s1.foundAmount = 1)
            ∨ (s1.shaFound = 1 ∧ s1.hashMatchCount = 1)
        · rw [if_pos hcond]
          cases hrec : recover s1.addr (slotAt (clusterOffset D size c) s1.indxFoundAt)
              (name.headD 0) with
          | error e =>
            intro h
            simp only [bind, Except.bind] at h
            have := recover_not_outOfFuel s1.addr
              (slotAt (clusterOffset D size c) s1.indxFoundAt) (name.headD 0)
            rw [hrec] at this
            exact this (congrArg Except.error (Except.error.inj h))
          | ok m =>
            rw [ok_bind]
            split_ifs <;> intro h <;> cases h
        · rw [if_neg hcond, ha, haddr]
          exact ih _ l s1 hr (ha.trans haddr)
    · rw [if_neg hc]
      intro h
      cases h

theorem recFile_ends (SHA1 : List Nat → List Nat) (heap : Nat → Nat) (fuel : Nat)
    (name : List Nat) (nc : Bool) (addr : Mem) (cl : List Int)
    (hch : dirChain addr (fatStart addr) fuel (toI32 (BPB_RootClus addr)) = some cl) :
    recFile SHA1 heap fuel name addr none nc ≠ Except.error Err.outOfFuel := by
  unfold recFile
  split_ifs with h1 h2
  · intro h; cases h
  · intro h; cases h
  · simp only []
    have hw := recFileWhile_ends SHA1 heap fuel name nc addr (fatStart addr) (fat2Start addr)
      (dataSec addr) (clusterSize addr) fuel (toI32 (BPB_RootClus addr)) cl
      { addr := addr, found := 0, foundAmount := 0, shaFound := 0, indxFoundAt := 0,
        hashMatchCount := 0, firstMatch := none } hch rfl
    cases hr : recFileWhile SHA1 heap fuel name none nc (fatStart addr) (fat2Start addr)
        (dataSec addr) (clusterSize addr) fuel (toI32 (BPB_RootClus addr))
        { addr := addr, found := 0, foundAmount := 0, shaFound := 0, indxFoundAt := 0,
          hashMatchCount := 0, firstMatch := none } with
    | error e =>
      rw [hr] at hw
      intro h
      simp only [bind, Except.bind] at h
      exact hw (congrArg Except.error (Except.error.inj h))
    | ok r =>
      rw [ok_bind]
      cases hq : r.1.firstMatch with
      | none =>
        simp only [ok_bind, pure, Except.pure, bind, Except.bind]
        split_ifs <;> intro h <;> cases h
      | some q =>
        simp only []
        split_ifs with h3 h4 h5
        · cases hrec : recover r.1.addr q (name.headD 0) with
          | error e =>
            intro h
            simp only [bind, Except.bind] at h
            have := recover_not_outOfFuel r.1.addr q (name.headD 0)
            rw [hrec] at this
            exact this (congrArg Except.error (Except.error.inj h))
          | ok m =>
            intro h
            simp only [ok_bind, pure, Except.pure, bind, Except.bind, if_pos h4] at h
            cases h
        · cases hrec : recover r.1.addr q (name.headD 0) with
          | error e =>
            intro h
            simp only [bind, Except.bind] at h
            have := recover_not_outOfFuel r.1.addr q (name.headD 0)
            rw [hrec] at this
            exact this (congrArg Except.error (Except.error.inj h))
          | ok m =>
            intro h
            simp only [ok_bind, pure, Except.pure, bind, Except.bind, if_neg h4] at h
            cases h
        · intro h
          simp only [ok_bind, pure, Except.pure, bind, Except.bind] at h
          cases h
        · intro h
          simp only [ok_bind, pure, Except.pure, bind, Except.bind] at h
          cases h

/-- C21 (amended): on an image whose FAT chain from the root cluster, followed in FAT
copy 0 as the code reads it, reaches an end mark (0, or a value that is at least
`0x0FFFFFF8` as a signed 32-bit number) after finitely many links, the root-directory scan
visits the clusters of that chain and terminates: `listRootDir` returns, the first pass of
`recoverAllFiles` returns, and `recFile` without a digest does not exhaust the iteration
bound that suffices to walk the chain. If moreover the image is a volume and the clusters
of the chain are clusters of the volume in the first 2 GiB, `recFile` without a digest
returns, the first pass of `recoverAllFiles` returns the candidate slots of exactly those
clusters, and `recoverAllDeleted`, which writes FAT entries while it scans, returns when
the entries it writes for the eligible tombstones lie inside the FAT and are not entries of
root directory clusters. -/
theorem root_scan_terminates_when_chain_ends (SHA1 : List Nat → List Nat) (heap : Nat → Nat)
    (fuel : Nat) (name : List Nat) (addr : Mem) (cl : List Int)
    (hch : dirChain addr (fatStart addr) fuel (toI32 (BPB_RootClus addr)) = some cl) :
    cl.length < fuel
    ∧ (∃ out, listRootDir fuel addr = Except.ok out)
    ∧ (∃ found, recoverAllFilesWhile addr name (fatStart addr) (dataSec addr) (clusterSize addr)
        fuel (toI32 (BPB_RootClus addr)) [] = Except.ok found)
    ∧ recFile SHA1 heap fuel name addr none false ≠ Except.error Err.outOfFuel
    ∧ (Volume addr →
        (∀ c ∈ cl, 2 ≤ c ∧ InFat (fatBytes addr) c
          ∧ clusterAt addr c + clusterSize addr ≤ 2147483648) →
        (name.headD 0 ≠ 0 ∧ name.headD 0 ≠ 32 →
          ∃ r, recFile SHA1 heap fuel name addr none false = Except.ok r)
        ∧ recoverAllFilesWhile addr name (fatStart addr) (dataSec addr) (clusterSize addr) fuel
            (toI32 (BPB_RootClus addr)) []
            = Except.ok ((rootSlots addr cl).filter (strcmpMatches addr name))
        ∧ ((∀ p ∈ deletedSlots addr cl, ∀ w ∈ deletedWrites addr p,
              InFat (fatBytes addr) w.1 ∧ w.1 ∉ cl) →
            ∃ r, recoverAllDeleted fuel addr = Except.ok r)) := by
  refine ⟨dirChain_length _ _ _ _ _ hch, ?_, recoverAllFilesWhile_ends addr name _ _ _ fuel _ cl [] hch,
    recFile_ends SHA1 heap fuel name false addr cl hch, ?_⟩
  · obtain ⟨s1, h1⟩ := listRootDirWhile_ends addr (fatStart addr) (dataSec addr)
      (clusterSize addr) fuel _ cl { out := [], totalFiles := 0 } hch
    unfold listRootDir
    rw [h1]
    exact ⟨_, rfl⟩
  intro hv hcl
  have hsz := hv.size_pos
  rw [hv.fatStart_eq.1] at hch
  refine ⟨?_, ?_, ?_⟩
  · intro hname
    obtain ⟨r, hr, hfm⟩ := recFileWhile_name_only SHA1 heap fuel name false addr hv
      (fat2Start addr) fuel (toI32 (BPB_RootClus addr)) cl
      { addr := addr, found := 0, foundAmount := 0, shaFound := 0, indxFoundAt := 0,
        hashMatchCount := 0, firstMatch := none } hch
      (fun c hc => ⟨(hcl c hc).1, (hcl c hc).2.2⟩) rfl
      ⟨le_refl _, Int.ediv_nonneg (by omega) (by decide)⟩ (fun h => absurd rfl h)
    unfold recFile
    rw [if_neg (by tauto), if_neg (by simp [badHash]), hv.fatStart_eq.1]
    simp only []
    rw [hr, ok_bind]
    cases hq : r.1.firstMatch with
    | none =>
      simp only [ok_bind, pure, Except.pure, bind, Except.bind]
      split_ifs <;> exact ⟨_, rfl⟩
    | some q =>
      have hf : r.1.found = 1 := hfm (by rw [hq]; simp)
      simp only []
      rw [if_neg (by rw [hf]; simp)]
      simp only [ok_bind, pure, Except.pure, bind, Except.bind]
      split_ifs <;> exact ⟨_, rfl⟩
  · rw [hv.fatStart_eq.1, recoverAllFilesWhile_eq addr name _ fuel _ [] cl hch
      (fun c hc => (clusterOffset_eq addr hv c (hcl c hc).1 (hcl c hc).2.2).2.1) (by omega),
      List.nil_append]
  · intro hin
    have hw := recoverAllDeletedWhile_eq addr hv cl (fun c hc => (hcl c hc).2.1) fuel
      (toI32 (BPB_RootClus addr)) cl [] [] 0 hch
      (fun c hc => ⟨hc, (hcl c hc).1, (hcl c hc).2.2⟩) (dirChain_nodup _ _ _ _ _ hch)
      (by intro p hp; cases hp) (by simpa [deletedSlots] using hin)
    rw [committed_nil] at hw
    unfold recoverAllDeleted
    rw [hv.fatStart_eq.1, hv.fat2Start_eq]
    rw [hw, ok_bind]
    simp only []
    split_ifs <;> exact ⟨_, rfl⟩

/-- Instance of the amended C21 on scenario 6, whose root directory is the single
cluster 2. -/
theorem root_scan_terminates_when_chain_ends_witness :
    dirChain scenario6 (fatStart scenario6) 10 (toI32 (BPB_RootClus scenario6)) = some [2]
    ∧ Volume scenario6
    ∧ (∃ out, listRootDir 10 scenario6 = Except.ok out)
    ∧ (∃ r, recFile first20 (fun _ => 0) 10 (lit "ONE.TXT") scenario6 none false = Except.ok r)
    ∧ recoverAllFilesWhile scenario6 (lit "ONE.TXT") (fatStart scenario6) (dataSec scenario6)
        (clusterSize scenario6) 10 (toI32 (BPB_RootClus scenario6)) [] = Except.ok [1568]
    ∧ ∃ r, recoverAllDeleted 10 scenario6 = Except.ok r := by
  obtain ⟨_, h1, _, _, h⟩ := root_scan_terminates_when_chain_ends first20 (fun _ => 0) 10
    (lit "ONE.TXT") scenario6 [2] (by decide)
  obtain ⟨h2, h3, h4⟩ := h scenario6_volume (by decide)
  refine ⟨by decide, scenario6_volume, h1, h2 (by decide), ?_, h4 (by decide)⟩
  rw [h3]
  have e : (rootSlots scenario6 [2]).filter (strcmpMatches scenario6 (lit "ONE.TXT")) = [1568] := by
    decide
  rw [e]

/-! ### The read loop of one permutation -/

theorem copied_eq (addr : Mem) (off cnt : Int) :
    copied addr off cnt
      = (List.range cnt.toNat).map (fun (k : Nat) => (rd8 addr (off + (k : Int))).toNat) := by
  unfold copied
  have : (do let a ← List.range cnt.toNat; pure (a : Int))
      = (List.range cnt.toNat).map (fun (k : Nat) => (k : Int)) := by
    induction (List.range cnt.toNat) with
    | nil => rfl
    | cons a l ih =>
      simp only [List.map_cons]
      rw [← ih]
      rfl
  rw [this, List.map_map]
  rfl

theorem copied_length (addr : Mem) (off cnt : Int) : (copied addr off cnt).length = cnt.toNat := by
  rw [copied_eq, List.length_map, List.length_range]

theorem clusterBytes_length (addr : Mem) (c : Int) (k : Nat) :
    (clusterBytes addr c k).length = k := by
  unfold clusterBytes
  rw [copied_length]
  rfl

theorem readSequenceSpec_zero (addr : Mem) (cl : List Int) : readSequenceSpec addr cl 0 = [] := by
  induction cl with
  | nil => rfl
  | cons c cs ih =>
    rw [readSequenceSpec, Nat.min_zero, Nat.sub_zero, ih]
    rfl

theorem readSequenceSpec_length (addr : Mem) (cl : List Int) : ∀ (k : Nat),
    (readSequenceSpec addr cl k).length = min k (cl.length * (clusterSize addr).toNat) := by
  induction cl with
  | nil => intro k; simp [readSequenceSpec]
  | cons c cs ih =>
    intro k
    rw [readSequenceSpec, List.length_append, clusterBytes_length, ih, List.length_cons,
      Nat.succ_mul]
    omega

/-- The read loop of `tryClusterPermutation` against the reference: when the offset computed
for each listed cluster is the offset of the cluster and the byte counter does not wrap,
the buffer is extended by the bytes the reference gives for what is still missing. -/
theorem readClusters_spec (addr : Mem) (hv : Volume addr) (n : Int)
    (hw : n + clusterSize addr ≤ 4294967296) :
    ∀ (cl : List Int) (buf : List Nat),
      (∀ c ∈ cl, clusterOffset (dataSec addr) (clusterSize addr) c = clusterAt addr c) →
      (buf.length : Int) ≤ n →
      readClusters addr (dataSec addr) (clusterSize addr) n cl buf.length buf
        = buf ++ readSequenceSpec addr cl (n - buf.length).toNat := by
  have hsz := hv.size_pos
  have hle := hv.clusterBytes
  intro cl
  induction cl with
  | nil => intro buf _ _; simp [readClusters, readSequenceSpec]
  | cons c cs ih =>
    intro buf hoff hbuf
    rw [readClusters]
    by_cases hlt : (buf.length : Int) < n
    · rw [if_pos hlt]
      simp only []
      have hcnt : bytesToRead (clusterSize addr) buf.length n
          = ((min (clusterSize addr).toNat (n - buf.length).toNat : Nat) : Int) := by
        unfold bytesToRead toU32 toI32
        split_ifs with h <;> omega
      have hbr : toU32 ((buf.length : Int)
            + toU32 ((min (clusterSize addr).toNat (n - buf.length).toNat : Nat) : Int))
          = (((buf ++ clusterBytes addr c
              (min (clusterSize addr).toNat (n - buf.length).toNat)).length : Nat) : Int) := by
        rw [List.length_append, clusterBytes_length]
        unfold toU32
        omega
      rw [hoff c (List.mem_cons_self _ _), hcnt, hbr]
      change readClusters addr (dataSec addr) (clusterSize addr) n cs _
        (buf ++ clusterBytes addr c (min (clusterSize addr).toNat (n - buf.length).toNat)) = _
      rw [ih _ (fun c1 h1 => hoff c1 (List.mem_cons_of_mem _ h1)) (by
        rw [List.length_append, clusterBytes_length]; omega)]
      rw [readSequenceSpec, List.append_assoc]
      have hl : (buf ++ clusterBytes addr c
          (min (clusterSize addr).toNat (n - buf.length).toNat)).length
          = buf.length + min (clusterSize addr).toNat (n - buf.length).toNat := by
        rw [List.length_append, clusterBytes_length]
      have e : (n - ((buf.length + min (clusterSize addr).toNat (n - buf.length).toNat : Nat)
            : Int)).toNat
          = (n - buf.length).toNat - min (clusterSize addr).toNat (n - buf.length).toNat := by
        push_cast
        omega
      rw [hl, e]
    · rw [if_neg hlt, show (n - (buf.length : Int)).toNat = 0 from by omega,
        readSequenceSpec_zero]
      simp

theorem clusterBytes_congr (addr addr1 : Mem) (c : Int) (k : Nat)
    (hat : clusterAt addr1 c = clusterAt addr c)
    (h : ∀ q, clusterAt addr c ≤ q → q < clusterAt addr c + k → addr1 q = addr q) :
    clusterBytes addr1 c k = clusterBytes addr c k := by
  unfold clusterBytes
  rw [copied_eq, copied_eq, hat]
  apply List.map_congr_left
  intro j hj
  rw [List.mem_range] at hj
  simp only [Int.toNat_ofNat] at hj
  rw [rd8_congr (h _ (by omega) (by omega))]

theorem readSequenceSpec_congr (addr addr1 : Mem) (hsz : clusterSize addr1 = clusterSize addr) :
    ∀ (cl : List Int) (k : Nat),
      (∀ c ∈ cl, clusterAt addr1 c = clusterAt addr c) →
      (∀ c ∈ cl, ∀ q, clusterAt addr c ≤ q → q < clusterAt addr c + clusterSize addr →
        addr1 q = addr q) →
      readSequenceSpec addr1 cl k = readSequenceSpec addr cl k := by
  intro cl
  induction cl with
  | nil => intro k _ _; rfl
  | cons c cs ih =>
    intro k hat h
    rw [readSequenceSpec, readSequenceSpec, hsz,
      ih _ (fun c1 h1 => hat c1 (List.mem_cons_of_mem _ h1))
        (fun c1 h1 => h c1 (List.mem_cons_of_mem _ h1)),
      clusterBytes_congr addr addr1 c _ (hat c (List.mem_cons_self _ _)) (fun q h1 h2 =>
        h c (List.mem_cons_self _ _) q h1 (by
          have : ((min (clusterSize addr).toNat k : Nat) : Int) ≤ clusterSize addr := by omega
          omega))]

theorem read_sequence_value (heap : Nat → Nat) (addr : Mem) (n : Int) (cl : List Int)
    (hv : Volume addr)
    (hcl : ∀ c ∈ cl, 2 ≤ c ∧ clusterAt addr c + clusterSize addr ≤ 2147483648)
    (hn0 : 0 ≤ n) (hn : n ≤ cl.length * clusterSize addr)
    (hw : n + clusterSize addr ≤ 4294967296) :
    hashed heap (readClusters addr (dataSec addr) (clusterSize addr) n cl 0 []) n
      = readSequenceSpec addr cl n.toNat := by
  have hsz := hv.size_pos
  have h := readClusters_spec addr hv n hw cl []
    (fun c hc => (clusterOffset_eq addr hv c (hcl c hc).1 (hcl c hc).2).2.1) (by simpa using hn0)
  simp only [List.length_nil, Nat.cast_zero, sub_zero, List.nil_append] at h
  rw [h]
  apply hashed_full
  rw [readSequenceSpec_length]
  have : (n.toNat : Int) ≤ ((cl.length * (clusterSize addr).toNat : Nat) : Int) := by
    push_cast
    rw [Int.toNat_of_nonneg hn0, Int.toNat_of_nonneg (by omega)]
    exact hn
  omega

/-- C24 (amended): on a volume with two FAT copies, for every sequence of clusters of the
volume that lie in the first 2 GiB of the image and every file size `n` with
`n ≤ m × cluster_bytes` and `n + cluster_bytes ≤ 2^32`, the bytes that
`tryClusterPermutation` hands to the digest function are, in sequence order, the first
`min(cluster_bytes, remaining)` bytes of each listed cluster, `n` bytes in all; and an image
that differs from the given one only inside the two FAT copies yields the same bytes (the
slot that holds the file size being in the data area). -/
theorem read_sequence_reads_listed_clusters (heap : Nat → Nat) (addr : Mem) (file : Int)
    (cl : List Int) (hv : Volume addr)
    (hcl : ∀ c ∈ cl, 2 ≤ c ∧ clusterAt addr c + clusterSize addr ≤ 2147483648)
    (hn : DIR_FileSize addr file ≤ cl.length * clusterSize addr)
    (hw : DIR_FileSize addr file + clusterSize addr ≤ 4294967296) :
    hashed heap (readClusters addr (dataSec addr) (clusterSize addr) (DIR_FileSize addr file)
        cl 0 []) (DIR_FileSize addr file)
      = readSequenceSpec addr cl (DIR_FileSize addr file).toNat
    ∧ ((readSequenceSpec addr cl (DIR_FileSize addr file).toNat).length : Int)
        = DIR_FileSize addr file
    ∧ ∀ addr1 : Mem, (∀ q, q < fatOffset addr 0 ∨ fatOffset addr 2 ≤ q → addr1 q = addr q) →
        fatOffset addr 2 ≤ file →
        hashed heap (readClusters addr1 (dataSec addr1) (clusterSize addr1)
            (DIR_FileSize addr1 file) cl 0 []) (DIR_FileSize addr1 file)
          = hashed heap (readClusters addr (dataSec addr) (clusterSize addr)
            (DIR_FileSize addr file) cl 0 []) (DIR_FileSize addr file) := by
  have hsz := hv.size_pos
  have hn0 : 0 ≤ DIR_FileSize addr file := (rd32u_bounds addr (file + 28)).1
  have hval := read_sequence_value heap addr _ cl hv hcl hn0 hn hw
  refine ⟨hval, ?_, ?_⟩
  · rw [readSequenceSpec_length]
    have : ((DIR_FileSize addr file).toNat : Int)
        ≤ ((cl.length * (clusterSize addr).toNat : Nat) : Int) := by
      push_cast
      rw [Int.toNat_of_nonneg hn0, Int.toNat_of_nonneg (by omega)]
      exact hn
    omega
  · intro addr1 hsame hfile
    have h0 := hv.fatStart_eq
    have hboot : ∀ q, 11 ≤ q → q < 48 → addr1 q = addr q :=
      fun q _ _ => hsame q (Or.inl (by omega))
    obtain ⟨hv1, hfo, hs1, _⟩ := volume_congr addr addr1 hboot hv
    have hfs : DIR_FileSize addr1 file = DIR_FileSize addr file :=
      (size_fields_congr addr addr1 file (fun j _ _ => hsame _ (Or.inr (by omega)))).2
    have hat : ∀ c ∈ cl, clusterAt addr1 c = clusterAt addr c := by
      intro c _
      unfold clusterAt
      rw [hfo, hs1]
    rw [hval, hfs, read_sequence_value heap addr1 _ cl hv1
      (fun c hc => by rw [hat c hc, hs1]; exact hcl c hc) hn0 (by rw [hs1]; exact hn)
      (by rw [hs1]; exact hw)]
    apply readSequenceSpec_congr addr addr1 hs1 cl _ hat
    intro c hc q h1 h2
    apply hsame
    right
    have := (clusterOffset_eq addr hv c (hcl c hc).1 (hcl c hc).2).2.2
    omega

theorem s5_same_outside_fat (q : Int)
    (hq : q < fatOffset scenario5 0 ∨ fatOffset scenario5 2 ≤ q) :
    s5_committed q = scenario5 q := by
  have e0 : fatOffset scenario5 0 = 512 := by decide
  have e2 : fatOffset scenario5 2 = 1536 := by decide
  rw [e0, e2] at hq
  unfold s5_committed
  apply pairedWrites_frame
  intro w hw
  have hw1 : w.1 = 7 ∨ w.1 = 4 := by
    have : w.1 ∈ (chainOf [7, 4]).map Prod.fst := List.mem_map.2 ⟨w, hw, rfl⟩
    rw [chainOf_fst] at this
    simpa using this
  rcases hw1 with h | h <;> rw [h] <;> omega

/-- Instance of the amended C24 on scenario 5: the sequence `[7, 4]` gives the first half
followed by the second half of the file, also on the image in which the chain `7 → 4` has
been committed to both FAT copies. -/
theorem read_sequence_reads_listed_clusters_witness :
    Volume scenario5
    ∧ (∀ c ∈ ([7, 4] : List Int),
        2 ≤ c ∧ clusterAt scenario5 c + clusterSize scenario5 ≤ 2147483648)
    ∧ DIR_FileSize scenario5 1536 = 1024
    ∧ hashed (fun _ => 0) (readClusters scenario5 (dataSec scenario5) (clusterSize scenario5)
        (DIR_FileSize scenario5 1536) [7, 4] 0 []) (DIR_FileSize scenario5 1536)
        = firstHalf ++ secondHalf
    ∧ hashed (fun _ => 0) (readClusters s5_committed (dataSec s5_committed)
        (clusterSize s5_committed) (DIR_FileSize s5_committed 1536) [7, 4] 0 [])
        (DIR_FileSize s5_committed 1536) = firstHalf ++ secondHalf := by
  obtain ⟨h1, _, h3⟩ := read_sequence_reads_listed_clusters (fun _ => 0) scenario5 1536 [7, 4]
    scenario5_volume (by decide) (by decide) (by decide)
  have e : readSequenceSpec scenario5 [7, 4] (DIR_FileSize scenario5 1536).toNat
      = firstHalf ++ secondHalf := by decide!
  refine ⟨scenario5_volume, by decide, by decide, ?_, ?_⟩
  · rw [h1, e]
  · rw [h3 s5_committed s5_same_outside_fat (by decide), h1, e]

/-! ### The read loop of the digest check -/

/-- The loop of `computeFileHash` is the read loop over the clusters of the chain: when the
FAT entries met are below `2^31` and the iteration bound covers the file size. -/
theorem computeFileHashLoop_eq (addr : Mem) (fat : Int) (hv : Volume addr) (n : Int)
    (hw : n + clusterSize addr ≤ 4294967296) :
    ∀ (k : Nat) (c : Int) (buf : List Nat),
      (∀ x ∈ followFat addr fat k c, rd32u addr (fat + 4 * x) < 2147483648) →
      (buf.length : Int) ≤ n → n - buf.length ≤ k * clusterSize addr →
      computeFileHashLoop addr fat (dataSec addr) (clusterSize addr) n (k + 1) c buf.length buf
        = Except.ok (readClusters addr (dataSec addr) (clusterSize addr) n
            (followFat addr fat k c) buf.length buf) := by
  have hsz := hv.size_pos
  have hle := hv.clusterBytes
  intro k
  induction k with
  | zero =>
    intro c buf _ h1 h2
    rw [computeFileHashLoop, if_neg (by omega)]
    rfl
  | succ k ih =>
    intro c buf hfat h1 h2
    rw [computeFileHashLoop]
    by_cases hc : c ≠ 0 ∧ c < 0x0FFFFFF8 ∧ (buf.length : Int) < n
    · rw [if_pos hc]
      simp only []
      have hff : followFat addr fat (k + 1) c
          = c :: followFat addr fat k (rd32u addr (fat + 4 * c)) := by
        rw [followFat, if_neg (by omega)]
      rw [hff] at hfat ⊢
      rw [readClusters, if_pos hc.2.2]
      simp only []
      have hcnt : bytesToRead (clusterSize addr) buf.length n
          = ((min (clusterSize addr).toNat (n - buf.length).toNat : Nat) : Int) := by
        unfold bytesToRead toU32 toI32
        split_ifs with h <;> omega
      have hlen : (buf ++ copied addr (clusterOffset (dataSec addr) (clusterSize addr) c)
            ((min (clusterSize addr).toNat (n - buf.length).toNat : Nat) : Int)).length
          = buf.length + min (clusterSize addr).toNat (n - buf.length).toNat := by
        rw [List.length_append, copied_length]
        rfl
      have hbr : toU32 ((buf.length : Int)
            + toU32 ((min (clusterSize addr).toNat (n - buf.length).toNat : Nat) : Int))
          = (((buf ++ copied addr (clusterOffset (dataSec addr) (clusterSize addr) c)
              ((min (clusterSize addr).toNat (n - buf.length).toNat : Nat) : Int)).length
              : Nat) : Int) := by
        rw [hlen]
        unfold toU32
        push_cast
        omega
      have hv1 : fatGet addr fat c = rd32u addr (fat + 4 * c) := by
        have hb := rd32u_bounds addr (fat + 4 * c)
        have := hfat c (List.mem_cons_self _ _)
        unfold fatGet rd32 toI32
        omega
      rw [hcnt, hbr, hv1]
      apply ih
      · exact fun x hx => hfat x (List.mem_cons_of_mem _ hx)
      · rw [hlen]
        push_cast
        omega
      · rw [hlen]
        push_cast
        have e : ((k + 1 : Nat) : Int) * clusterSize addr
            = (k : Int) * clusterSize addr + clusterSize addr := by
          push_cast
          ring
        rw [e] at h2
        have hk : 0 ≤ (k : Int) * clusterSize addr := mul_nonneg (by omega) (by omega)
        omega
    · rw [if_neg hc]
      by_cases hstop : c = 0 ∨ 0x0FFFFFF8 ≤ c
      · rw [followFat, if_pos hstop]
        rfl
      · rw [followFat, if_neg hstop, readClusters, if_neg (by omega)]
        rfl

theorem followFat_zero (addr : Mem) (fat : Int) (k : Nat) : followFat addr fat k 0 = [] := by
  cases k with
  | zero => rfl
  | succ k => rw [followFat, if_pos (Or.inl rfl)]

/-- C30 (amended): on a volume with two FAT copies, for a start cluster `s` and a size `n`
with `n + cluster_bytes ≤ 2^32`, if the clusters `s, fat(0,s), fat(0,fat(0,s)), …` met
before the first value that is 0 or at least `0x0FFFFFF8` are clusters of the volume in the
first 2 GiB of the image and their FAT entries are below `2^31`, then the loop of
`computeFileHash` returns, and the bytes it has copied are, in chain order, the first
`min(cluster_bytes, remaining)` bytes of those clusters, until `n` bytes are assembled or
the chain ends. In particular, when `fat(0,s) = 0` and `n > cluster_bytes`, exactly the
`cluster_bytes` bytes of cluster `s` are copied. -/
theorem read_following_fat_follows_chain (addr : Mem) (s n : Int) (k : Nat) (hv : Volume addr)
    (hn0 : 0 ≤ n) (hw : n + clusterSize addr ≤ 4294967296) (hk : n ≤ k * clusterSize addr)
    (hchain : ∀ c ∈ followFat addr (fatOffset addr 0) k s,
      2 ≤ c ∧ clusterAt addr c + clusterSize addr ≤ 2147483648
      ∧ rd32u addr (fatOffset addr 0 + 4 * c) < 2147483648) :
    computeFileHashLoop addr (fatOffset addr 0) (dataSec addr) (clusterSize addr) n (k + 1) s
        0 []
      = Except.ok (readSequenceSpec addr (followFat addr (fatOffset addr 0) k s) n.toNat)
    ∧ (s ≠ 0 → s < 0x0FFFFFF8 → rd32u addr (fatOffset addr 0 + 4 * s) = 0 →
        clusterSize addr < n →
        readSequenceSpec addr (followFat addr (fatOffset addr 0) k s) n.toNat
          = clusterBytes addr s (clusterSize addr).toNat) := by
  have hsz := hv.size_pos
  constructor
  · have h1 := computeFileHashLoop_eq addr (fatOffset addr 0) hv n hw k s []
      (fun x hx => (hchain x hx).2.2) (by simpa using hn0) (by simpa using hk)
    have h2 := readClusters_spec addr hv n hw (followFat addr (fatOffset addr 0) k s) []
      (fun c hc => (clusterOffset_eq addr hv c (hchain c hc).1 (hchain c hc).2.1).2.1)
      (by simpa using hn0)
    simp only [List.length_nil, Nat.cast_zero, sub_zero, List.nil_append] at h1 h2
    rw [h1, h2]
  · intro hs0 hs1 hfat hlt
    obtain ⟨j, rfl⟩ : ∃ j, k = j + 1 := by
      refine ⟨k - 1, ?_⟩
      have : k ≠ 0 := by
        rintro rfl
        simp at hk
        omega
      omega
    rw [followFat, if_neg (by omega), hfat, followFat_zero, readSequenceSpec, readSequenceSpec,
      List.append_nil, Nat.min_eq_left (by omega)]

/-- Instance of the amended C30 on scenario 4 (size 1536, start cluster 10, `fat[10] = 0`):
the 512 bytes of cluster 10 are copied, and nothing else. -/
theorem read_following_fat_follows_chain_witness :
    Volume scenario4 ∧ fatOffset scenario4 0 = 512
    ∧ followFat scenario4 512 3 10 = [10] ∧ rd32u scenario4 (512 + 4 * 10) = 0
    ∧ computeFileHashLoop scenario4 512 (dataSec scenario4) (clusterSize scenario4) 1536 4 10
        0 [] = Except.ok (List.replicate 512 0x41)
    ∧ clusterBytes scenario4 10 512 = List.replicate 512 0x41 := by
  have hv : Volume scenario4 :=
    ⟨by decide, by decide, by decide, by decide, by decide, by decide, by decide⟩
  have e0 : fatOffset scenario4 0 = 512 := by decide
  have hcb : clusterBytes scenario4 10 512 = List.replicate 512 0x41 := by decide!
  obtain ⟨h1, h2⟩ := read_following_fat_follows_chain scenario4 10 1536 3 hv (by decide)
    (by decide) (by decide) (by decide)
  rw [e0] at h1 h2
  refine ⟨hv, e0, by decide, by decide, ?_, hcb⟩
  rw [h1, h2 (by decide) (by decide) (by decide) (by decide)]
  rw [show (clusterSize scenario4).toNat = 512 from by decide, hcb]

/-! ### Images whose boot sector is malformed -/

theorem listRootDirWhile_zero (addr : Mem) (fat D : Int) (n : Nat) :
    ∀ (c : Int) (cl : List Int) (s : Listing), dirChain addr fat n c = some cl →
      listRootDirWhile addr fat D 0 n c s = Except.ok s := by
  induction n with
  | zero => intro c cl s h; simp [dirChain] at h
  | succ n ih =>
    intro c cl s h
    rw [dirChain] at h
    rw [listRootDirWhile]
    split_ifs at h ⊢ with hc
    · cases hr : dirChain addr fat n (fatGet addr fat c) with
      | none => rw [hr] at h; simp at h
      | some l => exact ih _ l _ hr
    · rfl

theorem recoverAllFilesWhile_zero (addr : Mem) (name : List Nat) (fat D : Int) (n : Nat) :
    ∀ (c : Int) (cl : List Int) (acc : List Int), dirChain addr fat n c = some cl →
      recoverAllFilesWhile addr name fat D 0 n c acc = Except.ok acc := by
  induction n with
  | zero => intro c cl s h; simp [dirChain] at h
  | succ n ih =>
    intro c cl s h
    rw [dirChain] at h
    rw [recoverAllFilesWhile]
    split_ifs at h ⊢ with hc
    · cases hr : dirChain addr fat n (fatGet addr fat c) with
      | none => rw [hr] at h; simp at h
      | some l => exact ih _ l _ hr
    · rfl

theorem recoverAllDeletedWhile_zero (addr : Mem) (fat fat2 D : Int) (n : Nat) :
    ∀ (c : Int) (cl : List Int) (out : List (List Nat)) (tot : Nat),
      dirChain addr fat n c = some cl →
      recoverAllDeletedWhile fat fat2 D 0 n c ⟨addr, out, tot⟩ = Except.ok ⟨addr, out, tot⟩ := by
  induction n with
  | zero => intro c cl out tot h; simp [dirChain] at h
  | succ n ih =>
    intro c cl out tot h
    rw [dirChain] at h
    rw [recoverAllDeletedWhile]
    split_ifs at h ⊢ with hc
    · cases hr : dirChain addr fat n (fatGet addr fat c) with
      | none => rw [hr] at h; simp at h
      | some l =>
        simp only []
        rw [show recoverAllDeletedFor fat fat2 0 (clusterOffset D 0 c) (0 / 32)
            (0 / 32 : Int).toNat 0 ⟨addr, out, tot⟩ = Except.ok ⟨addr, out, tot⟩ from rfl, ok_bind]
        exact ih _ l _ _ hr
    · rfl

/-- C22 (amended): no operation checks the boot sector. On an image whose cluster size is
zero (`bytes_per_sector` or `sectors_per_cluster` is 0) and whose FAT chain from the root
cluster ends, the listing and the two bulk recovery modes examine no directory slot and
evaluate no division by the cluster size: `listRootDir` prints
`Total number of entries = 0`, `recoverAllFiles` prints `T: file not found` and
`recoverAllDeleted` prints `No deleted files were found.`, each leaving the image as it
is. -/
theorem zero_cluster_size_scans_nothing (fuel : Nat) (name : List Nat) (addr : Mem)
    (cl : List Int) (hz : clusterSize addr = 0)
    (hname : name.headD 0 ≠ 0 ∧ name.headD 0 ≠ 32)
    (hch : dirChain addr (fatStart addr) fuel (toI32 (BPB_RootClus addr)) = some cl) :
    listRootDir fuel addr = Except.ok [lit "Total number of entries = 0"]
    ∧ recoverAllFiles fuel name addr = Except.ok (addr, [cstr name ++ lit ": file not found"])
    ∧ recoverAllDeleted fuel addr = Except.ok (addr, [lit "No deleted files were found."]) := by
  refine ⟨?_, ?_, ?_⟩
  · unfold listRootDir
    rw [hz, listRootDirWhile_zero addr _ _ fuel _ cl _ hch]
    rfl
  · unfold recoverAllFiles
    rw [if_neg (by tauto), hz, recoverAllFilesWhile_zero addr name _ _ fuel _ cl _ hch]
    rfl
  · unfold recoverAllDeleted
    rw [hz, recoverAllDeletedWhile_zero addr _ _ _ fuel _ cl _ _ hch]
    rfl

/-- C22 (counterexample): an image whose boot sector gives 3 sectors per cluster is
processed like any other: `printDriveInfo` prints its fields and `recoverAllDeleted`
recovers the tombstone of root slot 0, changing `name[0]` and entry 5 of both FAT copies.
On an image with a cluster size of zero, `recFile` reaches the division by the cluster
size in `recover`. -/
theorem malformed_boot_sector_is_not_rejected :
    BPB_SecPerClus threeSectors = 3
    ∧ printDriveInfo threeSectors
        = [lit "Number of FATs = 2", lit "Number of bytes per sector = 512",
            lit "Number of sectors per cluster = 3", lit "Number of reserved sectors = 1"]
    ∧ recoverAllDeleted 10 threeSectors
        = Except.ok (fatSet (fatSet (wr8 threeSectors 1536 95) 512 5 EOC) 1024 5 EOC,
            [lit "_ELLO.TXT: recovered", lit "Successfully recovered 1 file(s)"])
    ∧ rd8 threeSectors 1536 = 0xE5 ∧ fatGet threeSectors 512 5 = 0
    ∧ rd8 (fatSet (fatSet (wr8 threeSectors 1536 95) 512 5 EOC) 1024 5 EOC) 1536 = 95
    ∧ fatGet (fatSet (fatSet (wr8 threeSectors 1536 95) 512 5 EOC) 1024 5 EOC) 512 5
        = 0x0FFFFFF8
    ∧ clusterSize zeroCluster = 0
    ∧ recFile first20 (fun _ => 0) 10 (lit "HELLO.TXT") zeroCluster none false
        = Except.error Err.divByZero :=
  ⟨by decide, by decide, rfl, by decide, by decide, by decide!, by decide!, by decide, rfl⟩

/-- Instance of the amended C22 on an image with 0 sectors per cluster. -/
theorem zero_cluster_size_scans_nothing_witness :
    clusterSize zeroCluster = 0
    ∧ dirChain zeroCluster (fatStart zeroCluster) 10 (toI32 (BPB_RootClus zeroCluster))
        = some [2]
    ∧ listRootDir 10 zeroCluster = Except.ok [lit "Total number of entries = 0"]
    ∧ recoverAllFiles 10 (lit "HELLO.TXT") zeroCluster
        = Except.ok (zeroCluster, [lit "HELLO.TXT: file not found"])
    ∧ recoverAllDeleted 10 zeroCluster
        = Except.ok (zeroCluster, [lit "No deleted files were found."]) := by
  obtain ⟨h1, h2, h3⟩ := zero_cluster_size_scans_nothing 10 (lit "HELLO.TXT") zeroCluster [2]
    (by decide) (by decide) (by decide)
  exact ⟨by decide, by decide, h1, h2, h3⟩

/-! ### Tombstones of directories -/

/-- The slot loop of `recFile` without a digest: the image is not changed and `foundAmount`
grows by the number of scanned slots that pass the test of the loop. -/
theorem recFileFor_count (SHA1 : List Nat → List Nat) (heap : Nat → Nat) (fuel : Nat)
    (T : List Nat) (nc : Bool) (fat fat2 rootDir maxFile : Int) (n : Nat) :
    ∀ (i : Int) (s : Scan), i + n ≤ maxFile + 1 →
      ∃ s1, recFileFor SHA1 heap fuel T none nc fat fat2 rootDir maxFile n i s = Except.ok s1
        ∧ s1.addr = s.addr
        ∧ s1.foundAmount = s.foundAmount
            + ((liveSlots s.addr rootDir n i).filter (strcmpMatches s.addr T)).length := by
  induction n with
  | zero => intro i s _; exact ⟨s, rfl, rfl, by simp [liveSlots]⟩
  | succ n ih =>
    intro i s h
    rw [recFileFor, liveSlots]
    simp only []
    rw [if_pos (by push_cast at h; omega)]
    by_cases h0 : DIR_Name s.addr (slotAt rootDir i) 0 = 0x00
    · rw [if_pos h0, if_pos h0]
      exact ⟨s, rfl, rfl, by simp⟩
    · rw [if_neg h0, if_neg h0, List.filter_cons]
      by_cases hskip : DIR_Name s.addr (slotAt rootDir i) 0 = 0x10
          ∨ DIR_Attr s.addr (slotAt rootDir i) = 0x0f ∨ DIR_Attr s.addr (slotAt rootDir i) = 0x08
      · rw [if_pos hskip, if_neg (by simp [strcmpMatches, hskip])]
        exact ih (i + 1) s (by push_cast at h; omega)
      · rw [if_neg hskip]
        by_cases he : DIR_Name s.addr (slotAt rootDir i) 0 = 0xE5
        · rw [if_pos he]
          by_cases hm : cstr (getName (DIR_Name s.addr (slotAt rootDir i)) (T.headD 0)) = cstr T
          · rw [if_pos hm,
              if_pos (by simp only [strcmpMatches, decide_eq_true_eq]; exact ⟨hskip, he, hm⟩)]
            obtain ⟨s1, e, ha, hc⟩ := ih (i + 1)
              { s with found := 1, indxFoundAt := i, foundAmount := s.foundAmount + 1,
                       firstMatch := setFirst s.firstMatch (slotAt rootDir i) }
              (by push_cast at h; omega)
            refine ⟨s1, e, ha, ?_⟩
            rw [hc]
            simp only [List.length_cons]
            push_cast
            ring
          · rw [if_neg hm,
              if_neg (by simp only [strcmpMatches, decide_eq_true_eq]; exact fun h => hm h.2.2)]
            exact ih (i + 1) s (by push_cast at h; omega)
        · rw [if_neg he,
            if_neg (by simp only [strcmpMatches, decide_eq_true_eq]; exact fun h => he h.2.1)]
          exact ih (i + 1) s (by push_cast at h; omega)

/-- What `recoverAllFiles` does with the slots that pass the test of its scan loop, when
the FAT entries written for them lie inside the FAT. -/
theorem recoverAllFiles_found (fuel : Nat) (T : List Nat) (addr : Mem) (cl : List Int)
    (hv : Volume addr) (hT : T.headD 0 ≠ 0 ∧ T.headD 0 ≠ 32)
    (hch : dirChain addr (fatOffset addr 0) fuel (toI32 (BPB_RootClus addr)) = some cl)
    (hcl : ∀ c ∈ cl, 2 ≤ c ∧ clusterAt addr c + clusterSize addr ≤ 2147483648)
    (hfit : ∀ p ∈ (rootSlots addr cl).filter (strcmpMatches addr T),
      4 * (DIR_FstClusLO addr p + recoverCount (DIR_FileSize addr p) (clusterSize addr))
        ≤ fatBytes addr) :
    ∃ m out, recoverAllFiles fuel T addr = Except.ok (m, out)
      ∧ ∀ p ∈ (rootSlots addr cl).filter (strcmpMatches addr T),
          rd8 m p = ((T.headD 0 : Nat) : Int) % 256 := by
  have hsz := hv.size_pos
  have hfound : recoverAllFilesWhile addr T (fatStart addr) (dataSec addr) (clusterSize addr) fuel
      (toI32 (BPB_RootClus addr)) []
      = Except.ok ((rootSlots addr cl).filter (strcmpMatches addr T)) := by
    rw [hv.fatStart_eq.1, recoverAllFilesWhile_eq addr T _ fuel _ [] cl hch
      (fun c hc => (clusterOffset_eq addr hv c (hcl c hc).1 (hcl c hc).2).2.1) (by omega),
      List.nil_append]
  have hall : ∀ p ∈ (rootSlots addr cl).filter (strcmpMatches addr T), fatOffset addr 2 ≤ p
      ∧ (p - fatOffset addr 2) % 32 = 0
      ∧ 4 * (DIR_FstClusLO addr p + recoverCount (DIR_FileSize addr p) (clusterSize addr))
          ≤ fatBytes addr := by
    intro p hp
    obtain ⟨c, hc, hlo, _, hal⟩ := rootSlots_mem addr hv cl p (List.mem_filter.1 hp).1
    have := (clusterOffset_eq addr hv c (hcl c hc).1 (hcl c hc).2).2.2
    exact ⟨by omega, hal, hfit p hp⟩
  have heach := recoverEach_eq addr (T.headD 0) hv
    ((rootSlots addr cl).filter (strcmpMatches addr T)) [] (by simpa using hall)
  rw [List.flatMap_nil, pairedWrites, marked_nil, List.nil_append] at heach
  have hws := flatMap_inFat addr _ recoverWrites _
    (fun p hp => recoverWrites_inFat addr p hv (hall p hp).2.2)
  obtain ⟨_, hr2, _⟩ := image_read addr _ ((rootSlots addr cl).filter (strcmpMatches addr T))
    (T.headD 0) hv hws (fun p hp => (hall p hp).1)
  unfold recoverAllFiles
  rw [if_neg (by rintro (h | h); exact hT.1 h; exact hT.2 h), hfound, ok_bind]
  by_cases h0 : ((rootSlots addr cl).filter (strcmpMatches addr T)).length = 0
  · refine ⟨addr, _, by rw [if_pos h0]; rfl, ?_⟩
    intro p hp
    rw [List.length_eq_zero.1 h0] at hp
    cases hp
  · refine ⟨_, _, by rw [if_neg h0, heach, ok_bind]; rfl, ?_⟩
    intro p hp
    rw [rd8_congr (hr2 p (hall p hp).1)]
    unfold rd8 marked
    rw [if_pos hp]
    omega

/-- C29 (amended): on a volume whose root directory chain ends, through clusters of the
volume in the first 2 GiB, take a root slot that is a tombstone (`name[0] == 0xE5`) with
`attr == 0x10` and whose name, decoded by `getName` with the first character of the target
`T`, is `T`. The slot passes the test of the targeted modes, which rejects a slot only for
`name[0] == 0x10`, `attr == 0x0F` or `attr == 0x08`: the slot loop of `recFile` (without a
digest) counts every scanned slot that passes it, and `recoverAllFiles` returns with
`name[0]` of the slot set to `T[0]`, when the FAT entries written for the slots that pass
the test lie inside the FAT. `recoverAllDeleted` does not take the slot for a deleted file,
and when the FAT entries it writes for the eligible tombstones lie inside the FAT and are
not entries of root directory clusters, it returns with the 32 bytes of the slot as they
were and with one output line per eligible tombstone followed by the summary. -/
theorem directory_tombstone_in_each_mode (SHA1 : List Nat → List Nat) (heap : Nat → Nat)
    (fuel : Nat) (T : List Nat) (addr : Mem) (cl : List Int) (p : Int)
    (hv : Volume addr) (hT : T.headD 0 ≠ 0 ∧ T.headD 0 ≠ 32)
    (hch : dirChain addr (fatOffset addr 0) fuel (toI32 (BPB_RootClus addr)) = some cl)
    (hcl : ∀ c ∈ cl, 2 ≤ c ∧ InFat (fatBytes addr) c
      ∧ clusterAt addr c + clusterSize addr ≤ 2147483648)
    (hp : p ∈ rootSlots addr cl) (he5 : DIR_Name addr p 0 = 0xE5)
    (hattr : DIR_Attr addr p = 0x10)
    (hname : cstr (getName (DIR_Name addr p) (T.headD 0)) = cstr T) :
    strcmpMatches addr T p = true
    ∧ (∀ (nc : Bool) (fat fat2 rootDir maxFile : Int) (n : Nat) (s : Scan),
        s.addr = addr → (n : Int) ≤ maxFile + 1 →
        ∃ s1, recFileFor SHA1 heap fuel T none nc fat fat2 rootDir maxFile n 0 s = Except.ok s1
          ∧ s1.addr = addr
          ∧ s1.foundAmount = s.foundAmount
              + ((liveSlots addr rootDir n 0).filter (strcmpMatches addr T)).length)
    ∧ ((∀ q ∈ (rootSlots addr cl).filter (strcmpMatches addr T),
          4 * (DIR_FstClusLO addr q + recoverCount (DIR_FileSize addr q) (clusterSize addr))
            ≤ fatBytes addr) →
        ∃ m out, recoverAllFiles fuel T addr = Except.ok (m, out)
          ∧ rd8 m p = ((T.headD 0 : Nat) : Int) % 256)
    ∧ isDeletedFile addr p = false
    ∧ ((∀ q ∈ deletedSlots addr cl, ∀ w ∈ deletedWrites addr q,
          InFat (fatBytes addr) w.1 ∧ w.1 ∉ cl) →
        ∃ m out, recoverAllDeleted fuel addr = Except.ok (m, out)
          ∧ (∀ j, 0 ≤ j → j < 32 → m (p + j) = addr (p + j))
          ∧ out.length = (deletedSlots addr cl).length + 1
          ∧ p ∉ deletedSlots addr cl) := by
  have hmatch : strcmpMatches addr T p = true := by
    simp only [strcmpMatches, decide_eq_true_eq]
    refine ⟨?_, he5, hname⟩
    rw [he5, hattr]
    decide
  have hnotdel : isDeletedFile addr p = false := by
    simp only [isDeletedFile, decide_eq_false_iff_not]
    intro h
    exact h.2.2.2 hattr
  refine ⟨hmatch, ?_, ?_, hnotdel, ?_⟩
  · intro nc fat fat2 rootDir maxFile n s hs hn
    obtain ⟨s1, e, ha, hc⟩ := recFileFor_count SHA1 heap fuel T nc fat fat2 rootDir maxFile n 0 s
      (by omega)
    rw [hs] at ha hc
    exact ⟨s1, e, ha, hc⟩
  · intro hfit
    obtain ⟨m, out, h1, h2⟩ := recoverAllFiles_found fuel T addr cl hv hT hch
      (fun c hc => ⟨(hcl c hc).1, (hcl c hc).2.2⟩) hfit
    exact ⟨m, out, h1, h2 p (List.mem_filter.2 ⟨hp, hmatch⟩)⟩
  · intro hin
    obtain ⟨m, h1, _, _, h4⟩ := recoverAllDeleted_eq fuel addr cl hv hch hcl hin
    have hpnot : p ∉ deletedSlots addr cl := by
      intro h
      unfold deletedSlots at h
      have := (List.mem_filter.1 h).2
      rw [hnotdel] at this
      cases this
    obtain ⟨c, hc, hlo, _, hal⟩ := rootSlots_mem addr hv cl p hp
    have hdata := (clusterOffset_eq addr hv c (hcl c hc).1 (hcl c hc).2.2).2.2
    refine ⟨m, _, h1, ?_, by simp, hpnot⟩
    intro j hj0 hj1
    apply h4 (p + j) (by omega)
    intro hmem
    by_cases hj : j = 0
    · subst hj
      rw [add_zero] at hmem
      exact hpnot hmem
    · unfold deletedSlots at hmem
      obtain ⟨_, _, _, _, hal2⟩ := rootSlots_mem addr hv cl (p + j) (List.mem_filter.1 hmem).1
      omega

/-- C29 (counterexample): `recoverAllDeleted` skips the tombstone of the directory in root
slot 0 (`attr == 0x10`), and recovers the tombstone of root slot 1, whose first-cluster
field holds 256; the assignment `fat[256] = 0x0FFFFFF8` lands on the first four bytes of
root slot 0, so `name[0]` of the directory tombstone changes from 0xE5 to 0xF8. -/
theorem recoverAllDeleted_overwrites_directory_tombstone :
    rd8 wildDir 1536 = 0xE5 ∧ DIR_Attr wildDir 1536 = 0x10
    ∧ recoverAllDeleted 10 wildDir
        = Except.ok (fatSet (fatSet (wr8 wildDir 1568 95) 512 256 EOC) 1024 256 EOC,
            [lit "_.TXT: recovered", lit "Successfully recovered 1 file(s)"])
    ∧ rd8 (fatSet (fatSet (wr8 wildDir 1568 95) 512 256 EOC) 1024 256 EOC) 1536 = 0xF8 :=
  ⟨by decide, by decide, rfl, by decide!⟩

theorem deletedDir_volume : Volume deletedDir :=
  ⟨by decide, by decide, by decide, by decide, by decide, by decide, by decide⟩

/-- Instance of the amended C29: the tombstone of the directory `SUBDIR` in root slot 1.
`recoverAllFiles` restores it, `recoverAllDeleted` leaves it and recovers only the file of
root slot 2; evaluated on the same image, `recFile` restores it too. -/
theorem directory_tombstone_in_each_mode_witness :
    Volume deletedDir
    ∧ dirChain deletedDir (fatOffset deletedDir 0) 10 (toI32 (BPB_RootClus deletedDir))
        = some [2]
    ∧ (1568 ∈ rootSlots deletedDir [2] ∧ DIR_Name deletedDir 1568 0 = 0xE5
        ∧ DIR_Attr deletedDir 1568 = 0x10)
    ∧ strcmpMatches deletedDir (lit "SUBDIR") 1568 = true
    ∧ (∃ m out, recoverAllFiles 10 (lit "SUBDIR") deletedDir = Except.ok (m, out)
        ∧ rd8 m 1568 = 83)
    ∧ (∃ m out, recoverAllDeleted 10 deletedDir = Except.ok (m, out)
        ∧ m 1568 = 0xE5 ∧ out.length = 2)
    ∧ (recFile first20 (fun _ => 0) 10 (lit "SUBDIR") deletedDir none false).toOption.map
        (fun r => (rd8 r.1 1568, r.2)) = some (83, [lit "SUBDIR: successfully recovered"]) := by
  obtain ⟨h1, _, h3, _, h5⟩ := directory_tombstone_in_each_mode first20 (fun _ => 0) 10
    (lit "SUBDIR") deletedDir [2] 1568 deletedDir_volume (by decide) (by decide) (by decide)
    (by decide) (by decide) (by decide) (by decide)
  refine ⟨deletedDir_volume, by decide, by decide, h1, ?_, ?_, by decide!⟩
  · obtain ⟨m, out, e, h⟩ := h3 (by decide)
    exact ⟨m, out, e, h⟩
  · obtain ⟨m, out, e, hb, hl, _⟩ := h5 (by decide)
    refine ⟨m, out, e, ?_, ?_⟩
    · have := hb 0 (le_refl _) (by decide)
      rw [add_zero] at this
      rw [this]
      decide
    · rw [hl]
      decide

/-! ### One permutation: digest comparison and commit -/

theorem arrGet_ok (arr : List Int) (i : Nat) (h : i < arr.length) :
    arrGet arr (i : Int) = Except.ok (arr.getD i 0) := by
  unfold arrGet
  have h1 : (0 : Int) ≤ (i : Int) ∧ (i : Int) < (arr.length : Int) := ⟨by omega, by omega⟩
  rw [if_pos h1]
  simp [pure, Except.pure]

theorem arrSet_ok (arr : List Int) (i : Nat) (v : Int) (h : i < arr.length) :
    arrSet arr (i : Int) v = Except.ok (arr.set i v) := by
  unfold arrSet
  have h1 : (0 : Int) ≤ (i : Int) ∧ (i : Int) < (arr.length : Int) := ⟨by omega, by omega⟩
  rw [if_pos h1]
  simp [pure, Except.pure]

theorem swapChecked_ok (arr : List Int) (i j : Nat) (hi : i < arr.length) (hj : j < arr.length) :
    swapChecked arr (i : Int) (j : Int) = Except.ok (swap arr i j) := by
  unfold swapChecked swap
  rw [arrGet_ok arr i hi, ok_bind, arrGet_ok arr j hj, ok_bind, arrSet_ok arr i _ hi, ok_bind,
    arrSet_ok _ j _ (by rw [List.length_set]; exact hj)]

theorem swap_length (arr : List Int) (i j : Nat) : (swap arr i j).length = arr.length := by
  unfold swap
  rw [List.length_set, List.length_set]

theorem pivotLoop_ok (arr : List Int) :
    ∀ (i k : Nat), i < arr.length → i < k →
      pivotLoop arr k (i : Int) = Except.ok ((pivotIndex arr i : Nat) : Int) := by
  intro i
  induction i with
  | zero =>
    intro k _ hk
    obtain ⟨k, rfl⟩ : ∃ k0, k = k0 + 1 := ⟨k - 1, by omega⟩
    simp [pivotLoop, pivotIndex, pure, Except.pure]
  | succ i ih =>
    intro k hi hk
    obtain ⟨k, rfl⟩ : ∃ k0, k = k0 + 1 := ⟨k - 1, by omega⟩
    unfold pivotLoop pivotIndex
    have hpos : ((i + 1 : Nat) : Int) > 0 := by omega
    rw [if_pos hpos]
    have e : ((i + 1 : Nat) : Int) - 1 = (i : Int) := by omega
    rw [e, arrGet_ok arr i (by omega), ok_bind, arrGet_ok arr (i + 1) hi, ok_bind]
    by_cases hc : arr.getD i 0 ≥ arr.getD (i + 1) 0
    · rw [if_pos hc, if_pos hc]
      exact ih k (by omega) (by omega)
    · rw [if_neg hc, if_neg hc]
      rfl

theorem pivotIndex_pos (arr : List Int) :
    ∀ k : Nat, 0 < pivotIndex arr k →
      pivotIndex arr k ≤ k
        ∧ arr.getD (pivotIndex arr k - 1) 0 < arr.getD (pivotIndex arr k) 0 := by
  intro k
  induction k with
  | zero => intro h; simp [pivotIndex] at h
  | succ k ih =>
    intro h
    unfold pivotIndex at h ⊢
    by_cases hc : arr.getD k 0 ≥ arr.getD (k + 1) 0
    · rw [if_pos hc] at h ⊢
      have := ih h
      exact ⟨by omega, this.2⟩
    · rw [if_neg hc]
      refine ⟨le_refl _, ?_⟩
      simp only [Nat.add_sub_cancel]
      omega

theorem succIndex_some (arr : List Int) (pivot : Int) (i : Nat) (hi : arr.getD i 0 > pivot) :
    ∀ j : Nat, i ≤ j →
      ∃ j1, succIndex arr pivot j = some j1 ∧ i ≤ j1 ∧ j1 ≤ j ∧ arr.getD j1 0 > pivot := by
  intro j
  induction j with
  | zero =>
    intro h
    have h0 : i = 0 := by omega
    subst h0
    refine ⟨0, ?_, le_refl _, le_refl _, hi⟩
    unfold succIndex
    rw [if_neg (by omega)]
  | succ j ih =>
    intro h
    unfold succIndex
    by_cases hc : arr.getD (j + 1) 0 ≤ pivot
    · rw [if_pos hc]
      have hij : i ≤ j := by
        by_contra hn
        have : i = j + 1 := by omega
        subst this
        omega
      obtain ⟨j1, h1, h2, h3, h4⟩ := ih hij
      exact ⟨j1, h1, h2, by omega, h4⟩
    · rw [if_neg hc]
      exact ⟨j + 1, rfl, h, le_refl _, by omega⟩

theorem succLoop_ok (arr : List Int) (p : Nat) (hp : p < arr.length) :
    ∀ (j k j1 : Nat), j < arr.length → j < k → succIndex arr (arr.getD p 0) j = some j1 →
      succLoop arr ((p : Int) + 1) k (j : Int) = Except.ok (j1 : Int) := by
  intro j
  induction j with
  | zero =>
    intro k j1 hj hk h
    obtain ⟨k, rfl⟩ : ∃ k0, k = k0 + 1 := ⟨k - 1, by omega⟩
    unfold succIndex at h
    unfold succLoop
    have e : (p : Int) + 1 - 1 = (p : Int) := by omega
    rw [e, arrGet_ok arr 0 hj, ok_bind, arrGet_ok arr p hp, ok_bind]
    by_cases hc : arr.getD 0 0 ≤ arr.getD p 0
    · rw [if_pos hc] at h
      exact absurd h (by simp)
    · rw [if_neg hc] at h
      rw [if_neg hc]
      cases h
      rfl
  | succ j ih =>
    intro k j1 hj hk h
    obtain ⟨k, rfl⟩ : ∃ k0, k = k0 + 1 := ⟨k - 1, by omega⟩
    unfold succIndex at h
    unfold succLoop
    have e : (p : Int) + 1 - 1 = (p : Int) := by omega
    rw [e, arrGet_ok arr (j + 1) hj, ok_bind, arrGet_ok arr p hp, ok_bind]
    by_cases hc : arr.getD (j + 1) 0 ≤ arr.getD p 0
    · rw [if_pos hc] at h
      rw [if_pos hc]
      have e2 : ((j + 1 : Nat) : Int) - 1 = (j : Int) := by omega
      rw [e2]
      exact ih k j1 (by omega) (by omega) h
    · rw [if_neg hc] at h
      rw [if_neg hc]
      cases h
      rfl

theorem reverseLoop_ok :
    ∀ (fuel : Nat) (arr : List Int) (i j : Nat), j < arr.length → j < i + 2 * fuel →
      reverseLoop (fuel + 1) arr (i : Int) (j : Int) = Except.ok (reverseFrom arr fuel i j) := by
  intro fuel
  induction fuel with
  | zero =>
    intro arr i j _ h
    unfold reverseLoop reverseFrom
    rw [if_neg (by omega)]
    rfl
  | succ fuel ih =>
    intro arr i j hj h
    unfold reverseLoop reverseFrom
    by_cases hc : i < j
    · have hc1 : (i : Int) < (j : Int) := by omega
      rw [if_pos hc1, if_pos hc, swapChecked_ok arr i j (by omega) hj, ok_bind]
      have e1 : (i : Int) + 1 = ((i + 1 : Nat) : Int) := by omega
      have e2 : (j : Int) - 1 = ((j - 1 : Nat) : Int) := by omega
      rw [e1, e2]
      exact ih (swap arr i j) (i + 1) (j - 1) (by rw [swap_length]; omega) (by omega)
    · have hc1 : ¬ (i : Int) < (j : Int) := by omega
      rw [if_neg hc1, if_neg hc]
      rfl

/-- Claim C34: for every array, `next_permutation` run with every array access checked
against `[0, n - 1]` finishes without an access outside the array and gives the result of
the unchecked function; the pivot loop ends at some `i` in `[0, n - 1]` (or at `-1` for
the empty array, without any access), and when `i ≥ 1` the successor search
`while (arr[j] <= arr[i - 1]) j--` stops at some `j` with `i ≤ j ≤ n - 1` and
`arr[j] > arr[i - 1]`. -/
theorem next_permutation_accesses_in_bounds (arr : List Int) :
    (∃ r, next_permutationChecked arr = Except.ok r ∧ next_permutation arr = some r)
    ∧ ∃ i : Int, pivotLoop arr (arr.length + 1) ((arr.length : Int) - 1) = Except.ok i
        ∧ -1 ≤ i ∧ i ≤ (arr.length : Int) - 1
        ∧ (1 ≤ i → ∃ j : Int,
            succLoop arr i (arr.length + 1) ((arr.length : Int) - 1) = Except.ok j
            ∧ i ≤ j ∧ j ≤ (arr.length : Int) - 1
            ∧ arr.getD j.toNat 0 > arr.getD (i - 1).toNat 0) := by
  rcases Nat.eq_zero_or_pos arr.length with h0 | hpos
  · have : arr = [] := List.length_eq_zero.mp h0
    subst this
    have hp0 : pivotLoop [] ([] : List Int).length.succ (((([] : List Int).length : Nat) : Int) - 1)
        = Except.ok (-1) := by
      simp [pivotLoop, pure, Except.pure]
    refine ⟨⟨([], false), ?_, rfl⟩, -1, hp0, by decide, by decide, ?_⟩
    · unfold next_permutationChecked
      simp only []
      rw [hp0, ok_bind, if_pos (by decide)]
      rfl
    intro h
    omega
  · obtain ⟨m, hm⟩ : ∃ m, arr.length = m + 1 := ⟨arr.length - 1, by omega⟩
    have em : ((arr.length : Nat) : Int) - 1 = (m : Int) := by omega
    have hp := pivotLoop_ok arr m (arr.length + 1) (by omega) (by omega)
    have hnm : arr.length - 1 = m := by omega
    by_cases hi : pivotIndex arr m ≤ 0
    · have hi1 : ((pivotIndex arr m : Nat) : Int) ≤ 0 := by omega
      refine ⟨⟨(arr, false), ?_, ?_⟩, ((pivotIndex arr m : Nat) : Int), by rw [em]; exact hp,
        by omega, by omega, fun h => by omega⟩
      · unfold next_permutationChecked
        simp only []
        rw [em, hp, ok_bind, if_pos hi1]
        rfl
      · unfold next_permutation
        simp only []
        rw [hnm, if_pos hi]
    · have hi1 : ¬ ((pivotIndex arr m : Nat) : Int) ≤ 0 := by omega
      obtain ⟨hle, hlt⟩ := pivotIndex_pos arr m (by omega)
      obtain ⟨j1, hs, hj1, hj2, hj3⟩ :=
        succIndex_some arr (arr.getD (pivotIndex arr m - 1) 0) (pivotIndex arr m) hlt m hle
      have ei : ((pivotIndex arr m : Nat) : Int) = ((pivotIndex arr m - 1 : Nat) : Int) + 1 := by
        omega
      have hsl := succLoop_ok arr (pivotIndex arr m - 1) (by omega) m (arr.length + 1) j1
        (by omega) (by omega) hs
      rw [← ei] at hsl
      refine ⟨⟨(reverseFrom (swap arr (pivotIndex arr m - 1) j1) arr.length (pivotIndex arr m) m,
          true), ?_, ?_⟩, ((pivotIndex arr m : Nat) : Int), by rw [em]; exact hp,
        by omega, by omega, fun _ => ⟨(j1 : Int), by rw [em]; exact hsl, by omega, by omega, ?_⟩⟩
      · unfold next_permutationChecked
        simp only []
        rw [em, hp, ok_bind, if_neg hi1, hsl, ok_bind]
        have e1 : ((pivotIndex arr m : Nat) : Int) - 1 = ((pivotIndex arr m - 1 : Nat) : Int) := by
          omega
        rw [e1, swapChecked_ok arr _ _ (by omega) (by omega), ok_bind]
        have hr := reverseLoop_ok arr.length (swap arr (pivotIndex arr m - 1) j1)
          (pivotIndex arr m) m (by rw [swap_length]; omega) (by omega)
        rw [hr, ok_bind]
        rfl
      · unfold next_permutation
        simp only []
        rw [hnm, if_neg hi, hs]
      · have e1 : ((pivotIndex arr m : Nat) : Int) - 1 = ((pivotIndex arr m - 1 : Nat) : Int) := by
          omega
        rw [e1]
        simpa using hj3

theorem visited_head : ∀ (fuel : Nat) (cur : List Int) (seq : List (List Int)),
    visited fuel cur = Except.ok seq → ∃ rest, seq = cur :: rest := by
  intro fuel cur seq h
  cases fuel with
  | zero => simp [visited, throw, throwThe, MonadExceptOf.throw] at h
  | succ fuel =>
    unfold visited at h
    rcases hn : next_permutation cur with _ | ⟨c1, b⟩
    · rw [hn] at h
      simp [throw, throwThe, MonadExceptOf.throw] at h
    · rw [hn] at h
      cases b with
      | false =>
        simp only [pure, Except.pure, Except.ok.injEq] at h
        exact ⟨[], h.symm⟩
      | true =>
        simp only [] at h
        rcases hv : visited fuel c1 with e | rest
        · rw [hv] at h
          cases h
        · rw [hv] at h
          simp only [bind, Except.bind, pure, Except.pure, Except.ok.injEq] at h
          exact ⟨rest, h.symm⟩

theorem tryPermutationsLoop_success (SHA1 : List Nat → List Nat) (heap : Nat → Nat)
    (addr : Mem) (file fat fat2 : Int) (t : List Nat) (m1 : Mem) :
    ∀ (fuel : Nat) (cur : List Int) (seq : List (List Int)), visited fuel cur = Except.ok seq →
      tryPermutationsLoop SHA1 heap addr file fat fat2 t fuel cur = Except.ok (m1, true) →
      ∃ (pre : List (List Int)) (q : List Int) (post : List (List Int)),
        seq = pre ++ q :: post ∧ (∀ q1 ∈ pre, ¬ verifies SHA1 heap addr file t q1)
        ∧ verifies SHA1 heap addr file t q
        ∧ m1 = pairedWrites fat fat2 (chainOf q) addr := by
  intro fuel
  induction fuel with
  | zero =>
    intro cur seq h
    simp [visited, throw, throwThe, MonadExceptOf.throw] at h
  | succ fuel ih =>
    intro cur seq hvis h
    obtain ⟨rest, hseq⟩ := visited_head _ _ _ hvis
    by_cases hver : verifies SHA1 heap addr file t cur
    · refine ⟨[], cur, rest, by simpa using hseq, by simp, hver, ?_⟩
      unfold tryPermutationsLoop at h
      rcases ht : tryClusterPermutation SHA1 heap addr file fat fat2 cur t with e | ⟨m, b⟩
      · rw [ht] at h
        cases h
      · rw [ht, ok_bind] at h
        cases b with
        | true =>
          simp only [if_true, pure, Except.pure, Except.ok.injEq, Prod.mk.injEq, and_true] at h
          rw [← h]
          exact tryClusterPermutation_ok SHA1 heap addr file fat fat2 cur t m ht
        | false =>
          exfalso
          unfold tryClusterPermutation at ht
          unfold verifies at hver
          simp only [] at ht
          rw [if_pos hver] at ht
          rcases hl : cur.getLast? with _ | c
          · rw [hl] at ht
            cases ht
          · rw [hl] at ht
            simp [pure, Except.pure] at ht
    · unfold tryPermutationsLoop at h
      rw [tryClusterPermutation_reject SHA1 heap addr file fat fat2 t cur hver, ok_bind] at h
      simp only [Bool.false_eq_true, if_false] at h
      unfold visited at hvis
      rcases hn : next_permutation cur with _ | ⟨c1, b⟩
      · rw [hn] at h
        cases h
      · rw [hn] at h hvis
        cases b with
        | false =>
          simp [pure, Except.pure] at h
        | true =>
          simp only [] at h hvis
          rcases hv : visited fuel c1 with e | rest1
          · rw [hv] at hvis
            cases hvis
          · rw [hv] at hvis
            simp only [bind, Except.bind, pure, Except.pure, Except.ok.injEq] at hvis
            obtain ⟨pre, q, post, h1, h2, h3, h4⟩ := ih c1 rest1 hv h
            refine ⟨cur :: pre, q, post, ?_, ?_, h3, h4⟩
            · rw [← hvis, h1]
              rfl
            · intro q1 hq1
              rcases List.mem_cons.mp hq1 with rfl | hq1
              · exact hver
              · exact h2 q1 hq1

theorem tryAllPermutations_success (SHA1 : List Nat → List Nat) (heap : Nat → Nat)
    (addr : Mem) (file fat fat2 : Int) (t : List Nat) (m1 : Mem) (hv : Volume addr)
    (h : tryAllPermutations SHA1 heap addr file fat fat2 t = Except.ok (m1, true)) :
    1 ≤ DIR_FileSize addr file
    ∧ clustersNeeded (DIR_FileSize addr file) (clusterSize addr) ≤ 5
    ∧ (clustersNeeded (DIR_FileSize addr file) (clusterSize addr)).toNat
        ≤ (freeClusters addr fat 2 18).length
    ∧ ∃ (pre : List (List Int)) (q : List Int) (post : List (List Int)),
        visited 121 ((freeClusters addr fat 2 18).take
          (clustersNeeded (DIR_FileSize addr file) (clusterSize addr)).toNat)
          = Except.ok (pre ++ q :: post)
        ∧ q.Perm ((freeClusters addr fat 2 18).take
          (clustersNeeded (DIR_FileSize addr file) (clusterSize addr)).toNat)
        ∧ (∀ q1 ∈ pre, ¬ verifies SHA1 heap addr file t q1)
        ∧ verifies SHA1 heap addr file t q
        ∧ m1 = pairedWrites fat fat2 (chainOf q) addr := by
  have hsz := hv.size_pos
  have hsz2 := hv.clusterBytes
  have hfs := rd32u_bounds addr (file + 28)
  have hne : ∀ m : Mem, (Except.ok (m, false) : Except Err (Mem × Bool)) ≠ Except.ok (m1, true) := by
    intro m hm
    simp at hm
  by_cases h0 : DIR_FileSize addr file = 0
  · rw [tryAllPermutations_fails_unchanged SHA1 heap addr file fat fat2 t hv (Or.inl h0)] at h
    exact absurd h (hne _)
  have h1 : 1 ≤ DIR_FileSize addr file := by
    unfold DIR_FileSize at h0 ⊢
    omega
  by_cases h5 : 5 < clustersNeeded (DIR_FileSize addr file) (clusterSize addr)
  · rw [tryAllPermutations_fails_unchanged SHA1 heap addr file fat fat2 t hv
      (Or.inr (Or.inl h5))] at h
    exact absurd h (hne _)
  by_cases hlen : (freeClusters addr fat 2 18).length
      < (clustersNeeded (DIR_FileSize addr file) (clusterSize addr)).toNat
  · rw [tryAllPermutations_fails_unchanged SHA1 heap addr file fat fat2 t hv
      (Or.inr (Or.inr (Or.inl hlen)))] at h
    exact absurd h (hne _)
  refine ⟨h1, by omega, by omega, ?_⟩
  have hk := numClusters_eq (DIR_FileSize addr file) (clusterSize addr) h1 hfs.2 hsz hsz2
  have hc := collectFree_eq addr fat
    (clustersNeeded (DIR_FileSize addr file) (clusterSize addr)).toNat 2 (by omega)
  rw [show ((2 : Nat) : Int) = 2 from rfl, show 20 - 2 = 18 from rfl] at hc
  unfold tryAllPermutations at h
  simp only [] at h
  rw [if_neg (by omega), hk.1, if_neg h5, if_neg (by omega), hc, if_pos (by omega)] at h
  simp only [] at h
  obtain ⟨seq, hseq, hperm⟩ := visited_within ((freeClusters addr fat 2 18).take
    (clustersNeeded (DIR_FileSize addr file) (clusterSize addr)).toNat)
    (by rw [List.length_take]; omega)
  obtain ⟨pre, q, post, e1, e2, e3, e4⟩ :=
    tryPermutationsLoop_success SHA1 heap addr file fat fat2 t m1 121 _ seq hseq h
  exact ⟨pre, q, post, by rw [hseq, e1], hperm q (by rw [e1]; simp), e2, e3, e4⟩

theorem twinClusters_volume : Volume twinClusters :=
  ⟨by decide, by decide, by decide, by decide, by decide, by decide, by decide⟩

theorem twinClusters_try (SHA1 : List Nat → List Nat) (heap : Nat → Nat) :
    tryAllPermutations SHA1 heap twinClusters 1536 512 1024 (SHA1 (List.replicate 20 0x41))
      = Except.ok (pairedWrites 512 1024 (chainOf [5]) twinClusters, true) := by
  unfold tryAllPermutations
  simp only []
  rw [if_neg (by decide), show toI32 (toU32 (toU32 (DIR_FileSize twinClusters 1536 - 1)
    / toU32 (clusterSize twinClusters) + 1)) = 1 from by decide, if_neg (by decide),
    if_neg (by decide), show collectFree twinClusters 512 (1 : Int).toNat 2 = some [5] from by decide]
  simp only []
  rw [tryPermutationsLoop]
  unfold tryClusterPermutation
  simp only []
  rw [show readClusters twinClusters (dataSec twinClusters) (clusterSize twinClusters)
      (DIR_FileSize twinClusters 1536) [5] 0 [] = List.replicate 20 0x41 from by decide!,
    show DIR_FileSize twinClusters 1536 = 20 from by decide,
    hashed_full heap _ 20 (by decide), if_pos rfl]
  rfl

/-- Claim C31, counterexample: the tombstone of `twinClusters` has start cluster 9, a free
cluster whose twenty bytes have the target digest; `tryAllPermutations` returns 1 after
committing the one-element permutation `[5]`, the smallest free cluster, whose content has
the same digest: `fat[5]` becomes the end-of-chain mark in both copies, `fat[9]` stays 0,
and the directory entry still points at cluster 9. -/
theorem tryAllPermutations_commits_other_head :
    (Volume twinClusters ∧ DIR_Name twinClusters 1536 0 = 0xE5
      ∧ DIR_FstClusLO twinClusters 1536 = 9 ∧ DIR_FileSize twinClusters 1536 = 20
      ∧ freeClusters twinClusters 512 2 18 = [5, 9]
      ∧ copied twinClusters (clusterAt twinClusters 9) 20 = List.replicate 20 0x41)
    ∧ ∀ (SHA1 : List Nat → List Nat) (heap : Nat → Nat),
        tryAllPermutations SHA1 heap twinClusters 1536 512 1024 (SHA1 (List.replicate 20 0x41))
          = Except.ok (pairedWrites 512 1024 (chainOf [5]) twinClusters, true)
        ∧ ([5] : List Int).head? ≠ some (DIR_FstClusLO twinClusters 1536)
        ∧ fatGet (pairedWrites 512 1024 (chainOf [5]) twinClusters) 512 5 = 0x0FFFFFF8
        ∧ fatGet (pairedWrites 512 1024 (chainOf [5]) twinClusters) 1024 5 = 0x0FFFFFF8
        ∧ fatGet (pairedWrites 512 1024 (chainOf [5]) twinClusters) 512 9 = 0
        ∧ DIR_FstClusLO (pairedWrites 512 1024 (chainOf [5]) twinClusters) 1536 = 9 :=
  ⟨⟨twinClusters_volume, by decide, by decide, by decide, by decide, by decide!⟩,
    fun SHA1 heap => ⟨twinClusters_try SHA1 heap, by decide, by decide!, by decide!, by decide!,
      by decide!⟩⟩

/-- Claim C31, amended: on a volume, whenever `tryAllPermutations` returns 1 for a
tombstone of `file_size ≥ 1` bytes, with `k = ⌈file_size / cluster_bytes⌉ ≤ 5`, the
permutation `q` it committed is an arrangement of the `k` smallest free clusters of
`[2, 20)`, the first one in the order visited whose content verifies against the digest,
and the image afterwards is the image before with the chain of `q` written to both FAT
copies. The first element of `q` is the tombstone's start cluster provided every
verifying arrangement of those candidates begins with the start cluster. -/
theorem tryAllPermutations_commits_first_verifying (SHA1 : List Nat → List Nat)
    (heap : Nat → Nat) (addr : Mem) (file fat fat2 : Int) (t : List Nat) (m1 : Mem)
    (hv : Volume addr)
    (h : tryAllPermutations SHA1 heap addr file fat fat2 t = Except.ok (m1, true)) :
    1 ≤ DIR_FileSize addr file
    ∧ clustersNeeded (DIR_FileSize addr file) (clusterSize addr) ≤ 5
    ∧ (clustersNeeded (DIR_FileSize addr file) (clusterSize addr)).toNat
        ≤ (freeClusters addr fat 2 18).length
    ∧ ∃ (pre : List (List Int)) (q : List Int) (post : List (List Int)),
        visited 121 ((freeClusters addr fat 2 18).take
          (clustersNeeded (DIR_FileSize addr file) (clusterSize addr)).toNat)
          = Except.ok (pre ++ q :: post)
        ∧ q.Perm ((freeClusters addr fat 2 18).take
          (clustersNeeded (DIR_FileSize addr file) (clusterSize addr)).toNat)
        ∧ (∀ q1 ∈ pre, ¬ verifies SHA1 heap addr file t q1)
        ∧ verifies SHA1 heap addr file t q
        ∧ m1 = pairedWrites fat fat2 (chainOf q) addr
        ∧ ((∀ q1 : List Int, q1.Perm ((freeClusters addr fat 2 18).take
              (clustersNeeded (DIR_FileSize addr file) (clusterSize addr)).toNat) →
              verifies SHA1 heap addr file t q1 →
              q1.head? = some (DIR_FstClusLO addr file)) →
            q.head? = some (DIR_FstClusLO addr file)) := by
  obtain ⟨h1, h2, h3, pre, q, post, e1, e2, e3, e4, e5⟩ :=
    tryAllPermutations_success SHA1 heap addr file fat fat2 t m1 hv h
  exact ⟨h1, h2, h3, pre, q, post, e1, e2, e3, e4, e5, fun hall => hall q e2 e4⟩

/-- Scenario 5 (start cluster 7, file in clusters 7 then 4): the search rejects `[4, 7]`
and commits `[7, 4]`, whose head is the start cluster. -/
theorem tryAllPermutations_commits_first_verifying_witness :
    tryAllPermutations first20 (fun _ => 0) scenario5 1536 512 1024 (List.replicate 20 0x41)
        = Except.ok (s5_committed, true)
    ∧ 1 ≤ DIR_FileSize scenario5 1536
    ∧ clustersNeeded (DIR_FileSize scenario5 1536) (clusterSize scenario5) ≤ 5
    ∧ (clustersNeeded (DIR_FileSize scenario5 1536) (clusterSize scenario5)).toNat
        ≤ (freeClusters scenario5 512 2 18).length
    ∧ ∃ (pre : List (List Int)) (q : List Int) (post : List (List Int)),
        visited 121 ((freeClusters scenario5 512 2 18).take
          (clustersNeeded (DIR_FileSize scenario5 1536) (clusterSize scenario5)).toNat)
          = Except.ok (pre ++ q :: post)
        ∧ q.Perm ((freeClusters scenario5 512 2 18).take
          (clustersNeeded (DIR_FileSize scenario5 1536) (clusterSize scenario5)).toNat)
        ∧ (∀ q1 ∈ pre, ¬ verifies first20 (fun _ => 0) scenario5 1536
            (List.replicate 20 0x41) q1)
        ∧ verifies first20 (fun _ => 0) scenario5 1536 (List.replicate 20 0x41) q
        ∧ s5_committed = pairedWrites 512 1024 (chainOf q) scenario5
        ∧ ((∀ q1 : List Int, q1.Perm ((freeClusters scenario5 512 2 18).take
              (clustersNeeded (DIR_FileSize scenario5 1536) (clusterSize scenario5)).toNat) →
              verifies first20 (fun _ => 0) scenario5 1536 (List.replicate 20 0x41) q1 →
              q1.head? = some (DIR_FstClusLO scenario5 1536)) →
            q.head? = some (DIR_FstClusLO scenario5 1536)) :=
  ⟨s5_all first20 (fun _ => 0) _ (by decide) (by decide),
    tryAllPermutations_commits_first_verifying first20 (fun _ => 0) scenario5 1536 512 1024
      (List.replicate 20 0x41) s5_committed scenario5_volume
      (s5_all first20 (fun _ => 0) _ (by decide) (by decide))⟩

theorem liveNeighbour_volume : Volume liveNeighbour :=
  ⟨by decide, by decide, by decide, by decide, by decide, by decide, by decide⟩

theorem chain_only (fat B s : Int) (k : Nat) (m : Mem) (hs : 0 ≤ s) (hk : 1 ≤ k)
    (hin : 4 * (s + k) ≤ B) (hB : B ≤ 4 * 268435456) (f : Int) (hf : f = fat ∨ f = fat + B)
    (c : Int) (hc : InFat B c) :
    (fatGet (pairedWrites fat (fat + B) (chain s k) m) f c ≠ fatGet m f c → s ≤ c ∧ c < s + k)
    ∧ ((∀ c1 : Int, s ≤ c1 → c1 < s + k → fatGet m fat c1 = 0) → fatGet m fat c ≠ 0 →
        fatGet (pairedWrites fat (fat + B) (chain s k) m) f c = fatGet m f c) := by
  have h := (chain_commit fat B s k m hs hk hin hB f hf).2.2 c hc
  constructor
  · intro hne
    by_contra hout
    exact hne (h (by omega))
  · intro hfree hnz
    apply h
    by_contra hout
    exact hnz (hfree c (by omega) (by omega))

/-- Claim C32, counterexample: in `liveNeighbour` the tombstone starts at the free cluster 5
and has two clusters, and cluster 6 is the head of the live chain 6 → 7. `recover` (called
by `recFile` for `TWO.BIN`) and `recoverAllDeleted` both overwrite the non-zero entry of
cluster 6 with the end-of-chain mark in both FAT copies: the live file loses cluster 7. -/
theorem contiguous_recovery_cuts_live_chain :
    (Volume liveNeighbour ∧ rd8 liveNeighbour 1536 = 0xE5
      ∧ DIR_FstClusLO liveNeighbour 1536 = 5 ∧ DIR_FileSize liveNeighbour 1536 = 600
      ∧ rd8 liveNeighbour 1568 = 76 ∧ DIR_FstClusLO liveNeighbour 1568 = 6
      ∧ fatGet liveNeighbour 512 5 = 0 ∧ fatGet liveNeighbour 512 6 = 7
      ∧ fatGet liveNeighbour 512 7 = 0x0FFFFFF8)
    ∧ recover liveNeighbour 1536 84
        = Except.ok (fatSet (fatSet (fatSet (fatSet (wr8 liveNeighbour 1536 84)
            512 5 6) 1024 5 6) 512 6 EOC) 1024 6 EOC)
    ∧ fatGet (fatSet (fatSet (fatSet (fatSet (wr8 liveNeighbour 1536 84)
        512 5 6) 1024 5 6) 512 6 EOC) 1024 6 EOC) 512 6 = 0x0FFFFFF8
    ∧ fatGet (fatSet (fatSet (fatSet (fatSet (wr8 liveNeighbour 1536 84)
        512 5 6) 1024 5 6) 512 6 EOC) 1024 6 EOC) 1024 6 = 0x0FFFFFF8
    ∧ (∀ (SHA1 : List Nat → List Nat) (heap : Nat → Nat),
        recFile SHA1 heap 10 (lit "TWO.BIN") liveNeighbour none false
          = Except.ok (fatSet (fatSet (fatSet (fatSet (wr8 liveNeighbour 1536 84)
              512 5 6) 1024 5 6) 512 6 EOC) 1024 6 EOC,
            [lit "TWO.BIN: successfully recovered"]))
    ∧ recoverAllDeleted 10 liveNeighbour
        = Except.ok (fatSet (fatSet (fatSet (fatSet (wr8 liveNeighbour 1536 95)
            512 5 6) 1024 5 6) 512 6 EOC) 1024 6 EOC,
            [lit "_WO.BIN: recovered", lit "Successfully recovered 1 file(s)"])
    ∧ fatGet (fatSet (fatSet (fatSet (fatSet (wr8 liveNeighbour 1536 95)
        512 5 6) 1024 5 6) 512 6 EOC) 1024 6 EOC) 512 6 = 0x0FFFFFF8 :=
  ⟨⟨liveNeighbour_volume, by decide, by decide, by decide, by decide, by decide, by decide,
      by decide, by decide⟩,
    rfl, by decide!, by decide!, fun _ _ => rfl, rfl, by decide!⟩

/-- Claim C32, amended: on a volume, for a slot in the data area with start cluster `s`
whose `k` entries `s, …, s + k - 1` lie inside the FAT (`k` the number of clusters the
writer links), `recover` and the inline writer of `recoverAllDeleted` change no FAT entry
of either copy other than those of clusters `s, …, s + k - 1`, which they overwrite
whatever they held. Hence, if these clusters are free (value 0) in FAT copy 0 before the
operation, every entry with a non-zero value keeps its value. -/
theorem contiguous_recovery_writes_only_its_chain (addr : Mem) (p name0 : Int)
    (hv : Volume addr) (hp : fatOffset addr 2 ≤ p)
    (hin : InFat (fatBytes addr)
      (DIR_FstClusLO addr p + recoverCount (DIR_FileSize addr p) (clusterSize addr) - 1)) :
    (∃ m1, recover addr p name0 = Except.ok m1
      ∧ ∀ n : Int, (n = 0 ∨ n = 1) → ∀ c : Int, InFat (fatBytes addr) c →
        (fatGet m1 (fatOffset addr n) c ≠ fatGet addr (fatOffset addr n) c →
          DIR_FstClusLO addr p ≤ c
          ∧ c < DIR_FstClusLO addr p + recoverCount (DIR_FileSize addr p) (clusterSize addr))
        ∧ ((∀ c1 : Int, DIR_FstClusLO addr p ≤ c1 →
              c1 < DIR_FstClusLO addr p + recoverCount (DIR_FileSize addr p) (clusterSize addr) →
              fatGet addr (fatOffset addr 0) c1 = 0) →
            fatGet addr (fatOffset addr 0) c ≠ 0 →
            fatGet m1 (fatOffset addr n) c = fatGet addr (fatOffset addr n) c))
    ∧ (∃ m2, writeDeleted addr (fatStart addr) (fat2Start addr) (clusterSize addr) p
          = Except.ok m2
      ∧ ∀ n : Int, (n = 0 ∨ n = 1) → ∀ c : Int, InFat (fatBytes addr) c →
        (fatGet m2 (fatOffset addr n) c ≠ fatGet addr (fatOffset addr n) c →
          DIR_FstClusLO addr p ≤ c
          ∧ c < DIR_FstClusLO addr p + recoverCount (DIR_FileSize addr p) (clusterSize addr))
        ∧ ((∀ c1 : Int, DIR_FstClusLO addr p ≤ c1 →
              c1 < DIR_FstClusLO addr p + recoverCount (DIR_FileSize addr p) (clusterSize addr) →
              fatGet addr (fatOffset addr 0) c1 = 0) →
            fatGet addr (fatOffset addr 0) c ≠ 0 →
            fatGet m2 (fatOffset addr n) c = fatGet addr (fatOffset addr n) c)) := by
  have hsz := hv.size_pos
  have hk1 := recoverCount_pos (DIR_FileSize addr p) (clusterSize addr) (by omega)
  have hlo : 0 ≤ DIR_FstClusLO addr p := (rd16_bounds addr (p + 26)).1
  have hB := hv.fatEntries
  have h2' := fatOffset_two addr
  have h1' := fatOffset_one addr
  have hreq := recover_eq addr p name0 hv hp
  have hweq := writeDeleted_eq addr p hv
  have hwskip := writeDeleted_skip addr (fatStart addr) (fat2Start addr) (clusterSize addr) p
  generalize recoverCount (DIR_FileSize addr p) (clusterSize addr) = k at hin hk1 hreq hweq ⊢
  generalize DIR_FstClusLO addr p = s at hin hlo hreq hweq hwskip ⊢
  clear hsz
  unfold InFat at hin
  have hkk : ((k.toNat : Nat) : Int) = k := Int.toNat_of_nonneg (by omega)
  have hf : ∀ n : Int, (n = 0 ∨ n = 1) →
      fatOffset addr n = fatOffset addr 0 ∨ fatOffset addr n = fatOffset addr 0 + fatBytes addr := by
    intro n hn
    rcases hn with rfl | rfl
    · exact Or.inl rfl
    · exact Or.inr h1'
  have hwr : ∀ n : Int, (n = 0 ∨ n = 1) → ∀ c : Int, InFat (fatBytes addr) c →
      fatGet (wr8 addr p name0) (fatOffset addr n) c = fatGet addr (fatOffset addr n) c := by
    intro n hn c hc
    apply fatGet_wr8_below
    unfold InFat at hc
    rcases hn with rfl | rfl <;> omega
  refine ⟨⟨_, hreq (by omega), ?_⟩, ?_⟩
  · intro n hn c hc
    have h := chain_only (fatOffset addr 0) (fatBytes addr) s k.toNat (wr8 addr p name0) hlo
      (by omega) (by omega) hB (fatOffset addr n) (hf n hn) c hc
    rw [hkk, hwr n hn c hc, hwr 0 (Or.inl rfl) c hc] at h
    refine ⟨h.1, fun hfree hnz => h.2 (fun c1 h1 h2 => ?_) hnz⟩
    rw [hwr 0 (Or.inl rfl) c1 ⟨by omega, by omega⟩]
    exact hfree c1 h1 h2
  · by_cases hw : 0 < toI32 (DIR_FileSize addr p) ∧ 2 ≤ s
    · refine ⟨_, hweq hw, ?_⟩
      intro n hn c hc
      have h := chain_only (fatOffset addr 0) (fatBytes addr) s k.toNat addr hlo
        (by omega) (by omega) hB (fatOffset addr n) (hf n hn) c hc
      rw [hkk] at h
      exact h
    · refine ⟨_, hwskip hw, ?_⟩
      intro n _ c _
      exact ⟨fun h => absurd rfl h, fun _ _ => rfl⟩

/-- Scenario 6, slot 3: two free clusters 6 and 7 are linked, every other entry keeps its
value. -/
theorem contiguous_recovery_writes_only_its_chain_witness :
    Volume scenario6 ∧ fatOffset scenario6 2 ≤ 1632
    ∧ InFat (fatBytes scenario6) (DIR_FstClusLO scenario6 1632
        + recoverCount (DIR_FileSize scenario6 1632) (clusterSize scenario6) - 1)
    ∧ (∃ m1, recover scenario6 1632 84 = Except.ok m1
      ∧ ∀ n : Int, (n = 0 ∨ n = 1) → ∀ c : Int, InFat (fatBytes scenario6) c →
        (fatGet m1 (fatOffset scenario6 n) c ≠ fatGet scenario6 (fatOffset scenario6 n) c →
          DIR_FstClusLO scenario6 1632 ≤ c
          ∧ c < DIR_FstClusLO scenario6 1632
              + recoverCount (DIR_FileSize scenario6 1632) (clusterSize scenario6))
        ∧ ((∀ c1 : Int, DIR_FstClusLO scenario6 1632 ≤ c1 →
              c1 < DIR_FstClusLO scenario6 1632
                + recoverCount (DIR_FileSize scenario6 1632) (clusterSize scenario6) →
              fatGet scenario6 (fatOffset scenario6 0) c1 = 0) →
            fatGet scenario6 (fatOffset scenario6 0) c ≠ 0 →
            fatGet m1 (fatOffset scenario6 n) c = fatGet scenario6 (fatOffset scenario6 n) c))
    ∧ (∃ m2, writeDeleted scenario6 (fatStart scenario6) (fat2Start scenario6)
          (clusterSize scenario6) 1632 = Except.ok m2
      ∧ ∀ n : Int, (n = 0 ∨ n = 1) → ∀ c : Int, InFat (fatBytes scenario6) c →
        (fatGet m2 (fatOffset scenario6 n) c ≠ fatGet scenario6 (fatOffset scenario6 n) c →
          DIR_FstClusLO scenario6 1632 ≤ c
          ∧ c < DIR_FstClusLO scenario6 1632
              + recoverCount (DIR_FileSize scenario6 1632) (clusterSize scenario6))
        ∧ ((∀ c1 : Int, DIR_FstClusLO scenario6 1632 ≤ c1 →
              c1 < DIR_FstClusLO scenario6 1632
                + recoverCount (DIR_FileSize scenario6 1632) (clusterSize scenario6) →
              fatGet scenario6 (fatOffset scenario6 0) c1 = 0) →
            fatGet scenario6 (fatOffset scenario6 0) c ≠ 0 →
            fatGet m2 (fatOffset scenario6 n) c = fatGet scenario6 (fatOffset scenario6 n) c)) :=
  ⟨scenario6_volume, by decide, by decide,
    contiguous_recovery_writes_only_its_chain scenario6 1632 84 scenario6_volume (by decide)
      (by decide)⟩

theorem chain_length (s : Int) (k : Nat) : (chain s k).length = k := by
  have h := congrArg List.length (chain_fst s k)
  simpa using h

theorem loops_agree (fat fat2 oldCount : Int) (m : Mem) (cur : Int) (h : 1 ≤ oldCount) :
    recoverLoop fat fat2 oldCount oldCount.toNat m cur 0
      = fatSet (fatSet (linkLoop fat fat2 oldCount (oldCount - 1).toNat 0 cur m).1 fat
          (linkLoop fat fat2 oldCount (oldCount - 1).toNat 0 cur m).2 EOC) fat2
          (linkLoop fat fat2 oldCount (oldCount - 1).toNat 0 cur m).2 EOC := by
  rw [recoverLoop_eq fat fat2 oldCount oldCount.toNat m cur 0 (by omega) (by omega),
    linkLoop_eq fat fat2 oldCount (oldCount - 1).toNat 0 cur m (by omega) (by omega)]

theorem slot_after_fatSet_disjoint (m : Mem) (f c v p : Int)
    (h : f + 4 * c + 4 ≤ p + 26 ∨ p + 28 ≤ f + 4 * c) :
    DIR_FstClusLO (fatSet m f c v) p = DIR_FstClusLO m p := by
  unfold DIR_FstClusLO
  exact rd16_congr (fatSet_other _ _ _ _ _ (by omega)) (fatSet_other _ _ _ _ _ (by omega))

theorem count_tdiv (x sz : Int) (hsz : 0 < sz) (hle : ¬ x ≤ sz) :
    (x - 1).tdiv sz + 1 = (x - 1) / sz + 1 ∧ 1 ≤ (x - 1) / sz + 1 := by
  have h0 : 0 ≤ (x - 1) / sz := Int.ediv_nonneg (by omega) (by omega)
  rw [Int.tdiv_eq_ediv (by omega) (by omega)]
  omega

theorem recover_writes (addr : Mem) (p name0 : Int) (hp : 48 ≤ p)
    (hsz : 0 < clusterSize addr)
    (hdis : fatStart addr + 4 * DIR_FstClusLO addr p + 4 ≤ p + 26
      ∨ p + 28 ≤ fatStart addr + 4 * DIR_FstClusLO addr p) :
    recover addr p name0 = Except.ok (pairedWrites (fatStart addr) (fat2Start addr)
      (chain (DIR_FstClusLO addr p) (recoverCount (DIR_FileSize addr p) (clusterSize addr)).toNat)
      (wr8 addr p name0)) := by
  have hg := geometry_congr addr (wr8 addr p name0)
    (fun q _ _ => wr8_other _ _ _ _ (by omega))
  have hsl := slot_fields_wr8 addr p name0
  simp only [recover]
  rw [hg.1, hg.2.1, hg.2.2.1, hsl.1, hsl.2]
  clear hg hsl
  by_cases hle : toI32 (DIR_FileSize addr p) ≤ clusterSize addr
  · have hc : recoverCount (DIR_FileSize addr p) (clusterSize addr) = 1 := by
      unfold recoverCount; rw [if_pos hle]
    rw [if_pos hle, hc]
    rw [slot_after_fatSet_disjoint _ _ _ _ _ hdis, (slot_fields_wr8 addr p name0).2]
    rfl
  · have hc : recoverCount (DIR_FileSize addr p) (clusterSize addr)
        = (toI32 (DIR_FileSize addr p) - 1) / clusterSize addr + 1 := by
      unfold recoverCount; rw [if_neg hle]
    have ht := count_tdiv _ _ hsz hle
    have hne : ¬ clusterSize addr = 0 := by omega
    rw [if_neg hle, if_neg hne, ht.1, recoverLoop_eq _ _ _ _ _ _ _ (by omega) (by omega),
      sub_zero, hc]
    rfl

theorem writeDeleted_writes (m : Mem) (fat fat2 size p : Int) (hsz : 0 < size)
    (h : 0 < toI32 (DIR_FileSize m p) ∧ 2 ≤ DIR_FstClusLO m p) :
    writeDeleted m fat fat2 size p = Except.ok (pairedWrites fat fat2
      (chain (DIR_FstClusLO m p) (recoverCount (DIR_FileSize m p) size).toNat) m) := by
  simp only [writeDeleted]
  rw [if_pos (by exact ⟨h.1, h.2⟩)]
  by_cases hle : toI32 (DIR_FileSize m p) ≤ size
  · have hc : recoverCount (DIR_FileSize m p) size = 1 := by
      unfold recoverCount; rw [if_pos hle]
    rw [if_pos hle, hc]
    rfl
  · have hc : recoverCount (DIR_FileSize m p) size
        = (toI32 (DIR_FileSize m p) - 1) / size + 1 := by
      unfold recoverCount; rw [if_neg hle]
    have ht := count_tdiv _ _ hsz hle
    have hne : ¬ size = 0 := by omega
    rw [if_neg hle, if_neg hne, ht.1, ← hc]
    have hk1 := recoverCount_pos (DIR_FileSize m p) size (by omega)
    have := linkLoop_eq fat fat2 (recoverCount (DIR_FileSize m p) size)
      (recoverCount (DIR_FileSize m p) size - 1).toNat 0 (DIR_FstClusLO m p) m
      (by omega) (by omega)
    rw [sub_zero] at this
    rw [← this]
    rfl

theorem toI32_pos_id (x : Int) (h0 : 0 ≤ x) (h1 : x < 4294967296) (h : 0 < toI32 x) :
    toI32 x = x ∧ x < 2147483648 := by
  unfold toI32 at h ⊢
  omega

theorem aliasedStart_volume : Volume aliasedStart :=
  ⟨by decide, by decide, by decide, by decide, by decide, by decide, by decide⟩

/-- Claim C33, counterexample: the start cluster 262 of the tombstone of `aliasedStart`
is at least 2 and the file size 11 is positive, but `fat[262]` lies on the slot's own
first-cluster field. `recover` writes `fat[recFile->DIR_FstClusLO]`, then reads the field
again, now 4095, and writes `fat2[4095]`; the inline writer of `recoverAllDeleted` holds
the start cluster in a local variable and writes `fat[262]` and `fat2[262]`. -/
theorem contiguous_writers_differ_on_aliased_slot :
    (Volume aliasedStart ∧ DIR_FstClusLO aliasedStart 1536 = 262
      ∧ 0 < toI32 (DIR_FileSize aliasedStart 1536)
      ∧ fatStart aliasedStart + 4 * 262 = 1536 + 24)
    ∧ recover aliasedStart 1536 95
        = Except.ok (fatSet (fatSet (wr8 aliasedStart 1536 95) 512 262 EOC) 1024 4095 EOC)
    ∧ writeDeleted (wr8 aliasedStart 1536 95) (fatStart aliasedStart) (fat2Start aliasedStart)
          (clusterSize aliasedStart) 1536
        = Except.ok (fatSet (fatSet (wr8 aliasedStart 1536 95) 512 262 EOC) 1024 262 EOC)
    ∧ fatGet (fatSet (fatSet (wr8 aliasedStart 1536 95) 512 262 EOC) 1024 4095 EOC) 1024 262 = 0
    ∧ fatGet (fatSet (fatSet (wr8 aliasedStart 1536 95) 512 262 EOC) 1024 262 EOC) 1024 262
        = 0x0FFFFFF8
    ∧ fatGet (fatSet (fatSet (wr8 aliasedStart 1536 95) 512 262 EOC) 1024 4095 EOC) 1024 4095
        = 0x0FFFFFF8
    ∧ fatGet (fatSet (fatSet (wr8 aliasedStart 1536 95) 512 262 EOC) 1024 262 EOC) 1024 4095
        = 0 :=
  ⟨⟨aliasedStart_volume, by decide, by decide, by decide⟩, rfl, rfl, by decide!, by decide!,
    by decide!, by decide!⟩

/-- Claim C33, amended: the two loops agree on every image, for every start cluster and
every count of at least one cluster; and for a slot at `p` past the boot sector fields,
with a positive cluster size, start cluster `s ≥ 2` and `0 < (int)file_size`, such that
the FAT entry of `s` does not overlap the slot's first-cluster field, `recover` and the
inline writer of `recoverAllDeleted` perform the same FAT writes in both copies: the chain
`s ↦ s + 1, …, s + k - 1 ↦ EOC` of exactly `k = ⌈file_size / cluster_bytes⌉` entries. -/
theorem contiguous_writers_agree (addr : Mem) (p name0 : Int) (hp : 48 ≤ p)
    (hsz : 0 < clusterSize addr)
    (hpos : 0 < toI32 (DIR_FileSize addr p) ∧ 2 ≤ DIR_FstClusLO addr p)
    (hdis : fatStart addr + 4 * DIR_FstClusLO addr p + 4 ≤ p + 26
      ∨ p + 28 ≤ fatStart addr + 4 * DIR_FstClusLO addr p) :
    (∀ (fat fat2 oldCount cur : Int) (m : Mem), 1 ≤ oldCount →
      recoverLoop fat fat2 oldCount oldCount.toNat m cur 0
        = fatSet (fatSet (linkLoop fat fat2 oldCount (oldCount - 1).toNat 0 cur m).1 fat
            (linkLoop fat fat2 oldCount (oldCount - 1).toNat 0 cur m).2 EOC) fat2
            (linkLoop fat fat2 oldCount (oldCount - 1).toNat 0 cur m).2 EOC)
    ∧ recover addr p name0
        = writeDeleted (wr8 addr p name0) (fatStart addr) (fat2Start addr) (clusterSize addr) p
    ∧ recover addr p name0 = Except.ok (pairedWrites (fatStart addr) (fat2Start addr)
        (chain (DIR_FstClusLO addr p)
          (clustersNeeded (toI32 (DIR_FileSize addr p)) (clusterSize addr)).toNat)
        (wr8 addr p name0))
    ∧ ((chain (DIR_FstClusLO addr p)
          (clustersNeeded (toI32 (DIR_FileSize addr p)) (clusterSize addr)).toNat).length : Int)
        = clustersNeeded (toI32 (DIR_FileSize addr p)) (clusterSize addr)
    ∧ 1 ≤ clustersNeeded (toI32 (DIR_FileSize addr p)) (clusterSize addr) := by
  have hfs := rd32u_bounds addr (p + 28)
  have hx := toI32_pos_id (DIR_FileSize addr p) hfs.1 hfs.2 hpos.1
  have hi := hx.1
  have h2 := hx.2
  have h1 : 1 ≤ DIR_FileSize addr p := by have := hpos.1; omega
  have hk := recoverCount_eq_clustersNeeded _ _ h1 h2 hsz
  have hk1 := recoverCount_pos (DIR_FileSize addr p) (clusterSize addr) (by omega)
  have hr := recover_writes addr p name0 hp hsz hdis
  have hsl := slot_fields_wr8 addr p name0
  have hw := writeDeleted_writes (wr8 addr p name0) (fatStart addr) (fat2Start addr)
    (clusterSize addr) p hsz (by rw [hsl.1, hsl.2]; exact hpos)
  rw [hsl.1, hsl.2] at hw
  rw [hi, ← hk]
  refine ⟨fun fat fat2 oldCount cur m h => loops_agree fat fat2 oldCount m cur h,
    hr.trans hw.symm, hr, ?_, hk1⟩
  rw [chain_length]
  exact Int.toNat_of_nonneg (le_trans (by decide) hk1)

/-- Scenario 6, slot 3 (`?WO     BIN`, first cluster 6, 600 bytes, two clusters). -/
theorem contiguous_writers_agree_witness :
    (48 : Int) ≤ 1632 ∧ 0 < clusterSize scenario6
    ∧ (0 < toI32 (DIR_FileSize scenario6 1632) ∧ 2 ≤ DIR_FstClusLO scenario6 1632)
    ∧ (∀ (fat fat2 oldCount cur : Int) (m : Mem), 1 ≤ oldCount →
      recoverLoop fat fat2 oldCount oldCount.toNat m cur 0
        = fatSet (fatSet (linkLoop fat fat2 oldCount (oldCount - 1).toNat 0 cur m).1 fat
            (linkLoop fat fat2 oldCount (oldCount - 1).toNat 0 cur m).2 EOC) fat2
            (linkLoop fat fat2 oldCount (oldCount - 1).toNat 0 cur m).2 EOC)
    ∧ recover scenario6 1632 84
        = writeDeleted (wr8 scenario6 1632 84) (fatStart scenario6) (fat2Start scenario6)
            (clusterSize scenario6) 1632
    ∧ recover scenario6 1632 84 = Except.ok (pairedWrites (fatStart scenario6)
        (fat2Start scenario6)
        (chain (DIR_FstClusLO scenario6 1632)
          (clustersNeeded (toI32 (DIR_FileSize scenario6 1632)) (clusterSize scenario6)).toNat)
        (wr8 scenario6 1632 84))
    ∧ ((chain (DIR_FstClusLO scenario6 1632)
          (clustersNeeded (toI32 (DIR_FileSize scenario6 1632))
            (clusterSize scenario6)).toNat).length : Int)
        = clustersNeeded (toI32 (DIR_FileSize scenario6 1632)) (clusterSize scenario6)
    ∧ 1 ≤ clustersNeeded (toI32 (DIR_FileSize scenario6 1632)) (clusterSize scenario6) :=
  ⟨by decide, by decide, by decide,
    contiguous_writers_agree scenario6 1632 84 (by decide) (by decide) (by decide)
      (by decide)⟩

theorem copiedIn_sound (len : Int) (addr : Mem) (off cnt : Int) (b : List Nat)
    (h : copiedIn len addr off cnt = Except.ok b) : b = copied addr off cnt := by
  unfold copiedIn at h
  split_ifs at h
  simp only [pure, Except.pure, Except.ok.injEq] at h
  exact h.symm

theorem copiedIn_ok (len : Int) (addr : Mem) (off cnt : Int)
    (h : 0 ≤ off ∧ 0 ≤ cnt ∧ off + cnt ≤ len) :
    copiedIn len addr off cnt = Except.ok (copied addr off cnt) := by
  unfold copiedIn
  rw [if_pos h]
  rfl

theorem copiedIn_negative (len : Int) (addr : Mem) (off cnt : Int) (h : off < 0) :
    copiedIn len addr off cnt = Except.error Err.outOfBounds := by
  unfold copiedIn
  rw [if_neg (by omega)]
  rfl

theorem readClustersIn_sound (len : Int) (addr : Mem) (dataSec size fileSize : Int) :
    ∀ (cl : List Int) (bytesRead : Int) (buffer b : List Nat),
      readClustersIn len addr dataSec size fileSize cl bytesRead buffer = Except.ok b →
      b = readClusters addr dataSec size fileSize cl bytesRead buffer := by
  intro cl
  induction cl with
  | nil =>
    intro bytesRead buffer b h
    simp only [readClustersIn, pure, Except.pure, Except.ok.injEq] at h
    rw [← h]
    rfl
  | cons c cs ih =>
    intro bytesRead buffer b h
    unfold readClustersIn at h
    unfold readClusters
    by_cases hc : bytesRead < fileSize
    · rw [if_pos hc] at h
      rw [if_pos hc]
      simp only [] at h ⊢
      rcases hcp : copiedIn len addr (clusterOffset dataSec size c)
          (bytesToRead size bytesRead fileSize) with e | bytes
      · rw [hcp] at h
        cases h
      · rw [hcp, ok_bind] at h
        rw [← copiedIn_sound _ _ _ _ _ hcp]
        exact ih _ _ _ h
    · rw [if_neg hc] at h
      rw [if_neg hc]
      simp only [pure, Except.pure, Except.ok.injEq] at h
      exact h.symm

theorem computeFileHashLoopIn_sound (len : Int) (addr : Mem) (fat dataSec size fileSize : Int) :
    ∀ (fuel : Nat) (cur bytesRead : Int) (buffer b : List Nat),
      computeFileHashLoopIn len addr fat dataSec size fileSize fuel cur bytesRead buffer
        = Except.ok b →
      computeFileHashLoop addr fat dataSec size fileSize fuel cur bytesRead buffer
        = Except.ok b := by
  intro fuel
  induction fuel with
  | zero =>
    intro cur bytesRead buffer b h
    simp [computeFileHashLoopIn, throw, throwThe, MonadExceptOf.throw] at h
  | succ n ih =>
    intro cur bytesRead buffer b h
    unfold computeFileHashLoopIn at h
    unfold computeFileHashLoop
    by_cases hc : cur ≠ 0 ∧ cur < 0x0FFFFFF8 ∧ bytesRead < fileSize
    · rw [if_pos hc] at h
      rw [if_pos hc]
      simp only [] at h ⊢
      rcases hcp : copiedIn len addr (clusterOffset dataSec size cur)
          (bytesToRead size bytesRead fileSize) with e | bytes
      · rw [hcp] at h
        cases h
      · rw [hcp, ok_bind] at h
        by_cases hf : 0 ≤ fat + 4 * cur ∧ fat + 4 * cur + 4 ≤ len
        · rw [if_pos hf] at h
          rw [← copiedIn_sound _ _ _ _ _ hcp]
          exact ih _ _ _ _ h
        · rw [if_neg hf] at h
          cases h
    · rw [if_neg hc] at h
      rw [if_neg hc]
      exact h

theorem bytesToRead_bounds (size bytesRead fileSize : Int) (hs : 0 < size)
    (hs2 : size < 2147483648) (h0 : 0 ≤ bytesRead) (h1 : bytesRead < fileSize) :
    0 < bytesToRead size bytesRead fileSize ∧ bytesToRead size bytesRead fileSize ≤ size := by
  unfold bytesToRead toU32 toI32
  split_ifs with h
  · omega
  · omega

theorem readClustersIn_ok (len : Int) (addr : Mem) (dataSec size fileSize : Int)
    (hs : 0 < size) (hs2 : size < 2147483648) :
    ∀ (cl : List Int) (bytesRead : Int) (buffer : List Nat), 0 ≤ bytesRead →
      (∀ c ∈ cl, 0 ≤ clusterOffset dataSec size c ∧ clusterOffset dataSec size c + size ≤ len) →
      readClustersIn len addr dataSec size fileSize cl bytesRead buffer
        = Except.ok (readClusters addr dataSec size fileSize cl bytesRead buffer) := by
  intro cl
  induction cl with
  | nil =>
    intro bytesRead buffer _ _
    rfl
  | cons c cs ih =>
    intro bytesRead buffer h0 hin
    unfold readClustersIn readClusters
    by_cases hc : bytesRead < fileSize
    · rw [if_pos hc, if_pos hc]
      simp only []
      have hb := bytesToRead_bounds size bytesRead fileSize hs hs2 h0 hc
      have hc1 := hin c (List.mem_cons_self _ _)
      rw [copiedIn_ok _ _ _ _ ⟨hc1.1, by omega, by omega⟩, ok_bind]
      exact ih _ _ (by unfold toU32; omega) (fun c1 h1 => hin c1 (List.mem_cons_of_mem _ h1))
    · rw [if_neg hc, if_neg hc]
      rfl

/-- Claim C5: on `highWord` the tombstone of root slot 1 has start cluster
`first_cluster = (1 << 16) | 5 = 65541`, at least 2, size 11 and so `k = 1`, and cluster
65541 is inside the FAT. After `recover` the entry of cluster 65541 is still 0 in both FAT
copies, where P2 requires the end-of-chain mark, and the entry of cluster 5, which is not
the start cluster and held the link `5 → 6` of a live file, holds `0x0FFFFFF8` in both
copies, where P2 requires it unchanged: `recover` takes the start cluster from
`DIR_FstClusLO` alone. This is the image that `recFile` leaves for the name `BIG.BIN`. -/
theorem recover_commits_chain_at_low_word :
    (Volume highWord ∧ rd8 highWord 525856 = 0xE5
      ∧ DIR_FstClusHI highWord 525856 = 1 ∧ DIR_FstClusLO highWord 525856 = 5
      ∧ firstCluster highWord 525856 = 65541 ∧ DIR_FileSize highWord 525856 = 11
      ∧ clustersNeeded (DIR_FileSize highWord 525856) (clusterSize highWord) = 1
      ∧ InFat (fatBytes highWord) (firstCluster highWord 525856
          + clustersNeeded (DIR_FileSize highWord 525856) (clusterSize highWord) - 1)
      ∧ fatOffset highWord 0 = 512 ∧ fatOffset highWord 1 = 263168
      ∧ fatOffset highWord 2 ≤ 525856)
    ∧ recover highWord 525856 66
        = Except.ok (fatSet (fatSet (wr8 highWord 525856 66) 512 5 EOC) 263168 5 EOC)
    ∧ fatGet (fatSet (fatSet (wr8 highWord 525856 66) 512 5 EOC) 263168 5 EOC) 512 65541 = 0
    ∧ fatGet (fatSet (fatSet (wr8 highWord 525856 66) 512 5 EOC) 263168 5 EOC) 263168 65541 = 0
    ∧ fatGet highWord 512 5 = 6 ∧ fatGet highWord 263168 5 = 6
    ∧ fatGet (fatSet (fatSet (wr8 highWord 525856 66) 512 5 EOC) 263168 5 EOC) 512 5
        = 0x0FFFFFF8
    ∧ fatGet (fatSet (fatSet (wr8 highWord 525856 66) 512 5 EOC) 263168 5 EOC) 263168 5
        = 0x0FFFFFF8
    ∧ ∀ (SHA1 : List Nat → List Nat) (heap : Nat → Nat),
        recFile SHA1 heap 10 (lit "BIG.BIN") highWord none false
          = Except.ok (fatSet (fatSet (wr8 highWord 525856 66) 512 5 EOC) 263168 5 EOC,
              [lit "BIG.BIN: successfully recovered"]) :=
  ⟨⟨⟨by decide, by decide, by decide, by decide, by decide, by decide, by decide⟩, by decide,
      by decide, by decide, by decide, by decide, by decide, by decide, by decide, by decide,
      by decide⟩,
    rfl, by decide!, by decide!, by decide!, by decide!, by decide!, by decide!,
    fun _ _ => rfl⟩

theorem scenario5_read_in :
    readClustersIn 10240 scenario5 (dataSec scenario5) (clusterSize scenario5)
      (DIR_FileSize scenario5 1536) [7, 4] 0 [] = Except.ok (firstHalf ++ secondHalf) := by
  rw [readClustersIn_ok 10240 scenario5 _ _ _ (by decide) (by decide) [7, 4] 0 []
    (by decide) (by decide), s5_read74]

/-- C24 (counterexample): on a volume whose FATs have the largest size the data area begins
past 2 GiB; cluster 3 holds `hello world` at offset 2147484672, and for it the read loop
computes the offset -2147482624. The `memcpy` of the loop reads before the start of the
mapping, whatever the length of the image, and the program faults instead of assembling
the bytes of the listed cluster. Also, when 511 bytes are missing of a file of `2^32 - 1`
bytes, the number of bytes copied from the next cluster is 512, the whole cluster. -/
theorem read_sequence_faults_past_2GiB :
    (Volume maxFat ∧ DIR_FileSize maxFat 2147484160 = 11
      ∧ clusterAt maxFat 3 = 2147484672
      ∧ readSequenceSpec maxFat [3] 11 = lit "hello world"
      ∧ clusterOffset (dataSec maxFat) (clusterSize maxFat) 3 = -2147482624
      ∧ bytesToRead 512 (4294967295 - 511) 4294967295 = 512)
    ∧ ∀ len : Int,
        readClustersIn len maxFat (dataSec maxFat) (clusterSize maxFat)
          (DIR_FileSize maxFat 2147484160) [3] 0 [] = Except.error Err.outOfBounds := by
  refine ⟨⟨⟨by decide, by decide, by decide, by decide, by decide, by decide, by decide⟩,
    by decide, by decide, by decide, by decide, by decide⟩, ?_⟩
  intro len
  have hoff : clusterOffset (dataSec maxFat) (clusterSize maxFat) 3 = -2147482624 := by decide
  have hfs : DIR_FileSize maxFat 2147484160 = 11 := by decide
  rw [hfs]
  unfold readClustersIn
  rw [if_pos (by decide)]
  simp only []
  rw [hoff, copiedIn_negative _ _ _ _ (by decide)]
  rfl

theorem scenario4_read_in :
    computeFileHashLoopIn 10240 scenario4 512 (dataSec scenario4) (clusterSize scenario4)
      (DIR_FileSize scenario4 1536) 10 (DIR_FstClusLO scenario4 1536) 0 []
      = Except.ok (List.replicate 512 0x41) :=
  ok_of_toOption _ _ (by decide!)

/-- C30 (counterexample): the chain of the file is `5 → 4194303`, and cluster 4194303 lies
at offset 2181037056, past 2 GiB, where it holds 512 bytes `B`; the loop of
`computeFileHash` computes the offset -2113930240 for it. Whatever the length of the image,
the loop does not return the bytes of the chain: after the 512 bytes of cluster 5 the second
`memcpy` reads before the start of the mapping and the program faults (on an image too
short to hold cluster 5 the first one already does). Also, when 511 bytes are missing of a
file of `2^32 - 1` bytes, the number of bytes copied from the next cluster is 512. -/
theorem read_following_fat_faults_past_2GiB :
    (Volume farCluster ∧ fatOffset farCluster 0 = 512
      ∧ DIR_FstClusLO farCluster 33554944 = 5 ∧ DIR_FileSize farCluster 33554944 = 1024
      ∧ followFat farCluster 512 2 5 = [5, 4194303]
      ∧ clusterAt farCluster 4194303 = 2181037056
      ∧ readSequenceSpec farCluster [5, 4194303] 1024
          = List.replicate 512 0x41 ++ List.replicate 512 0x42
      ∧ clusterOffset (dataSec farCluster) (clusterSize farCluster) 5 = 33556480
      ∧ fatGet farCluster 512 5 = 4194303
      ∧ clusterOffset (dataSec farCluster) (clusterSize farCluster) 4194303 = -2113930240
      ∧ bytesToRead 512 (4294967295 - 511) 4294967295 = 512)
    ∧ ∀ len : Int,
        computeFileHashLoopIn len farCluster 512 (dataSec farCluster) (clusterSize farCluster)
          1024 3 5 0 [] = Except.error Err.outOfBounds := by
  refine ⟨⟨⟨by decide, by decide, by decide, by decide, by decide, by decide, by decide⟩,
    by decide, by decide, by decide, by decide, by decide, by decide!, by decide, by decide,
    by decide, by decide⟩, ?_⟩
  intro len
  have hoff5 : clusterOffset (dataSec farCluster) (clusterSize farCluster) 5 = 33556480 := by
    decide
  have hoff : clusterOffset (dataSec farCluster) (clusterSize farCluster) 4194303
      = -2113930240 := by decide
  have hfat : fatGet farCluster 512 5 = 4194303 := by decide
  have hsz : clusterSize farCluster = 512 := by decide
  have hb1 : bytesToRead 512 0 1024 = 512 := by decide
  have hb2 : toU32 (0 + toU32 512) = 512 := by decide
  unfold computeFileHashLoopIn
  rw [if_pos (by decide)]
  simp only []
  rw [hoff5, hsz, hb1, hb2]
  by_cases h1 : (0 : Int) ≤ 33556480 ∧ (0 : Int) ≤ 512 ∧ (33556480 : Int) + 512 ≤ len
  · rw [copiedIn_ok _ _ _ _ h1, ok_bind, if_pos (by omega), hfat]
    unfold computeFileHashLoopIn
    rw [if_pos (by decide)]
    simp only []
    rw [← hsz, hoff, copiedIn_negative _ _ _ _ (by decide)]
    rfl
  · unfold copiedIn
    rw [if_neg h1]
    rfl

end FatRec32
